import Mathlib

/-!
# RayVis: volumetric ray-density sampler

A shallow embedding of the sampler core of RayVis
(`FastVoxelTraverse.h`, `VolumetricSampler.cpp`, `ChunkedArray3D.h`,
`CpuRaytracing.h`, `RayTrace.h`) and theorems about it.

Numbers: a `float` or `double` of the source is an exact rational here, and the
arithmetic of the sampler is exact unless a definition says otherwise.  Rounding
is modelled where a result depends on it: `round32` and `round64` round an exact
result to binary32 and binary64; the difference `tMax - missTolerance` of
`Ray::HasHit` is rounded to binary32, `taskBox32` forms the chunk boxes in
binary32, and `traceInit64` is the initial state of VoxelTrace in doubles.  The
infinities and NaN are values of the type `FloatX`; in the sampler they arise in
`IntersectAABB`, from the division by a direction component that is zero, and
are carried from there to the tests and assertions that consume them.  `size_t`
and the voxel coordinates are unbounded integers, the cast `(int)x` of
VoxelTrace is the cast to the 32-bit `int`; the 16-bit density counter is a
natural number reduced modulo `2^16` where the source increments it.  A failed
`assert` ends the run: the functions that contain one return an `Option`, and
`none` is the failed assertion.  The concrete inputs used below are dyadic, so
the source computes the same values on them.
-/

namespace RayVis

/-! ## Definitions -/

/-- The type `linalg::vec<double, 3>` (MathTypes.h), components as rationals. -/
structure Double3 where
  x : ℚ
  y : ℚ
  z : ℚ
deriving DecidableEq

/-- The type `linalg::vec<float, 3>` (MathTypes.h); floats are rationals as well. -/
abbrev Float3 := Double3

/-- The type `linalg::vec<int32_t, 3>` (MathTypes.h). -/
structure Int3 where
  x : ℤ
  y : ℤ
  z : ℤ
deriving DecidableEq

/-- Componentwise sum of two vectors (`operator+` of linalg). -/
def Double3.add (a b : Double3) : Double3 := ⟨a.x + b.x, a.y + b.y, a.z + b.z⟩

/-- Componentwise difference of two vectors (`operator-` of linalg). -/
def Double3.sub (a b : Double3) : Double3 := ⟨a.x - b.x, a.y - b.y, a.z - b.z⟩

/-- Vector times scalar (`operator*` of linalg). -/
def Double3.smul (a : Double3) (t : ℚ) : Double3 := ⟨a.x * t, a.y * t, a.z * t⟩

/-- Vector divided by scalar (`operator/` of linalg). -/
def Double3.sdiv (a : Double3) (t : ℚ) : Double3 := ⟨a.x / t, a.y / t, a.z / t⟩

/-- Componentwise minimum (`linalg::min`). -/
def Double3.min (a b : Double3) : Double3 := ⟨Min.min a.x b.x, Min.min a.y b.y, Min.min a.z b.z⟩

/-- Componentwise maximum (`linalg::max`). -/
def Double3.max (a b : Double3) : Double3 := ⟨Max.max a.x b.x, Max.max a.y b.y, Max.max a.z b.z⟩

/-- Componentwise `linalg::clamp(v, lo, hi)` with scalar bounds broadcast to a vector. -/
def Double3.clamp (a : Double3) (lo hi : ℚ) : Double3 :=
  ⟨Min.min (Max.max a.x lo) hi, Min.min (Max.max a.y lo) hi, Min.min (Max.max a.z lo) hi⟩

/-! ### FastVoxelTraverse.h -/

/-- The macro `SIGN(x)` of VoxelTrace. -/
def SIGN (x : ℚ) : ℤ := if x > 0 then 1 else (if x < 0 then -1 else 0)

/-- The macro `FRAC0(x)` of VoxelTrace: `x - floor(x)`. -/
def FRAC0 (x : ℚ) : ℚ := x - ⌊x⌋

/-- The macro `FRAC1(x)` of VoxelTrace: `1 - x + floor(x)`. -/
def FRAC1 (x : ℚ) : ℚ := 1 - x + ⌊x⌋

/-- The C cast `(int)x` of a `double` to the 32-bit `int`: truncation toward
zero.  For a value whose truncation is outside `[-2^31, 2^31)` the conversion is
undefined in C++; the conversion instruction of x86-64 delivers `INT_MIN`
there, and so does the model. -/
def castInt (x : ℚ) : ℤ :=
  if -2147483649 < x ∧ x < 2147483648 then (if 0 ≤ x then ⌊x⌋ else ⌈x⌉) else -2147483648

/-- Initial value of `tDeltaX` (resp. Y, Z) for the axis with start `a` and end `b`:
`fmin(d / (b - a), 10000000.0)` when `d = SIGN(b - a)` is non-zero, else `10000000.0`. -/
def tDeltaInit (a b : ℚ) : ℚ :=
  if SIGN (b - a) ≠ 0 then Min.min (((SIGN (b - a) : ℤ) : ℚ) / (b - a)) 10000000 else 10000000

/-- Initial value of `tMaxX` (resp. Y, Z): `tDelta * FRAC1(a)` when the axis
moves in the positive direction, `tDelta * FRAC0(a)` otherwise. -/
def tMaxInit (a b : ℚ) : ℚ :=
  if SIGN (b - a) > 0 then tDeltaInit a b * FRAC1 a else tDeltaInit a b * FRAC0 a

/-- The local variables of VoxelTrace that are live in its main loop. -/
structure TraceState where
  voxel : Int3
  tMaxX : ℚ
  tMaxY : ℚ
  tMaxZ : ℚ
  dx : ℤ
  dy : ℤ
  dz : ℤ
  tDeltaX : ℚ
  tDeltaY : ℚ
  tDeltaZ : ℚ
deriving DecidableEq

/-- The state at line 62 of FastVoxelTraverse.h, just before the first
`processVoxel(voxel)`. -/
def traceInit (start end_ : Double3) : TraceState :=
  { voxel := ⟨castInt start.x, castInt start.y, castInt start.z⟩
    tMaxX := tMaxInit start.x end_.x
    tMaxY := tMaxInit start.y end_.y
    tMaxZ := tMaxInit start.z end_.z
    dx := SIGN (end_.x - start.x)
    dy := SIGN (end_.y - start.y)
    dz := SIGN (end_.z - start.z)
    tDeltaX := tDeltaInit start.x end_.x
    tDeltaY := tDeltaInit start.y end_.y
    tDeltaZ := tDeltaInit start.z end_.z }

/-- The stepping part of one loop iteration (lines 64-80): advance the axis
selected by the nested comparisons of the three `tMax` values. -/
def traceStep (s : TraceState) : TraceState :=
  if s.tMaxX < s.tMaxY then
    if s.tMaxX < s.tMaxZ then
      { s with voxel := { s.voxel with x := s.voxel.x + s.dx }, tMaxX := s.tMaxX + s.tDeltaX }
    else
      { s with voxel := { s.voxel with z := s.voxel.z + s.dz }, tMaxZ := s.tMaxZ + s.tDeltaZ }
  else
    if s.tMaxY < s.tMaxZ then
      { s with voxel := { s.voxel with y := s.voxel.y + s.dy }, tMaxY := s.tMaxY + s.tDeltaY }
    else
      { s with voxel := { s.voxel with z := s.voxel.z + s.dz }, tMaxZ := s.tMaxZ + s.tDeltaZ }

/-- The exit test of line 81: `tMaxX > 1 && tMaxY > 1 && tMaxZ > 1`. -/
def traceDone (s : TraceState) : Bool :=
  decide (s.tMaxX > 1) && decide (s.tMaxY > 1) && decide (s.tMaxZ > 1)

/-- The `while (true)` loop of lines 63-85 with a bound on the number of
iterations: step, leave when the exit test holds, otherwise hand the voxel to
`processVoxel`.  The result is the sequence of voxels handed to the callback,
or `none` when the bound is used up before the loop leaves. -/
def traceLoop : ℕ → TraceState → Option (List Int3)
  | 0, _ => none
  | fuel + 1, s =>
    if traceDone (traceStep s) then some []
    else (traceLoop fuel (traceStep s)).map (fun rest => (traceStep s).voxel :: rest)

/-- The function `VoxelTrace(start, end, processVoxel)`: the voxels passed to
`processVoxel`, in call order, when the loop leaves within `fuel` iterations. -/
def VoxelTrace (fuel : ℕ) (start end_ : Double3) : Option (List Int3) :=
  (traceLoop fuel (traceInit start end_)).map (fun rest => (traceInit start end_).voxel :: rest)

/-- Number of additions of `d` after which `t` exceeds 1 (0 when it already does). -/
def stepsNeeded (t d : ℚ) : ℕ := if t > 1 then 0 else (⌊(1 - t) / d⌋).toNat + 1

/-- Sum over the three axes of the additions still needed to exceed 1. -/
def traceMeasure (s : TraceState) : ℕ :=
  stepsNeeded s.tMaxX s.tDeltaX + stepsNeeded s.tMaxY s.tDeltaY + stepsNeeded s.tMaxZ s.tDeltaZ

/-- An iteration bound that is always enough for `VoxelTrace` (see
`traceLoop_fuel`). -/
def traceFuel (start end_ : Double3) : ℕ := traceMeasure (traceInit start end_) + 1

/-- The voxels `VoxelTrace` hands to its callback, as a total function. -/
def VoxelTraceCells (start end_ : Double3) : List Int3 :=
  (VoxelTrace (traceFuel start end_) start end_).getD []

/-- Every `tDelta` is positive. -/
def PosDeltas (s : TraceState) : Prop := 0 < s.tDeltaX ∧ 0 < s.tDeltaY ∧ 0 < s.tDeltaZ

/-! ### Floats beyond the rationals: infinities, NaN, rounding to binary32 -/

/-- A `float` together with the IEEE values that are not numbers of the
rationals: the two infinities and NaN.  They enter `IntersectAABB` through the
division by a direction component that is zero. -/
inductive FloatX where
  | fin (q : ℚ)
  | posInf
  | negInf
  | nan
deriving DecidableEq

/-- The IEEE comparison `a < b`; false when an operand is NaN. -/
def FloatX.lt : FloatX → FloatX → Bool
  | FloatX.fin a, FloatX.fin b => decide (a < b)
  | FloatX.fin _, FloatX.posInf => true
  | FloatX.fin _, FloatX.negInf => false
  | FloatX.fin _, FloatX.nan => false
  | FloatX.posInf, _ => false
  | FloatX.negInf, FloatX.fin _ => true
  | FloatX.negInf, FloatX.posInf => true
  | FloatX.negInf, FloatX.negInf => false
  | FloatX.negInf, FloatX.nan => false
  | FloatX.nan, _ => false

/-- The IEEE comparison `a <= b`; false when an operand is NaN. -/
def FloatX.le (a b : FloatX) : Bool :=
  decide (a ≠ FloatX.nan) && decide (b ≠ FloatX.nan) && !(b.lt a)

/-- The quotient `1.f / d` for a finite `d`: the infinity `+inf` when `d` is
zero (the zero of the rationals stands for `+0.0`). -/
def FloatX.recip (d : ℚ) : FloatX := if d = 0 then FloatX.posInf else FloatX.fin (1 / d)

/-- The product `a * f` of a finite `a` with a quotient `f`: an infinity keeps
or changes its sign with the sign of `a`, and `0 * inf` is NaN. -/
def FloatX.scale (a : ℚ) : FloatX → FloatX
  | FloatX.fin b => FloatX.fin (a * b)
  | FloatX.posInf => if 0 < a then FloatX.posInf else if a < 0 then FloatX.negInf else FloatX.nan
  | FloatX.negInf => if 0 < a then FloatX.negInf else if a < 0 then FloatX.posInf else FloatX.nan
  | FloatX.nan => FloatX.nan

/-- The smaller of two values neither of which is NaN. -/
def FloatX.min (a b : FloatX) : FloatX := if a.lt b then a else b

/-- The larger of two values neither of which is NaN. -/
def FloatX.max (a b : FloatX) : FloatX := if a.lt b then b else a

/-- The call `std::max(a, b)` on floats: `(a < b) ? b : a`. -/
def stdMax (a b : FloatX) : FloatX := if a.lt b then b else a

/-- The call `std::min(a, b)` on floats: `(b < a) ? b : a`. -/
def stdMin (a b : FloatX) : FloatX := if b.lt a then b else a

/-- The finite value of a float, if it has one. -/
def FloatX.toRat : FloatX → Option ℚ
  | FloatX.fin q => some q
  | _ => none

/-- The search of `expo32`: the largest exponent `e' ≤ e` with `2 ^ e' ≤ a`
among the `fuel` exponents from `e` downwards, and `e - fuel` when there is
none. -/
def expoFrom : ℕ → ℤ → ℚ → ℤ
  | 0, e, _ => e
  | fuel + 1, e, a => if (2 : ℚ) ^ e ≤ a then e else expoFrom fuel (e - 1) a

/-- The binary exponent that a positive number `a` has as a binary32 value: the
`e` with `2 ^ e ≤ a < 2 ^ (e + 1)`, kept inside the range `-126 ≤ e ≤ 127` of
the format (below `2 ^ -126` the values are subnormal and share the exponent
`-126`). -/
def expo32 (a : ℚ) : ℤ := expoFrom 253 127 a

/-- The integer nearest to `n`, the even one of the two when `n` lies half way. -/
def roundHalfEven (n : ℚ) : ℤ :=
  if n - ⌊n⌋ < 1 / 2 then ⌊n⌋
  else if 1 / 2 < n - ⌊n⌋ then ⌊n⌋ + 1
  else if ⌊n⌋ % 2 = 0 then ⌊n⌋ else ⌊n⌋ + 1

/-- The binary32 value of a real result: round to nearest, ties to even, with
24 bits of precision, gradual underflow below `2 ^ -126` and overflow to an
infinity when the rounded value reaches `2 ^ 128`. -/
def round32 (x : ℚ) : FloatX :=
  if x = 0 then FloatX.fin 0
  else
    let e : ℤ := expo32 |x| - 23
    let r : ℚ := (roundHalfEven (|x| / 2 ^ e) : ℚ) * 2 ^ e
    if (2 : ℚ) ^ (128 : ℤ) ≤ r then (if 0 < x then FloatX.posInf else FloatX.negInf)
    else FloatX.fin (if 0 < x then r else -r)

/-! ### The initial state of VoxelTrace in doubles -/

/-- The binary64 exponent of a positive number `a`: the largest `e` in
`[-1022, 1023]` with `2 ^ e <= a`, and `-1022` for the numbers below `2 ^ -1022`. -/
def expo64 (a : ℚ) : ℤ := expoFrom 2045 1023 a

/-- Rounding of an exact result to binary64, the `double` of the source: to the
nearest multiple of `2 ^ (e - 52)`, ties to even, and to an infinity when the
rounded magnitude reaches `2 ^ 1024`. -/
def round64 (x : ℚ) : FloatX :=
  if x = 0 then FloatX.fin 0
  else
    let e : ℤ := expo64 |x| - 52
    let r : ℚ := (roundHalfEven (|x| / 2 ^ e) : ℚ) * 2 ^ e
    if (2 : ℚ) ^ (1024 : ℤ) ≤ r then (if 0 < x then FloatX.posInf else FloatX.negInf)
    else FloatX.fin (if 0 < x then r else -r)

/-- The double product: the exact product rounded to binary64; zero times an
infinity is NaN. -/
def FloatX.mul64 : FloatX → FloatX → FloatX
  | FloatX.fin a, FloatX.fin b => round64 (a * b)
  | FloatX.nan, _ => FloatX.nan
  | _, FloatX.nan => FloatX.nan
  | FloatX.fin a, FloatX.posInf =>
    if a = 0 then FloatX.nan else if 0 < a then FloatX.posInf else FloatX.negInf
  | FloatX.fin a, FloatX.negInf =>
    if a = 0 then FloatX.nan else if 0 < a then FloatX.negInf else FloatX.posInf
  | FloatX.posInf, FloatX.fin b =>
    if b = 0 then FloatX.nan else if 0 < b then FloatX.posInf else FloatX.negInf
  | FloatX.negInf, FloatX.fin b =>
    if b = 0 then FloatX.nan else if 0 < b then FloatX.negInf else FloatX.posInf
  | FloatX.posInf, FloatX.posInf => FloatX.posInf
  | FloatX.negInf, FloatX.negInf => FloatX.posInf
  | FloatX.posInf, FloatX.negInf => FloatX.negInf
  | FloatX.negInf, FloatX.posInf => FloatX.negInf

/-- The double sum: the exact sum rounded to binary64; the sum of the two
infinities of opposite sign is NaN. -/
def FloatX.add64 : FloatX → FloatX → FloatX
  | FloatX.fin a, FloatX.fin b => round64 (a + b)
  | FloatX.nan, _ => FloatX.nan
  | _, FloatX.nan => FloatX.nan
  | FloatX.posInf, FloatX.negInf => FloatX.nan
  | FloatX.negInf, FloatX.posInf => FloatX.nan
  | FloatX.posInf, _ => FloatX.posInf
  | _, FloatX.posInf => FloatX.posInf
  | FloatX.negInf, _ => FloatX.negInf
  | _, FloatX.negInf => FloatX.negInf

/-- The macro `SIGN(x)` on a double that may be infinite: no comparison holds
for a NaN. -/
def FloatX.sign : FloatX → ℤ
  | FloatX.fin q => SIGN q
  | FloatX.posInf => 1
  | FloatX.negInf => -1
  | FloatX.nan => 0

/-- The quotient `d / x` of a non-zero `int` and a double, as in
`dx / (x2 - x1)`: a finite number divided by an infinity is zero. -/
def FloatX.divInt (d : ℤ) : FloatX → FloatX
  | FloatX.fin q => if q = 0 then (if 0 < d then FloatX.posInf else FloatX.negInf)
      else round64 (d / q)
  | FloatX.posInf => FloatX.fin 0
  | FloatX.negInf => FloatX.fin 0
  | FloatX.nan => FloatX.nan

/-- The function `fmin` of `<cmath>`: the smaller argument, and the other
argument when one is a NaN. -/
def fmin (a b : FloatX) : FloatX :=
  if a = FloatX.nan then b else if b = FloatX.nan then a else if b.lt a then b else a

/-- Initial value of `tDeltaX` (resp. Y, Z) in doubles: the difference `b - a`
is rounded and may be an infinity. -/
def tDeltaInit64 (a b : ℚ) : FloatX :=
  if (round64 (b - a)).sign ≠ 0 then
    fmin (FloatX.divInt (round64 (b - a)).sign (round64 (b - a))) (FloatX.fin 10000000)
  else FloatX.fin 10000000

/-- The macro `FRAC0(x)` in doubles: `x - floor(x)`. -/
def FRAC0_64 (x : ℚ) : FloatX := round64 (x - ⌊x⌋)

/-- The macro `FRAC1(x)` in doubles: `1 - x + floor(x)`, two rounded operations. -/
def FRAC1_64 (x : ℚ) : FloatX := (round64 (1 - x)).add64 (FloatX.fin ⌊x⌋)

/-- Initial value of `tMaxX` (resp. Y, Z) in doubles. -/
def tMaxInit64 (a b : ℚ) : FloatX :=
  if (round64 (b - a)).sign > 0 then (tDeltaInit64 a b).mul64 (FRAC1_64 a)
  else (tDeltaInit64 a b).mul64 (FRAC0_64 a)

/-- The state at line 62 of FastVoxelTraverse.h as the doubles of the source
compute it, when its six `tMax` and `tDelta` values are finite. -/
def traceInit64 (start end_ : Double3) : Option TraceState := do
  let tMaxX ← (tMaxInit64 start.x end_.x).toRat
  let tMaxY ← (tMaxInit64 start.y end_.y).toRat
  let tMaxZ ← (tMaxInit64 start.z end_.z).toRat
  let tDeltaX ← (tDeltaInit64 start.x end_.x).toRat
  let tDeltaY ← (tDeltaInit64 start.y end_.y).toRat
  let tDeltaZ ← (tDeltaInit64 start.z end_.z).toRat
  pure
    { voxel := ⟨castInt start.x, castInt start.y, castInt start.z⟩
      tMaxX := tMaxX
      tMaxY := tMaxY
      tMaxZ := tMaxZ
      dx := (round64 (end_.x - start.x)).sign
      dy := (round64 (end_.y - start.y)).sign
      dz := (round64 (end_.z - start.z)).sign
      tDeltaX := tDeltaX
      tDeltaY := tDeltaY
      tDeltaZ := tDeltaZ }

/-! ### RayTrace.h -/

/-- The enum `RayFilter` (RayTrace.h), with underlying values 0, 1, 2, 3. -/
inductive RayFilter where
  | None
  | IncludeHitRays
  | IncludeMissRays
  | IncludeAllRays
deriving DecidableEq

/-- The function `to_integral` (MathUtils.h) on `RayFilter`. -/
def to_integral : RayFilter → ℕ
  | RayFilter.None => 0
  | RayFilter.IncludeHitRays => 1
  | RayFilter.IncludeMissRays => 2
  | RayFilter.IncludeAllRays => 3

/-- The function `is_flag_set(flag, enumValue)` (MathUtils.h). -/
def is_flag_set (flag enumValue : RayFilter) : Bool :=
  (to_integral flag &&& to_integral enumValue) == to_integral flag

/-- The struct `Ray` (RayTrace.h).  The `hitInfo` indices are left out: the
sampler never reads them. -/
structure Ray where
  rayId : ℕ
  origin : Float3
  tMin : ℚ
  direction : Float3
  tMax : ℚ
  tHit : ℚ
deriving DecidableEq

/-- The method `Ray::HasHit`: `(0 <= tHit) && (tHit < (tMax - missTolerance))`.
The difference is a float difference: the exact difference rounded to binary32
(`+inf` or `-inf` on overflow), with which `tHit` is compared. -/
def Ray.HasHit (missTolerance : ℚ) (r : Ray) : Bool :=
  decide (0 ≤ r.tHit) && (FloatX.fin r.tHit).lt (round32 (r.tMax - missTolerance))

/-- The method `Ray::tHitOrTMax`. -/
def Ray.tHitOrTMax (missTolerance : ℚ) (r : Ray) : ℚ :=
  if r.HasHit missTolerance then r.tHit else r.tMax

/-- The function `IncludeRay(ray, filter)` (RayTrace.h). -/
def IncludeRay (missTolerance : ℚ) (ray : Ray) (filter : RayFilter) : Bool :=
  if ray.HasHit missTolerance then is_flag_set RayFilter.IncludeHitRays filter
  else is_flag_set RayFilter.IncludeMissRays filter

/-! ### CpuRaytracing.h -/

/-- The type `linalg::vec<float, 2>`, here the result type of `IntersectAABB`,
whose components can be infinite or NaN. -/
structure Float2 where
  x : FloatX
  y : FloatX
deriving DecidableEq

/-- The function `HitAABB(minMaxT, tMax)` (CpuRaytracing.h), with the IEEE
comparisons. -/
def HitAABB (minMaxT : Float2) (tMax : ℚ) : Bool :=
  let missed := minMaxT.y.lt minMaxT.x
  let outOfReach := (FloatX.fin tMax).le minMaxT.x
  let behind := minMaxT.y.lt (FloatX.fin 0)
  !missed && !outOfReach && !behind

/-- What `IntersectAABB` returns for the arguments `rayOrigin`, `rayDir`,
`boxMin`, `boxMax` when one of the six products of lines 18-19 is NaN (`0 * inf`:
a direction component is zero and the origin lies on a face plane of the box
for that axis).  Then the result is decided by what `linalg::min`,
`linalg::max`, `linalg::maxelem` and `linalg::minelem` make of a NaN operand;
linalg.h is not part of the sources at hand, so the result in this case is a
parameter of the model, and the theorems hold for every value of it. -/
abbrev NanInterval := Float3 → Float3 → Float3 → Float3 → Float2

/-- The function `IntersectAABB` (CpuRaytracing.h), the slab method with
`dirFraction = 1 / rayDir`.  The result is `none` when the assertion
`length2(rayDir) != 0` fails.  A direction component that is zero makes
`dirFraction` infinite on that axis, and the products, minima and maxima follow
IEEE arithmetic; when a product is NaN the result is `nanInterval` of the
arguments. -/
def IntersectAABB (nanInterval : NanInterval) (rayOrigin rayDir boxMin boxMax : Float3) :
    Option Float2 :=
  if rayDir.x = 0 ∧ rayDir.y = 0 ∧ rayDir.z = 0 then none
  else
    let fx := FloatX.recip rayDir.x
    let fy := FloatX.recip rayDir.y
    let fz := FloatX.recip rayDir.z
    let lx := FloatX.scale (boxMin.x - rayOrigin.x) fx
    let ly := FloatX.scale (boxMin.y - rayOrigin.y) fy
    let lz := FloatX.scale (boxMin.z - rayOrigin.z) fz
    let ux := FloatX.scale (boxMax.x - rayOrigin.x) fx
    let uy := FloatX.scale (boxMax.y - rayOrigin.y) fy
    let uz := FloatX.scale (boxMax.z - rayOrigin.z) fz
    if lx = FloatX.nan ∨ ly = FloatX.nan ∨ lz = FloatX.nan ∨
        ux = FloatX.nan ∨ uy = FloatX.nan ∨ uz = FloatX.nan then
      some (nanInterval rayOrigin rayDir boxMin boxMax)
    else
      let tNear := FloatX.max (FloatX.max (FloatX.min lx ux) (FloatX.min ly uy)) (FloatX.min lz uz)
      let tFar := FloatX.min (FloatX.min (FloatX.max lx ux) (FloatX.max ly uy)) (FloatX.max lz uz)
      some ⟨tNear, tFar⟩

/-- The value of `nanInterval` used where a concrete run is evaluated: both
ends NaN.  The runs evaluated below have no NaN product, so that the choice
does not enter their results. -/
def nanBoth : NanInterval := fun _ _ _ _ => ⟨FloatX.nan, FloatX.nan⟩

/-- The value `tNear` of `IntersectAABB` when no component of the direction is
zero, so that all quotients and products are finite. -/
def slabNear (rayOrigin rayDir boxMin boxMax : Float3) : ℚ :=
  Max.max (Max.max
      (Min.min ((boxMin.x - rayOrigin.x) * (1 / rayDir.x))
        ((boxMax.x - rayOrigin.x) * (1 / rayDir.x)))
      (Min.min ((boxMin.y - rayOrigin.y) * (1 / rayDir.y))
        ((boxMax.y - rayOrigin.y) * (1 / rayDir.y))))
    (Min.min ((boxMin.z - rayOrigin.z) * (1 / rayDir.z))
      ((boxMax.z - rayOrigin.z) * (1 / rayDir.z)))

/-- The value `tFar` of `IntersectAABB` when no component of the direction is
zero. -/
def slabFar (rayOrigin rayDir boxMin boxMax : Float3) : ℚ :=
  Min.min (Min.min
      (Max.max ((boxMin.x - rayOrigin.x) * (1 / rayDir.x))
        ((boxMax.x - rayOrigin.x) * (1 / rayDir.x)))
      (Max.max ((boxMin.y - rayOrigin.y) * (1 / rayDir.y))
        ((boxMax.y - rayOrigin.y) * (1 / rayDir.y))))
    (Max.max ((boxMin.z - rayOrigin.z) * (1 / rayDir.z))
      ((boxMax.z - rayOrigin.z) * (1 / rayDir.z)))

/-! ### ChunkedArray3D.h -/

/-- Lexicographic comparison of integer vectors, the order of the keys of
`std::map<Int3, ...>` (linalg compares vectors component by component). -/
def Int3.lt (a b : Int3) : Bool :=
  decide (a.x < b.x) || (decide (a.x = b.x) && (decide (a.y < b.y) ||
    (decide (a.y = b.y) && decide (a.z < b.z))))

/-- The class `ChunkedArray3D<uint8_t>`: `data_` is the map as the list of its
entries in key order, each block a dense list of `chunkSize^3` values.  The
pointer `lastChunk_` is represented by the key `lastChunkId_` it belongs to. -/
structure ChunkedArray3D where
  chunkSize : ℕ
  data_ : List (Int3 × List ℕ)
  lastChunkId_ : Int3
deriving DecidableEq

/-- The constructor `ChunkedArray3D(chunkSize)`. -/
def ChunkedArray3D.new (chunkSize : ℕ) : ChunkedArray3D :=
  { chunkSize := chunkSize, data_ := [], lastChunkId_ := ⟨-1, -1, -1⟩ }

/-- Insertion of a fresh entry into the key-ordered entry list (`data_[chunkId] = newChunk`
for a key that is not present). -/
def mapInsert (key : Int3) (block : List ℕ) : List (Int3 × List ℕ) → List (Int3 × List ℕ)
  | [] => [(key, block)]
  | e :: rest => if Int3.lt key e.1 then (key, block) :: e :: rest else e :: mapInsert key block rest

/-- The lookup `data_.find(chunkId)`. -/
def mapFind (key : Int3) (data : List (Int3 × List ℕ)) : Option (List ℕ) :=
  (data.find? (fun e => decide (e.1 = key))).map Prod.snd

/-- The mutable `ChunkedArray3D::At(pos)`: the array after the call (a block is
created on first access, the last-block cache is updated) together with the
place the returned reference denotes, as block key and index in the block.
The result is `none` when an assertion fails or `chunkSize` is 0. -/
def ChunkedArray3D.At (c : ChunkedArray3D) (pos : Int3) : Option (ChunkedArray3D × Int3 × ℕ) :=
  if 0 ≤ pos.x ∧ 0 ≤ pos.y ∧ 0 ≤ pos.z ∧ c.chunkSize ≠ 0 then
    let chunkId : Int3 := ⟨pos.x / c.chunkSize, pos.y / c.chunkSize, pos.z / c.chunkSize⟩
    let c1 : ChunkedArray3D :=
      if chunkId ≠ c.lastChunkId_ then
        let data1 := if (mapFind chunkId c.data_).isNone then
            mapInsert chunkId (List.replicate (c.chunkSize * c.chunkSize * c.chunkSize) 0) c.data_
          else c.data_
        { c with data_ := data1, lastChunkId_ := chunkId }
      else c
    let chunkInternalId : Int3 := ⟨pos.x % c.chunkSize, pos.y % c.chunkSize, pos.z % c.chunkSize⟩
    some (c1, c1.lastChunkId_,
      (chunkInternalId.x * c.chunkSize * c.chunkSize + chunkInternalId.y * c.chunkSize
        + chunkInternalId.z).toNat)
  else none

/-- Assignment through a reference returned by `At`: store `v` at index `i` of
the block with key `key`. -/
def ChunkedArray3D.store (c : ChunkedArray3D) (key : Int3) (i : ℕ) (v : ℕ) : ChunkedArray3D :=
  { c with data_ := c.data_.map (fun e => if e.1 = key then (e.1, e.2.set i v) else e) }

/-- The statement `chunks.At(voxel) = v`. -/
def ChunkedArray3D.AtPut (c : ChunkedArray3D) (pos : Int3) (v : ℕ) : Option ChunkedArray3D :=
  (c.At pos).map (fun r => r.1.store r.2.1 r.2.2 v)

/-! ### VolumetricSampler.h, VolumetricSampler.cpp -/

/-- The value `std::numeric_limits<rdType>::max()` for `rdType = uint16_t`. -/
def rdTypeMax : ℕ := 65535

/-- The struct `VolumetricSampler::ChunkData`. -/
structure ChunkData where
  chunkIdx : Int3
  maxRays : ℕ
  min : Float3
  max : Float3
  rayDensity : List ℕ
  directions : List Float3
  chunkSize : ℕ
  rayCount : ℕ
  missedRays : ℕ
deriving DecidableEq

/-- The class `VolumetricSampler`: its private fields, with the rays of
`trace` in place of the pointer. -/
structure VolumetricSampler where
  dirty_ : Bool
  filter_ : RayFilter
  chunkSize_ : ℕ
  cellSize_ : ℚ
  maxT_ : Option ℚ
  trace : List Ray
  maxRays_ : ℕ
  min_ : Float3
  max_ : Float3
  data_ : List ChunkData
deriving DecidableEq

/-- The guarded increment of lines 197-199 on a `uint16_t` counter:
`if (v + 1 != max) v++`, the sum being computed in `int`. -/
def incDensity (v : ℕ) : ℕ := if v + 1 ≠ rdTypeMax then (v + 1) % 65536 else v

/-- The working arrays of one chunk task: `task.rayDensity` and `doubleDirs`. -/
structure CellArrays where
  rayDensity : List ℕ
  doubleDirs : List Double3
deriving DecidableEq

/-- The arrays of a chunk task before its first ray: `size^3` zero counters and
zero direction sums. -/
def CellArrays.fresh (size : ℕ) : CellArrays :=
  { rayDensity := List.replicate (size * size * size) 0
    doubleDirs := List.replicate (size * size * size) ⟨0, 0, 0⟩ }

/-- The visit callback of lines 192-201: both assertions, the index, the
guarded increment of the density and the addition of the ray direction.
The result is `none` when an assertion fails. -/
def visitCell (size : ℕ) (dir : Float3) (a : CellArrays) (voxel : Int3) : Option CellArrays :=
  if (0 ≤ voxel.x ∧ 0 ≤ voxel.y ∧ 0 ≤ voxel.z) ∧
      (voxel.x < size ∧ voxel.y < size ∧ voxel.z < size) then
    let idx := (voxel.x * size * size + voxel.y * size + voxel.z).toNat
    some { rayDensity := a.rayDensity.set idx (incDensity (a.rayDensity.getD idx 0))
           doubleDirs := a.doubleDirs.set idx ((a.doubleDirs.getD idx ⟨0, 0, 0⟩).add dir) }
  else none

/-- The callback applied to a sequence of voxels, in order. -/
def visitCells (size : ℕ) (dir : Float3) (a : CellArrays) (voxels : List Int3) :
    Option CellArrays :=
  voxels.foldlM (visitCell size dir) a

/-- The value `std::numeric_limits<float>::max()`. -/
def FLT_MAX : ℚ := 340282346638528859811704183484516925440

/-- The clipped end parameter `std::min(ray.tHitOrTMax(), maxT_.value_or(ray.tMax))`. -/
def clippedT (missTolerance : ℚ) (maxT_ : Option ℚ) (ray : Ray) : ℚ :=
  Min.min (ray.tHitOrTMax missTolerance) (maxT_.getD ray.tMax)

/-- The selection of `filteredRays` (lines 57-70). -/
def filterRays (missTolerance : ℚ) (filter_ : RayFilter) (rays : List Ray) : List Ray :=
  if filter_ = RayFilter.IncludeAllRays then rays
  else rays.filter (fun ray => IncludeRay missTolerance ray filter_)

/-- Step 0 (lines 74-82): the bounds `min`, `max` over the start and clipped end
points of the rays. -/
def rayBounds (missTolerance : ℚ) (maxT_ : Option ℚ) (rays : List Ray) : Float3 × Float3 :=
  rays.foldl
    (fun b ray =>
      let tMax := clippedT missTolerance maxT_ ray
      let startPoint := ray.origin.add (ray.direction.smul ray.tMin)
      let endPoint := ray.origin.add (ray.direction.smul tMax)
      (b.1.min (startPoint.min endPoint), b.2.max (startPoint.max endPoint)))
    (⟨FLT_MAX, FLT_MAX, FLT_MAX⟩, ⟨-FLT_MAX, -FLT_MAX, -FLT_MAX⟩)

/-- The traversal end points of one ray in step 1 (lines 95-101): start and
clipped end relative to `min`, in units of `voxelSize`. -/
def chunkSegment (missTolerance : ℚ) (maxT_ : Option ℚ) (voxelSize : ℚ) (min : Float3)
    (ray : Ray) : Double3 × Double3 :=
  let tMax := clippedT missTolerance maxT_ ray
  let start := ray.origin.add ((ray.direction.smul ray.tMin).smul 1)
  let end_ := ray.origin.add ((ray.direction.smul tMax).smul 1)
  (((start.sub min).sdiv voxelSize), ((end_.sub min).sdiv voxelSize))

/-- The callback of step 1 (lines 102-105): the assertion, then `chunks.At(voxel) = 1`. -/
def flagVoxel (chunks : ChunkedArray3D) (voxel : Int3) : Option ChunkedArray3D :=
  if 0 ≤ voxel.x ∧ 0 ≤ voxel.y ∧ 0 ≤ voxel.z then chunks.AtPut voxel 1 else none

/-- Step 1 (lines 91-106): trace every ray through the grid of chunks and flag
the chunks it visits.  A zero `voxelSize` makes the source divide by zero: every
coordinate of the segment is then infinite or NaN, its cast to `int` is not a
non-negative voxel coordinate, and the assertion of the callback fails on the
first voxel (`none`). -/
def findChunks (missTolerance : ℚ) (maxT_ : Option ℚ) (voxelSize : ℚ) (min : Float3)
    (rays : List Ray) : Option ChunkedArray3D :=
  rays.foldlM
    (fun chunks ray =>
      if voxelSize = 0 then none
      else
        let seg := chunkSegment missTolerance maxT_ voxelSize min ray
        (VoxelTraceCells seg.1 seg.2).foldlM flagVoxel chunks)
    (ChunkedArray3D.new 128)

/-- The chunk task built in lines 120-130 for the flag at linear index `i` of
the block with key `key`.  The corners `min` and `max` are the exact ones;
`taskBox32` gives them as the binary32 operations of the source round them. -/
def makeTask (chunkSize_ : ℕ) (voxelSize : ℚ) (min : Float3) (key : Int3) (i : ℕ) : ChunkData :=
  let base : Int3 := ⟨key.x * 128, key.y * 128, key.z * 128⟩
  let index : Int3 := ⟨((i / 128 / 128 : ℕ) : ℤ), (((i / 128) % 128 : ℕ) : ℤ), ((i % 128 : ℕ) : ℤ)⟩
  let chunkIdx : Int3 := ⟨base.x + index.x, base.y + index.y, base.z + index.z⟩
  let mn : Float3 := (Double3.smul ⟨chunkIdx.x, chunkIdx.y, chunkIdx.z⟩ voxelSize).add min
  { chunkIdx := chunkIdx
    maxRays := 0
    min := mn
    max := mn.add ⟨voxelSize, voxelSize, voxelSize⟩
    rayDensity := List.replicate (chunkSize_ * chunkSize_ * chunkSize_) 0
    directions := List.replicate (chunkSize_ * chunkSize_ * chunkSize_) ⟨0, 0, 0⟩
    chunkSize := chunkSize_
    rayCount := 0
    missedRays := 0 }

/-- The inner loop of step 2 (lines 118-136) over the flags of one block from
index `i` on: push a task for a set flag, leave once `data_` holds 512 tasks. -/
def taskLoop (mk : ℕ → ChunkData) : List ℕ → ℕ → List ChunkData → List ChunkData
  | [], _, data => data
  | flag :: flags, i, data =>
    let data1 := if 0 < flag then data ++ [mk i] else data
    if 512 ≤ data1.length then data1 else taskLoop mk flags (i + 1) data1

/-- The outer loop of step 2 (lines 116-141) over the blocks of the flag array. -/
def blockLoop (mk : Int3 → ℕ → ChunkData) : List (Int3 × List ℕ) → List ChunkData → List ChunkData
  | [], data => data
  | e :: rest, data =>
    let data1 := taskLoop (mk e.1) e.2 0 data
    if 512 ≤ data1.length then data1 else blockLoop mk rest data1

/-- Step 2 (lines 114-141): the chunk tasks, `data_` being empty on entry. -/
def createChunkTasks (chunkSize_ : ℕ) (voxelSize : ℚ) (min : Float3) (chunks : ChunkedArray3D) :
    List ChunkData :=
  blockLoop (makeTask chunkSize_ voxelSize min) chunks.data_ []

/-- Number of flags set in the flag array, i.e. of chunk coordinates flagged
by step 1. -/
def flaggedCount (data : List (Int3 × List ℕ)) : ℕ :=
  (data.map (fun e => e.2.countP (fun flag => decide (0 < flag)))).sum

/-- The body of the ray loop of step 3 (lines 165-201) for one ray: the chunk
task and the direction sums after the ray.  The result is `none` when an
assertion fails: the one of `IntersectAABB`, one of the six on the segment end
points (which an infinite or NaN parameter and a division by a cell size of
zero make fail), or the one of the visit callback. -/
def fillRay (nanInterval : NanInterval) (chunkSize_ : ℕ) (cellSize_ : ℚ) (maxT_ : Option ℚ)
    (missTolerance : ℚ) (st : ChunkData × List Double3) (ray : Ray) :
    Option (ChunkData × List Double3) :=
  match IntersectAABB nanInterval ray.origin ray.direction st.1.min st.1.max with
  | none => none
  | some minMax =>
    let maxT := clippedT missTolerance maxT_ ray
    if !HitAABB minMax maxT then
      some ({ st.1 with missedRays := st.1.missedRays + 1 }, st.2)
    else
      match (stdMax minMax.x (FloatX.fin ray.tMin)).toRat with
      | none => none
      | some tStart =>
        match (stdMin minMax.y (FloatX.fin maxT)).toRat with
        | none => none
        | some tEnd =>
          if cellSize_ = 0 then none
          else
            let start0 := ray.origin.add (ray.direction.smul tStart)
            let end0 := ray.origin.add (ray.direction.smul tEnd)
            let start1 := (start0.sub st.1.min).sdiv cellSize_
            let end1 := (end0.sub st.1.min).sdiv cellSize_
            let assertRoundingError : ℚ := 1 / 10
            let upperAssertLimit : ℚ := chunkSize_ + assertRoundingError
            if (-assertRoundingError < start1.x ∧ start1.x < upperAssertLimit) ∧
                (-assertRoundingError ≤ start1.y ∧ start1.y < upperAssertLimit) ∧
                (-assertRoundingError ≤ start1.z ∧ start1.z < upperAssertLimit) ∧
                (-assertRoundingError ≤ end1.x ∧ end1.x < upperAssertLimit) ∧
                (-assertRoundingError ≤ end1.y ∧ end1.y < upperAssertLimit) ∧
                (-assertRoundingError ≤ end1.z ∧ end1.z < upperAssertLimit) then
              let start2 := start1.clamp 0 (chunkSize_ - 1 / 1000)
              let end2 := end1.clamp 0 (chunkSize_ - 1 / 1000)
              (visitCells chunkSize_ ray.direction ⟨st.1.rayDensity, st.2⟩
                  (VoxelTraceCells start2 end2)).map
                (fun a => ({ st.1 with rayDensity := a.rayDensity }, a.doubleDirs))
            else none

/-- The part of the loop body of step 3 that does not depend on the state of the
chunk task (lines 165-191): `none` when an assertion fails, `some none` when the
ray misses the chunk box, and otherwise the voxels that VoxelTrace hands to the
visit callback.  It is `fillRay` without the counters, used to evaluate runs. -/
def rayCells (nanInterval : NanInterval) (chunkSize_ : ℕ) (cellSize_ : ℚ) (maxT_ : Option ℚ)
    (missTolerance : ℚ) (boxMin boxMax : Float3) (ray : Ray) : Option (Option (List Int3)) :=
  match IntersectAABB nanInterval ray.origin ray.direction boxMin boxMax with
  | none => none
  | some minMax =>
    let maxT := clippedT missTolerance maxT_ ray
    if !HitAABB minMax maxT then some none
    else
      match (stdMax minMax.x (FloatX.fin ray.tMin)).toRat with
      | none => none
      | some tStart =>
        match (stdMin minMax.y (FloatX.fin maxT)).toRat with
        | none => none
        | some tEnd =>
          if cellSize_ = 0 then none
          else
            let start0 := ray.origin.add (ray.direction.smul tStart)
            let end0 := ray.origin.add (ray.direction.smul tEnd)
            let start1 := (start0.sub boxMin).sdiv cellSize_
            let end1 := (end0.sub boxMin).sdiv cellSize_
            let assertRoundingError : ℚ := 1 / 10
            let upperAssertLimit : ℚ := chunkSize_ + assertRoundingError
            if (-assertRoundingError < start1.x ∧ start1.x < upperAssertLimit) ∧
                (-assertRoundingError ≤ start1.y ∧ start1.y < upperAssertLimit) ∧
                (-assertRoundingError ≤ start1.z ∧ start1.z < upperAssertLimit) ∧
                (-assertRoundingError ≤ end1.x ∧ end1.x < upperAssertLimit) ∧
                (-assertRoundingError ≤ end1.y ∧ end1.y < upperAssertLimit) ∧
                (-assertRoundingError ≤ end1.z ∧ end1.z < upperAssertLimit) then
              some (some (VoxelTraceCells (start1.clamp 0 (chunkSize_ - 1 / 1000))
                (end1.clamp 0 (chunkSize_ - 1 / 1000))))
            else none

/-- The chunk task of step 3 (lines 160-216) for one chunk.  The function
`normalize` stands for `Float3(linalg::normalize(dir))`. -/
def fillChunk (nanInterval : NanInterval) (normalize : Double3 → Float3) (chunkSize_ : ℕ)
    (cellSize_ : ℚ) (maxT_ : Option ℚ) (missTolerance : ℚ) (rays : List Ray)
    (task : ChunkData) : Option ChunkData :=
  (rays.foldlM (fillRay nanInterval chunkSize_ cellSize_ maxT_ missTolerance)
      ({ task with rayCount := rays.length },
        List.replicate (chunkSize_ * chunkSize_ * chunkSize_) (⟨0, 0, 0⟩ : Double3))).map
    (fun st => { st.1 with
      directions := st.2.map normalize
      maxRays := st.1.rayDensity.foldl Max.max 0 })

/-- The reduction of lines 234-241 over the finished chunks: `maxRays_`, `min_`, `max_`. -/
def aggregate (data : List ChunkData) : ℕ × Float3 × Float3 :=
  data.foldl
    (fun acc chunk =>
      (Max.max acc.1 chunk.maxRays, acc.2.1.min (chunk.min.min chunk.max),
        acc.2.2.max (chunk.min.max chunk.max)))
    (0, ⟨FLT_MAX, FLT_MAX, FLT_MAX⟩, ⟨-FLT_MAX, -FLT_MAX, -FLT_MAX⟩)

/-- The chunk tasks that steps 0 to 2 of `Sample` create (lines 57-141), when
chunk discovery runs through. -/
def discoverTasks (missTolerance : ℚ) (s : VolumetricSampler) : Option (List ChunkData) :=
  let filteredRays := filterRays missTolerance s.filter_ s.trace
  let bounds := rayBounds missTolerance s.maxT_ filteredRays
  let voxelSize : ℚ := s.chunkSize_ * s.cellSize_
  (findChunks missTolerance s.maxT_ voxelSize bounds.1 filteredRays).map
    (createChunkTasks s.chunkSize_ voxelSize bounds.1)

/-- The call `std::for_each(data_.begin(), data_.end(), task)` of step 3: every
chunk is replaced by the result of the task on it; `none` when a task fails. -/
def forEachTask (f : ChunkData → Option ChunkData) : List ChunkData → Option (List ChunkData)
  | [] => some []
  | t :: ts =>
    match f t with
    | none => none
    | some d => (forEachTask f ts).map (fun ds => d :: ds)

/-- The method `VolumetricSampler::Sample()`: the sampler after the call, or
`none` when an assertion fails.  The
parallel `for_each` over the tasks is run task by task, since no task reads or
writes another one. -/
def Sample (nanInterval : NanInterval) (normalize : Double3 → Float3) (missTolerance : ℚ)
    (s : VolumetricSampler) : Option VolumetricSampler :=
  match discoverTasks missTolerance s with
  | none => none
  | some tasks =>
    match forEachTask (fillChunk nanInterval normalize s.chunkSize_ s.cellSize_ s.maxT_
        missTolerance
        (filterRays missTolerance s.filter_ s.trace)) tasks with
    | none => none
    | some data =>
      some { s with
        data_ := data
        maxRays_ := (aggregate data).1
        min_ := (aggregate data).2.1
        max_ := (aggregate data).2.2
        dirty_ := false }

/-- The visit callback applied to a sequence of visits, each with the direction
of the ray that makes it: the visits of several rays to one chunk, in order. -/
def visitSeq (size : ℕ) (a : CellArrays) (visits : List (Float3 × Int3)) : Option CellArrays :=
  visits.foldlM (fun b v => visitCell size v.1 b v.2) a

/-- No counter of the density array is above 65534. -/
def DensityBelowMax (a : CellArrays) : Prop := ∀ i : ℕ, a.rayDensity.getD i 0 ≤ 65534

/-- The indices `i + k` of the flags set in a block, `k` the position in
`flags`, in increasing order: the indices for which the inner loop of step 2
pushes a task. -/
def flaggedFrom : ℕ → List ℕ → List ℕ
  | _, [] => []
  | i, flag :: flags => if 0 < flag then i :: flaggedFrom (i + 1) flags else flaggedFrom (i + 1) flags

/-- Scenario A of the specification: one ray from `(0,0,0)` in direction
`(1,0,0)` with `tMin = 0`, `tMax = 1000` and no hit, sampled with
`chunkSize = 128`, `cellSize = 1`, the filter `IncludeAllRays` and no `maxT`. -/
def scenarioA : VolumetricSampler :=
  { dirty_ := true
    filter_ := RayFilter.IncludeAllRays
    chunkSize_ := 128
    cellSize_ := 1
    maxT_ := none
    trace := [{ rayId := 0, origin := ⟨0, 0, 0⟩, tMin := 0, direction := ⟨1, 0, 0⟩,
                tMax := 1000, tHit := -1 }]
    maxRays_ := 0
    min_ := ⟨0, 0, 0⟩
    max_ := ⟨0, 0, 0⟩
    data_ := [] }

/-- The three rays of `scenarioD`: two rays of length zero (hit at distance 0)
in the cell `(1,1,1)`, and a short ray in the cell `(0,0,0)` that fixes the
lower corner of the bounds at the origin. -/
def scenarioD_rays : List Ray :=
  [{ rayId := 0, origin := ⟨3 / 2, 1, 1⟩, tMin := 0, direction := ⟨1, 1, 1⟩, tMax := 1, tHit := 0 },
   { rayId := 1, origin := ⟨1, 1, 1⟩, tMin := 0, direction := ⟨1, 2, 3⟩, tMax := 1, tHit := 0 },
   { rayId := 2, origin := ⟨0, 0, 0⟩, tMin := 0, direction := ⟨1, 1, 1⟩, tMax := 1 / 4,
     tHit := -1 }]

/-- An instance of Scenario D of the specification: `scenarioD_rays` sampled
with `chunkSize = 2`, `cellSize = 1`, the filter `IncludeAllRays` and no `maxT`. -/
def scenarioD : VolumetricSampler :=
  { dirty_ := true
    filter_ := RayFilter.IncludeAllRays
    chunkSize_ := 2
    cellSize_ := 1
    maxT_ := none
    trace := scenarioD_rays
    maxRays_ := 0
    min_ := ⟨0, 0, 0⟩
    max_ := ⟨0, 0, 0⟩
    data_ := [] }

/-- The sampler that `Sample()` leaves behind in `scenarioD`: one chunk, whose
cell `(1,1,1)` (index 7) has density 5 and direction `normalize (5, 8, 11)`. -/
def scenarioD_result (normalize : Double3 → Float3) : VolumetricSampler :=
  { scenarioD with
    data_ := [{ makeTask 2 2 ⟨0, 0, 0⟩ ⟨0, 0, 0⟩ 0 with
      rayCount := 3
      rayDensity := [1, 0, 0, 0, 0, 0, 0, 5]
      directions := [normalize ⟨1, 1, 1⟩, normalize ⟨0, 0, 0⟩, normalize ⟨0, 0, 0⟩,
        normalize ⟨0, 0, 0⟩, normalize ⟨0, 0, 0⟩, normalize ⟨0, 0, 0⟩, normalize ⟨0, 0, 0⟩,
        normalize ⟨5, 8, 11⟩]
      maxRays := 5 }]
    maxRays_ := 5
    min_ := ⟨0, 0, 0⟩
    max_ := ⟨2, 2, 2⟩
    dirty_ := false }

/-- The one chunk of `scenarioD_result`. -/
def scenarioD_chunk (normalize : Double3 → Float3) : ChunkData :=
  { makeTask 2 2 ⟨0, 0, 0⟩ ⟨0, 0, 0⟩ 0 with
    rayCount := 3
    rayDensity := [1, 0, 0, 0, 0, 0, 0, 5]
    directions := [normalize ⟨1, 1, 1⟩, normalize ⟨0, 0, 0⟩, normalize ⟨0, 0, 0⟩,
      normalize ⟨0, 0, 0⟩, normalize ⟨0, 0, 0⟩, normalize ⟨0, 0, 0⟩, normalize ⟨0, 0, 0⟩,
      normalize ⟨5, 8, 11⟩]
    maxRays := 5 }

/-- The function `linalg::length2`: the squared Euclidean length. -/
def Double3.length2 (v : Double3) : ℚ := v.x * v.x + v.y * v.y + v.z * v.z

/-- Modelled from the spec: `linalg::normalize`, whose header linalg.h is not
under src/.  The spec gives it two properties: a zero sum is normalised to the
zero vector (not NaN, no division by zero), and every other sum to a vector of
length 1.  (The rationals hold no unit vector parallel to, say, `(1,1,0)`, so
the model does not ask for the direction to be kept.) -/
def NormalizeSpec (normalize : Double3 → Float3) : Prop :=
  normalize ⟨0, 0, 0⟩ = ⟨0, 0, 0⟩ ∧ ∀ v : Double3, v ≠ ⟨0, 0, 0⟩ → (normalize v).length2 = 1

/-- A function with the two properties of `NormalizeSpec`: zero for the zero
vector, the unit vector `(1,0,0)` otherwise.  It instantiates `normalize` where
a concrete run of `Sample` is evaluated. -/
def unitAxis (v : Double3) : Float3 := if v = ⟨0, 0, 0⟩ then ⟨0, 0, 0⟩ else ⟨1, 0, 0⟩

/-- The ray loop of step 3 (lines 161-202) on one chunk task: the task and the
direction sums `doubleDirs` after the last ray. -/
def fillLoop (nanInterval : NanInterval) (chunkSize_ : ℕ) (cellSize_ : ℚ) (maxT_ : Option ℚ)
    (missTolerance : ℚ) (rays : List Ray) (task : ChunkData) :
    Option (ChunkData × List Double3) :=
  rays.foldlM (fillRay nanInterval chunkSize_ cellSize_ maxT_ missTolerance)
    ({ task with rayCount := rays.length },
      List.replicate (chunkSize_ * chunkSize_ * chunkSize_) (⟨0, 0, 0⟩ : Double3))

/-- The test of lines 165-167 on one ray and one chunk box: true when
`HitAABB(IntersectAABB(...), maxT)` is false, so that the ray is counted in
`missedRays`. -/
def rayMisses (nanInterval : NanInterval) (missTolerance : ℚ) (maxT_ : Option ℚ)
    (boxMin boxMax : Float3) (ray : Ray) : Bool :=
  match IntersectAABB nanInterval ray.origin ray.direction boxMin boxMax with
  | some minMax => !HitAABB minMax (clippedT missTolerance maxT_ ray)
  | none => false

/-- The invariant of the working arrays of a chunk task: no counter is above
65534, both arrays have the same length, and a cell whose counter is 0 has the
zero vector as direction sum. -/
def CellInv (a : CellArrays) : Prop :=
  DensityBelowMax a ∧ a.rayDensity.length = a.doubleDirs.length ∧
    ∀ i : ℕ, a.rayDensity.getD i 0 = 0 → a.doubleDirs.getD i ⟨0, 0, 0⟩ = ⟨0, 0, 0⟩

/-- Two chunk records agree in the fields the ray loop never writes: index,
box, chunk size and ray count. -/
def SameFrame (t u : ChunkData) : Prop :=
  u.chunkIdx = t.chunkIdx ∧ u.min = t.min ∧ u.max = t.max ∧ u.chunkSize = t.chunkSize ∧
    u.rayCount = t.rayCount

/-- The number `m` is the largest entry of `l`, or 0 when `l` is empty. -/
def IsMaxOf (m : ℕ) (l : List ℕ) : Prop :=
  (∀ v ∈ l, v ≤ m) ∧ (m ∈ l ∨ (l = [] ∧ m = 0))

/-- The rays of `scenarioCancel`: two rays through the cell `(1,1,1)` with
opposite directions, and a short ray in the cell `(0,0,0)` that fixes the lower
corner of the bounds at the origin. -/
def scenarioCancel_rays : List Ray :=
  [{ rayId := 0, origin := ⟨5 / 4, 5 / 4, 5 / 4⟩, tMin := 0, direction := ⟨1, 1, 1⟩,
     tMax := 1 / 2, tHit := -1 },
   { rayId := 1, origin := ⟨7 / 4, 7 / 4, 7 / 4⟩, tMin := 0, direction := ⟨-1, -1, -1⟩,
     tMax := 1 / 2, tHit := -1 },
   { rayId := 2, origin := ⟨0, 0, 0⟩, tMin := 0, direction := ⟨1, 1, 1⟩, tMax := 1 / 4,
     tHit := -1 }]

/-- A sampler with `chunkSize = 2`, `cellSize = 1`, filter `IncludeAllRays` and
no `maxT` over `scenarioCancel_rays`. -/
def scenarioCancel : VolumetricSampler :=
  { dirty_ := true
    filter_ := RayFilter.IncludeAllRays
    chunkSize_ := 2
    cellSize_ := 1
    maxT_ := none
    trace := scenarioCancel_rays
    maxRays_ := 0
    min_ := ⟨0, 0, 0⟩
    max_ := ⟨0, 0, 0⟩
    data_ := [] }

/-- The rational `m` is the least entry of `l`. -/
def IsLeastOf (m : ℚ) (l : List ℚ) : Prop := m ∈ l ∧ ∀ v ∈ l, m ≤ v

/-- The rational `m` is the greatest entry of `l`. -/
def IsGreatestOf (m : ℚ) (l : List ℚ) : Prop := m ∈ l ∧ ∀ v ∈ l, v ≤ m

/-- The point `m` is the componentwise minimum of the points `pts`. -/
def IsLowerCorner (m : Float3) (pts : List Float3) : Prop :=
  IsLeastOf m.x (pts.map Double3.x) ∧ IsLeastOf m.y (pts.map Double3.y) ∧
    IsLeastOf m.z (pts.map Double3.z)

/-- The point `m` is the componentwise maximum of the points `pts`. -/
def IsUpperCorner (m : Float3) (pts : List Float3) : Prop :=
  IsGreatestOf m.x (pts.map Double3.x) ∧ IsGreatestOf m.y (pts.map Double3.y) ∧
    IsGreatestOf m.z (pts.map Double3.z)

/-- Every coordinate of `p` lies between `-FLT_MAX` and `FLT_MAX`, as every
finite `float` does. -/
def InFloatRange (p : Float3) : Prop :=
  (-FLT_MAX ≤ p.x ∧ p.x ≤ FLT_MAX) ∧ (-FLT_MAX ≤ p.y ∧ p.y ≤ FLT_MAX) ∧
    (-FLT_MAX ≤ p.z ∧ p.z ≤ FLT_MAX)

/-- The start point and the clipped end point of every ray, in ray order: the
points over which step 0 takes the bounds. -/
def segmentPoints (missTolerance : ℚ) (maxT_ : Option ℚ) (rays : List Ray) : List Float3 :=
  rays.flatMap (fun ray =>
    [ray.origin.add (ray.direction.smul ray.tMin),
      ray.origin.add (ray.direction.smul (clippedT missTolerance maxT_ ray))])

/-- Both corners `min`, `max` of every chunk, in chunk order. -/
def chunkCorners (data : List ChunkData) : List Float3 :=
  data.flatMap (fun c => [c.min, c.max])

/-- A sampler with a negative cell size: `chunkSize = 1`, `cellSize = -1`,
filter `IncludeAllRays`, no `maxT`, and one ray that hits at distance 0, so
that its clipped segment is the point `(0,0,0)`. -/
def scenarioNeg : VolumetricSampler :=
  { dirty_ := true
    filter_ := RayFilter.IncludeAllRays
    chunkSize_ := 1
    cellSize_ := -1
    maxT_ := none
    trace := [{ rayId := 0, origin := ⟨0, 0, 0⟩, tMin := 0, direction := ⟨1, 1, 1⟩,
                tMax := 1, tHit := 0 }]
    maxRays_ := 0
    min_ := ⟨0, 0, 0⟩
    max_ := ⟨0, 0, 0⟩
    data_ := [] }

/-! ### VolumetricSampler: construction, setters and getters -/

/-- The constructor `VolumetricSampler(trace, chunkSize, cellSize, maxT)` together
with the member initialisers of the header (`dirty_ = true`,
`filter_ = IncludeAllRays`, `maxRays_ = 0`, an empty `data_`).  The header gives
`min_` and `max_` no initialiser: their starting values are arguments here.  The
default arguments of the source are `chunkSize = 128`, `cellSize = 100`,
`maxT = 50000`. -/
def VolumetricSampler.ctor (trace : List Ray) (chunkSize : ℕ) (cellSize : ℚ)
    (maxT : Option ℚ) (min_ max_ : Float3) : VolumetricSampler :=
  { dirty_ := true
    filter_ := RayFilter.IncludeAllRays
    chunkSize_ := chunkSize
    cellSize_ := cellSize
    maxT_ := maxT
    trace := trace
    maxRays_ := 0
    min_ := min_
    max_ := max_
    data_ := [] }

/-- The defaulted constructor `VolumetricSampler() = default`: every member takes
its initialiser of the header; `trace`, `min_` and `max_` have none and are
arguments here. -/
def VolumetricSampler.ctorDefault (trace : List Ray) (min_ max_ : Float3) : VolumetricSampler :=
  { dirty_ := true
    filter_ := RayFilter.IncludeAllRays
    chunkSize_ := 0
    cellSize_ := 0
    maxT_ := none
    trace := trace
    maxRays_ := 0
    min_ := min_
    max_ := max_
    data_ := [] }

/-- The method `VolumetricSampler::SetFilter` (the warning it logs for
`RayFilter::None` is not state). -/
def VolumetricSampler.SetFilter (s : VolumetricSampler) (filter : RayFilter) :
    VolumetricSampler :=
  { s with dirty_ := true, filter_ := filter }

/-- The method `VolumetricSampler::SetChunkSize`. -/
def VolumetricSampler.SetChunkSize (s : VolumetricSampler) (chunkSize : ℕ) :
    VolumetricSampler :=
  { s with dirty_ := true, chunkSize_ := chunkSize }

/-- The method `VolumetricSampler::SetCellSize`. -/
def VolumetricSampler.SetCellSize (s : VolumetricSampler) (cellSize : ℚ) :
    VolumetricSampler :=
  { s with dirty_ := true, cellSize_ := cellSize }

/-- The method `VolumetricSampler::SetMaxT`. -/
def VolumetricSampler.SetMaxT (s : VolumetricSampler) (maxT : Option ℚ) :
    VolumetricSampler :=
  { s with dirty_ := true, maxT_ := maxT }

/-- The getter `VolumetricSampler::IsDirty`. -/
def VolumetricSampler.IsDirty (s : VolumetricSampler) : Bool := s.dirty_

/-- The getter `VolumetricSampler::Data` (the vector it points to). -/
def VolumetricSampler.Data (s : VolumetricSampler) : List ChunkData := s.data_

/-- The getter `VolumetricSampler::MaxRays`. -/
def VolumetricSampler.MaxRays (s : VolumetricSampler) : ℕ := s.maxRays_

/-- The getter `VolumetricSampler::MinBounds`. -/
def VolumetricSampler.MinBounds (s : VolumetricSampler) : Float3 := s.min_

/-- The getter `VolumetricSampler::MaxBounds`. -/
def VolumetricSampler.MaxBounds (s : VolumetricSampler) : Float3 := s.max_

/-- The getter `VolumetricSampler::ChunkCount`. -/
def VolumetricSampler.ChunkCount (s : VolumetricSampler) : ℕ := s.data_.length

/-- The public operations of the class on an existing sampler: the four
setters with their argument, `Sample()`, and `Read` for any of the getters
(`GetFootprint`, `Data`, `IsDirty`, `GetFilter`, `ChunkSize`, `CellSize`, `MaxT`,
`MaxRays`, `MinBounds`, `MaxBounds`, `ChunkCount`), whose bodies only return a
member. -/
inductive SamplerOp where
  | SetFilter (filter : RayFilter)
  | SetChunkSize (chunkSize : ℕ)
  | SetCellSize (cellSize : ℚ)
  | SetMaxT (maxT : Option ℚ)
  | Sample
  | Read

/-- The sampler after one operation; `none` when `Sample()` fails. -/
def SamplerOp.run (nanInterval : NanInterval) (normalize : Double3 → Float3)
    (missTolerance : ℚ) : SamplerOp → VolumetricSampler → Option VolumetricSampler
  | SamplerOp.SetFilter filter, s => some (s.SetFilter filter)
  | SamplerOp.SetChunkSize chunkSize, s => some (s.SetChunkSize chunkSize)
  | SamplerOp.SetCellSize cellSize, s => some (s.SetCellSize cellSize)
  | SamplerOp.SetMaxT maxT, s => some (s.SetMaxT maxT)
  | SamplerOp.Sample, s => RayVis.Sample nanInterval normalize missTolerance s
  | SamplerOp.Read, s => some s

/-! ### Predicates for the intersection and discovery claims -/

/-- The point `p` lies in the closed axis-aligned box with corners `boxMin` and
`boxMax`. -/
def InBox (p boxMin boxMax : Double3) : Prop :=
  (boxMin.x ≤ p.x ∧ p.x ≤ boxMax.x) ∧ (boxMin.y ≤ p.y ∧ p.y ≤ boxMax.y) ∧
    (boxMin.z ≤ p.z ∧ p.z ≤ boxMax.z)

/-! ### ChunkedArray3D: storage locations, reads and access sequences -/

/-- The block key `chunkId` that both `At` overloads compute for `pos`
(lines 18 and 52 of ChunkedArray3D.h). -/
def blockKey (chunkSize : ℕ) (pos : Int3) : Int3 :=
  ⟨pos.x / chunkSize, pos.y / chunkSize, pos.z / chunkSize⟩

/-- The index inside the block that the mutable `At` computes for `pos`
(lines 32-34): `chunkInternalId.x * chunkSize * chunkSize +
chunkInternalId.y * chunkSize + chunkInternalId.z`. -/
def blockIndex (chunkSize : ℕ) (pos : Int3) : ℕ :=
  (pos.x % chunkSize * chunkSize * chunkSize + pos.y % chunkSize * chunkSize
    + pos.z % chunkSize).toNat

/-- The value that a reference returned by the mutable `At` denotes: entry `i`
of the block with key `key`. -/
def ChunkedArray3D.load (c : ChunkedArray3D) (key : Int3) (i : ℕ) : ℕ :=
  ((mapFind key c.data_).getD []).getD i 0

/-- A read through the mutable `At`: the array after the call and the value of
the returned reference. -/
def ChunkedArray3D.AtGet (c : ChunkedArray3D) (pos : Int3) : Option (ChunkedArray3D × ℕ) :=
  (c.At pos).map (fun r => (r.1, r.1.load r.2.1 r.2.2))

/-- The index inside the block that the const `At` computes for `pos`
(line 59): `chunkInternalId.x * chunkSize * chunkSize + pos.y * chunkSize + pos.z`,
with `pos.y` and `pos.z` where the mutable overload has the components of
`chunkInternalId`. -/
def constIndex (chunkSize : ℕ) (pos : Int3) : ℕ :=
  (pos.x % chunkSize * chunkSize * chunkSize + pos.y * chunkSize + pos.z).toNat

/-- The const `ChunkedArray3D::At(pos)` (lines 47-60): the entry at `constIndex`
of the block of `pos`.  The result is `none` when an assertion fails, when
`chunkSize` is 0, when the index lies outside the block (an out-of-bounds read
of the vector), and when the block does not exist: there the source returns a
reference to the temporary `T()`, which is gone when the caller reads it. -/
def ChunkedArray3D.AtConst (c : ChunkedArray3D) (pos : Int3) : Option ℕ :=
  if 0 ≤ pos.x ∧ 0 ≤ pos.y ∧ 0 ≤ pos.z ∧ c.chunkSize ≠ 0 then
    match mapFind (blockKey c.chunkSize pos) c.data_ with
    | none => none
    | some block =>
      if constIndex c.chunkSize pos < block.length then
        some (block.getD (constIndex c.chunkSize pos) 0)
      else none
  else none

/-- One access to a `ChunkedArray3D` through the mutable `At`: a read of the
returned reference, or the assignment of a value to it. -/
inductive Access where
  | read (pos : Int3)
  | write (pos : Int3) (v : ℕ)

/-- The position an access goes to. -/
def Access.pos : Access → Int3
  | Access.read pos => pos
  | Access.write pos _ => pos

/-- The array after one access; `none` when `At` fails. -/
def Access.run (c : ChunkedArray3D) : Access → Option ChunkedArray3D
  | Access.read pos => (c.AtGet pos).map Prod.fst
  | Access.write pos v => c.AtPut pos v

/-- The effect of one access on a total map from positions to values: a write
changes the value at its position and nowhere else, a read changes nothing. -/
def Access.apply (m : Int3 → ℕ) : Access → Int3 → ℕ
  | Access.read _ => m
  | Access.write pos v => fun q => if q = pos then v else m q

/-- The total map from positions to values that a sequence of accesses
describes, the accesses taken in order: the default `T() = 0` everywhere before
the first access. -/
def Access.mapAfter (l : List Access) : Int3 → ℕ :=
  l.foldl Access.apply (fun _ => 0)

/-- The accesses of a sequence run one after the other on an array. -/
def runAccesses (c : ChunkedArray3D) (l : List Access) : Option ChunkedArray3D :=
  l.foldlM Access.run c

/-- The invariant of a `ChunkedArray3D` in use: `chunkSize` is not 0, every
block has `chunkSize^3` entries, and the last-block cache names the initial
`(-1,-1,-1)` or the key of a block that exists. -/
def ChunkedArray3D.Wf (c : ChunkedArray3D) : Prop :=
  c.chunkSize ≠ 0 ∧
  (∀ e ∈ c.data_, e.2.length = c.chunkSize * c.chunkSize * c.chunkSize) ∧
  (c.lastChunkId_ = ⟨-1, -1, -1⟩ ∨ (mapFind c.lastChunkId_ c.data_).isSome = true)

/-- The three coordinates are not negative: the positions that pass the
assertions of `ChunkedArray3D::At` and of the discovery callback. -/
def Int3.NonNeg (p : Int3) : Prop := 0 ≤ p.x ∧ 0 ≤ p.y ∧ 0 ≤ p.z

/-- The value stored for position `q`: the entry at the storage location that
the mutable `At` uses for `q`. -/
def ChunkedArray3D.valueAt (c : ChunkedArray3D) (q : Int3) : ℕ :=
  c.load (blockKey c.chunkSize q) (blockIndex c.chunkSize q)

/-! ### Chunk discovery: flagged locations and visited voxels -/

/-- The chunk index `base + index` that step 2 computes for the flag at linear
index `i` of the block with key `key` (lines 117-126). -/
def stepTwoIndex (key : Int3) (i : ℕ) : Int3 :=
  ⟨key.x * 128 + ((i / 128 / 128 : ℕ) : ℤ), key.y * 128 + (((i / 128) % 128 : ℕ) : ℤ),
    key.z * 128 + ((i % 128 : ℕ) : ℤ)⟩

/-- The set flags of a flag array as pairs (block key, linear index), in the
order in which the loops of step 2 meet them: block after block in the order
of `data_`, inside a block by increasing index. -/
def flaggedLocs (data : List (Int3 × List ℕ)) : List (Int3 × ℕ) :=
  data.flatMap (fun e => (flaggedFrom 0 e.2).map (fun i => (e.1, i)))

/-- The order of the pairs (block key, linear index): by key in the key order of
the map, then by index. -/
def locLt (a b : Int3 × ℕ) : Prop :=
  Int3.lt a.1 b.1 = true ∨ (a.1 = b.1 ∧ a.2 < b.2)

/-- The voxels that the traversals of step 1 hand to the discovery callback,
ray after ray. -/
def discoveryCells (missTolerance : ℚ) (maxT_ : Option ℚ) (voxelSize : ℚ) (min : Float3)
    (rays : List Ray) : List Int3 :=
  rays.flatMap (fun ray =>
    VoxelTraceCells (chunkSegment missTolerance maxT_ voxelSize min ray).1
      (chunkSegment missTolerance maxT_ voxelSize min ray).2)

/-- The entries of `data_` are in strictly increasing key order (the iteration
order of `std::map`) and every key has non-negative components. -/
def ChunkedArray3D.KeysSorted (c : ChunkedArray3D) : Prop :=
  (c.data_.map Prod.fst).Pairwise (fun a b => Int3.lt a b = true) ∧
    ∀ e ∈ c.data_, e.1.NonNeg

/-- A sampler whose one ray runs from `(2,2,2)` back to the corner `(0,0,0)` of
the bounds: `chunkSize = 2`, `cellSize = 1`, filter `IncludeAllRays`, no `maxT`;
the ray has direction `(-1,-1,-1)`, `tMin = 0`, `tMax = 2` and no hit. -/
def scenarioBack : VolumetricSampler :=
  { dirty_ := true
    filter_ := RayFilter.IncludeAllRays
    chunkSize_ := 2
    cellSize_ := 1
    maxT_ := none
    trace := [{ rayId := 0, origin := ⟨2, 2, 2⟩, tMin := 0, direction := ⟨-1, -1, -1⟩,
                tMax := 2, tHit := -1 }]
    maxRays_ := 0
    min_ := ⟨0, 0, 0⟩
    max_ := ⟨0, 0, 0⟩
    data_ := [] }

/-- The rays of `scenarioSpur`.  The first runs from `(-2^-24, 1/4, 1/4)` to
`(-2^-25, 5/4, 1/2)`: it stays below `x = 0`, and its extent in `x` is `2^-25`,
less than `10^-7`.  The second is a short ray from `(-1, 0, 0)` that fixes the
lower corner of the bounds.  All coordinates, and the sums and differences the
source forms from them in steps 0 and 1, are floats. -/
def scenarioSpur_rays : List Ray :=
  [{ rayId := 0, origin := ⟨-(1 / 16777216), 1 / 4, 1 / 4⟩, tMin := 0,
     direction := ⟨1 / 33554432, 1, 1 / 4⟩, tMax := 1, tHit := -1 },
   { rayId := 1, origin := ⟨-1, 0, 0⟩, tMin := 0, direction := ⟨1, 1, 1⟩, tMax := 1 / 4,
     tHit := -1 }]

/-- A sampler with `chunkSize = 1`, `cellSize = 1`, filter `IncludeAllRays` and
no `maxT` over `scenarioSpur_rays`. -/
def scenarioSpur : VolumetricSampler :=
  { dirty_ := true
    filter_ := RayFilter.IncludeAllRays
    chunkSize_ := 1
    cellSize_ := 1
    maxT_ := none
    trace := scenarioSpur_rays
    maxRays_ := 0
    min_ := ⟨0, 0, 0⟩
    max_ := ⟨0, 0, 0⟩
    data_ := [] }

/-- The sampler after `Sample()` on `scenarioSpur`: two chunks, with the indices
`(0,0,0)` and `(1,0,0)`. -/
def scenarioSpur_result (normalize : Double3 → Float3) : VolumetricSampler :=
  { scenarioSpur with
    data_ := [{ makeTask 1 1 ⟨-1, 0, 0⟩ ⟨0, 0, 0⟩ 0 with
                rayCount := 2
                rayDensity := [2]
                directions := [normalize ⟨1 + 1 / 33554432, 2, 5 / 4⟩]
                maxRays := 2 },
              { makeTask 1 1 ⟨-1, 0, 0⟩ ⟨0, 0, 0⟩ 16384 with
                rayCount := 2
                missedRays := 2
                directions := [normalize ⟨0, 0, 0⟩]
                maxRays := 0 }]
    maxRays_ := 2
    min_ := ⟨-1, 0, 0⟩
    max_ := ⟨1, 1, 1⟩
    dirty_ := false }

/-- The chunk task of lines 120-130 as a function of the chunk index that the
lines 117-126 compute: `makeTask` is this task at `stepTwoIndex key i`. -/
def makeTaskAt (chunkSize_ : ℕ) (voxelSize : ℚ) (min : Float3) (chunkIdx : Int3) : ChunkData :=
  let mn : Float3 := (Double3.smul ⟨chunkIdx.x, chunkIdx.y, chunkIdx.z⟩ voxelSize).add min
  { chunkIdx := chunkIdx
    maxRays := 0
    min := mn
    max := mn.add ⟨voxelSize, voxelSize, voxelSize⟩
    rayDensity := List.replicate (chunkSize_ * chunkSize_ * chunkSize_) 0
    directions := List.replicate (chunkSize_ * chunkSize_ * chunkSize_) ⟨0, 0, 0⟩
    chunkSize := chunkSize_
    rayCount := 0
    missedRays := 0 }

/-- The loop state of VoxelTrace at line 62 for the start point
`(-2^1023, 0.5, 0.5)` and the end point `(2^1023, 0.5, 0.5)`, as the doubles of
the source compute it (`traceInit64`).  The difference `x2 - x1 = 2^1024` is
above the largest double and becomes `+inf`, so `dx = SIGN(inf) = 1` and
`tDeltaX = fmin(1 / inf, 10000000.0) = 0`; `FRAC1(x1) = 1 - x1 + floor(x1)` is
`2^1023 - 2^1023 = 0`, so `tMaxX = 0`.  The other two axes have a zero delta:
`dy = dz = 0`, `tDelta = 10000000` and `tMax = 10000000 * FRAC0(0.5) = 5000000`.
The voxel is `((int)x1, 0, 0)` with `(int)x1 = INT_MIN`. -/
def stalledState : TraceState :=
  { voxel := ⟨-2147483648, 0, 0⟩
    tMaxX := 0
    tMaxY := 5000000
    tMaxZ := 5000000
    dx := 1
    dy := 0
    dz := 0
    tDeltaX := 0
    tDeltaY := 10000000
    tDeltaZ := 10000000 }

/-- The ray of `scenarioCap`: from `(0,0,0)` in direction `(1024, 1/4, 1/4)`
with `tMin = 0`, `tMax = 1` and no hit. -/
def capRay : Ray :=
  { rayId := 0, origin := ⟨0, 0, 0⟩, tMin := 0, direction := ⟨1024, 1 / 4, 1 / 4⟩, tMax := 1,
    tHit := -1 }

/-- A sampler whose one ray `capRay` crosses 1024 chunks, sampled with
`chunkSize = 1`, `cellSize = 1`, the filter `IncludeAllRays` and no `maxT`.  The
chunks that step 1 flags are those with the indices `(0,0,0)` to `(1023,0,0)`;
the quotients, products and sums that the source forms on this input are floats
(resp. doubles), up to the constant `chunkSize - 0.001`. -/
def scenarioCap : VolumetricSampler :=
  { dirty_ := true
    filter_ := RayFilter.IncludeAllRays
    chunkSize_ := 1
    cellSize_ := 1
    maxT_ := none
    trace := [capRay]
    maxRays_ := 0
    min_ := ⟨0, 0, 0⟩
    max_ := ⟨0, 0, 0⟩
    data_ := [] }

/-- The ray of `scenarioSat`: from the origin along the diagonal, of length
`1/4` in units of the direction, without a hit. -/
def satRay : Ray :=
  { rayId := 0, origin := ⟨0, 0, 0⟩, tMin := 0, direction := ⟨1, 1, 1⟩, tMax := 1 / 4,
    tHit := -1 }

/-- A sampler whose trace holds the ray `satRay` 65535 times, sampled with
`chunkSize = 1`, `cellSize = 1`, the filter `IncludeAllRays` and no `maxT`:
every ray runs through the one cell of the one chunk. -/
def scenarioSat : VolumetricSampler :=
  { dirty_ := true
    filter_ := RayFilter.IncludeAllRays
    chunkSize_ := 1
    cellSize_ := 1
    maxT_ := none
    trace := List.replicate 65535 satRay
    maxRays_ := 0
    min_ := ⟨0, 0, 0⟩
    max_ := ⟨0, 0, 0⟩
    data_ := [] }

/-- A ray parallel to the x axis: from `(1/2, 1/2, 1/2)` in direction
`(1, 0, 0)` with `tMin = 0`, `tMax = 1/4` and no hit. -/
def axisRay : Ray :=
  { rayId := 1, origin := ⟨1 / 2, 1 / 2, 1 / 2⟩, tMin := 0, direction := ⟨1, 0, 0⟩,
    tMax := 1 / 4, tHit := -1 }

/-- A sampler over the rays `satRay` and `axisRay`, with `chunkSize = 1`,
`cellSize = 1`, the filter `IncludeAllRays` and no `maxT`: both rays stay in the
chunk `(0,0,0)`, whose box runs from `(0,0,0)` to `(1,1,1)`. -/
def scenarioAxis : VolumetricSampler :=
  { dirty_ := true
    filter_ := RayFilter.IncludeAllRays
    chunkSize_ := 1
    cellSize_ := 1
    maxT_ := none
    trace := [satRay, axisRay]
    maxRays_ := 0
    min_ := ⟨0, 0, 0⟩
    max_ := ⟨0, 0, 0⟩
    data_ := [] }

/-- A short ray along the diagonal from `(1000, 1000, 1000)`, with `tMin = 0`,
`tMax = 1/256` and no hit. -/
def roundRay : Ray :=
  { rayId := 0, origin := ⟨1000, 1000, 1000⟩, tMin := 0, direction := ⟨1, 1, 1⟩,
    tMax := 1 / 256, tHit := -1 }

/-- A sampler over `roundRay` with `chunkSize = 1` and
`cellSize = 0.01f = 10737418 / 2^30`, the filter `IncludeAllRays` and no
`maxT`: the lower ray bound is `(1000, 1000, 1000)` and the ray stays in the
chunk `(0,0,0)`. -/
def scenarioRound : VolumetricSampler :=
  { dirty_ := true
    filter_ := RayFilter.IncludeAllRays
    chunkSize_ := 1
    cellSize_ := 10737418 / 1073741824
    maxT_ := none
    trace := [roundRay]
    maxRays_ := 0
    min_ := ⟨0, 0, 0⟩
    max_ := ⟨0, 0, 0⟩
    data_ := [] }

/-- The chunk of `scenarioRound` after `Sample()`, with the corners of exact
arithmetic. -/
def scenarioRound_chunk : ChunkData :=
  { makeTask 1 (10737418 / 1073741824) ⟨1000, 1000, 1000⟩ ⟨0, 0, 0⟩ 0 with
    rayCount := 1
    rayDensity := [1]
    directions := [⟨1, 1, 1⟩]
    maxRays := 1 }

/-- The sampler after `Sample()` on `scenarioRound`. -/
def scenarioRound_result : VolumetricSampler :=
  { scenarioRound with
    data_ := [scenarioRound_chunk]
    maxRays_ := Max.max 0 scenarioRound_chunk.maxRays
    min_ := Double3.min ⟨FLT_MAX, FLT_MAX, FLT_MAX⟩
      (scenarioRound_chunk.min.min scenarioRound_chunk.max)
    max_ := Double3.max ⟨-FLT_MAX, -FLT_MAX, -FLT_MAX⟩
      (scenarioRound_chunk.min.max scenarioRound_chunk.max)
    dirty_ := false }

/-! ### The chunk boxes in binary32 -/

/-- The float product: the exact product rounded to binary32; zero times an
infinity is NaN. -/
def FloatX.mul32 : FloatX → FloatX → FloatX
  | FloatX.fin a, FloatX.fin b => round32 (a * b)
  | FloatX.nan, _ => FloatX.nan
  | _, FloatX.nan => FloatX.nan
  | FloatX.fin a, FloatX.posInf =>
    if a = 0 then FloatX.nan else if 0 < a then FloatX.posInf else FloatX.negInf
  | FloatX.fin a, FloatX.negInf =>
    if a = 0 then FloatX.nan else if 0 < a then FloatX.negInf else FloatX.posInf
  | FloatX.posInf, FloatX.fin b =>
    if b = 0 then FloatX.nan else if 0 < b then FloatX.posInf else FloatX.negInf
  | FloatX.negInf, FloatX.fin b =>
    if b = 0 then FloatX.nan else if 0 < b then FloatX.negInf else FloatX.posInf
  | FloatX.posInf, FloatX.posInf => FloatX.posInf
  | FloatX.negInf, FloatX.negInf => FloatX.posInf
  | FloatX.posInf, FloatX.negInf => FloatX.negInf
  | FloatX.negInf, FloatX.posInf => FloatX.negInf

/-- The float sum: the exact sum rounded to binary32; the sum of the two
infinities of opposite sign is NaN. -/
def FloatX.add32 : FloatX → FloatX → FloatX
  | FloatX.fin a, FloatX.fin b => round32 (a + b)
  | FloatX.nan, _ => FloatX.nan
  | _, FloatX.nan => FloatX.nan
  | FloatX.posInf, FloatX.negInf => FloatX.nan
  | FloatX.negInf, FloatX.posInf => FloatX.nan
  | FloatX.posInf, _ => FloatX.posInf
  | _, FloatX.posInf => FloatX.posInf
  | FloatX.negInf, _ => FloatX.negInf
  | _, FloatX.negInf => FloatX.negInf

/-- A `Float3` whose components may be infinite or NaN. -/
structure Float3X where
  x : FloatX
  y : FloatX
  z : FloatX
  deriving DecidableEq

/-- A vector of finite floats as a `Float3X`. -/
def Float3.toX (p : Float3) : Float3X := ⟨FloatX.fin p.x, FloatX.fin p.y, FloatX.fin p.z⟩

/-- The line `const float voxelSize = chunkSize_ * cellSize_;` in binary32:
`chunkSize_`, a `size_t`, is converted to `float` and the product is rounded. -/
def voxelSize32 (chunkSize_ : ℕ) (cellSize_ : ℚ) : FloatX :=
  (round32 chunkSize_).mul32 (FloatX.fin cellSize_)

/-- One axis of the two lines
`taskData.min = Float3(taskData.chunkIdx) * voxelSize + min;` and
`taskData.max = taskData.min + Float3(voxelSize);` in binary32: the index is
converted to `float`, and the product and both sums are rounded. -/
def taskCorners32 (voxelSize : FloatX) (min : ℚ) (idx : ℤ) : FloatX × FloatX :=
  let mn : FloatX := ((round32 idx).mul32 voxelSize).add32 (FloatX.fin min)
  (mn, mn.add32 voxelSize)

/-- The box `(taskData.min, taskData.max)` of step 2 in binary32, from the
lower ray bound `min` of step 0 and the chunk index. -/
def taskBox32 (chunkSize_ : ℕ) (cellSize_ : ℚ) (min : Float3) (chunkIdx : Int3) :
    Float3X × Float3X :=
  let v := voxelSize32 chunkSize_ cellSize_
  (⟨(taskCorners32 v min.x chunkIdx.x).1, (taskCorners32 v min.y chunkIdx.y).1,
      (taskCorners32 v min.z chunkIdx.z).1⟩,
    ⟨(taskCorners32 v min.x chunkIdx.x).2, (taskCorners32 v min.y chunkIdx.y).2,
      (taskCorners32 v min.z chunkIdx.z).2⟩)

/-- The number `x` is a binary32 value: rounding leaves it as it is. -/
def Exact32 (x : ℚ) : Prop := round32 x = FloatX.fin x

instance (x : ℚ) : Decidable (Exact32 x) := by unfold Exact32; infer_instance

/-- The edge from `mn` to `mx`, when both are finite, differs from `v` by at
most half a unit in the last place of the sum `mn + v`. -/
def EdgeWithinHalfUlp (v : ℚ) (mn mx : FloatX) : Prop :=
  ∀ a b : ℚ, mn = FloatX.fin a → mx = FloatX.fin b →
    |(b - a) - v| ≤ 2 ^ (expo32 |a + v| - 24)

/-- None of the four operations that give one axis of a chunk box rounds: the
index, its product with `v`, the sum with the lower bound `m` and the sum with
`v` once more are binary32 values. -/
def AxisExact (v m : ℚ) (idx : ℤ) : Prop :=
  Exact32 idx ∧ Exact32 (idx * v) ∧ Exact32 (idx * v + m) ∧ Exact32 (idx * v + m + v)

instance (v m : ℚ) (idx : ℤ) : Decidable (AxisExact v m idx) := by
  unfold AxisExact; infer_instance

/-! ## Theorems -/

/-! ### VoxelTrace: termination -/

theorem tDeltaInit_pos (a b : ℚ) : 0 < tDeltaInit a b := by
  unfold tDeltaInit SIGN
  rcases lt_trichotomy (b - a) 0 with h | h | h
  · have h1 : ¬ (b - a > 0) := not_lt.mpr h.le
    simp only [h1, h, if_true, if_false]
    have h2 : (0 : ℚ) < -1 / (b - a) := div_pos_of_neg_of_neg (by norm_num) h
    simp [lt_min_iff, h2]
  · simp [h]
  · have h2 : a < b := sub_pos.mp h
    simp only [gt_iff_lt, h, if_true]
    simp [lt_min_iff, h2]

theorem traceInit_posDeltas (start end_ : Double3) : PosDeltas (traceInit start end_) :=
  ⟨tDeltaInit_pos _ _, tDeltaInit_pos _ _, tDeltaInit_pos _ _⟩

theorem stepsNeeded_eq_zero_iff (t d : ℚ) : stepsNeeded t d = 0 ↔ t > 1 := by
  unfold stepsNeeded
  split_ifs with h <;> simp [h]

theorem stepsNeeded_step (t d : ℚ) (hd : 0 < d) (ht : t ≤ 1) :
    stepsNeeded (t + d) d + 1 = stepsNeeded t d := by
  unfold stepsNeeded
  have ht1 : ¬ (t > 1) := not_lt.mpr ht
  simp only [ht1, if_false]
  by_cases h : t + d > 1
  · simp only [h, if_true]
    have h0 : ⌊(1 - t) / d⌋ = 0 := by
      rw [Int.floor_eq_iff]
      constructor
      · simpa using div_nonneg (sub_nonneg.mpr ht) hd.le
      · rw [Int.cast_zero, zero_add, div_lt_one hd]
        linarith
    simp [h0]
  · simp only [h, if_false]
    have h1 : (1 - (t + d)) / d = (1 - t) / d - 1 := by
      field_simp
      ring
    have h2 : 0 ≤ ⌊(1 - (t + d)) / d⌋ := by
      apply Int.floor_nonneg.mpr
      apply div_nonneg _ hd.le
      linarith [not_lt.mp h]
    have h3 : ⌊(1 - t) / d⌋ = ⌊(1 - (t + d)) / d⌋ + 1 := by
      rw [h1, Int.floor_sub_one]
      ring
    rw [h3]
    omega

theorem traceDone_iff (s : TraceState) :
    traceDone s = true ↔ s.tMaxX > 1 ∧ s.tMaxY > 1 ∧ s.tMaxZ > 1 := by
  simp [traceDone, and_assoc]

theorem traceDone_iff_measure (s : TraceState) : traceDone s = true ↔ traceMeasure s = 0 := by
  rw [traceDone_iff]
  unfold traceMeasure
  simp only [Nat.add_eq_zero, stepsNeeded_eq_zero_iff, and_assoc]

theorem traceStep_posDeltas (s : TraceState) (h : PosDeltas s) : PosDeltas (traceStep s) := by
  unfold traceStep
  split_ifs <;> exact h

theorem traceStep_done (s : TraceState) (h : PosDeltas s) (hd : traceDone s = true) :
    traceDone (traceStep s) = true := by
  rw [traceDone_iff] at hd ⊢
  obtain ⟨hx, hy, hz⟩ := h
  obtain ⟨h1, h2, h3⟩ := hd
  unfold traceStep
  split_ifs <;> refine ⟨?_, ?_, ?_⟩ <;> simp only <;> linarith

theorem traceStep_measure (s : TraceState) (h : PosDeltas s) (hd : traceDone s = false) :
    traceMeasure (traceStep s) + 1 = traceMeasure s := by
  obtain ⟨hx, hy, hz⟩ := h
  have hnd : ¬ (s.tMaxX > 1 ∧ s.tMaxY > 1 ∧ s.tMaxZ > 1) := by
    rw [← traceDone_iff, hd]
    simp
  unfold traceStep traceMeasure
  split_ifs with h1 h2 h3
  · have hle : s.tMaxX ≤ 1 := by
      by_contra hc
      exact hnd ⟨by linarith, by linarith, by linarith⟩
    have := stepsNeeded_step s.tMaxX s.tDeltaX hx hle
    simp only
    omega
  · have hle : s.tMaxZ ≤ 1 := by
      by_contra hc
      exact hnd ⟨by linarith, by linarith, by linarith⟩
    have := stepsNeeded_step s.tMaxZ s.tDeltaZ hz hle
    simp only
    omega
  · have hle : s.tMaxY ≤ 1 := by
      by_contra hc
      exact hnd ⟨by linarith, by linarith, by linarith⟩
    have := stepsNeeded_step s.tMaxY s.tDeltaY hy hle
    simp only
    omega
  · have hle : s.tMaxZ ≤ 1 := by
      by_contra hc
      exact hnd ⟨by linarith, by linarith, by linarith⟩
    have := stepsNeeded_step s.tMaxZ s.tDeltaZ hz hle
    simp only
    omega

theorem traceLoop_of_not_done (k : ℕ) : ∀ s : TraceState, PosDeltas s → traceDone s = false →
    traceMeasure s = k →
    traceDone (traceStep^[k] s) = true ∧
    (∀ m, m < k → traceDone (traceStep^[m] s) = false) ∧
    (∀ fuel, k ≤ fuel → ∃ cells, traceLoop fuel s = some cells ∧ cells.length + 1 = k) ∧
    (∀ fuel, fuel < k → traceLoop fuel s = none) := by
  induction k with
  | zero =>
    intro s _ hd hm
    rw [← traceDone_iff_measure, hd] at hm
    exact absurd hm (by simp)
  | succ k ih =>
    intro s hp hd hm
    have hm1 : traceMeasure (traceStep s) = k := by
      have := traceStep_measure s hp hd
      omega
    by_cases hd1 : traceDone (traceStep s) = true
    · have hk : k = 0 := by
        rw [← hm1]
        exact (traceDone_iff_measure _).mp hd1
      subst hk
      refine ⟨by simpa using hd1, ?_, ?_, ?_⟩
      · intro m hlt
        have : m = 0 := by omega
        subst this
        simpa using hd
      · intro fuel hf
        obtain ⟨f, rfl⟩ : ∃ f, fuel = f + 1 := ⟨fuel - 1, by omega⟩
        exact ⟨[], by simp [traceLoop, hd1], by simp⟩
      · intro fuel hf
        have : fuel = 0 := by omega
        subst this
        rfl
    · have hd1f : traceDone (traceStep s) = false := by simpa using hd1
      obtain ⟨ha, hb, hc, hn⟩ := ih (traceStep s) (traceStep_posDeltas s hp) hd1f hm1
      refine ⟨by simpa [Function.iterate_succ_apply] using ha, ?_, ?_, ?_⟩
      · intro m hlt
        cases m with
        | zero => simpa using hd
        | succ m =>
          rw [Function.iterate_succ_apply]
          exact hb m (by omega)
      · intro fuel hf
        obtain ⟨f, rfl⟩ : ∃ f, fuel = f + 1 := ⟨fuel - 1, by omega⟩
        obtain ⟨cells, hcells, hlen⟩ := hc f (by omega)
        exact ⟨(traceStep s).voxel :: cells, by simp [traceLoop, hd1f, hcells], by simp [hlen]⟩
      · intro fuel hf
        cases fuel with
        | zero => rfl
        | succ f =>
          have := hn f (by omega)
          simp [traceLoop, hd1f, this]

theorem traceLoop_fuel (start end_ : Double3) :
    ∃ cells, VoxelTrace (traceFuel start end_) start end_ = some cells := by
  unfold VoxelTrace traceFuel
  by_cases hd : traceDone (traceInit start end_) = true
  · have h1 := traceStep_done _ (traceInit_posDeltas start end_) hd
    exact ⟨[(traceInit start end_).voxel], by simp [traceLoop, h1]⟩
  · have hdf : traceDone (traceInit start end_) = false := by simpa using hd
    obtain ⟨_, _, hc, _⟩ :=
      traceLoop_of_not_done _ (traceInit start end_) (traceInit_posDeltas start end_) hdf rfl
    obtain ⟨cells, hcells, _⟩ := hc (traceMeasure (traceInit start end_) + 1) (by omega)
    exact ⟨(traceInit start end_).voxel :: cells, by simp [hcells]⟩

/-- In exact arithmetic VoxelTrace terminates for every start and end point:
there is a number `n ≥ 1` of loop iterations such that the exit test (all three
`tMax` above 1) holds after iteration `n` and after no earlier iteration; the
call returns, having handed `n` voxels to the callback, for every iteration
bound of at least `n`, and does not return within fewer iterations.  The proof
rests on `tDeltaInit_pos`: over the rationals every `tDelta` is positive and
every addition `tMax += tDelta` is an increase.  Neither holds for the doubles
of the source, where a difference can overflow to an infinity (`traceInit64`). -/
theorem VoxelTrace_terminates (start end_ : Double3) :
    ∃ n : ℕ, 1 ≤ n ∧
      traceDone (traceStep^[n] (traceInit start end_)) = true ∧
      (∀ m, 1 ≤ m → m < n → traceDone (traceStep^[m] (traceInit start end_)) = false) ∧
      (∀ fuel, n ≤ fuel → ∃ cells, VoxelTrace fuel start end_ = some cells ∧ cells.length = n) ∧
      (∀ fuel, fuel < n → VoxelTrace fuel start end_ = none) := by
  have hp := traceInit_posDeltas start end_
  by_cases hd : traceDone (traceInit start end_) = true
  · have h1 := traceStep_done _ hp hd
    refine ⟨1, le_refl 1, by simpa using h1, ?_, ?_, ?_⟩
    · intro m h1m hm1
      omega
    · intro fuel hf
      obtain ⟨f, rfl⟩ : ∃ f, fuel = f + 1 := ⟨fuel - 1, by omega⟩
      exact ⟨[(traceInit start end_).voxel], by simp [VoxelTrace, traceLoop, h1], by simp⟩
    · intro fuel hf
      have : fuel = 0 := by omega
      subst this
      rfl
  · have hdf : traceDone (traceInit start end_) = false := by simpa using hd
    obtain ⟨ha, hb, hc, hn⟩ := traceLoop_of_not_done _ (traceInit start end_) hp hdf rfl
    have hpos : 1 ≤ traceMeasure (traceInit start end_) := by
      rcases Nat.eq_zero_or_pos (traceMeasure (traceInit start end_)) with h0 | h0
      · rw [← traceDone_iff_measure] at h0
        exact absurd h0 hd
      · exact h0
    refine ⟨traceMeasure (traceInit start end_), hpos, ha, fun m _ hm => hb m hm, ?_, ?_⟩
    · intro fuel hf
      obtain ⟨cells, hcells, hlen⟩ := hc fuel hf
      exact ⟨(traceInit start end_).voxel :: cells, by simp [VoxelTrace, hcells], by simp [hlen]⟩
    · intro fuel hf
      simp [VoxelTrace, hn fuel hf]

theorem traceStep_x (s : TraceState) (hy : s.tMaxX < s.tMaxY) (hz : s.tMaxX < s.tMaxZ) :
    traceStep s =
      { s with
        voxel := { s.voxel with x := s.voxel.x + s.dx }, tMaxX := s.tMaxX + s.tDeltaX } := by
  unfold traceStep
  rw [if_pos hy, if_pos hz]

/-- A loop state whose smallest `tMax` is at most 1 and belongs to the x axis,
with `tDeltaX = 0`: the loop steps along x, leaves `tMaxX` as it is, and the
exit test fails after every iteration. -/
theorem traceLoop_stalled (s : TraceState) (hd : s.tDeltaX = 0) (h1 : s.tMaxX ≤ 1)
    (hy : s.tMaxX < s.tMaxY) (hz : s.tMaxX < s.tMaxZ) :
    ∀ fuel, traceLoop fuel s = none := by
  intro fuel
  induction fuel generalizing s with
  | zero => rfl
  | succ n ih =>
    have hstep := traceStep_x s hy hz
    have hnd : traceDone (traceStep s) = false := by
      rw [hstep]
      simp [traceDone, hd, h1]
    unfold traceLoop
    rw [hnd]
    simp only [Bool.false_eq_true, if_false, Option.map_eq_none']
    apply ih
    · rw [hstep]; exact hd
    · rw [hstep]; simpa [hd] using h1
    · rw [hstep]; simpa [hd] using hy
    · rw [hstep]; simpa [hd] using hz

theorem VoxelTrace_eq_some_cons (fuel : ℕ) (start end_ : Double3) (cells : List Int3)
    (h : VoxelTrace fuel start end_ = some cells) :
    ∃ rest, cells = (traceInit start end_).voxel :: rest := by
  unfold VoxelTrace at h
  cases hl : traceLoop fuel (traceInit start end_) with
  | none => simp [hl] at h
  | some rest =>
    refine ⟨rest, ?_⟩
    simp [hl] at h
    exact h.symm

theorem traceLoop_mono (f : ℕ) : ∀ (s : TraceState) (c : List Int3), traceLoop f s = some c →
    ∀ k, traceLoop (f + k) s = some c := by
  induction f with
  | zero => intro s c h; simp [traceLoop] at h
  | succ f ih =>
    intro s c h k
    have e : f + 1 + k = (f + k) + 1 := by omega
    rw [e]
    unfold traceLoop at h ⊢
    by_cases hd : traceDone (traceStep s) = true
    · simpa [hd] using h
    · simp only [hd] at h ⊢
      cases hl : traceLoop f (traceStep s) with
      | none => simp [hl] at h
      | some r =>
        rw [ih _ _ hl k]
        simpa [hl] using h

theorem VoxelTrace_eq_cells (fuel : ℕ) (start end_ : Double3) (cells : List Int3)
    (h : VoxelTrace fuel start end_ = some cells) : VoxelTraceCells start end_ = cells := by
  obtain ⟨c2, h2⟩ := traceLoop_fuel start end_
  unfold VoxelTraceCells
  rw [h2]
  unfold VoxelTrace at h h2
  cases hl : traceLoop fuel (traceInit start end_) with
  | none => simp [hl] at h
  | some r =>
    cases hl2 : traceLoop (traceFuel start end_) (traceInit start end_) with
    | none => simp [hl2] at h2
    | some r2 =>
      have e1 := traceLoop_mono _ _ _ hl (traceFuel start end_)
      have e2 := traceLoop_mono _ _ _ hl2 fuel
      rw [Nat.add_comm] at e2
      rw [e1] at e2
      simp [hl] at h
      simp [hl2] at h2
      simp only [Option.some.injEq] at e2
      subst e2
      rw [← h, ← h2]
      rfl

theorem VoxelTrace_of_le (f g : ℕ) (start end_ : Double3) (cells : List Int3)
    (h : VoxelTrace f start end_ = some cells) (hfg : f ≤ g) :
    VoxelTrace g start end_ = some cells := by
  obtain ⟨k, rfl⟩ : ∃ k, g = f + k := ⟨g - f, by omega⟩
  unfold VoxelTrace at h ⊢
  cases hl : traceLoop f (traceInit start end_) with
  | none => simp [hl] at h
  | some r =>
    rw [traceLoop_mono _ _ _ hl k]
    simpa [hl] using h

theorem castInt_of_nonneg (x : ℚ) (h : 0 ≤ x) (hlt : x < 2147483648) : castInt x = ⌊x⌋ := by
  have h1 : (-2147483649 : ℚ) < x := by linarith
  simp [castInt, h, hlt, h1]

/-- Claim C8, as amended: for every start point whose coordinates lie in
`[0, 2^31)` and every end point (also one equal to the start), VoxelTrace
returns and the first voxel it hands to the callback is the grid cell of the
start point, `(floor(start.x), floor(start.y), floor(start.z))`. -/
theorem VoxelTrace_first_cell (start end_ : Double3)
    (hx : 0 ≤ start.x ∧ start.x < 2147483648) (hy : 0 ≤ start.y ∧ start.y < 2147483648)
    (hz : 0 ≤ start.z ∧ start.z < 2147483648) :
    ∃ n : ℕ, ∀ fuel, n ≤ fuel → ∃ rest,
      VoxelTrace fuel start end_ = some (⟨⌊start.x⌋, ⌊start.y⌋, ⌊start.z⌋⟩ :: rest) := by
  obtain ⟨cells, hcells⟩ := traceLoop_fuel start end_
  refine ⟨traceFuel start end_, fun fuel hf => ?_⟩
  obtain ⟨rest, hrest⟩ := VoxelTrace_eq_some_cons _ start end_ cells hcells
  refine ⟨rest, ?_⟩
  rw [VoxelTrace_of_le _ fuel start end_ cells hcells hf, hrest]
  simp only [traceInit, castInt_of_nonneg _ hx.1 hx.2, castInt_of_nonneg _ hy.1 hy.2,
    castInt_of_nonneg _ hz.1 hz.2]

/-- Witness for `VoxelTrace_first_cell`: the start point `(1/2, 3/2, 5/2)`,
which is also the end point. -/
theorem VoxelTrace_first_cell_witness :
    ∃ n : ℕ, ∀ fuel, n ≤ fuel → ∃ rest,
      VoxelTrace fuel ⟨1 / 2, 3 / 2, 5 / 2⟩ ⟨1 / 2, 3 / 2, 5 / 2⟩ =
        some (⟨⌊(1 / 2 : ℚ)⌋, ⌊(3 / 2 : ℚ)⌋, ⌊(5 / 2 : ℚ)⌋⟩ :: rest) :=
  VoxelTrace_first_cell ⟨1 / 2, 3 / 2, 5 / 2⟩ ⟨1 / 2, 3 / 2, 5 / 2⟩
    ⟨by norm_num, by norm_num⟩ ⟨by norm_num, by norm_num⟩ ⟨by norm_num, by norm_num⟩

/-- Claim C8 as stated fails outside the range `[0, 2^31)`.  From
`(-1/2, 1/2, 1/2)` the cell of the start point is `(-1, 0, 0)`, but the cast
`(int)x1` truncates toward zero and the first (and only) voxel handed to the
callback is `(0, 0, 0)`; no run starts with the cell of the start point.  From
`(3000000000, 1/2, 1/2)` the cast leaves the range of `int` and the voxel handed
to the callback is `(-2147483648, 0, 0)`. -/
theorem VoxelTrace_first_cell_outside_range :
    VoxelTraceCells ⟨-1 / 2, 1 / 2, 1 / 2⟩ ⟨-1 / 2, 1 / 2, 1 / 2⟩ = [⟨0, 0, 0⟩] ∧
    (⟨⌊(-1 / 2 : ℚ)⌋, ⌊(1 / 2 : ℚ)⌋, ⌊(1 / 2 : ℚ)⌋⟩ : Int3) = ⟨-1, 0, 0⟩ ∧
    (¬ ∃ fuel rest, VoxelTrace fuel ⟨-1 / 2, 1 / 2, 1 / 2⟩ ⟨-1 / 2, 1 / 2, 1 / 2⟩ =
        some (⟨⌊(-1 / 2 : ℚ)⌋, ⌊(1 / 2 : ℚ)⌋, ⌊(1 / 2 : ℚ)⌋⟩ :: rest)) ∧
    VoxelTraceCells ⟨3000000000, 1 / 2, 1 / 2⟩ ⟨3000000000, 1 / 2, 1 / 2⟩ =
      [⟨-2147483648, 0, 0⟩] ∧
    (⟨⌊(3000000000 : ℚ)⌋, ⌊(1 / 2 : ℚ)⌋, ⌊(1 / 2 : ℚ)⌋⟩ : Int3) = ⟨3000000000, 0, 0⟩ := by
  refine ⟨by decide!, by decide!, ?_, by decide!, by decide!⟩
  rintro ⟨fuel, rest, h⟩
  obtain ⟨rest1, h1⟩ := VoxelTrace_eq_some_cons _ _ _ _ h
  have h2 : (⟨⌊(-1 / 2 : ℚ)⌋, ⌊(1 / 2 : ℚ)⌋, ⌊(1 / 2 : ℚ)⌋⟩ : Int3) =
      (traceInit ⟨-1 / 2, 1 / 2, 1 / 2⟩ ⟨-1 / 2, 1 / 2, 1 / 2⟩).voxel := (List.cons.inj h1).1
  exact absurd h2 (by decide!)

/-! ### `IntersectAABB` and the ray loop on directions without a zero component -/

theorem FloatX.min_fin (a b : ℚ) :
    FloatX.min (FloatX.fin a) (FloatX.fin b) = FloatX.fin (Min.min a b) := by
  unfold FloatX.min FloatX.lt
  by_cases h : a < b
  · simp [h, min_eq_left h.le]
  · simp [h, min_eq_right (not_lt.mp h)]

theorem FloatX.max_fin (a b : ℚ) :
    FloatX.max (FloatX.fin a) (FloatX.fin b) = FloatX.fin (Max.max a b) := by
  unfold FloatX.max FloatX.lt
  by_cases h : a < b
  · simp [h, max_eq_right h.le]
  · simp [h, max_eq_left (not_lt.mp h)]

theorem stdMax_fin (a b : ℚ) :
    stdMax (FloatX.fin a) (FloatX.fin b) = FloatX.fin (Max.max a b) := by
  unfold stdMax FloatX.lt
  by_cases h : a < b
  · simp [h, max_eq_right h.le]
  · simp [h, max_eq_left (not_lt.mp h)]

theorem stdMin_fin (a b : ℚ) :
    stdMin (FloatX.fin a) (FloatX.fin b) = FloatX.fin (Min.min a b) := by
  unfold stdMin FloatX.lt
  by_cases h : b < a
  · simp [h, min_eq_right h.le]
  · simp [h, min_eq_left (not_lt.mp h)]

theorem IntersectAABB_of_ne (nanInterval : NanInterval) (o d a b : Float3)
    (hx : d.x ≠ 0) (hy : d.y ≠ 0) (hz : d.z ≠ 0) :
    IntersectAABB nanInterval o d a b = some ⟨FloatX.fin (slabNear o d a b),
      FloatX.fin (slabFar o d a b)⟩ := by
  have h0 : ¬ (d.x = 0 ∧ d.y = 0 ∧ d.z = 0) := fun h => hx h.1
  simp only [IntersectAABB, h0, if_false, FloatX.recip, hx, hy, hz, FloatX.scale,
    FloatX.min_fin, FloatX.max_fin, slabNear, slabFar, reduceCtorEq, or_self, and_self]

theorem IntersectAABB_congr (p q : NanInterval) (o d a b : Float3)
    (h : d.x ≠ 0 ∧ d.y ≠ 0 ∧ d.z ≠ 0) :
    IntersectAABB p o d a b = IntersectAABB q o d a b := by
  rw [IntersectAABB_of_ne p o d a b h.1 h.2.1 h.2.2, IntersectAABB_of_ne q o d a b h.1 h.2.1 h.2.2]

theorem fillRay_congr (p q : NanInterval) (chunkSize_ : ℕ) (cellSize_ : ℚ) (maxT_ : Option ℚ)
    (missTolerance : ℚ) (st : ChunkData × List Double3) (ray : Ray)
    (h : ray.direction.x ≠ 0 ∧ ray.direction.y ≠ 0 ∧ ray.direction.z ≠ 0) :
    fillRay p chunkSize_ cellSize_ maxT_ missTolerance st ray =
      fillRay q chunkSize_ cellSize_ maxT_ missTolerance st ray := by
  unfold fillRay
  rw [IntersectAABB_congr p q _ _ _ _ h]

theorem foldlM_fillRay_congr (p q : NanInterval) (chunkSize_ : ℕ) (cellSize_ : ℚ)
    (maxT_ : Option ℚ) (missTolerance : ℚ) (rays : List Ray)
    (h : ∀ ray ∈ rays, ray.direction.x ≠ 0 ∧ ray.direction.y ≠ 0 ∧ ray.direction.z ≠ 0) :
    ∀ st : ChunkData × List Double3,
      rays.foldlM (fillRay p chunkSize_ cellSize_ maxT_ missTolerance) st =
        rays.foldlM (fillRay q chunkSize_ cellSize_ maxT_ missTolerance) st := by
  induction rays with
  | nil => intro st; rfl
  | cons ray rest ih =>
    intro st
    rw [List.foldlM_cons, List.foldlM_cons,
      fillRay_congr p q _ _ _ _ st ray (h ray (List.mem_cons_self _ _))]
    cases fillRay q chunkSize_ cellSize_ maxT_ missTolerance st ray with
    | none => rfl
    | some st1 => exact ih (fun r hr => h r (List.mem_cons_of_mem _ hr)) st1

theorem fillLoop_congr (p q : NanInterval) (chunkSize_ : ℕ) (cellSize_ : ℚ)
    (maxT_ : Option ℚ) (missTolerance : ℚ) (rays : List Ray) (task : ChunkData)
    (h : ∀ ray ∈ rays, ray.direction.x ≠ 0 ∧ ray.direction.y ≠ 0 ∧ ray.direction.z ≠ 0) :
    fillLoop p chunkSize_ cellSize_ maxT_ missTolerance rays task =
      fillLoop q chunkSize_ cellSize_ maxT_ missTolerance rays task :=
  foldlM_fillRay_congr p q _ _ _ _ rays h _

/-- Claim C1 (the code breaks it): with `chunkSize = 2` and `cellSize = 1` the
ray from `(1, 1, 1)` in direction `(-1, -1, -1)` with `tMin = 0`, `tMax = 1`
hits the chunk with box `[0, 2]^3`; its clamped end points `start = (1, 1, 1)`
and `end = (0, 0, 0)` lie in `[0, chunkSize - 0.001]` on every axis, yet
VoxelTrace hands the voxels `(0, 0, -1)` and `(0, -1, -1)` to the callback,
whose first assertion then fails. -/
theorem VoxelTrace_leaves_chunk (nanInterval : NanInterval) :
    IntersectAABB nanInterval ⟨1, 1, 1⟩ ⟨-1, -1, -1⟩ ⟨0, 0, 0⟩ ⟨2, 2, 2⟩ =
      some ⟨FloatX.fin (-1), FloatX.fin 1⟩ ∧
    HitAABB ⟨FloatX.fin (-1), FloatX.fin 1⟩ 1 = true ∧
    Double3.clamp ⟨1, 1, 1⟩ 0 (2 - 1 / 1000) = ⟨1, 1, 1⟩ ∧
    Double3.clamp ⟨0, 0, 0⟩ 0 (2 - 1 / 1000) = ⟨0, 0, 0⟩ ∧
    VoxelTraceCells ⟨1, 1, 1⟩ ⟨0, 0, 0⟩ =
      [⟨1, 1, 1⟩, ⟨1, 1, 0⟩, ⟨1, 0, 0⟩, ⟨0, 0, 0⟩, ⟨0, 0, -1⟩, ⟨0, -1, -1⟩] ∧
    visitCells 2 ⟨-1, -1, -1⟩ (CellArrays.fresh 2) (VoxelTraceCells ⟨1, 1, 1⟩ ⟨0, 0, 0⟩) = none ∧
    fillRay nanInterval 2 1 none (1 / 10)
      (makeTask 2 2 ⟨0, 0, 0⟩ ⟨0, 0, 0⟩ 0, List.replicate (2 * 2 * 2) ⟨0, 0, 0⟩)
      { rayId := 0, origin := ⟨1, 1, 1⟩, tMin := 0, direction := ⟨-1, -1, -1⟩, tMax := 1,
        tHit := -1 } = none := by
  refine ⟨?_, by decide!, by decide!, by decide!, by decide!, by decide!, ?_⟩
  · rw [IntersectAABB_congr nanInterval nanBoth _ _ _ _ (by decide!)]
    decide!
  · rw [fillRay_congr nanInterval nanBoth _ _ _ _ _ _ (by decide!)]
    decide!

/-- Claim C5 (the code breaks it): on the segment from `(1/2, 0, 0)` to
`(5/2, 0, 0)` VoxelTrace hands the cell `(0, 0, 0)` to the callback three
times: the two axes without movement start on an integer coordinate, so their
`tMax` is 0 and each takes one step of length 0 before the x axis moves. -/
theorem VoxelTrace_repeats_cell :
    VoxelTraceCells ⟨1 / 2, 0, 0⟩ ⟨5 / 2, 0, 0⟩ =
      [⟨0, 0, 0⟩, ⟨0, 0, 0⟩, ⟨0, 0, 0⟩, ⟨1, 0, 0⟩] ∧
    (VoxelTraceCells ⟨1 / 2, 0, 0⟩ ⟨5 / 2, 0, 0⟩).count ⟨0, 0, 0⟩ = 3 := by
  refine ⟨by decide!, by decide!⟩

/-- Claim C6 (the code breaks it): on the segment from `(1/2, 1/2, 1/2)` to
`(5/2, 1/2, 1/2)` VoxelTrace hands only `(0, 0, 0)` and `(1, 0, 0)` to the
callback; the cell `(2, 0, 0)` that contains the end point is entered by the
last step, after which the exit test leaves the loop before the callback. -/
theorem VoxelTrace_skips_end_cell :
    VoxelTraceCells ⟨1 / 2, 1 / 2, 1 / 2⟩ ⟨5 / 2, 1 / 2, 1 / 2⟩ = [⟨0, 0, 0⟩, ⟨1, 0, 0⟩] ∧
    (⟨⌊(5 / 2 : ℚ)⌋, ⌊(1 / 2 : ℚ)⌋, ⌊(1 / 2 : ℚ)⌋⟩ : Int3) = ⟨2, 0, 0⟩ ∧
    (⟨⌊(5 / 2 : ℚ)⌋, ⌊(1 / 2 : ℚ)⌋, ⌊(1 / 2 : ℚ)⌋⟩ : Int3) ∉
      VoxelTraceCells ⟨1 / 2, 1 / 2, 1 / 2⟩ ⟨5 / 2, 1 / 2, 1 / 2⟩ := by
  refine ⟨by decide!, by decide!, by decide!⟩


theorem getD_set_eq (l : List ℕ) (j v i : ℕ) :
    (l.set j v).getD i 0 = if i = j ∧ j < l.length then v else l.getD i 0 := by
  simp only [List.getD_eq_getElem?_getD, List.getElem?_set]
  by_cases hij : j = i
  · subst hij
    by_cases hl : j < l.length
    · simp [hl]
    · simp [hl, List.getElem?_eq_none (not_lt.mp hl)]
  · have : ¬ (i = j ∧ j < l.length) := fun h => hij h.1.symm
    simp [hij, this]

theorem incDensity_le (v : ℕ) (h : v ≤ 65534) : v ≤ incDensity v ∧ incDensity v ≤ 65534 := by
  unfold incDensity rdTypeMax
  split_ifs with h1
  · have : v + 1 < 65536 := by omega
    rw [Nat.mod_eq_of_lt this]
    omega
  · omega

theorem fresh_densityBelowMax (size : ℕ) : DensityBelowMax (CellArrays.fresh size) := by
  intro i
  simp [CellArrays.fresh, List.getD_eq_getElem?_getD, List.getElem?_replicate]
  split_ifs <;> simp

theorem visitCell_density (size : ℕ) (dir : Float3) (a b : CellArrays) (voxel : Int3)
    (h : visitCell size dir a voxel = some b) :
    b.rayDensity = a.rayDensity.set (voxel.x * size * size + voxel.y * size + voxel.z).toNat
      (incDensity (a.rayDensity.getD (voxel.x * size * size + voxel.y * size + voxel.z).toNat 0)) := by
  unfold visitCell at h
  split_ifs at h
  simp only [Option.some.injEq] at h
  rw [← h]

theorem visitCell_le (size : ℕ) (dir : Float3) (a b : CellArrays) (voxel : Int3)
    (ha : DensityBelowMax a) (h : visitCell size dir a voxel = some b) :
    DensityBelowMax b ∧ ∀ i, a.rayDensity.getD i 0 ≤ b.rayDensity.getD i 0 := by
  have hb := visitCell_density size dir a b voxel h
  constructor
  · intro i
    rw [hb, getD_set_eq]
    split_ifs
    · exact (incDensity_le _ (ha _)).2
    · exact ha i
  · intro i
    rw [hb, getD_set_eq]
    split_ifs with hi
    · rw [hi.1]
      exact (incDensity_le _ (ha _)).1
    · exact le_refl _

theorem visitSeq_densityBelowMax (size : ℕ) (visits : List (Float3 × Int3)) :
    ∀ a b : CellArrays, DensityBelowMax a → visitSeq size a visits = some b →
      DensityBelowMax b := by
  induction visits with
  | nil =>
    intro a b ha h
    simp [visitSeq] at h
    rw [← h]
    exact ha
  | cons v rest ih =>
    intro a b ha h
    simp only [visitSeq, List.foldlM_cons] at h
    cases hv : visitCell size v.1 a v.2 with
    | none => simp [hv] at h
    | some a1 =>
      rw [hv] at h
      exact ih a1 b (visitCell_le size v.1 a a1 v.2 ha hv).1 h

/-- Claim C2: the density counter of a cell never wraps.  Starting from the
fresh arrays of a chunk (all counters 0), after any sequence of visits (of any
length, in any cells, by any rays) one more visit leaves every counter of the
density array greater than or equal to its value before the visit. -/
theorem rayDensity_never_wraps (size : ℕ) (visits : List (Float3 × Int3)) (a b : CellArrays)
    (dir : Float3) (voxel : Int3)
    (ha : visitSeq size (CellArrays.fresh size) visits = some a)
    (hb : visitCell size dir a voxel = some b) (i : ℕ) :
    a.rayDensity.getD i 0 ≤ b.rayDensity.getD i 0 :=
  (visitCell_le size dir a b voxel
    (visitSeq_densityBelowMax size visits _ a (fresh_densityBelowMax size) ha) hb).2 i

/-- Witness for `rayDensity_never_wraps`: a chunk of one cell, visited twice and
then once more. -/
theorem rayDensity_never_wraps_witness :
    (⟨[2], [⟨2, 0, 0⟩]⟩ : CellArrays).rayDensity.getD 0 0 ≤
      (⟨[3], [⟨3, 0, 0⟩]⟩ : CellArrays).rayDensity.getD 0 0 :=
  rayDensity_never_wraps 1 [(⟨1, 0, 0⟩, ⟨0, 0, 0⟩), (⟨1, 0, 0⟩, ⟨0, 0, 0⟩)]
    ⟨[2], [⟨2, 0, 0⟩]⟩ ⟨[3], [⟨3, 0, 0⟩]⟩ ⟨1, 0, 0⟩ ⟨0, 0, 0⟩ (by decide!) (by decide!) 0

theorem incDensity_iterate (n : ℕ) : incDensity^[n] 0 = Nat.min n 65534 := by
  induction n with
  | zero => rfl
  | succ n ih =>
    rw [Function.iterate_succ_apply', ih]
    unfold incDensity rdTypeMax
    by_cases h : n < 65534
    · have h1 : Nat.min n 65534 = n := Nat.min_eq_left h.le
      have h2 : Nat.min (n + 1) 65534 = n + 1 := Nat.min_eq_left h
      rw [h1, h2, if_pos (by omega), Nat.mod_eq_of_lt (by omega)]
    · have h1 : Nat.min n 65534 = 65534 := Nat.min_eq_right (by omega)
      have h2 : Nat.min (n + 1) 65534 = 65534 := Nat.min_eq_right (by omega)
      rw [h1, h2]
      rfl

/-- Claim C3 (the code breaks it): the guard compares `counter + 1` with the
maximum, so the counter stops one short of it: after `n` visits from 0 it holds
`min(n, 65534)`, in particular 65534 after 65535 visits; and a visit to a cell
whose counter holds 65535 wraps it to 0. -/
theorem incDensity_stops_below_max :
    (∀ n : ℕ, incDensity^[n] 0 = Nat.min n 65534) ∧
    incDensity^[65535] 0 = 65534 ∧
    incDensity 65535 = 0 ∧
    visitCell 1 ⟨1, 0, 0⟩ ⟨[65535], [⟨0, 0, 0⟩]⟩ ⟨0, 0, 0⟩ = some ⟨[0], [⟨1, 0, 0⟩]⟩ := by
  refine ⟨incDensity_iterate, ?_, by decide!, by decide!⟩
  rw [incDensity_iterate]
  rfl


/-! ### Step 2: the chunk cap -/

theorem taskLoop_length (mk : ℕ → ChunkData) (flags : List ℕ) :
    ∀ (i : ℕ) (data : List ChunkData), data.length < 512 →
      (taskLoop mk flags i data).length =
        min 512 (data.length + flags.countP (fun flag => decide (0 < flag))) := by
  induction flags with
  | nil =>
    intro i data h
    simp only [taskLoop, List.countP_nil, Nat.add_zero]
    omega
  | cons flag flags ih =>
    intro i data h
    unfold taskLoop
    by_cases hf : 0 < flag
    · simp only [hf, if_true, List.countP_cons_of_pos, decide_True]
      have hl : (data ++ [mk i]).length = data.length + 1 := by simp
      by_cases hc : 512 ≤ (data ++ [mk i]).length
      · simp only [hc, if_true]
        omega
      · simp only [hc, if_false]
        rw [ih (i + 1) _ (by omega), hl]
        omega
    · have hd : decide (0 < flag) = false := by simpa using hf
      have hcp : List.countP (fun flag => decide (0 < flag)) (flag :: flags) =
          List.countP (fun flag => decide (0 < flag)) flags :=
        List.countP_cons_of_neg _ _ (by simp [hd])
      simp only [hf, if_false, hcp]
      have hc : ¬ 512 ≤ data.length := by omega
      simp only [hc, if_false]
      exact ih (i + 1) data h

theorem blockLoop_length (mk : Int3 → ℕ → ChunkData) (blocks : List (Int3 × List ℕ)) :
    ∀ data : List ChunkData, data.length < 512 →
      (blockLoop mk blocks data).length = min 512 (data.length + flaggedCount blocks) := by
  induction blocks with
  | nil =>
    intro data h
    simp only [blockLoop, flaggedCount, List.map_nil, List.sum_nil, Nat.add_zero]
    omega
  | cons e rest ih =>
    intro data h
    have hfc : flaggedCount (e :: rest) =
        e.2.countP (fun flag => decide (0 < flag)) + flaggedCount rest := by
      simp [flaggedCount]
    have hl := taskLoop_length (mk e.1) e.2 0 data h
    unfold blockLoop
    by_cases hc : 512 ≤ (taskLoop (mk e.1) e.2 0 data).length
    · simp only [hc, if_true]
      omega
    · simp only [hc, if_false]
      rw [ih _ (not_le.mp hc), hfc]
      omega

theorem createChunkTasks_length (chunkSize_ : ℕ) (voxelSize : ℚ) (min : Float3)
    (chunks : ChunkedArray3D) :
    (createChunkTasks chunkSize_ voxelSize min chunks).length =
      Min.min 512 (flaggedCount chunks.data_) := by
  unfold createChunkTasks
  rw [blockLoop_length _ _ [] (by simp)]
  simp

theorem forEachTask_length (f : ChunkData → Option ChunkData) (l : List ChunkData) :
    ∀ r : List ChunkData, forEachTask f l = some r → r.length = l.length := by
  induction l with
  | nil =>
    intro r h
    simp [forEachTask] at h
    rw [← h]
  | cons a l ih =>
    intro r h
    unfold forEachTask at h
    cases ha : f a with
    | none => simp [ha] at h
    | some b =>
      cases hl : forEachTask f l with
      | none => simp [ha, hl] at h
      | some r1 =>
        simp [ha, hl] at h
        rw [← h]
        simp [ih r1 hl]

theorem Sample_data (nanInterval : NanInterval) (normalize : Double3 → Float3) (missTolerance : ℚ)
    (s t : VolumetricSampler) (h : Sample nanInterval normalize missTolerance s = some t) :
    ∃ chunks,
      findChunks missTolerance s.maxT_ (s.chunkSize_ * s.cellSize_)
        (rayBounds missTolerance s.maxT_ (filterRays missTolerance s.filter_ s.trace)).1
        (filterRays missTolerance s.filter_ s.trace) = some chunks ∧
      t.data_.length = (createChunkTasks s.chunkSize_ (s.chunkSize_ * s.cellSize_)
        (rayBounds missTolerance s.maxT_ (filterRays missTolerance s.filter_ s.trace)).1
        chunks).length := by
  unfold Sample at h
  cases hd : discoverTasks missTolerance s with
  | none => simp [hd] at h
  | some tasks =>
    simp only [hd] at h
    cases hf : forEachTask (fillChunk nanInterval normalize s.chunkSize_ s.cellSize_ s.maxT_ missTolerance
        (filterRays missTolerance s.filter_ s.trace)) tasks with
    | none => simp [hf] at h
    | some data =>
      simp only [hf, Option.some.injEq] at h
      unfold discoverTasks at hd
      cases hc : findChunks missTolerance s.maxT_ (s.chunkSize_ * s.cellSize_)
        (rayBounds missTolerance s.maxT_ (filterRays missTolerance s.filter_ s.trace)).1
        (filterRays missTolerance s.filter_ s.trace) with
      | none => simp [hc] at hd
      | some chunks =>
        refine ⟨chunks, rfl, ?_⟩
        simp only [hc, Option.map_some', Option.some.injEq] at hd
        rw [← h, hd]
        exact forEachTask_length _ _ _ hf

/-- Claim C4: step 2 creates `min(512, number of flagged chunk coordinates)`
chunk tasks, whatever the flag array holds; and whenever `Sample()` returns, its
chunk list has at most 512 entries, as many as step 2 created from the flags of
chunk discovery, hence exactly 512 when more than 512 coordinates were flagged. -/
theorem Sample_chunk_cap (nanInterval : NanInterval) (normalize : Double3 → Float3) (missTolerance : ℚ)
    (s t : VolumetricSampler) (h : Sample nanInterval normalize missTolerance s = some t) :
    (∀ (chunkSize_ : ℕ) (voxelSize : ℚ) (min : Float3) (chunks : ChunkedArray3D),
      (createChunkTasks chunkSize_ voxelSize min chunks).length =
        Min.min 512 (flaggedCount chunks.data_)) ∧
    t.data_.length ≤ 512 ∧
    ∃ chunks,
      findChunks missTolerance s.maxT_ (s.chunkSize_ * s.cellSize_)
        (rayBounds missTolerance s.maxT_ (filterRays missTolerance s.filter_ s.trace)).1
        (filterRays missTolerance s.filter_ s.trace) = some chunks ∧
      t.data_.length = Min.min 512 (flaggedCount chunks.data_) ∧
      (512 < flaggedCount chunks.data_ → t.data_.length = 512) := by
  obtain ⟨chunks, hc, hl⟩ := Sample_data _ normalize missTolerance s t h
  rw [createChunkTasks_length] at hl
  refine ⟨createChunkTasks_length, ?_, chunks, hc, hl, ?_⟩
  · rw [hl]
    exact min_le_left _ _
  · intro hgt
    rw [hl]
    exact min_eq_left hgt.le


/-! ### Steps 1 and 2 on a flag array with a single block -/

theorem taskLoop_eq (mk : ℕ → ChunkData) (flags : List ℕ) :
    ∀ (i : ℕ) (data : List ChunkData), data.length < 512 →
      taskLoop mk flags i data =
        data ++ ((flaggedFrom i flags).take (512 - data.length)).map mk := by
  induction flags with
  | nil =>
    intro i data _
    simp [taskLoop, flaggedFrom]
  | cons flag flags ih =>
    intro i data h
    unfold taskLoop flaggedFrom
    by_cases hf : 0 < flag
    · simp only [hf, if_true]
      have hl : (data ++ [mk i]).length = data.length + 1 := by simp
      obtain ⟨k, hk⟩ : ∃ k, 512 - data.length = k + 1 := ⟨511 - data.length, by omega⟩
      by_cases hc : 512 ≤ (data ++ [mk i]).length
      · simp only [hc, if_true]
        have : k = 0 := by omega
        subst this
        rw [hk]
        simp
      · simp only [hc, if_false]
        rw [ih (i + 1) _ (by omega), hl, hk]
        have : 512 - (data.length + 1) = k := by omega
        rw [this]
        simp
    · simp only [hf, if_false]
      have hc : ¬ 512 ≤ data.length := by omega
      simp only [hc, if_false]
      exact ih (i + 1) data h

theorem mem_flaggedFrom (flags : List ℕ) : ∀ (i j : ℕ),
    j ∈ flaggedFrom i flags ↔ i ≤ j ∧ j < i + flags.length ∧ 0 < flags.getD (j - i) 0 := by
  induction flags with
  | nil =>
    intro i j
    simp [flaggedFrom]
  | cons flag flags ih =>
    intro i j
    unfold flaggedFrom
    have hrec := ih (i + 1) j
    by_cases hij : j = i
    · subst hij
      by_cases hf : 0 < flag
      · simp [hf]
      · simp only [hf, if_false, hrec]
        simp [hf]
    · have hsub : i < j → j - i = (j - (i + 1)) + 1 := fun h => by omega
      by_cases hf : 0 < flag
      · simp only [hf, if_true, List.mem_cons, hij, false_or, hrec, List.length_cons]
        constructor
        · rintro ⟨h1, h2, h3⟩
          refine ⟨by omega, by omega, ?_⟩
          rw [hsub (by omega)]
          simpa using h3
        · rintro ⟨h1, h2, h3⟩
          have hlt : i < j := by omega
          refine ⟨by omega, by omega, ?_⟩
          rw [hsub hlt] at h3
          simpa using h3
      · simp only [hf, if_false, hrec, List.length_cons]
        constructor
        · rintro ⟨h1, h2, h3⟩
          refine ⟨by omega, by omega, ?_⟩
          rw [hsub (by omega)]
          simpa using h3
        · rintro ⟨h1, h2, h3⟩
          have hlt : i < j := by omega
          refine ⟨by omega, by omega, ?_⟩
          rw [hsub hlt] at h3
          simpa using h3

theorem sorted_flaggedFrom (flags : List ℕ) : ∀ i : ℕ,
    (flaggedFrom i flags).Sorted (fun a b => a < b) := by
  induction flags with
  | nil =>
    intro i
    simp [flaggedFrom]
  | cons flag flags ih =>
    intro i
    unfold flaggedFrom
    split_ifs
    · refine List.sorted_cons.mpr ⟨?_, ih (i + 1)⟩
      intro b hb
      have := (mem_flaggedFrom flags (i + 1) b).mp hb
      omega
    · exact ih (i + 1)

theorem flaggedFrom_eq (flags expected : List ℕ)
    (hs : expected.Sorted (fun a b => a < b))
    (hm : ∀ j, j ∈ expected ↔ j < flags.length ∧ 0 < flags.getD j 0) :
    flaggedFrom 0 flags = expected := by
  have h1 := sorted_flaggedFrom flags 0
  refine List.eq_of_perm_of_sorted ?_ h1 hs
  refine (List.perm_ext_iff_of_nodup h1.nodup hs.nodup).mpr ?_
  intro j
  rw [hm j, mem_flaggedFrom]
  simp


theorem getD_replicate_zero (n i : ℕ) : (List.replicate n 0).getD i 0 = 0 := by
  simp only [List.getD_eq_getElem?_getD, List.getElem?_replicate]
  split_ifs <;> rfl

theorem flagVoxel_new (H : ℕ) (hH : H ≠ 0) (p key : Int3) (idx : ℕ)
    (hx : 0 ≤ p.x) (hy : 0 ≤ p.y) (hz : 0 ≤ p.z)
    (hk : (⟨p.x / H, p.y / H, p.z / H⟩ : Int3) = key)
    (hi : (p.x % H * H * H + p.y % H * H + p.z % H).toNat = idx) :
    flagVoxel (ChunkedArray3D.new H) p =
      some { chunkSize := H
             data_ := [(key, (List.replicate (H * H * H) 0).set idx 1)]
             lastChunkId_ := key } := by
  have hne : (⟨p.x / H, p.y / H, p.z / H⟩ : Int3) ≠ ⟨-1, -1, -1⟩ := by
    intro h
    have h1 := congrArg Int3.x h
    have h2 := Int.ediv_nonneg hx (Int.natCast_nonneg H)
    simp only at h1
    omega
  subst hk hi
  simp [flagVoxel, ChunkedArray3D.AtPut, ChunkedArray3D.At, ChunkedArray3D.new,
    ChunkedArray3D.store, mapFind, mapInsert, hx, hy, hz, hH, hne]

theorem flagVoxel_same_block (H : ℕ) (hH : H ≠ 0) (p key : Int3) (idx : ℕ) (B : List ℕ)
    (hx : 0 ≤ p.x) (hy : 0 ≤ p.y) (hz : 0 ≤ p.z)
    (hk : (⟨p.x / H, p.y / H, p.z / H⟩ : Int3) = key)
    (hi : (p.x % H * H * H + p.y % H * H + p.z % H).toNat = idx) :
    flagVoxel { chunkSize := H, data_ := [(key, B)], lastChunkId_ := key } p =
      some { chunkSize := H, data_ := [(key, B.set idx 1)], lastChunkId_ := key } := by
  subst hk hi
  simp [flagVoxel, ChunkedArray3D.AtPut, ChunkedArray3D.At, ChunkedArray3D.store, hx, hy, hz, hH]

theorem foldlM_flag_cons (c c1 : ChunkedArray3D) (p : Int3) (ps : List Int3)
    (h : flagVoxel c p = some c1) :
    (p :: ps).foldlM flagVoxel c = ps.foldlM flagVoxel c1 := by
  simp [List.foldlM_cons, h]

theorem createChunkTasks_single (chunkSize_ : ℕ) (voxelSize : ℚ) (min : Float3) (H : ℕ)
    (key last : Int3) (B : List ℕ) :
    createChunkTasks chunkSize_ voxelSize min
        { chunkSize := H, data_ := [(key, B)], lastChunkId_ := last } =
      ((flaggedFrom 0 B).take 512).map (makeTask chunkSize_ voxelSize min key) := by
  unfold createChunkTasks
  simp only [blockLoop]
  rw [taskLoop_eq _ _ 0 [] (by simp)]
  simp


theorem scenarioA_cells :
    VoxelTraceCells
      (chunkSegment (1 / 10) scenarioA.maxT_ (scenarioA.chunkSize_ * scenarioA.cellSize_)
        (rayBounds (1 / 10) scenarioA.maxT_
          (filterRays (1 / 10) scenarioA.filter_ scenarioA.trace)).1
        { rayId := 0, origin := ⟨0, 0, 0⟩, tMin := 0, direction := ⟨1, 0, 0⟩,
          tMax := 1000, tHit := -1 }).1
      (chunkSegment (1 / 10) scenarioA.maxT_ (scenarioA.chunkSize_ * scenarioA.cellSize_)
        (rayBounds (1 / 10) scenarioA.maxT_
          (filterRays (1 / 10) scenarioA.filter_ scenarioA.trace)).1
        { rayId := 0, origin := ⟨0, 0, 0⟩, tMin := 0, direction := ⟨1, 0, 0⟩,
          tMax := 1000, tHit := -1 }).2 =
      [⟨0, 0, 0⟩, ⟨0, 0, 0⟩, ⟨0, 0, 0⟩, ⟨1, 0, 0⟩, ⟨2, 0, 0⟩, ⟨3, 0, 0⟩, ⟨4, 0, 0⟩,
        ⟨5, 0, 0⟩, ⟨6, 0, 0⟩] := by
  decide!

theorem scenarioA_flags :
    flaggedFrom 0 ((((((((((List.replicate (128 * 128 * 128) 0).set 0 1).set 0 1).set 0 1).set
      16384 1).set 32768 1).set 49152 1).set 65536 1).set 81920 1).set 98304 1) =
      [0, 16384, 32768, 49152, 65536, 81920, 98304] := by
  apply flaggedFrom_eq
  · decide
  · intro j
    simp only [List.length_set, List.length_replicate, getD_set_eq, getD_replicate_zero,
      List.mem_cons, List.mem_singleton, List.not_mem_nil, or_false]
    constructor
    · rintro (h | h | h | h | h | h | h) <;> subst h <;> decide
    · rintro ⟨h1, h2⟩
      split_ifs at h2 <;> omega

theorem scenarioA_findChunks :
    findChunks (1 / 10) scenarioA.maxT_ (scenarioA.chunkSize_ * scenarioA.cellSize_)
      (rayBounds (1 / 10) scenarioA.maxT_
        (filterRays (1 / 10) scenarioA.filter_ scenarioA.trace)).1
      (filterRays (1 / 10) scenarioA.filter_ scenarioA.trace) =
    some { chunkSize := 128
           data_ := [(⟨0, 0, 0⟩,
             ((((((((((List.replicate (128 * 128 * 128) 0).set 0 1).set 0 1).set 0 1).set
               16384 1).set 32768 1).set 49152 1).set 65536 1).set 81920 1).set 98304 1))]
           lastChunkId_ := ⟨0, 0, 0⟩ } := by
  have hf : filterRays (1 / 10) scenarioA.filter_ scenarioA.trace =
      [{ rayId := 0, origin := ⟨0, 0, 0⟩, tMin := 0, direction := ⟨1, 0, 0⟩,
         tMax := 1000, tHit := -1 }] := rfl
  have hv : ((scenarioA.chunkSize_ : ℚ) * scenarioA.cellSize_ = 0) = False := by
    simp [scenarioA]
  have hcells := scenarioA_cells
  rw [hf] at hcells ⊢
  unfold findChunks
  rw [List.foldlM_cons]
  simp only [hv, if_false, hcells, List.foldlM_nil]
  rw [foldlM_flag_cons _ _ _ _ (flagVoxel_new 128 (by decide) ⟨0, 0, 0⟩ ⟨0, 0, 0⟩ 0
    (by decide) (by decide) (by decide) (by decide) (by decide))]
  rw [foldlM_flag_cons _ _ _ _ (flagVoxel_same_block 128 (by decide) ⟨0, 0, 0⟩ ⟨0, 0, 0⟩ 0 _
    (by decide) (by decide) (by decide) (by decide) (by decide))]
  rw [foldlM_flag_cons _ _ _ _ (flagVoxel_same_block 128 (by decide) ⟨0, 0, 0⟩ ⟨0, 0, 0⟩ 0 _
    (by decide) (by decide) (by decide) (by decide) (by decide))]
  rw [foldlM_flag_cons _ _ _ _ (flagVoxel_same_block 128 (by decide) ⟨1, 0, 0⟩ ⟨0, 0, 0⟩ 16384 _
    (by decide) (by decide) (by decide) (by decide) (by decide))]
  rw [foldlM_flag_cons _ _ _ _ (flagVoxel_same_block 128 (by decide) ⟨2, 0, 0⟩ ⟨0, 0, 0⟩ 32768 _
    (by decide) (by decide) (by decide) (by decide) (by decide))]
  rw [foldlM_flag_cons _ _ _ _ (flagVoxel_same_block 128 (by decide) ⟨3, 0, 0⟩ ⟨0, 0, 0⟩ 49152 _
    (by decide) (by decide) (by decide) (by decide) (by decide))]
  rw [foldlM_flag_cons _ _ _ _ (flagVoxel_same_block 128 (by decide) ⟨4, 0, 0⟩ ⟨0, 0, 0⟩ 65536 _
    (by decide) (by decide) (by decide) (by decide) (by decide))]
  rw [foldlM_flag_cons _ _ _ _ (flagVoxel_same_block 128 (by decide) ⟨5, 0, 0⟩ ⟨0, 0, 0⟩ 81920 _
    (by decide) (by decide) (by decide) (by decide) (by decide))]
  rw [foldlM_flag_cons _ _ _ _ (flagVoxel_same_block 128 (by decide) ⟨6, 0, 0⟩ ⟨0, 0, 0⟩ 98304 _
    (by decide) (by decide) (by decide) (by decide) (by decide))]
  rfl

/-- Claim C9 (the code breaks it): in Scenario A steps 0 to 2 of `Sample()`
create seven chunk tasks, with the chunk indices `(0,0,0)` to `(6,0,0)`; the
chunk `(7,0,0)` that holds the end of the ray is not among them. -/
theorem scenarioA_seven_chunks :
    (discoverTasks (1 / 10) scenarioA).map (List.map ChunkData.chunkIdx) =
      some [⟨0, 0, 0⟩, ⟨1, 0, 0⟩, ⟨2, 0, 0⟩, ⟨3, 0, 0⟩, ⟨4, 0, 0⟩, ⟨5, 0, 0⟩, ⟨6, 0, 0⟩] := by
  unfold discoverTasks
  simp only [scenarioA_findChunks, Option.map_some', createChunkTasks_single, scenarioA_flags]
  decide!


/-! ### Scenario D -/

theorem scenarioD_findChunks :
    findChunks (1 / 10) scenarioD.maxT_ (scenarioD.chunkSize_ * scenarioD.cellSize_)
      (rayBounds (1 / 10) scenarioD.maxT_
        (filterRays (1 / 10) scenarioD.filter_ scenarioD.trace)).1
      (filterRays (1 / 10) scenarioD.filter_ scenarioD.trace) =
    some { chunkSize := 128
           data_ := [(⟨0, 0, 0⟩,
             (((List.replicate (128 * 128 * 128) 0).set 0 1).set 0 1).set 0 1)]
           lastChunkId_ := ⟨0, 0, 0⟩ } := by
  have hf : filterRays (1 / 10) scenarioD.filter_ scenarioD.trace = scenarioD_rays := rfl
  have hv : ((scenarioD.chunkSize_ : ℚ) * scenarioD.cellSize_ = 0) = False := by
    simp [scenarioD]
  have hc : ∀ r ∈ scenarioD_rays,
      VoxelTraceCells
        (chunkSegment (1 / 10) scenarioD.maxT_ (scenarioD.chunkSize_ * scenarioD.cellSize_)
          (rayBounds (1 / 10) scenarioD.maxT_ scenarioD_rays).1 r).1
        (chunkSegment (1 / 10) scenarioD.maxT_ (scenarioD.chunkSize_ * scenarioD.cellSize_)
          (rayBounds (1 / 10) scenarioD.maxT_ scenarioD_rays).1 r).2 = [⟨0, 0, 0⟩] := by
    decide!
  rw [hf]
  unfold findChunks
  have h0 := hc _ (List.mem_cons_self _ _)
  have h1 := hc _ (List.mem_cons_of_mem _ (List.mem_cons_self _ _))
  have h2 := hc _ (List.mem_cons_of_mem _ (List.mem_cons_of_mem _ (List.mem_cons_self _ _)))
  simp only [scenarioD_rays] at h0 h1 h2 ⊢
  simp only [List.foldlM_cons, hv, if_false, h0, h1, h2, List.foldlM_nil]
  rw [flagVoxel_new 128 (by decide) ⟨0, 0, 0⟩ ⟨0, 0, 0⟩ 0
    (by decide) (by decide) (by decide) (by decide) (by decide)]
  simp only [bind, Option.bind, pure]
  rw [flagVoxel_same_block 128 (by decide) ⟨0, 0, 0⟩ ⟨0, 0, 0⟩ 0 _
    (by decide) (by decide) (by decide) (by decide) (by decide)]
  simp only [bind, Option.bind, pure]
  rw [flagVoxel_same_block 128 (by decide) ⟨0, 0, 0⟩ ⟨0, 0, 0⟩ 0 _
    (by decide) (by decide) (by decide) (by decide) (by decide)]

theorem scenarioD_flags :
    flaggedFrom 0 ((((List.replicate (128 * 128 * 128) 0).set 0 1).set 0 1).set 0 1) = [0] := by
  apply flaggedFrom_eq
  · decide
  · intro j
    simp only [List.length_set, List.length_replicate, getD_set_eq, getD_replicate_zero,
      List.mem_singleton]
    constructor
    · intro h
      subst h
      decide
    · rintro ⟨h1, h2⟩
      split_ifs at h2 <;> omega

theorem scenarioD_tasks :
    discoverTasks (1 / 10) scenarioD = some [makeTask 2 2 ⟨0, 0, 0⟩ ⟨0, 0, 0⟩ 0] := by
  unfold discoverTasks
  simp only [scenarioD_findChunks, Option.map_some', createChunkTasks_single, scenarioD_flags]
  decide!


theorem scenarioD_fold (nanInterval : NanInterval) :
    scenarioD_rays.foldlM (fillRay nanInterval 2 1 none (1 / 10))
      ({ makeTask 2 2 ⟨0, 0, 0⟩ ⟨0, 0, 0⟩ 0 with rayCount := 3 },
        List.replicate (2 * 2 * 2) (⟨0, 0, 0⟩ : Double3)) =
    some ({ makeTask 2 2 ⟨0, 0, 0⟩ ⟨0, 0, 0⟩ 0 with
            rayCount := 3, rayDensity := [1, 0, 0, 0, 0, 0, 0, 5] },
      [⟨1, 1, 1⟩, ⟨0, 0, 0⟩, ⟨0, 0, 0⟩, ⟨0, 0, 0⟩, ⟨0, 0, 0⟩, ⟨0, 0, 0⟩, ⟨0, 0, 0⟩,
        ⟨5, 8, 11⟩]) := by
  rw [foldlM_fillRay_congr nanInterval nanBoth _ _ _ _ _ (by decide!)]
  decide!


theorem scenarioD_fill (nanInterval : NanInterval) (normalize : Double3 → Float3) :
    fillChunk nanInterval normalize 2 1 none (1 / 10) scenarioD_rays
      (makeTask 2 2 ⟨0, 0, 0⟩ ⟨0, 0, 0⟩ 0) =
      some { makeTask 2 2 ⟨0, 0, 0⟩ ⟨0, 0, 0⟩ 0 with
          rayCount := 3
          rayDensity := [1, 0, 0, 0, 0, 0, 0, 5]
          directions := [normalize ⟨1, 1, 1⟩, normalize ⟨0, 0, 0⟩, normalize ⟨0, 0, 0⟩,
            normalize ⟨0, 0, 0⟩, normalize ⟨0, 0, 0⟩, normalize ⟨0, 0, 0⟩, normalize ⟨0, 0, 0⟩,
            normalize ⟨5, 8, 11⟩]
          maxRays := 5 } := by
  unfold fillChunk
  have hlen : scenarioD_rays.length = 3 := rfl
  rw [hlen, scenarioD_fold]
  simp only [Option.map_some', List.map_cons, List.map_nil, List.foldl_cons, List.foldl_nil]
  congr 1

theorem aggregate_single (c : ChunkData) :
    aggregate [c] =
      (Max.max 0 c.maxRays,
        (Double3.min ⟨FLT_MAX, FLT_MAX, FLT_MAX⟩ (c.min.min c.max)),
        (Double3.max ⟨-FLT_MAX, -FLT_MAX, -FLT_MAX⟩ (c.min.max c.max))) := rfl

theorem scenarioD_bounds :
    (Max.max 0 5 : ℕ) = 5 ∧
    Double3.min ⟨FLT_MAX, FLT_MAX, FLT_MAX⟩
      ((makeTask 2 2 ⟨0, 0, 0⟩ ⟨0, 0, 0⟩ 0).min.min (makeTask 2 2 ⟨0, 0, 0⟩ ⟨0, 0, 0⟩ 0).max) =
        ⟨0, 0, 0⟩ ∧
    Double3.max ⟨-FLT_MAX, -FLT_MAX, -FLT_MAX⟩
      ((makeTask 2 2 ⟨0, 0, 0⟩ ⟨0, 0, 0⟩ 0).min.max (makeTask 2 2 ⟨0, 0, 0⟩ ⟨0, 0, 0⟩ 0).max) =
        ⟨2, 2, 2⟩ := by
  decide!


theorem Sample_eq_of (nanInterval : NanInterval) (normalize : Double3 → Float3) (missTolerance : ℚ) (s : VolumetricSampler)
    (tasks data : List ChunkData) (h1 : discoverTasks missTolerance s = some tasks)
    (h2 : forEachTask (fillChunk nanInterval normalize s.chunkSize_ s.cellSize_ s.maxT_ missTolerance
        (filterRays missTolerance s.filter_ s.trace)) tasks = some data) :
    Sample nanInterval normalize missTolerance s =
      some { s with
        data_ := data
        maxRays_ := (aggregate data).1
        min_ := (aggregate data).2.1
        max_ := (aggregate data).2.2
        dirty_ := false } := by
  unfold Sample
  rw [h1]
  simp only [h2]

theorem forEachTask_single (f : ChunkData → Option ChunkData) (t d : ChunkData)
    (h : f t = some d) : forEachTask f [t] = some [d] := by
  simp [forEachTask, h]

theorem scenarioD_Sample (nanInterval : NanInterval) (normalize : Double3 → Float3) :
    Sample nanInterval normalize (1 / 10) scenarioD = some (scenarioD_result normalize) := by
  rw [Sample_eq_of _ normalize (1 / 10) scenarioD _ _ scenarioD_tasks
    (forEachTask_single _ _ _ (scenarioD_fill _ normalize))]
  simp only [aggregate_single, scenarioD_bounds.1, scenarioD_bounds.2.1, scenarioD_bounds.2.2]
  rfl

/-- Claim C10 (the code breaks it): in `scenarioD` the clipped segments of the
first two rays are the points `(3/2, 1, 1)` and `(1, 1, 1)` of the cell
`(1,1,1)`, which the third ray does not touch.  VoxelTrace hands that cell to
the callback twice for the first ray and three times for the second, so after
`Sample()` its density is 5 and its direction is the normalisation of
`2 * (1,1,1) + 3 * (1,2,3) = (5, 8, 11)`. -/
theorem scenarioD_density (nanInterval : NanInterval) (normalize : Double3 → Float3) :
    VoxelTraceCells ⟨3 / 2, 1, 1⟩ ⟨3 / 2, 1, 1⟩ = [⟨1, 1, 1⟩, ⟨1, 1, 1⟩] ∧
    VoxelTraceCells ⟨1, 1, 1⟩ ⟨1, 1, 1⟩ = [⟨1, 1, 1⟩, ⟨1, 1, 1⟩, ⟨1, 1, 1⟩] ∧
    VoxelTraceCells ⟨0, 0, 0⟩ ⟨1 / 4, 1 / 4, 1 / 4⟩ = [⟨0, 0, 0⟩] ∧
    (Sample nanInterval normalize (1 / 10) scenarioD).map
      (fun t => t.data_.map
        (fun c => (c.chunkIdx, c.rayDensity, c.directions.getD 7 ⟨0, 0, 0⟩))) =
      some [(⟨0, 0, 0⟩, [1, 0, 0, 0, 0, 0, 0, 5], normalize ⟨5, 8, 11⟩)] := by
  refine ⟨by decide!, by decide!, by decide!, ?_⟩
  rw [scenarioD_Sample]
  rfl

/-! ### Step 3: invariants of the ray loop -/

theorem getD_set_gen {α : Type} (l : List α) (j : ℕ) (v d : α) (i : ℕ) :
    (l.set j v).getD i d = if i = j ∧ j < l.length then v else l.getD i d := by
  simp only [List.getD_eq_getElem?_getD, List.getElem?_set]
  by_cases hij : j = i
  · subst hij
    by_cases hl : j < l.length
    · simp [hl]
    · simp [hl, List.getElem?_eq_none (not_lt.mp hl)]
  · have : ¬ (i = j ∧ j < l.length) := fun h => hij h.1.symm
    simp [hij, this]

theorem incDensity_pos (v : ℕ) (h : v ≤ 65534) : 0 < incDensity v := by
  unfold incDensity rdTypeMax
  split_ifs with h1
  · rw [Nat.mod_eq_of_lt (by omega)]
    omega
  · omega

theorem visitCell_inv (size : ℕ) (dir : Float3) (a b : CellArrays) (voxel : Int3)
    (ha : CellInv a) (h : visitCell size dir a voxel = some b) : CellInv b := by
  obtain ⟨h1, h2, h3⟩ := ha
  have hle := visitCell_le size dir a b voxel h1 h
  unfold visitCell at h
  split_ifs at h
  simp only [Option.some.injEq] at h
  subst h
  refine ⟨hle.1, by simp [h2], ?_⟩
  intro i hi
  simp only [getD_set_eq, getD_set_gen] at hi ⊢
  rw [← h2]
  split_ifs with hc
  · rw [if_pos hc] at hi
    exact absurd hi (Nat.pos_iff_ne_zero.mp (incDensity_pos _ (h1 _)))
  · rw [if_neg hc] at hi
    exact h3 i hi

theorem visitCells_inv (size : ℕ) (dir : Float3) (voxels : List Int3) :
    ∀ a b : CellArrays, CellInv a → visitCells size dir a voxels = some b →
      CellInv b ∧ b.rayDensity.length = a.rayDensity.length ∧
        ∀ i, a.rayDensity.getD i 0 ≤ b.rayDensity.getD i 0 := by
  induction voxels with
  | nil =>
    intro a b ha h
    simp [visitCells] at h
    subst h
    exact ⟨ha, rfl, fun _ => le_refl _⟩
  | cons v rest ih =>
    intro a b ha h
    simp only [visitCells, List.foldlM_cons] at h
    cases hv : visitCell size dir a v with
    | none => simp [hv] at h
    | some a1 =>
      rw [hv] at h
      have hi1 := visitCell_inv size dir a a1 v ha hv
      have hle1 := (visitCell_le size dir a a1 v ha.1 hv).2
      have hlen1 : a1.rayDensity.length = a.rayDensity.length := by
        rw [visitCell_density size dir a a1 v hv]
        simp
      obtain ⟨hb, hlen, hle⟩ := ih a1 b hi1 h
      exact ⟨hb, by rw [hlen, hlen1], fun i => le_trans (hle1 i) (hle i)⟩

theorem sum_set_add (l : List ℕ) : ∀ (i v : ℕ), i < l.length →
    (l.set i v).sum + l.getD i 0 = l.sum + v := by
  induction l with
  | nil => intro i v h; simp at h
  | cons x xs ih =>
    intro i v h
    cases i with
    | zero => simp; omega
    | succ i =>
      have := ih i v (by simpa using h)
      simp only [List.set_cons_succ, List.sum_cons, List.getD_cons_succ]
      omega

theorem cell_index_lt (size : ℕ) (voxel : Int3)
    (h0 : 0 ≤ voxel.x ∧ 0 ≤ voxel.y ∧ 0 ≤ voxel.z)
    (h1 : voxel.x < size ∧ voxel.y < size ∧ voxel.z < size) :
    (voxel.x * size * size + voxel.y * size + voxel.z).toNat < size * size * size := by
  obtain ⟨hx, hy, hz⟩ := h0
  obtain ⟨gx, gy, gz⟩ := h1
  have hs : (0 : ℤ) ≤ size := Int.natCast_nonneg size
  have e1 : voxel.x * size * size ≤ ((size : ℤ) - 1) * size * size := by
    have : voxel.x ≤ (size : ℤ) - 1 := by omega
    exact mul_le_mul_of_nonneg_right (mul_le_mul_of_nonneg_right this hs) hs
  have e2 : voxel.y * size ≤ ((size : ℤ) - 1) * size := by
    have : voxel.y ≤ (size : ℤ) - 1 := by omega
    exact mul_le_mul_of_nonneg_right this hs
  have e3 : voxel.x * size * size + voxel.y * size + voxel.z <
      (size : ℤ) * size * size := by
    nlinarith
  have e4 : 0 ≤ voxel.x * size * size + voxel.y * size + voxel.z := by positivity
  zify
  rw [Int.toNat_of_nonneg e4]
  exact e3

theorem visitCell_sum (size : ℕ) (dir : Float3) (a b : CellArrays) (voxel : Int3)
    (ha : DensityBelowMax a) (hlen : a.rayDensity.length = size * size * size)
    (h : visitCell size dir a voxel = some b)
    (hb : ∀ i, b.rayDensity.getD i 0 < 65534) :
    b.rayDensity.sum = a.rayDensity.sum + 1 := by
  have hd := visitCell_density size dir a b voxel h
  unfold visitCell at h
  split_ifs at h with hr
  have hidx := cell_index_lt size voxel hr.1 hr.2
  rw [← hlen] at hidx
  have hs := sum_set_add a.rayDensity _
    (incDensity (a.rayDensity.getD (voxel.x * size * size + voxel.y * size + voxel.z).toNat 0))
    hidx
  rw [← hd] at hs
  have hbi := hb (voxel.x * size * size + voxel.y * size + voxel.z).toNat
  rw [hd, getD_set_eq, if_pos ⟨rfl, hidx⟩] at hbi
  have hai := ha (voxel.x * size * size + voxel.y * size + voxel.z).toNat
  have hinc : incDensity (a.rayDensity.getD
      (voxel.x * size * size + voxel.y * size + voxel.z).toNat 0) =
      a.rayDensity.getD (voxel.x * size * size + voxel.y * size + voxel.z).toNat 0 + 1 := by
    revert hbi
    unfold incDensity rdTypeMax
    split_ifs with hc
    · intro hbi
      exact Nat.mod_eq_of_lt (by omega)
    · intro hbi
      omega
  omega

theorem visitCells_sum (size : ℕ) (dir : Float3) (voxels : List Int3) :
    ∀ a b : CellArrays, CellInv a → a.rayDensity.length = size * size * size →
      visitCells size dir a voxels = some b → (∀ i, b.rayDensity.getD i 0 < 65534) →
      b.rayDensity.sum = a.rayDensity.sum + voxels.length := by
  induction voxels with
  | nil =>
    intro a b _ _ h _
    simp [visitCells] at h
    subst h
    simp
  | cons v rest ih =>
    intro a b ha hlen h hb
    simp only [visitCells, List.foldlM_cons] at h
    cases hv : visitCell size dir a v with
    | none => simp [hv] at h
    | some a1 =>
      rw [hv] at h
      have hi1 := visitCell_inv size dir a a1 v ha hv
      have hlen1 : a1.rayDensity.length = size * size * size := by
        rw [visitCell_density size dir a a1 v hv]
        simpa using hlen
      obtain ⟨_, _, hle⟩ := visitCells_inv size dir rest a1 b hi1 h
      have h1 := visitCell_sum size dir a a1 v ha.1 hlen hv
        (fun i => lt_of_le_of_lt (hle i) (hb i))
      have h2 := ih a1 b hi1 hlen1 h hb
      rw [h2, h1, List.length_cons]
      omega

theorem VoxelTraceCells_length_pos (start end_ : Double3) :
    0 < (VoxelTraceCells start end_).length := by
  obtain ⟨cells, hc⟩ := traceLoop_fuel start end_
  obtain ⟨rest, hr⟩ := VoxelTrace_eq_some_cons _ _ _ _ hc
  unfold VoxelTraceCells
  rw [hc, hr]
  simp

theorem fillRay_spec (nanInterval : NanInterval) (chunkSize_ : ℕ) (cellSize_ : ℚ) (maxT_ : Option ℚ) (missTolerance : ℚ)
    (st st' : ChunkData × List Double3) (ray : Ray)
    (hinv : CellInv ⟨st.1.rayDensity, st.2⟩)
    (hlen : st.1.rayDensity.length = chunkSize_ * chunkSize_ * chunkSize_)
    (h : fillRay nanInterval chunkSize_ cellSize_ maxT_ missTolerance st ray = some st') :
    SameFrame st.1 st'.1 ∧ st'.1.directions = st.1.directions ∧
    CellInv ⟨st'.1.rayDensity, st'.2⟩ ∧
    st'.1.rayDensity.length = chunkSize_ * chunkSize_ * chunkSize_ ∧
    (∀ i, st.1.rayDensity.getD i 0 ≤ st'.1.rayDensity.getD i 0) ∧
    st'.1.missedRays = st.1.missedRays +
      (if rayMisses nanInterval missTolerance maxT_ st.1.min st.1.max ray then 1 else 0) ∧
    ((∀ i, st'.1.rayDensity.getD i 0 < 65534) →
      st.1.rayDensity.sum +
        (if rayMisses nanInterval missTolerance maxT_ st.1.min st.1.max ray then 0 else 1) ≤
        st'.1.rayDensity.sum) := by
  unfold fillRay at h
  unfold rayMisses
  cases hI : IntersectAABB nanInterval ray.origin ray.direction st.1.min st.1.max with
  | none => simp [hI] at h
  | some minMax =>
    simp only [hI] at h ⊢
    by_cases hH : HitAABB minMax (clippedT missTolerance maxT_ ray) = true
    · simp only [hH, Bool.not_true, Bool.false_eq_true, if_false] at h ⊢
      cases hts : (stdMax minMax.x (FloatX.fin ray.tMin)).toRat with
      | none => simp [hts] at h
      | some tStart =>
        cases hte : (stdMin minMax.y (FloatX.fin (clippedT missTolerance maxT_ ray))).toRat with
        | none => simp [hts, hte] at h
        | some tEnd =>
          simp only [hts, hte] at h
          split_ifs at h with hc ha
          obtain ⟨a, hv, hst⟩ := Option.map_eq_some'.mp h
          subst hst
          obtain ⟨hi, hl, hle⟩ := visitCells_inv _ _ _ _ _ hinv hv
          refine ⟨⟨rfl, rfl, rfl, rfl, rfl⟩, rfl, hi, ?_, hle, by simp, ?_⟩
          · simpa [hlen] using hl
          · intro hb
            have hs := visitCells_sum _ _ _ _ _ hinv hlen hv hb
            have hp := VoxelTraceCells_length_pos
              ((((ray.origin.add (ray.direction.smul tStart)).sub
                st.1.min).sdiv cellSize_).clamp 0 (chunkSize_ - 1 / 1000))
              ((((ray.origin.add (ray.direction.smul tEnd)).sub
                st.1.min).sdiv cellSize_).clamp 0 (chunkSize_ - 1 / 1000))
            simp only at hs ⊢
            omega
    · have hH' : HitAABB minMax (clippedT missTolerance maxT_ ray) = false := by
        simpa using hH
      simp only [hH', Bool.not_false, if_true, Option.some.injEq] at h ⊢
      subst h
      exact ⟨⟨rfl, rfl, rfl, rfl, rfl⟩, rfl, hinv, hlen, fun _ => le_refl _, rfl,
        fun _ => by simp⟩

theorem foldlM_fillRay_spec (nanInterval : NanInterval) (chunkSize_ : ℕ) (cellSize_ : ℚ) (maxT_ : Option ℚ)
    (missTolerance : ℚ) (rays : List Ray) :
    ∀ st st' : ChunkData × List Double3, CellInv ⟨st.1.rayDensity, st.2⟩ →
      st.1.rayDensity.length = chunkSize_ * chunkSize_ * chunkSize_ →
      rays.foldlM (fillRay nanInterval chunkSize_ cellSize_ maxT_ missTolerance) st = some st' →
      SameFrame st.1 st'.1 ∧ st'.1.directions = st.1.directions ∧
      CellInv ⟨st'.1.rayDensity, st'.2⟩ ∧
      st'.1.rayDensity.length = chunkSize_ * chunkSize_ * chunkSize_ ∧
      (∀ i, st.1.rayDensity.getD i 0 ≤ st'.1.rayDensity.getD i 0) ∧
      st'.1.missedRays = st.1.missedRays +
        rays.countP (rayMisses nanInterval missTolerance maxT_ st.1.min st.1.max) ∧
      ((∀ i, st'.1.rayDensity.getD i 0 < 65534) →
        st.1.rayDensity.sum + rays.length ≤
          st'.1.rayDensity.sum +
            rays.countP (rayMisses nanInterval missTolerance maxT_ st.1.min st.1.max)) := by
  induction rays with
  | nil =>
    intro st st' hinv hlen h
    simp at h
    subst h
    exact ⟨⟨rfl, rfl, rfl, rfl, rfl⟩, rfl, hinv, hlen, fun _ => le_refl _, by simp, by simp⟩
  | cons ray rest ih =>
    intro st st' hinv hlen h
    rw [List.foldlM_cons] at h
    cases h1 : fillRay nanInterval chunkSize_ cellSize_ maxT_ missTolerance st ray with
    | none => simp [h1] at h
    | some st1 =>
      rw [h1] at h
      obtain ⟨f1, d1, i1, l1, m1, c1, s1⟩ := fillRay_spec _ _ _ _ _ _ _ _ hinv hlen h1
      obtain ⟨f2, d2, i2, l2, m2, c2, s2⟩ := ih st1 st' i1 l1 h
      obtain ⟨fa, fb, fc, fd, fe⟩ := f1
      obtain ⟨ga, gb, gc, gd, ge⟩ := f2
      rw [fb, fc] at c2 s2
      refine ⟨⟨ga.trans fa, gb.trans fb, gc.trans fc, gd.trans fd, ge.trans fe⟩, d2.trans d1,
        i2, l2, fun i => le_trans (m1 i) (m2 i), ?_, ?_⟩
      · rw [c2, c1, List.countP_cons]
        omega
      · intro hb
        have hb1 : ∀ i, st1.1.rayDensity.getD i 0 < 65534 :=
          fun i => lt_of_le_of_lt (m2 i) (hb i)
        have e1 := s1 hb1
        have e2 := s2 hb
        rw [List.countP_cons, List.length_cons]
        split_ifs at e1 ⊢ <;> omega

theorem fresh_cellInv (n : ℕ) :
    CellInv ⟨List.replicate n 0, List.replicate n (⟨0, 0, 0⟩ : Double3)⟩ := by
  refine ⟨?_, by simp, ?_⟩
  · intro i
    simp only [getD_replicate_zero]
    omega
  · intro i _
    simp only [List.getD_eq_getElem?_getD, List.getElem?_replicate]
    split_ifs <;> rfl

theorem fillChunk_eq (nanInterval : NanInterval) (normalize : Double3 → Float3) (chunkSize_ : ℕ) (cellSize_ : ℚ)
    (maxT_ : Option ℚ) (missTolerance : ℚ) (rays : List Ray) (task : ChunkData) :
    fillChunk nanInterval normalize chunkSize_ cellSize_ maxT_ missTolerance rays task =
      (fillLoop nanInterval chunkSize_ cellSize_ maxT_ missTolerance rays task).map
        (fun st => { st.1 with
          directions := st.2.map normalize
          maxRays := st.1.rayDensity.foldl Max.max 0 }) := rfl

/-- What the chunk task does to a freshly created chunk: everything the later
claims need about one entry of `Data()`. -/
theorem fillChunk_spec (nanInterval : NanInterval) (normalize : Double3 → Float3) (chunkSize_ : ℕ) (cellSize_ : ℚ)
    (maxT_ : Option ℚ) (missTolerance : ℚ) (rays : List Ray) (task c : ChunkData)
    (hfresh : task.rayDensity = List.replicate (chunkSize_ * chunkSize_ * chunkSize_) 0)
    (hmiss : task.missedRays = 0)
    (h : fillChunk nanInterval normalize chunkSize_ cellSize_ maxT_ missTolerance rays task = some c) :
    ∃ sums : List Double3,
      (fillLoop nanInterval chunkSize_ cellSize_ maxT_ missTolerance rays task).map Prod.snd = some sums ∧
      c.directions = sums.map normalize ∧
      c.maxRays = c.rayDensity.foldl Max.max 0 ∧
      c.chunkIdx = task.chunkIdx ∧ c.min = task.min ∧ c.max = task.max ∧
      c.chunkSize = task.chunkSize ∧ c.rayCount = rays.length ∧
      CellInv ⟨c.rayDensity, sums⟩ ∧
      c.rayDensity.length = chunkSize_ * chunkSize_ * chunkSize_ ∧
      c.missedRays = rays.countP (rayMisses nanInterval missTolerance maxT_ task.min task.max) ∧
      ((∀ i, c.rayDensity.getD i 0 < 65534) →
        rays.length ≤ c.rayDensity.sum +
          rays.countP (rayMisses nanInterval missTolerance maxT_ task.min task.max)) := by
  rw [fillChunk_eq] at h
  obtain ⟨st, hst, hc⟩ := Option.map_eq_some'.mp h
  subst hc
  unfold fillLoop at hst
  have hinv : CellInv ⟨({ task with rayCount := rays.length } : ChunkData).rayDensity,
      List.replicate (chunkSize_ * chunkSize_ * chunkSize_) (⟨0, 0, 0⟩ : Double3)⟩ := by
    simp only [hfresh]
    exact fresh_cellInv _
  obtain ⟨f, d, i, l, m, cm, s⟩ := foldlM_fillRay_spec _ _ _ _ _ rays _ st hinv
    (by simp [hfresh]) hst
  obtain ⟨fa, fb, fc, fd, fe⟩ := f
  refine ⟨st.2, by simp [fillLoop, hst], rfl, rfl, fa, fb, fc, fd, fe, i, l, ?_, ?_⟩
  · simpa [hmiss] using cm
  · intro hb
    have := s hb
    simp only [hfresh, List.sum_replicate, smul_eq_mul, mul_zero, zero_add] at this
    exact this

/-! ### The structure of the result of `Sample` -/

theorem mem_taskLoop (mk : ℕ → ChunkData) (flags : List ℕ) :
    ∀ (i : ℕ) (data : List ChunkData) (c : ChunkData),
      c ∈ taskLoop mk flags i data → c ∈ data ∨ ∃ j, c = mk j := by
  induction flags with
  | nil =>
    intro i data c h
    exact Or.inl (by simpa [taskLoop] using h)
  | cons flag flags ih =>
    intro i data c h
    unfold taskLoop at h
    have hstep : ∀ d, d ∈ (if 0 < flag then data ++ [mk i] else data) →
        d ∈ data ∨ ∃ j, d = mk j := by
      intro d hd
      split_ifs at hd
      · rcases List.mem_append.mp hd with h1 | h1
        · exact Or.inl h1
        · exact Or.inr ⟨i, by simpa using h1⟩
      · exact Or.inl hd
    by_cases hc : 512 ≤ (if 0 < flag then data ++ [mk i] else data).length
    · simp only [hc, if_true] at h
      exact hstep c h
    · simp only [hc, if_false] at h
      rcases ih (i + 1) _ c h with h1 | h1
      · exact hstep c h1
      · exact Or.inr h1

theorem mem_blockLoop (mk : Int3 → ℕ → ChunkData) (blocks : List (Int3 × List ℕ)) :
    ∀ (data : List ChunkData) (c : ChunkData),
      c ∈ blockLoop mk blocks data → c ∈ data ∨ ∃ key j, c = mk key j := by
  induction blocks with
  | nil =>
    intro data c h
    exact Or.inl (by simpa [blockLoop] using h)
  | cons e rest ih =>
    intro data c h
    unfold blockLoop at h
    have hstep : ∀ d, d ∈ taskLoop (mk e.1) e.2 0 data → d ∈ data ∨ ∃ key j, d = mk key j := by
      intro d hd
      rcases mem_taskLoop _ _ _ _ _ hd with h1 | ⟨j, h1⟩
      · exact Or.inl h1
      · exact Or.inr ⟨e.1, j, h1⟩
    by_cases hc : 512 ≤ (taskLoop (mk e.1) e.2 0 data).length
    · simp only [hc, if_true] at h
      exact hstep c h
    · simp only [hc, if_false] at h
      rcases ih _ c h with h1 | h1
      · exact hstep c h1
      · exact Or.inr h1

theorem mem_createChunkTasks (chunkSize_ : ℕ) (voxelSize : ℚ) (min : Float3)
    (chunks : ChunkedArray3D) (c : ChunkData)
    (h : c ∈ createChunkTasks chunkSize_ voxelSize min chunks) :
    ∃ key i, c = makeTask chunkSize_ voxelSize min key i := by
  rcases mem_blockLoop _ _ _ _ h with h1 | h1
  · simp at h1
  · exact h1

theorem mem_forEachTask (f : ChunkData → Option ChunkData) (l : List ChunkData) :
    ∀ r : List ChunkData, forEachTask f l = some r → ∀ d ∈ r, ∃ t ∈ l, f t = some d := by
  induction l with
  | nil =>
    intro r h d hd
    simp [forEachTask] at h
    subst h
    simp at hd
  | cons a l ih =>
    intro r h d hd
    unfold forEachTask at h
    cases ha : f a with
    | none => simp [ha] at h
    | some b =>
      cases hl : forEachTask f l with
      | none => simp [ha, hl] at h
      | some r1 =>
        simp [ha, hl] at h
        subst h
        rcases List.mem_cons.mp hd with h1 | h1
        · exact ⟨a, List.mem_cons_self _ _, by rw [ha, h1]⟩
        · obtain ⟨t, ht, hft⟩ := ih r1 hl d h1
          exact ⟨t, List.mem_cons_of_mem _ ht, hft⟩

theorem Sample_some (nanInterval : NanInterval) (normalize : Double3 → Float3) (missTolerance : ℚ)
    (s t : VolumetricSampler) (h : Sample nanInterval normalize missTolerance s = some t) :
    ∃ tasks, discoverTasks missTolerance s = some tasks ∧
      forEachTask (fillChunk nanInterval normalize s.chunkSize_ s.cellSize_ s.maxT_ missTolerance
        (filterRays missTolerance s.filter_ s.trace)) tasks = some t.data_ ∧
      t = { s with
        data_ := t.data_
        maxRays_ := (aggregate t.data_).1
        min_ := (aggregate t.data_).2.1
        max_ := (aggregate t.data_).2.2
        dirty_ := false } := by
  unfold Sample at h
  cases hd : discoverTasks missTolerance s with
  | none => simp [hd] at h
  | some tasks =>
    simp only [hd] at h
    cases hf : forEachTask (fillChunk nanInterval normalize s.chunkSize_ s.cellSize_ s.maxT_ missTolerance
        (filterRays missTolerance s.filter_ s.trace)) tasks with
    | none => simp [hf] at h
    | some data =>
      simp only [hf, Option.some.injEq] at h
      subst h
      exact ⟨tasks, rfl, hf, rfl⟩

theorem Sample_chunk (nanInterval : NanInterval) (normalize : Double3 → Float3) (missTolerance : ℚ)
    (s t : VolumetricSampler) (h : Sample nanInterval normalize missTolerance s = some t)
    (c : ChunkData) (hc : c ∈ t.data_) :
    ∃ key i,
      fillChunk nanInterval normalize s.chunkSize_ s.cellSize_ s.maxT_ missTolerance
        (filterRays missTolerance s.filter_ s.trace)
        (makeTask s.chunkSize_ (s.chunkSize_ * s.cellSize_)
          (rayBounds missTolerance s.maxT_ (filterRays missTolerance s.filter_ s.trace)).1
          key i) = some c := by
  obtain ⟨tasks, hd, hf, _⟩ := Sample_some _ normalize missTolerance s t h
  obtain ⟨task, htask, hfill⟩ := mem_forEachTask _ _ _ hf c hc
  unfold discoverTasks at hd
  obtain ⟨chunks, _, hct⟩ := Option.map_eq_some'.mp hd
  rw [← hct] at htask
  obtain ⟨key, i, hk⟩ := mem_createChunkTasks _ _ _ _ _ htask
  exact ⟨key, i, by rw [← hk]; exact hfill⟩

/-! ### Samplers whose rays all lie in chunk `(0,0,0)` -/

theorem flaggedFrom_set_zero (n : ℕ) (hn : 0 < n) :
    flaggedFrom 0 ((List.replicate n 0).set 0 1) = [0] := by
  apply flaggedFrom_eq
  · simp
  · intro j
    simp only [List.length_set, List.length_replicate, getD_set_eq, getD_replicate_zero,
      List.mem_singleton]
    constructor
    · intro h
      subst h
      simp [hn]
    · rintro ⟨_, h2⟩
      split_ifs at h2 with hc
      · exact hc.1
      · omega

theorem flagVoxel_origin_again (H : ℕ) (hH : H ≠ 0) :
    flagVoxel { chunkSize := H
                data_ := [(⟨0, 0, 0⟩, (List.replicate (H * H * H) 0).set 0 1)]
                lastChunkId_ := ⟨0, 0, 0⟩ } ⟨0, 0, 0⟩ =
      some { chunkSize := H
             data_ := [(⟨0, 0, 0⟩, (List.replicate (H * H * H) 0).set 0 1)]
             lastChunkId_ := ⟨0, 0, 0⟩ } := by
  rw [flagVoxel_same_block H hH ⟨0, 0, 0⟩ ⟨0, 0, 0⟩ 0 _ (le_refl _) (le_refl _) (le_refl _)
    (by simp) (by simp)]
  simp

theorem foldlM_flag_origin (H : ℕ) (hH : H ≠ 0) (cells : List Int3)
    (hc : ∀ v ∈ cells, v = (⟨0, 0, 0⟩ : Int3)) :
    cells.foldlM flagVoxel
        { chunkSize := H
          data_ := [(⟨0, 0, 0⟩, (List.replicate (H * H * H) 0).set 0 1)]
          lastChunkId_ := ⟨0, 0, 0⟩ } =
      some { chunkSize := H
             data_ := [(⟨0, 0, 0⟩, (List.replicate (H * H * H) 0).set 0 1)]
             lastChunkId_ := ⟨0, 0, 0⟩ } := by
  induction cells with
  | nil => rfl
  | cons v rest ih =>
    have hv : v = ⟨0, 0, 0⟩ := hc v (List.mem_cons_self _ _)
    subst hv
    rw [foldlM_flag_cons _ _ _ _ (flagVoxel_origin_again H hH)]
    exact ih (fun w hw => hc w (List.mem_cons_of_mem _ hw))

theorem foldlM_flag_origin_new (H : ℕ) (hH : H ≠ 0) (cells : List Int3)
    (hne : cells ≠ []) (hc : ∀ v ∈ cells, v = (⟨0, 0, 0⟩ : Int3)) :
    cells.foldlM flagVoxel (ChunkedArray3D.new H) =
      some { chunkSize := H
             data_ := [(⟨0, 0, 0⟩, (List.replicate (H * H * H) 0).set 0 1)]
             lastChunkId_ := ⟨0, 0, 0⟩ } := by
  cases cells with
  | nil => exact absurd rfl hne
  | cons v rest =>
    have hv : v = ⟨0, 0, 0⟩ := hc v (List.mem_cons_self _ _)
    subst hv
    rw [foldlM_flag_cons _ _ _ _ (flagVoxel_new H hH ⟨0, 0, 0⟩ ⟨0, 0, 0⟩ 0 (le_refl _)
      (le_refl _) (le_refl _) (by simp) (by simp))]
    exact foldlM_flag_origin H hH rest (fun w hw => hc w (List.mem_cons_of_mem _ hw))

theorem findChunks_origin (missTolerance : ℚ) (maxT_ : Option ℚ) (voxelSize : ℚ) (min : Float3)
    (rays : List Ray) (hne : rays ≠ []) (hv : voxelSize ≠ 0)
    (hc : ∀ ray ∈ rays, ∀ v ∈ VoxelTraceCells
      (chunkSegment missTolerance maxT_ voxelSize min ray).1
      (chunkSegment missTolerance maxT_ voxelSize min ray).2, v = (⟨0, 0, 0⟩ : Int3)) :
    findChunks missTolerance maxT_ voxelSize min rays =
      some { chunkSize := 128
             data_ := [(⟨0, 0, 0⟩, (List.replicate (128 * 128 * 128) 0).set 0 1)]
             lastChunkId_ := ⟨0, 0, 0⟩ } := by
  have hstep : ∀ (rest : List Ray), (∀ ray ∈ rest, ∀ v ∈ VoxelTraceCells
      (chunkSegment missTolerance maxT_ voxelSize min ray).1
      (chunkSegment missTolerance maxT_ voxelSize min ray).2, v = (⟨0, 0, 0⟩ : Int3)) →
      rest.foldlM
        (fun chunks ray =>
          if voxelSize = 0 then none
          else
            (VoxelTraceCells (chunkSegment missTolerance maxT_ voxelSize min ray).1
              (chunkSegment missTolerance maxT_ voxelSize min ray).2).foldlM flagVoxel chunks)
        ({ chunkSize := 128
           data_ := [(⟨0, 0, 0⟩, (List.replicate (128 * 128 * 128) 0).set 0 1)]
           lastChunkId_ := ⟨0, 0, 0⟩ } : ChunkedArray3D) =
      some { chunkSize := 128
             data_ := [(⟨0, 0, 0⟩, (List.replicate (128 * 128 * 128) 0).set 0 1)]
             lastChunkId_ := ⟨0, 0, 0⟩ } := by
    intro rest
    induction rest with
    | nil => intro _; rfl
    | cons r rs ih =>
      intro hrs
      rw [List.foldlM_cons, if_neg hv,
        foldlM_flag_origin 128 (by decide) _ (hrs r (List.mem_cons_self _ _))]
      exact ih (fun ray hray => hrs ray (List.mem_cons_of_mem _ hray))
  cases rays with
  | nil => exact absurd rfl hne
  | cons r rs =>
    unfold findChunks
    have hlen := VoxelTraceCells_length_pos
      (chunkSegment missTolerance maxT_ voxelSize min r).1
      (chunkSegment missTolerance maxT_ voxelSize min r).2
    rw [List.foldlM_cons, if_neg hv,
      foldlM_flag_origin_new 128 (by decide) _ (List.ne_nil_of_length_pos hlen)
        (hc r (List.mem_cons_self _ _))]
    exact hstep rs (fun ray hray => hc ray (List.mem_cons_of_mem _ hray))

theorem discoverTasks_origin (missTolerance : ℚ) (s : VolumetricSampler)
    (hne : filterRays missTolerance s.filter_ s.trace ≠ [])
    (hv : (s.chunkSize_ : ℚ) * s.cellSize_ ≠ 0)
    (hc : ∀ ray ∈ filterRays missTolerance s.filter_ s.trace, ∀ v ∈ VoxelTraceCells
      (chunkSegment missTolerance s.maxT_ (s.chunkSize_ * s.cellSize_)
        (rayBounds missTolerance s.maxT_ (filterRays missTolerance s.filter_ s.trace)).1 ray).1
      (chunkSegment missTolerance s.maxT_ (s.chunkSize_ * s.cellSize_)
        (rayBounds missTolerance s.maxT_ (filterRays missTolerance s.filter_ s.trace)).1 ray).2,
      v = (⟨0, 0, 0⟩ : Int3)) :
    discoverTasks missTolerance s =
      some [makeTask s.chunkSize_ (s.chunkSize_ * s.cellSize_)
        (rayBounds missTolerance s.maxT_ (filterRays missTolerance s.filter_ s.trace)).1
        ⟨0, 0, 0⟩ 0] := by
  unfold discoverTasks
  simp only [findChunks_origin _ _ _ _ _ hne hv hc, Option.map_some', createChunkTasks_single,
    flaggedFrom_set_zero (128 * 128 * 128) (by decide)]
  rfl

/-- For a sampler whose filtered rays all stay in chunk `(0,0,0)`: the state
after `Sample()`, from the result of the chunk task on the single chunk. -/
theorem Sample_origin (nanInterval : NanInterval) (normalize : Double3 → Float3) (missTolerance : ℚ)
    (s : VolumetricSampler) (c : ChunkData)
    (hne : filterRays missTolerance s.filter_ s.trace ≠ [])
    (hv : (s.chunkSize_ : ℚ) * s.cellSize_ ≠ 0)
    (hc : ∀ ray ∈ filterRays missTolerance s.filter_ s.trace, ∀ v ∈ VoxelTraceCells
      (chunkSegment missTolerance s.maxT_ (s.chunkSize_ * s.cellSize_)
        (rayBounds missTolerance s.maxT_ (filterRays missTolerance s.filter_ s.trace)).1 ray).1
      (chunkSegment missTolerance s.maxT_ (s.chunkSize_ * s.cellSize_)
        (rayBounds missTolerance s.maxT_ (filterRays missTolerance s.filter_ s.trace)).1 ray).2,
      v = (⟨0, 0, 0⟩ : Int3))
    (hfill : fillChunk nanInterval normalize s.chunkSize_ s.cellSize_ s.maxT_ missTolerance
      (filterRays missTolerance s.filter_ s.trace)
      (makeTask s.chunkSize_ (s.chunkSize_ * s.cellSize_)
        (rayBounds missTolerance s.maxT_ (filterRays missTolerance s.filter_ s.trace)).1
        ⟨0, 0, 0⟩ 0) = some c) :
    Sample nanInterval normalize missTolerance s =
      some { s with
        data_ := [c]
        maxRays_ := Max.max 0 c.maxRays
        min_ := Double3.min ⟨FLT_MAX, FLT_MAX, FLT_MAX⟩ (c.min.min c.max)
        max_ := Double3.max ⟨-FLT_MAX, -FLT_MAX, -FLT_MAX⟩ (c.min.max c.max)
        dirty_ := false } := by
  rw [Sample_eq_of _ normalize missTolerance s _ _ (discoverTasks_origin missTolerance s hne hv hc)
    (forEachTask_single _ _ _ hfill)]
  rfl

/-! ### Directions (claims C11, C12) -/

theorem unitAxis_spec : NormalizeSpec unitAxis := by
  refine ⟨by simp [unitAxis], ?_⟩
  intro v hv
  simp [unitAxis, hv, Double3.length2]

theorem scenarioCancel_fold (nanInterval : NanInterval) :
    fillLoop nanInterval 2 1 none (1 / 10) scenarioCancel_rays
        (makeTask 2 2 ⟨0, 0, 0⟩ ⟨0, 0, 0⟩ 0) =
    some ({ makeTask 2 2 ⟨0, 0, 0⟩ ⟨0, 0, 0⟩ 0 with
            rayCount := 3, rayDensity := [1, 0, 0, 0, 0, 0, 0, 2] },
      [⟨1, 1, 1⟩, ⟨0, 0, 0⟩, ⟨0, 0, 0⟩, ⟨0, 0, 0⟩, ⟨0, 0, 0⟩, ⟨0, 0, 0⟩, ⟨0, 0, 0⟩,
        ⟨0, 0, 0⟩]) := by
  rw [fillLoop_congr nanInterval nanBoth _ _ _ _ _ _ (by decide!)]
  decide!

theorem scenarioCancel_Sample (nanInterval : NanInterval) (normalize : Double3 → Float3) :
    Sample nanInterval normalize (1 / 10) scenarioCancel =
      some { scenarioCancel with
        data_ := [{ makeTask 2 2 ⟨0, 0, 0⟩ ⟨0, 0, 0⟩ 0 with
          rayCount := 3
          rayDensity := [1, 0, 0, 0, 0, 0, 0, 2]
          directions := [normalize ⟨1, 1, 1⟩, normalize ⟨0, 0, 0⟩, normalize ⟨0, 0, 0⟩,
            normalize ⟨0, 0, 0⟩, normalize ⟨0, 0, 0⟩, normalize ⟨0, 0, 0⟩, normalize ⟨0, 0, 0⟩,
            normalize ⟨0, 0, 0⟩]
          maxRays := 2 }]
        maxRays_ := 2
        min_ := ⟨0, 0, 0⟩
        max_ := ⟨2, 2, 2⟩
        dirty_ := false } := by
  have hfill : fillChunk nanInterval normalize scenarioCancel.chunkSize_ scenarioCancel.cellSize_
      scenarioCancel.maxT_ (1 / 10)
      (filterRays (1 / 10) scenarioCancel.filter_ scenarioCancel.trace)
      (makeTask scenarioCancel.chunkSize_ (scenarioCancel.chunkSize_ * scenarioCancel.cellSize_)
        (rayBounds (1 / 10) scenarioCancel.maxT_
          (filterRays (1 / 10) scenarioCancel.filter_ scenarioCancel.trace)).1 ⟨0, 0, 0⟩ 0) =
      some { makeTask 2 2 ⟨0, 0, 0⟩ ⟨0, 0, 0⟩ 0 with
          rayCount := 3
          rayDensity := [1, 0, 0, 0, 0, 0, 0, 2]
          directions := [normalize ⟨1, 1, 1⟩, normalize ⟨0, 0, 0⟩, normalize ⟨0, 0, 0⟩,
            normalize ⟨0, 0, 0⟩, normalize ⟨0, 0, 0⟩, normalize ⟨0, 0, 0⟩, normalize ⟨0, 0, 0⟩,
            normalize ⟨0, 0, 0⟩]
          maxRays := 2 } := by
    have e1 : makeTask scenarioCancel.chunkSize_
        (scenarioCancel.chunkSize_ * scenarioCancel.cellSize_)
        (rayBounds (1 / 10) scenarioCancel.maxT_
          (filterRays (1 / 10) scenarioCancel.filter_ scenarioCancel.trace)).1 ⟨0, 0, 0⟩ 0 =
        makeTask 2 2 ⟨0, 0, 0⟩ ⟨0, 0, 0⟩ 0 := by decide!
    have e2 : filterRays (1 / 10) scenarioCancel.filter_ scenarioCancel.trace =
        scenarioCancel_rays := rfl
    have e3 : scenarioCancel.chunkSize_ = 2 := rfl
    have e4 : scenarioCancel.cellSize_ = 1 := rfl
    have e5 : scenarioCancel.maxT_ = none := rfl
    rw [e1, e2, e3, e4, e5, fillChunk_eq, scenarioCancel_fold]
    simp only [Option.map_some', List.map_cons, List.map_nil, List.foldl_cons, List.foldl_nil]
    congr 1
  rw [Sample_origin _ normalize (1 / 10) scenarioCancel _ (by decide!) (by decide!) (by decide!)
    hfill]
  have hb : (Max.max 0 2 : ℕ) = 2 ∧
      Double3.min ⟨FLT_MAX, FLT_MAX, FLT_MAX⟩
        ((makeTask 2 2 ⟨0, 0, 0⟩ ⟨0, 0, 0⟩ 0).min.min (makeTask 2 2 ⟨0, 0, 0⟩ ⟨0, 0, 0⟩ 0).max) =
          ⟨0, 0, 0⟩ ∧
      Double3.max ⟨-FLT_MAX, -FLT_MAX, -FLT_MAX⟩
        ((makeTask 2 2 ⟨0, 0, 0⟩ ⟨0, 0, 0⟩ 0).min.max (makeTask 2 2 ⟨0, 0, 0⟩ ⟨0, 0, 0⟩ 0).max) =
          ⟨2, 2, 2⟩ := by
    decide!
  simp only [hb.1, hb.2.1, hb.2.2]

theorem makeTask_fresh (chunkSize_ : ℕ) (voxelSize : ℚ) (min : Float3) (key : Int3) (i : ℕ) :
    (makeTask chunkSize_ voxelSize min key i).rayDensity =
        List.replicate (chunkSize_ * chunkSize_ * chunkSize_) 0 ∧
      (makeTask chunkSize_ voxelSize min key i).missedRays = 0 :=
  ⟨rfl, rfl⟩

theorem getD_map_normalize (normalize : Double3 → Float3) (sums : List Double3) (i : ℕ)
    (h0 : normalize ⟨0, 0, 0⟩ = ⟨0, 0, 0⟩) :
    (sums.map normalize).getD i ⟨0, 0, 0⟩ = normalize (sums.getD i ⟨0, 0, 0⟩) := by
  simp only [List.getD_eq_getElem?_getD, List.getElem?_map]
  cases sums[i]? with
  | none => simp [h0]
  | some v => simp

/-- Claim C12: for a `normalize` as the spec describes it (zero sum to zero
vector) and every chunk of `Data()` after `Sample()`, the density and direction
arrays hold `chunkSize^3` cells each, and every cell whose density is 0 stores
exactly the zero vector as direction. -/
theorem zero_density_zero_direction (nanInterval : NanInterval) (normalize : Double3 → Float3)
    (hn : NormalizeSpec normalize) (missTolerance : ℚ) (s t : VolumetricSampler)
    (h : Sample nanInterval normalize missTolerance s = some t) (c : ChunkData) (hc : c ∈ t.data_) :
    c.rayDensity.length = s.chunkSize_ * s.chunkSize_ * s.chunkSize_ ∧
    c.directions.length = s.chunkSize_ * s.chunkSize_ * s.chunkSize_ ∧
    ∀ i, c.rayDensity.getD i 0 = 0 → c.directions.getD i ⟨0, 0, 0⟩ = ⟨0, 0, 0⟩ := by
  obtain ⟨key, i, hfill⟩ := Sample_chunk _ normalize missTolerance s t h c hc
  obtain ⟨sums, _, hdir, _, _, _, _, _, _, hinv, hlen, _, _⟩ :=
    fillChunk_spec _ normalize _ _ _ _ _ _ c (makeTask_fresh _ _ _ _ _).1
      (makeTask_fresh _ _ _ _ _).2 hfill
  obtain ⟨_, hl2, hz⟩ := hinv
  refine ⟨hlen, ?_, ?_⟩
  · rw [hdir, List.length_map, ← hl2]
    exact hlen
  · intro j hj
    rw [hdir, getD_map_normalize normalize sums j hn.1, hz j hj]
    exact hn.1

/-- Witness for `zero_density_zero_direction`: the chunk of `scenarioD`, with
`unitAxis` as `normalize`. -/
theorem zero_density_zero_direction_witness :
    NormalizeSpec unitAxis ∧
    Sample nanBoth unitAxis (1 / 10) scenarioD = some (scenarioD_result unitAxis) ∧
    scenarioD_chunk unitAxis ∈ (scenarioD_result unitAxis).data_ ∧
    (scenarioD_chunk unitAxis).rayDensity.length = 2 * 2 * 2 ∧
    (scenarioD_chunk unitAxis).directions.length = 2 * 2 * 2 ∧
    ∀ i, (scenarioD_chunk unitAxis).rayDensity.getD i 0 = 0 →
      (scenarioD_chunk unitAxis).directions.getD i ⟨0, 0, 0⟩ = ⟨0, 0, 0⟩ :=
  ⟨unitAxis_spec, scenarioD_Sample nanBoth unitAxis, List.Mem.head [],
    zero_density_zero_direction nanBoth unitAxis unitAxis_spec (1 / 10) scenarioD
      (scenarioD_result unitAxis) (scenarioD_Sample nanBoth unitAxis) (scenarioD_chunk unitAxis)
      (List.Mem.head [])⟩

/-- Claim C11 as stated fails when the directions of the rays through a cell
cancel: in `scenarioCancel` the cell `(1,1,1)` (index 7) is crossed by one ray
in direction `(1,1,1)` and one in direction `(-1,-1,-1)`; after `Sample()` its
density is 2 and its direction is `normalize (0,0,0)`, the zero vector for a
`normalize` as the spec describes it, of squared length 0. -/
theorem direction_of_cancelling_rays :
    NormalizeSpec unitAxis ∧
    (Sample nanBoth unitAxis (1 / 10) scenarioCancel).map
      (fun t => t.data_.map
        (fun c => (c.rayDensity.getD 7 0, c.directions.getD 7 ⟨0, 0, 0⟩,
          (c.directions.getD 7 ⟨0, 0, 0⟩).length2))) =
      some [(2, ⟨0, 0, 0⟩, 0)] := by
  refine ⟨unitAxis_spec, ?_⟩
  rw [scenarioCancel_Sample]
  decide!

/-- Claim C11, as amended: for a `normalize` as the spec describes it and every
chunk of `Data()` after `Sample()`, the stored directions are the
normalisations of the direction sums of the chunk's ray loop, and every cell
whose direction sum is not the zero vector has density greater than 0 and a
stored direction of length 1. -/
theorem nonzero_sum_unit_direction (nanInterval : NanInterval) (normalize : Double3 → Float3)
    (hn : NormalizeSpec normalize) (missTolerance : ℚ) (s t : VolumetricSampler)
    (h : Sample nanInterval normalize missTolerance s = some t) (c : ChunkData) (hc : c ∈ t.data_) :
    ∃ (key : Int3) (i : ℕ) (sums : List Double3),
      (fillLoop nanInterval s.chunkSize_ s.cellSize_ s.maxT_ missTolerance
        (filterRays missTolerance s.filter_ s.trace)
        (makeTask s.chunkSize_ (s.chunkSize_ * s.cellSize_)
          (rayBounds missTolerance s.maxT_ (filterRays missTolerance s.filter_ s.trace)).1
          key i)).map Prod.snd = some sums ∧
      c.directions = sums.map normalize ∧
      ∀ j, sums.getD j ⟨0, 0, 0⟩ ≠ ⟨0, 0, 0⟩ →
        0 < c.rayDensity.getD j 0 ∧ (c.directions.getD j ⟨0, 0, 0⟩).length2 = 1 := by
  obtain ⟨key, i, hfill⟩ := Sample_chunk _ normalize missTolerance s t h c hc
  obtain ⟨sums, hsums, hdir, _, _, _, _, _, _, hinv, _, _, _⟩ :=
    fillChunk_spec _ normalize _ _ _ _ _ _ c (makeTask_fresh _ _ _ _ _).1
      (makeTask_fresh _ _ _ _ _).2 hfill
  refine ⟨key, i, sums, hsums, hdir, ?_⟩
  intro j hj
  constructor
  · by_contra hzero
    exact hj (hinv.2.2 j (Nat.eq_zero_of_not_pos hzero))
  · rw [hdir, getD_map_normalize normalize sums j hn.1]
    exact hn.2 _ hj

/-- Witness for `nonzero_sum_unit_direction`: the chunk of `scenarioD`, with
`unitAxis` as `normalize`; its cells 0 and 7 have the direction sums `(1,1,1)`
and `(5,8,11)`. -/
theorem nonzero_sum_unit_direction_witness :
    NormalizeSpec unitAxis ∧
    Sample nanBoth unitAxis (1 / 10) scenarioD = some (scenarioD_result unitAxis) ∧
    scenarioD_chunk unitAxis ∈ (scenarioD_result unitAxis).data_ ∧
    ∃ (key : Int3) (i : ℕ) (sums : List Double3),
      (fillLoop nanBoth 2 1 none (1 / 10) scenarioD_rays
        (makeTask 2 ((2 : ℕ) * (1 : ℚ)) (rayBounds (1 / 10) none scenarioD_rays).1
          key i)).map Prod.snd = some sums ∧
      (scenarioD_chunk unitAxis).directions = sums.map unitAxis ∧
      ∀ j, sums.getD j ⟨0, 0, 0⟩ ≠ ⟨0, 0, 0⟩ →
        0 < (scenarioD_chunk unitAxis).rayDensity.getD j 0 ∧
        ((scenarioD_chunk unitAxis).directions.getD j ⟨0, 0, 0⟩).length2 = 1 :=
  ⟨unitAxis_spec, scenarioD_Sample nanBoth unitAxis, List.Mem.head [],
    nonzero_sum_unit_direction nanBoth unitAxis unitAxis_spec (1 / 10) scenarioD
      (scenarioD_result unitAxis) (scenarioD_Sample nanBoth unitAxis) (scenarioD_chunk unitAxis)
      (List.Mem.head [])⟩

/-! ### Ray counters and maxima (claims C13, C14) -/

theorem visitCells_count (size : ℕ) (dir : Float3) (voxels : List Int3) :
    ∀ a b : CellArrays, a.rayDensity.length = size * size * size →
      visitCells size dir a voxels = some b →
      (∀ i ∈ voxels.map (fun v : Int3 => (v.x * (size : ℤ) * size + v.y * size + v.z).toNat),
        i < size * size * size) ∧
      ∀ i, b.rayDensity.getD i 0 =
        incDensity^[(voxels.map
          (fun v : Int3 => (v.x * (size : ℤ) * size + v.y * size + v.z).toNat)).count i]
          (a.rayDensity.getD i 0) := by
  induction voxels with
  | nil =>
    intro a b _ h
    simp only [visitCells, List.foldlM_nil] at h
    have hab : a = b := Option.some.inj h
    subst hab
    simp
  | cons v rest ih =>
    intro a b hlen h
    simp only [visitCells, List.foldlM_cons] at h
    cases hv : visitCell size dir a v with
    | none => simp [hv] at h
    | some a1 =>
      rw [hv] at h
      have hd := visitCell_density size dir a a1 v hv
      have hlen1 : a1.rayDensity.length = size * size * size := by
        rw [hd]
        simpa using hlen
      have hidx : (v.x * size * size + v.y * size + v.z).toNat < size * size * size := by
        unfold visitCell at hv
        split_ifs at hv with hr
        exact cell_index_lt size v hr.1 hr.2
      obtain ⟨h1, h2⟩ := ih a1 b hlen1 h
      refine ⟨?_, ?_⟩
      · intro i hi
        rw [List.map_cons, List.mem_cons] at hi
        rcases hi with rfl | hi
        · exact hidx
        · exact h1 i hi
      · intro i
        rw [h2 i, hd, getD_set_eq, List.map_cons, List.count_cons]
        by_cases hi : i = (v.x * size * size + v.y * size + v.z).toNat
        · subst hi
          rw [if_pos ⟨rfl, by rw [hlen]; exact hidx⟩]
          simp [Function.iterate_succ_apply]
        · have hne : ¬ ((v.x * size * size + v.y * size + v.z).toNat == i) = true := by
            simpa using fun e => hi e.symm
          rw [if_neg (fun e => hi e.1), if_neg hne, Nat.add_zero]

/-- What the loop body of step 3 does with one ray: a ray that misses the chunk
box is counted in `missedRays` and leaves the densities as they are; every
other ray hands a non-empty sequence of cells of the chunk to the visit
callback, and each visit applies the guarded increment to the cell's counter. -/
theorem fillRay_visits (nanInterval : NanInterval) (chunkSize_ : ℕ) (cellSize_ : ℚ)
    (maxT_ : Option ℚ) (missTolerance : ℚ) (st st' : ChunkData × List Double3) (ray : Ray)
    (hlen : st.1.rayDensity.length = chunkSize_ * chunkSize_ * chunkSize_)
    (h : fillRay nanInterval chunkSize_ cellSize_ maxT_ missTolerance st ray = some st') :
    (rayMisses nanInterval missTolerance maxT_ st.1.min st.1.max ray = true →
      st'.1.rayDensity = st.1.rayDensity) ∧
    (rayMisses nanInterval missTolerance maxT_ st.1.min st.1.max ray = false →
      ∃ visits : List ℕ, visits ≠ [] ∧
        (∀ i ∈ visits, i < chunkSize_ * chunkSize_ * chunkSize_) ∧
        ∀ i, st'.1.rayDensity.getD i 0 =
          incDensity^[visits.count i] (st.1.rayDensity.getD i 0)) := by
  unfold fillRay at h
  unfold rayMisses
  cases hI : IntersectAABB nanInterval ray.origin ray.direction st.1.min st.1.max with
  | none => simp [hI] at h
  | some minMax =>
    simp only [hI] at h ⊢
    by_cases hH : HitAABB minMax (clippedT missTolerance maxT_ ray) = true
    · simp only [hH, Bool.not_true, Bool.false_eq_true, if_false] at h ⊢
      cases hts : (stdMax minMax.x (FloatX.fin ray.tMin)).toRat with
      | none => simp [hts] at h
      | some tStart =>
        cases hte : (stdMin minMax.y (FloatX.fin (clippedT missTolerance maxT_ ray))).toRat with
        | none => simp [hts, hte] at h
        | some tEnd =>
          simp only [hts, hte] at h
          split_ifs at h with hc ha
          obtain ⟨a, hv, hst⟩ := Option.map_eq_some'.mp h
          subst hst
          obtain ⟨h1, h2⟩ := visitCells_count _ _ _ _ _ hlen hv
          refine ⟨fun hf => absurd hf (by simp), fun _ => ⟨_, ?_, h1, h2⟩⟩
          intro hnil
          have hp := VoxelTraceCells_length_pos
            ((((ray.origin.add (ray.direction.smul tStart)).sub
              st.1.min).sdiv cellSize_).clamp 0 (chunkSize_ - 1 / 1000))
            ((((ray.origin.add (ray.direction.smul tEnd)).sub
              st.1.min).sdiv cellSize_).clamp 0 (chunkSize_ - 1 / 1000))
          rw [List.map_eq_nil_iff] at hnil
          rw [hnil] at hp
          exact absurd hp (by simp)
    · have hH' : HitAABB minMax (clippedT missTolerance maxT_ ray) = false := by
        simpa using hH
      simp only [hH', Bool.not_false, if_true, Option.some.injEq] at h ⊢
      subst h
      exact ⟨fun _ => rfl, fun hf => absurd hf (by simp)⟩

theorem foldlM_append_some {α β : Type} (f : β → α → Option β) (l1 l2 : List α) (b r : β)
    (h : (l1 ++ l2).foldlM f b = some r) :
    ∃ m, l1.foldlM f b = some m ∧ l2.foldlM f m = some r := by
  rw [List.foldlM_append] at h
  cases h1 : l1.foldlM f b with
  | none => simp [h1] at h
  | some m => exact ⟨m, rfl, by simpa [h1] using h⟩

theorem foldlM_split_some {α β : Type} (f : β → α → Option β) (l pre post : List α) (x : α)
    (b r : β) (hl : l = pre ++ x :: post) (h : l.foldlM f b = some r) :
    ∃ before after, pre.foldlM f b = some before ∧ f before x = some after ∧
      post.foldlM f after = some r := by
  subst hl
  obtain ⟨before, hpre, hrest⟩ := foldlM_append_some _ _ _ _ _ h
  rw [List.foldlM_cons] at hrest
  cases hx : f before x with
  | none => simp [hx] at hrest
  | some after => exact ⟨before, after, hpre, hx, by simpa [hx] using hrest⟩

theorem incDensity_fixed (v : ℕ) (h : v ≤ 65534) (hne : incDensity v ≠ v) : v < 65534 := by
  by_contra hc
  have hv : v = 65534 := by omega
  subst hv
  exact hne (by decide)

/-- Claim C13, as amended: no ray is silently dropped, up to saturation.  After
`Sample()`, for every chunk, `rayCount` is the number of filtered rays and
`missedRays` is the number of filtered rays for which
`HitAABB(IntersectAABB(ray, chunk box), clipped maxT)` is false.  The ray loop of
the chunk starts from counters that are all zero and ends with the densities of
the chunk; in it a ray that misses leaves the counters as they are, and every
other ray hands a non-empty sequence of cells of the chunk to the visit
callback, each visit applying the guarded increment to the counter of its cell
(so the density of a visited cell grows unless its counter is held by the
guard).  When no counter of the chunk is held by the guard, the sum of the
chunk's densities is at least `rayCount - missedRays`. -/
theorem no_ray_dropped (nanInterval : NanInterval) (normalize : Double3 → Float3)
    (missTolerance : ℚ) (s t : VolumetricSampler)
    (h : Sample nanInterval normalize missTolerance s = some t)
    (c : ChunkData) (hc : c ∈ t.data_) :
    c.rayCount = (filterRays missTolerance s.filter_ s.trace).length ∧
    c.missedRays = (filterRays missTolerance s.filter_ s.trace).countP
      (rayMisses nanInterval missTolerance s.maxT_ c.min c.max) ∧
    (∃ init : ChunkData × List Double3,
      init.1.min = c.min ∧ init.1.max = c.max ∧
      init.1.rayDensity =
        List.replicate (s.chunkSize_ * s.chunkSize_ * s.chunkSize_) 0 ∧
      ∀ pre ray post, filterRays missTolerance s.filter_ s.trace = pre ++ ray :: post →
        ∃ before after final : ChunkData × List Double3,
          pre.foldlM (fillRay nanInterval s.chunkSize_ s.cellSize_ s.maxT_ missTolerance)
            init = some before ∧
          fillRay nanInterval s.chunkSize_ s.cellSize_ s.maxT_ missTolerance before ray =
            some after ∧
          post.foldlM (fillRay nanInterval s.chunkSize_ s.cellSize_ s.maxT_ missTolerance)
            after = some final ∧
          final.1.rayDensity = c.rayDensity ∧
          (rayMisses nanInterval missTolerance s.maxT_ c.min c.max ray = true →
            after.1.rayDensity = before.1.rayDensity) ∧
          (rayMisses nanInterval missTolerance s.maxT_ c.min c.max ray = false →
            ∃ visits : List ℕ, visits ≠ [] ∧
              (∀ i ∈ visits, i < s.chunkSize_ * s.chunkSize_ * s.chunkSize_) ∧
              ∀ i, after.1.rayDensity.getD i 0 =
                incDensity^[visits.count i] (before.1.rayDensity.getD i 0))) ∧
    ((∀ i, incDensity (c.rayDensity.getD i 0) ≠ c.rayDensity.getD i 0) →
      c.rayCount - c.missedRays ≤ c.rayDensity.sum) := by
  obtain ⟨key, i, hfill⟩ := Sample_chunk _ normalize missTolerance s t h c hc
  obtain ⟨sums, _, _, _, _, hmin, hmax, _, hcount, hinvc, _, hmiss, hsum⟩ :=
    fillChunk_spec _ normalize _ _ _ _ _ _ c (makeTask_fresh _ _ _ _ _).1
      (makeTask_fresh _ _ _ _ _).2 hfill
  refine ⟨hcount, ?_, ?_, ?_⟩
  · rw [hmiss, hmin, hmax]
  · rw [fillChunk_eq] at hfill
    obtain ⟨fin_, hfin, hcf⟩ := Option.map_eq_some'.mp hfill
    unfold fillLoop at hfin
    have hfresh : (makeTask s.chunkSize_ (s.chunkSize_ * s.cellSize_)
        (rayBounds missTolerance s.maxT_ (filterRays missTolerance s.filter_ s.trace)).1
        key i).rayDensity = List.replicate (s.chunkSize_ * s.chunkSize_ * s.chunkSize_) 0 :=
      (makeTask_fresh _ _ _ _ _).1
    refine ⟨({ makeTask s.chunkSize_ (s.chunkSize_ * s.cellSize_)
        (rayBounds missTolerance s.maxT_ (filterRays missTolerance s.filter_ s.trace)).1 key i with
        rayCount := (filterRays missTolerance s.filter_ s.trace).length },
      List.replicate (s.chunkSize_ * s.chunkSize_ * s.chunkSize_) (⟨0, 0, 0⟩ : Double3)),
      hmin.symm, hmax.symm, hfresh, ?_⟩
    intro pre ray post hsplit
    obtain ⟨before, after, hpre, hray, hrest⟩ :=
      foldlM_split_some _ _ pre post ray _ _ hsplit hfin
    · have hinv0 : CellInv ⟨List.replicate (s.chunkSize_ * s.chunkSize_ * s.chunkSize_) 0,
          List.replicate (s.chunkSize_ * s.chunkSize_ * s.chunkSize_) (⟨0, 0, 0⟩ : Double3)⟩ :=
        fresh_cellInv _
      obtain ⟨f, _, _, l, _, _, _⟩ := foldlM_fillRay_spec _ _ _ _ _ pre _ before
        (by simpa [hfresh] using hinv0) (by simp [hfresh]) hpre
      obtain ⟨_, fb, fc, _, _⟩ := f
      have hv := fillRay_visits _ _ _ _ _ before after ray l hray
      rw [fb, fc] at hv
      simp only at hv
      rw [hmin, hmax]
      exact ⟨before, after, fin_, hpre, hray, hrest, by rw [← hcf], hv.1, hv.2⟩
  · intro hb
    have hlt : ∀ i, c.rayDensity.getD i 0 < 65534 :=
      fun i => incDensity_fixed _ (hinvc.1 i) (hb i)
    have := hsum hlt
    rw [hcount, hmiss]
    omega

/-- Witness for `no_ray_dropped`: the chunk of `scenarioD`. -/
theorem no_ray_dropped_witness :
    Sample nanBoth id (1 / 10) scenarioD = some (scenarioD_result id) ∧
    scenarioD_chunk id ∈ (scenarioD_result id).data_ ∧
    (scenarioD_chunk id).rayCount =
      (filterRays (1 / 10) scenarioD.filter_ scenarioD.trace).length ∧
    (scenarioD_chunk id).missedRays =
      (filterRays (1 / 10) scenarioD.filter_ scenarioD.trace).countP
        (rayMisses nanBoth (1 / 10) scenarioD.maxT_ (scenarioD_chunk id).min
          (scenarioD_chunk id).max) ∧
    (∃ init : ChunkData × List Double3,
      init.1.min = (scenarioD_chunk id).min ∧ init.1.max = (scenarioD_chunk id).max ∧
      init.1.rayDensity =
        List.replicate (scenarioD.chunkSize_ * scenarioD.chunkSize_ * scenarioD.chunkSize_) 0 ∧
      ∀ pre ray post, filterRays (1 / 10) scenarioD.filter_ scenarioD.trace =
          pre ++ ray :: post →
        ∃ before after final : ChunkData × List Double3,
          pre.foldlM (fillRay nanBoth scenarioD.chunkSize_ scenarioD.cellSize_ scenarioD.maxT_
            (1 / 10)) init = some before ∧
          fillRay nanBoth scenarioD.chunkSize_ scenarioD.cellSize_ scenarioD.maxT_ (1 / 10)
            before ray = some after ∧
          post.foldlM (fillRay nanBoth scenarioD.chunkSize_ scenarioD.cellSize_ scenarioD.maxT_
            (1 / 10)) after = some final ∧
          final.1.rayDensity = (scenarioD_chunk id).rayDensity ∧
          (rayMisses nanBoth (1 / 10) scenarioD.maxT_ (scenarioD_chunk id).min
              (scenarioD_chunk id).max ray = true →
            after.1.rayDensity = before.1.rayDensity) ∧
          (rayMisses nanBoth (1 / 10) scenarioD.maxT_ (scenarioD_chunk id).min
              (scenarioD_chunk id).max ray = false →
            ∃ visits : List ℕ, visits ≠ [] ∧
              (∀ i ∈ visits,
                i < scenarioD.chunkSize_ * scenarioD.chunkSize_ * scenarioD.chunkSize_) ∧
              ∀ i, after.1.rayDensity.getD i 0 =
                incDensity^[visits.count i] (before.1.rayDensity.getD i 0))) ∧
    ((∀ i, incDensity ((scenarioD_chunk id).rayDensity.getD i 0) ≠
        (scenarioD_chunk id).rayDensity.getD i 0) →
      (scenarioD_chunk id).rayCount - (scenarioD_chunk id).missedRays ≤
        (scenarioD_chunk id).rayDensity.sum) :=
  ⟨scenarioD_Sample nanBoth id, List.Mem.head [],
    no_ray_dropped nanBoth id (1 / 10) scenarioD (scenarioD_result id)
      (scenarioD_Sample nanBoth id) (scenarioD_chunk id) (List.Mem.head [])⟩

/-! ### A ray that increments no counter (claim C13) -/

theorem fillRay_eq_rayCells (nanInterval : NanInterval) (chunkSize_ : ℕ) (cellSize_ : ℚ)
    (maxT_ : Option ℚ) (missTolerance : ℚ) (st : ChunkData × List Double3) (ray : Ray) :
    fillRay nanInterval chunkSize_ cellSize_ maxT_ missTolerance st ray =
      match rayCells nanInterval chunkSize_ cellSize_ maxT_ missTolerance st.1.min st.1.max
          ray with
      | none => none
      | some none => some ({ st.1 with missedRays := st.1.missedRays + 1 }, st.2)
      | some (some cells) =>
        (visitCells chunkSize_ ray.direction ⟨st.1.rayDensity, st.2⟩ cells).map
          (fun a => ({ st.1 with rayDensity := a.rayDensity }, a.doubleDirs)) := by
  unfold fillRay rayCells
  cases IntersectAABB nanInterval ray.origin ray.direction st.1.min st.1.max with
  | none => rfl
  | some minMax =>
    simp only
    by_cases hH : HitAABB minMax (clippedT missTolerance maxT_ ray) = true
    · simp only [hH, Bool.not_true, Bool.false_eq_true, if_false]
      cases (stdMax minMax.x (FloatX.fin ray.tMin)).toRat with
      | none => rfl
      | some tStart =>
        cases (stdMin minMax.y (FloatX.fin (clippedT missTolerance maxT_ ray))).toRat with
        | none => rfl
        | some tEnd =>
          simp only
          split_ifs <;> rfl
    · have hH' : HitAABB minMax (clippedT missTolerance maxT_ ray) = false := by
        simpa using hH
      simp only [hH', Bool.not_false, if_true]

theorem rayCells_congr (p q : NanInterval) (chunkSize_ : ℕ) (cellSize_ : ℚ) (maxT_ : Option ℚ)
    (missTolerance : ℚ) (boxMin boxMax : Float3) (ray : Ray)
    (h : ray.direction.x ≠ 0 ∧ ray.direction.y ≠ 0 ∧ ray.direction.z ≠ 0) :
    rayCells p chunkSize_ cellSize_ maxT_ missTolerance boxMin boxMax ray =
      rayCells q chunkSize_ cellSize_ maxT_ missTolerance boxMin boxMax ray := by
  unfold rayCells
  rw [IntersectAABB_congr p q _ _ _ _ h]

theorem foldl_replicate_idem {α β : Type} (f : β → α → β) (a : α)
    (h : ∀ b, f (f b a) a = f b a) :
    ∀ (n : ℕ) (b : β), (List.replicate (n + 1) a).foldl f b = f b a := by
  intro n
  induction n with
  | zero => intro b; rfl
  | succ n ih =>
    intro b
    rw [List.replicate_succ, List.foldl_cons, ih, h]

theorem rayBounds_replicate (missTolerance : ℚ) (maxT_ : Option ℚ) (r : Ray) (n : ℕ) :
    rayBounds missTolerance maxT_ (List.replicate (n + 1) r) =
      rayBounds missTolerance maxT_ [r] :=
  foldl_replicate_idem _ r
    (by intro b; simp [Double3.min, Double3.max, min_assoc, max_assoc]) n _

theorem satRay_cells (p : NanInterval) :
    rayCells p 1 1 none (1 / 10) ⟨0, 0, 0⟩ ⟨1, 1, 1⟩ satRay = some (some [⟨0, 0, 0⟩]) := by
  rw [rayCells_congr p nanBoth _ _ _ _ _ _ _ (by decide!)]
  decide!

theorem satRay_step (p : NanInterval) (c : ChunkData) (d : Double3) (v : ℕ)
    (hmin : c.min = ⟨0, 0, 0⟩) (hmax : c.max = ⟨1, 1, 1⟩) (hd : c.rayDensity = [v]) :
    fillRay p 1 1 none (1 / 10) (c, [d]) satRay =
      some ({ c with rayDensity := [incDensity v] }, [d.add ⟨1, 1, 1⟩]) := by
  rw [fillRay_eq_rayCells]
  simp only [hmin, hmax, satRay_cells p]
  simp [visitCells, visitCell, hd, satRay]

theorem satRay_fold (p : NanInterval) (n : ℕ) :
    ∀ (c : ChunkData) (d : Double3) (v : ℕ),
      c.min = ⟨0, 0, 0⟩ → c.max = ⟨1, 1, 1⟩ → c.rayDensity = [v] →
      (List.replicate n satRay).foldlM (fillRay p 1 1 none (1 / 10)) (c, [d]) =
        some ({ c with rayDensity := [incDensity^[n] v] },
          [⟨d.x + n, d.y + n, d.z + n⟩]) := by
  induction n with
  | zero =>
    intro c d v _ _ hd
    simp [← hd]
  | succ n ih =>
    intro c d v hmin hmax hd
    rw [List.replicate_succ, List.foldlM_cons, satRay_step p c d v hmin hmax hd]
    simp only [Option.bind_eq_bind, Option.some_bind]
    rw [ih { c with rayDensity := [incDensity v] } (d.add ⟨1, 1, 1⟩) (incDensity v) hmin hmax
      rfl]
    simp only [Function.iterate_succ_apply, Double3.add, Nat.cast_add, Nat.cast_one,
      Option.some.injEq, Prod.mk.injEq, List.cons.injEq, Double3.mk.injEq, and_true, true_and]
    refine ⟨by ring, by ring, by ring⟩

theorem satRay_fillLoop (p : NanInterval) (n : ℕ) :
    fillLoop p 1 1 none (1 / 10) (List.replicate n satRay)
        (makeTask 1 1 ⟨0, 0, 0⟩ ⟨0, 0, 0⟩ 0) =
      some ({ makeTask 1 1 ⟨0, 0, 0⟩ ⟨0, 0, 0⟩ 0 with
          rayCount := n, rayDensity := [incDensity^[n] 0] }, [⟨n, n, n⟩]) := by
  unfold fillLoop
  rw [List.length_replicate]
  have h := satRay_fold p n { makeTask 1 1 ⟨0, 0, 0⟩ ⟨0, 0, 0⟩ 0 with rayCount := n }
    ⟨0, 0, 0⟩ 0
    (by show (makeTask 1 1 ⟨0, 0, 0⟩ ⟨0, 0, 0⟩ 0).min = ⟨0, 0, 0⟩; decide!)
    (by show (makeTask 1 1 ⟨0, 0, 0⟩ ⟨0, 0, 0⟩ 0).max = ⟨1, 1, 1⟩; decide!) rfl
  simp only [zero_add] at h
  exact h

theorem scenarioSat_bounds :
    rayBounds (1 / 10) scenarioSat.maxT_
      (filterRays (1 / 10) scenarioSat.filter_ scenarioSat.trace) =
      (⟨0, 0, 0⟩, ⟨1 / 4, 1 / 4, 1 / 4⟩) := by
  have e : filterRays (1 / 10) scenarioSat.filter_ scenarioSat.trace =
      List.replicate (65534 + 1) satRay := rfl
  rw [e, rayBounds_replicate]
  decide!

theorem scenarioSat_Sample (p : NanInterval) (normalize : Double3 → Float3) :
    Sample p normalize (1 / 10) scenarioSat =
      some { scenarioSat with
        data_ := [{ makeTask 1 1 ⟨0, 0, 0⟩ ⟨0, 0, 0⟩ 0 with
          rayCount := 65535
          rayDensity := [65534]
          directions := [normalize ⟨65535, 65535, 65535⟩]
          maxRays := 65534 }]
        maxRays_ := 65534
        min_ := ⟨0, 0, 0⟩
        max_ := ⟨1, 1, 1⟩
        dirty_ := false } := by
  have e2 : filterRays (1 / 10) scenarioSat.filter_ scenarioSat.trace =
      List.replicate 65535 satRay := rfl
  have hfill : fillChunk p normalize scenarioSat.chunkSize_ scenarioSat.cellSize_
      scenarioSat.maxT_ (1 / 10)
      (filterRays (1 / 10) scenarioSat.filter_ scenarioSat.trace)
      (makeTask scenarioSat.chunkSize_ (scenarioSat.chunkSize_ * scenarioSat.cellSize_)
        (rayBounds (1 / 10) scenarioSat.maxT_
          (filterRays (1 / 10) scenarioSat.filter_ scenarioSat.trace)).1 ⟨0, 0, 0⟩ 0) =
      some { makeTask 1 1 ⟨0, 0, 0⟩ ⟨0, 0, 0⟩ 0 with
          rayCount := 65535
          rayDensity := [65534]
          directions := [normalize ⟨65535, 65535, 65535⟩]
          maxRays := 65534 } := by
    have e1 : makeTask scenarioSat.chunkSize_
        (scenarioSat.chunkSize_ * scenarioSat.cellSize_)
        (rayBounds (1 / 10) scenarioSat.maxT_
          (filterRays (1 / 10) scenarioSat.filter_ scenarioSat.trace)).1 ⟨0, 0, 0⟩ 0 =
        makeTask 1 1 ⟨0, 0, 0⟩ ⟨0, 0, 0⟩ 0 := by
      rw [scenarioSat_bounds]
      decide!
    have e3 : scenarioSat.chunkSize_ = 1 := rfl
    have e4 : scenarioSat.cellSize_ = 1 := rfl
    have e5 : scenarioSat.maxT_ = none := rfl
    have e6 : incDensity^[65535] 0 = 65534 := by
      rw [incDensity_iterate]
      decide
    rw [e1, e2, e3, e4, e5, fillChunk_eq, satRay_fillLoop, e6]
    simp only [Option.map_some', List.map_cons, List.map_nil, List.foldl_cons, List.foldl_nil]
    congr 1
  have hne : filterRays (1 / 10) scenarioSat.filter_ scenarioSat.trace ≠ [] := by
    rw [e2]
    exact fun hnil => absurd (congrArg List.length hnil) (by rw [List.length_replicate]; decide)
  rw [Sample_origin p normalize (1 / 10) scenarioSat _ hne (by decide!) ?_ hfill]
  · have hb : (Max.max 0 65534 : ℕ) = 65534 ∧
        Double3.min ⟨FLT_MAX, FLT_MAX, FLT_MAX⟩
          ((makeTask 1 1 ⟨0, 0, 0⟩ ⟨0, 0, 0⟩ 0).min.min
            (makeTask 1 1 ⟨0, 0, 0⟩ ⟨0, 0, 0⟩ 0).max) = ⟨0, 0, 0⟩ ∧
        Double3.max ⟨-FLT_MAX, -FLT_MAX, -FLT_MAX⟩
          ((makeTask 1 1 ⟨0, 0, 0⟩ ⟨0, 0, 0⟩ 0).min.max
            (makeTask 1 1 ⟨0, 0, 0⟩ ⟨0, 0, 0⟩ 0).max) = ⟨1, 1, 1⟩ := by
      decide!
    simp only [hb.1, hb.2.1, hb.2.2]
  · rw [scenarioSat_bounds, e2]
    intro ray hray
    rw [List.eq_of_mem_replicate hray]
    decide!

/-- Claim C13 as stated fails for a ray that meets only saturated cells.  In
`scenarioSat` 65535 equal rays run through the one cell of the one chunk; none
of them misses the chunk box (`missedRays = 0`), yet the density of the cell
after `Sample()` is 65534: the ray loop has the counter at 65534 after 65534
rays, and its last ray, which does not miss, leaves the counter as it is, so it
incremented the density of no cell. -/
theorem ray_without_increment :
    (Sample nanBoth unitAxis (1 / 10) scenarioSat).map
        (fun t => t.data_.map (fun c => (c.rayCount, c.missedRays, c.rayDensity))) =
      some [(65535, 0, [65534])] ∧
    rayMisses nanBoth (1 / 10) none ⟨0, 0, 0⟩ ⟨1, 1, 1⟩ satRay = false ∧
    (List.replicate 65534 satRay).foldlM (fillRay nanBoth 1 1 none (1 / 10))
        ({ makeTask 1 1 ⟨0, 0, 0⟩ ⟨0, 0, 0⟩ 0 with rayCount := 65535 }, [⟨0, 0, 0⟩]) =
      some ({ makeTask 1 1 ⟨0, 0, 0⟩ ⟨0, 0, 0⟩ 0 with
          rayCount := 65535, rayDensity := [65534] }, [⟨65534, 65534, 65534⟩]) ∧
    fillRay nanBoth 1 1 none (1 / 10)
        ({ makeTask 1 1 ⟨0, 0, 0⟩ ⟨0, 0, 0⟩ 0 with
          rayCount := 65535, rayDensity := [65534] }, [⟨65534, 65534, 65534⟩]) satRay =
      some ({ makeTask 1 1 ⟨0, 0, 0⟩ ⟨0, 0, 0⟩ 0 with
          rayCount := 65535, rayDensity := [65534] }, [⟨65535, 65535, 65535⟩]) := by
  refine ⟨?_, by decide!, ?_, by decide!⟩
  · rw [scenarioSat_Sample]
    rfl
  · have h := satRay_fold nanBoth 65534
      { makeTask 1 1 ⟨0, 0, 0⟩ ⟨0, 0, 0⟩ 0 with rayCount := 65535 } ⟨0, 0, 0⟩ 0
      (by decide!) (by decide!) rfl
    have e6 : incDensity^[65534] 0 = 65534 := by
      rw [incDensity_iterate]
      decide
    rw [h, e6]
    simp only [zero_add, Nat.cast_ofNat]

theorem foldl_max_spec (l : List ℕ) : ∀ a : ℕ,
    a ≤ l.foldl Max.max a ∧ (∀ v ∈ l, v ≤ l.foldl Max.max a) ∧
      (l.foldl Max.max a = a ∨ l.foldl Max.max a ∈ l) := by
  induction l with
  | nil => intro a; simp
  | cons x xs ih =>
    intro a
    obtain ⟨h1, h2, h3⟩ := ih (Max.max a x)
    simp only [List.foldl_cons, List.mem_cons]
    refine ⟨le_trans (le_max_left a x) h1, ?_, ?_⟩
    · intro v hv
      rcases hv with rfl | hv
      · exact le_trans (le_max_right a v) h1
      · exact h2 v hv
    · rcases h3 with h3 | h3
      · rcases le_total a x with hax | hax
        · right; left
          rw [h3, max_eq_right hax]
        · left
          rw [h3, max_eq_left hax]
      · right; right
        exact h3

theorem foldl_max_isMaxOf (l : List ℕ) : IsMaxOf (l.foldl Max.max 0) l := by
  obtain ⟨_, h2, h3⟩ := foldl_max_spec l 0
  refine ⟨h2, ?_⟩
  cases l with
  | nil => right; exact ⟨rfl, rfl⟩
  | cons x xs =>
    left
    rcases h3 with h3 | h3
    · have hx := h2 x (List.mem_cons_self _ _)
      rw [h3] at hx ⊢
      have : x = 0 := by omega
      rw [this]
      exact List.mem_cons_self _ _
    · exact h3

theorem foldl_aggregate_fst (data : List ChunkData) : ∀ acc : ℕ × Float3 × Float3,
    (data.foldl (fun acc chunk =>
      (Max.max acc.1 chunk.maxRays, acc.2.1.min (chunk.min.min chunk.max),
        acc.2.2.max (chunk.min.max chunk.max))) acc).1 =
    (data.map ChunkData.maxRays).foldl Max.max acc.1 := by
  induction data with
  | nil => intro acc; rfl
  | cons c cs ih =>
    intro acc
    simp only [List.foldl_cons, List.map_cons]
    exact ih _

theorem aggregate_fst (data : List ChunkData) :
    (aggregate data).1 = (data.map ChunkData.maxRays).foldl Max.max 0 :=
  foldl_aggregate_fst data _

/-- Claim C14: after `Sample()` the `maxRays` of every chunk is the largest
value of its density array, `MaxRays()` is the largest `maxRays` over all
chunks (0 when there is no chunk), and no cell of the output has a density
above `MaxRays()`. -/
theorem maxRays_is_maximum (nanInterval : NanInterval) (normalize : Double3 → Float3) (missTolerance : ℚ)
    (s t : VolumetricSampler) (h : Sample nanInterval normalize missTolerance s = some t) :
    (∀ c ∈ t.data_, IsMaxOf c.maxRays c.rayDensity) ∧
    IsMaxOf t.maxRays_ (t.data_.map ChunkData.maxRays) ∧
    (t.data_ = [] → t.maxRays_ = 0) ∧
    (∀ c ∈ t.data_, ∀ v ∈ c.rayDensity, v ≤ t.maxRays_) := by
  obtain ⟨tasks, _, _, ht⟩ := Sample_some _ normalize missTolerance s t h
  have hm : t.maxRays_ = (t.data_.map ChunkData.maxRays).foldl Max.max 0 := by
    rw [← aggregate_fst]
    conv_lhs => rw [ht]
  have hchunk : ∀ c ∈ t.data_, IsMaxOf c.maxRays c.rayDensity := by
    intro c hc
    obtain ⟨key, i, hfill⟩ := Sample_chunk _ normalize missTolerance s t h c hc
    obtain ⟨sums, _, _, hmax, _⟩ :=
      fillChunk_spec _ normalize _ _ _ _ _ _ c (makeTask_fresh _ _ _ _ _).1
        (makeTask_fresh _ _ _ _ _).2 hfill
    rw [hmax]
    exact foldl_max_isMaxOf _
  have hall : IsMaxOf t.maxRays_ (t.data_.map ChunkData.maxRays) := by
    rw [hm]
    exact foldl_max_isMaxOf _
  refine ⟨hchunk, hall, ?_, ?_⟩
  · intro hnil
    rw [hm, hnil]
    rfl
  · intro c hc v hv
    exact le_trans ((hchunk c hc).1 v hv) (hall.1 _ (List.mem_map_of_mem _ hc))

/-- Witness for `maxRays_is_maximum`: `scenarioD`, whose chunk has `maxRays = 5`. -/
theorem maxRays_is_maximum_witness :
    (∀ c ∈ (scenarioD_result id).data_, IsMaxOf c.maxRays c.rayDensity) ∧
    IsMaxOf (scenarioD_result id).maxRays_
      ((scenarioD_result id).data_.map ChunkData.maxRays) ∧
    ((scenarioD_result id).data_ = [] → (scenarioD_result id).maxRays_ = 0) ∧
    (∀ c ∈ (scenarioD_result id).data_, ∀ v ∈ c.rayDensity,
      v ≤ (scenarioD_result id).maxRays_) :=
  maxRays_is_maximum nanBoth id (1 / 10) scenarioD (scenarioD_result id) (scenarioD_Sample nanBoth id)

/-! ### Bounds (claims C15, C16) -/

theorem foldl_min_spec (l : List ℚ) : ∀ a : ℚ,
    l.foldl Min.min a ≤ a ∧ (∀ v ∈ l, l.foldl Min.min a ≤ v) ∧
      (l.foldl Min.min a = a ∨ l.foldl Min.min a ∈ l) := by
  induction l with
  | nil => intro a; simp
  | cons x xs ih =>
    intro a
    obtain ⟨h1, h2, h3⟩ := ih (Min.min a x)
    simp only [List.foldl_cons, List.mem_cons]
    refine ⟨le_trans h1 (min_le_left a x), ?_, ?_⟩
    · intro v hv
      rcases hv with rfl | hv
      · exact le_trans h1 (min_le_right a v)
      · exact h2 v hv
    · rcases h3 with h3 | h3
      · rcases le_total a x with hax | hax
        · left
          rw [h3, min_eq_left hax]
        · right; left
          rw [h3, min_eq_right hax]
      · right; right
        exact h3

theorem foldl_max_spec_rat (l : List ℚ) : ∀ a : ℚ,
    a ≤ l.foldl Max.max a ∧ (∀ v ∈ l, v ≤ l.foldl Max.max a) ∧
      (l.foldl Max.max a = a ∨ l.foldl Max.max a ∈ l) := by
  induction l with
  | nil => intro a; simp
  | cons x xs ih =>
    intro a
    obtain ⟨h1, h2, h3⟩ := ih (Max.max a x)
    simp only [List.foldl_cons, List.mem_cons]
    refine ⟨le_trans (le_max_left a x) h1, ?_, ?_⟩
    · intro v hv
      rcases hv with rfl | hv
      · exact le_trans (le_max_right a v) h1
      · exact h2 v hv
    · rcases h3 with h3 | h3
      · rcases le_total a x with hax | hax
        · right; left
          rw [h3, max_eq_right hax]
        · left
          rw [h3, max_eq_left hax]
      · right; right
        exact h3

theorem foldl_min_isLeastOf (l : List ℚ) (a : ℚ) (hne : l ≠ []) (ha : ∀ v ∈ l, v ≤ a) :
    IsLeastOf (l.foldl Min.min a) l := by
  obtain ⟨_, h2, h3⟩ := foldl_min_spec l a
  refine ⟨?_, h2⟩
  rcases h3 with h3 | h3
  · cases l with
    | nil => exact absurd rfl hne
    | cons x xs =>
      have hx1 := h2 x (List.mem_cons_self _ _)
      have hx2 := ha x (List.mem_cons_self _ _)
      rw [h3] at hx1 ⊢
      have : x = a := le_antisymm hx2 hx1
      rw [← this]
      exact List.mem_cons_self _ _
  · exact h3

theorem foldl_max_isGreatestOf (l : List ℚ) (a : ℚ) (hne : l ≠ []) (ha : ∀ v ∈ l, a ≤ v) :
    IsGreatestOf (l.foldl Max.max a) l := by
  obtain ⟨_, h2, h3⟩ := foldl_max_spec_rat l a
  refine ⟨?_, h2⟩
  rcases h3 with h3 | h3
  · cases l with
    | nil => exact absurd rfl hne
    | cons x xs =>
      have hx1 := h2 x (List.mem_cons_self _ _)
      have hx2 := ha x (List.mem_cons_self _ _)
      rw [h3] at hx1 ⊢
      have : x = a := le_antisymm hx1 hx2
      rw [← this]
      exact List.mem_cons_self _ _
  · exact h3

theorem rayBounds_fold (missTolerance : ℚ) (maxT_ : Option ℚ) (rays : List Ray) :
    ∀ acc : Float3 × Float3,
      rays.foldl
        (fun b ray =>
          (b.1.min ((ray.origin.add (ray.direction.smul ray.tMin)).min
              (ray.origin.add (ray.direction.smul (clippedT missTolerance maxT_ ray)))),
            b.2.max ((ray.origin.add (ray.direction.smul ray.tMin)).max
              (ray.origin.add (ray.direction.smul (clippedT missTolerance maxT_ ray)))))) acc =
      (⟨((segmentPoints missTolerance maxT_ rays).map Double3.x).foldl Min.min acc.1.x,
        ((segmentPoints missTolerance maxT_ rays).map Double3.y).foldl Min.min acc.1.y,
        ((segmentPoints missTolerance maxT_ rays).map Double3.z).foldl Min.min acc.1.z⟩,
       ⟨((segmentPoints missTolerance maxT_ rays).map Double3.x).foldl Max.max acc.2.x,
        ((segmentPoints missTolerance maxT_ rays).map Double3.y).foldl Max.max acc.2.y,
        ((segmentPoints missTolerance maxT_ rays).map Double3.z).foldl Max.max acc.2.z⟩) := by
  induction rays with
  | nil => intro acc; rfl
  | cons r rs ih =>
    intro acc
    rw [List.foldl_cons, ih]
    simp [segmentPoints, Double3.min, Double3.max, min_assoc, max_assoc]

theorem rayBounds_eq (missTolerance : ℚ) (maxT_ : Option ℚ) (rays : List Ray) :
    rayBounds missTolerance maxT_ rays =
      (⟨((segmentPoints missTolerance maxT_ rays).map Double3.x).foldl Min.min FLT_MAX,
        ((segmentPoints missTolerance maxT_ rays).map Double3.y).foldl Min.min FLT_MAX,
        ((segmentPoints missTolerance maxT_ rays).map Double3.z).foldl Min.min FLT_MAX⟩,
       ⟨((segmentPoints missTolerance maxT_ rays).map Double3.x).foldl Max.max (-FLT_MAX),
        ((segmentPoints missTolerance maxT_ rays).map Double3.y).foldl Max.max (-FLT_MAX),
        ((segmentPoints missTolerance maxT_ rays).map Double3.z).foldl Max.max (-FLT_MAX)⟩) :=
  rayBounds_fold missTolerance maxT_ rays _

theorem aggregate_fold (data : List ChunkData) : ∀ acc : ℕ × Float3 × Float3,
    (data.foldl (fun acc chunk =>
      (Max.max acc.1 chunk.maxRays, acc.2.1.min (chunk.min.min chunk.max),
        acc.2.2.max (chunk.min.max chunk.max))) acc).2 =
      (⟨((chunkCorners data).map Double3.x).foldl Min.min acc.2.1.x,
        ((chunkCorners data).map Double3.y).foldl Min.min acc.2.1.y,
        ((chunkCorners data).map Double3.z).foldl Min.min acc.2.1.z⟩,
       ⟨((chunkCorners data).map Double3.x).foldl Max.max acc.2.2.x,
        ((chunkCorners data).map Double3.y).foldl Max.max acc.2.2.y,
        ((chunkCorners data).map Double3.z).foldl Max.max acc.2.2.z⟩) := by
  induction data with
  | nil => intro acc; rfl
  | cons c cs ih =>
    intro acc
    rw [List.foldl_cons, ih]
    simp [chunkCorners, Double3.min, Double3.max, min_assoc, max_assoc]

theorem aggregate_snd (data : List ChunkData) :
    (aggregate data).2 =
      (⟨((chunkCorners data).map Double3.x).foldl Min.min FLT_MAX,
        ((chunkCorners data).map Double3.y).foldl Min.min FLT_MAX,
        ((chunkCorners data).map Double3.z).foldl Min.min FLT_MAX⟩,
       ⟨((chunkCorners data).map Double3.x).foldl Max.max (-FLT_MAX),
        ((chunkCorners data).map Double3.y).foldl Max.max (-FLT_MAX),
        ((chunkCorners data).map Double3.z).foldl Max.max (-FLT_MAX)⟩) :=
  aggregate_fold data _

theorem lowerCorner_of_fold (pts : List Float3) (hne : pts ≠ [])
    (hr : ∀ p ∈ pts, InFloatRange p) :
    IsLowerCorner ⟨(pts.map Double3.x).foldl Min.min FLT_MAX,
      (pts.map Double3.y).foldl Min.min FLT_MAX,
      (pts.map Double3.z).foldl Min.min FLT_MAX⟩ pts := by
  have hne' : ∀ f : Float3 → ℚ, pts.map f ≠ [] := fun f => by simpa using hne
  refine ⟨foldl_min_isLeastOf _ _ (hne' _) ?_, foldl_min_isLeastOf _ _ (hne' _) ?_,
    foldl_min_isLeastOf _ _ (hne' _) ?_⟩
  · intro v hv
    obtain ⟨p, hp, rfl⟩ := List.mem_map.mp hv
    exact (hr p hp).1.2
  · intro v hv
    obtain ⟨p, hp, rfl⟩ := List.mem_map.mp hv
    exact (hr p hp).2.1.2
  · intro v hv
    obtain ⟨p, hp, rfl⟩ := List.mem_map.mp hv
    exact (hr p hp).2.2.2

theorem upperCorner_of_fold (pts : List Float3) (hne : pts ≠ [])
    (hr : ∀ p ∈ pts, InFloatRange p) :
    IsUpperCorner ⟨(pts.map Double3.x).foldl Max.max (-FLT_MAX),
      (pts.map Double3.y).foldl Max.max (-FLT_MAX),
      (pts.map Double3.z).foldl Max.max (-FLT_MAX)⟩ pts := by
  have hne' : ∀ f : Float3 → ℚ, pts.map f ≠ [] := fun f => by simpa using hne
  refine ⟨foldl_max_isGreatestOf _ _ (hne' _) ?_, foldl_max_isGreatestOf _ _ (hne' _) ?_,
    foldl_max_isGreatestOf _ _ (hne' _) ?_⟩
  · intro v hv
    obtain ⟨p, hp, rfl⟩ := List.mem_map.mp hv
    exact (hr p hp).1.1
  · intro v hv
    obtain ⟨p, hp, rfl⟩ := List.mem_map.mp hv
    exact (hr p hp).2.1.1
  · intro v hv
    obtain ⟨p, hp, rfl⟩ := List.mem_map.mp hv
    exact (hr p hp).2.2.1

theorem Sample_no_rays (nanInterval : NanInterval) (normalize : Double3 → Float3) (missTolerance : ℚ)
    (s : VolumetricSampler) (h : filterRays missTolerance s.filter_ s.trace = []) :
    Sample nanInterval normalize missTolerance s =
      some { s with
        data_ := []
        maxRays_ := 0
        min_ := ⟨FLT_MAX, FLT_MAX, FLT_MAX⟩
        max_ := ⟨-FLT_MAX, -FLT_MAX, -FLT_MAX⟩
        dirty_ := false } := by
  have hd : discoverTasks missTolerance s = some [] := by
    unfold discoverTasks
    rw [h]
    rfl
  rw [Sample_eq_of _ normalize missTolerance s [] [] hd rfl]
  rfl

theorem Sample_rays_ne_nil (nanInterval : NanInterval) (normalize : Double3 → Float3) (missTolerance : ℚ)
    (s t : VolumetricSampler) (h : Sample nanInterval normalize missTolerance s = some t)
    (hne : t.data_ ≠ []) : filterRays missTolerance s.filter_ s.trace ≠ [] := by
  intro hnil
  rw [Sample_no_rays _ normalize missTolerance s hnil] at h
  simp only [Option.some.injEq] at h
  rw [← h] at hne
  exact hne rfl

theorem Sample_chunk_box (nanInterval : NanInterval) (normalize : Double3 → Float3) (missTolerance : ℚ)
    (s t : VolumetricSampler) (h : Sample nanInterval normalize missTolerance s = some t)
    (c : ChunkData) (hc : c ∈ t.data_) :
    c.min = (Double3.smul ⟨c.chunkIdx.x, c.chunkIdx.y, c.chunkIdx.z⟩
        (s.chunkSize_ * s.cellSize_)).add
      (rayBounds missTolerance s.maxT_ (filterRays missTolerance s.filter_ s.trace)).1 ∧
    c.max = c.min.add
      ⟨s.chunkSize_ * s.cellSize_, s.chunkSize_ * s.cellSize_, s.chunkSize_ * s.cellSize_⟩ := by
  obtain ⟨key, i, hfill⟩ := Sample_chunk _ normalize missTolerance s t h c hc
  obtain ⟨sums, _, _, _, hidx, hmin, hmax, _⟩ :=
    fillChunk_spec _ normalize _ _ _ _ _ _ c (makeTask_fresh _ _ _ _ _).1
      (makeTask_fresh _ _ _ _ _).2 hfill
  constructor
  · rw [hmin, hidx]
    rfl
  · rw [hmax, hmin]
    rfl

/-- The chunk boxes in exact arithmetic: after `Sample()` every chunk has
`min = chunkIdx * (chunkSize * cellSize) + globalMin` and
`max = min + chunkSize * cellSize` on every axis, so that `max - min` is
`chunkSize * cellSize`; `globalMin`, the lower bound of step 0, is the
componentwise minimum over the start and clipped end points of all filtered
rays.  The source forms the product and the two sums in binary32, where each is
rounded: `taskBox32` gives the corners with the rounding. -/
theorem chunk_box_aligned (nanInterval : NanInterval) (normalize : Double3 → Float3) (missTolerance : ℚ)
    (s t : VolumetricSampler) (h : Sample nanInterval normalize missTolerance s = some t)
    (hfl : ∀ p ∈ segmentPoints missTolerance s.maxT_
      (filterRays missTolerance s.filter_ s.trace), InFloatRange p)
    (c : ChunkData) (hc : c ∈ t.data_) :
    c.min = (Double3.smul ⟨c.chunkIdx.x, c.chunkIdx.y, c.chunkIdx.z⟩
        (s.chunkSize_ * s.cellSize_)).add
      (rayBounds missTolerance s.maxT_ (filterRays missTolerance s.filter_ s.trace)).1 ∧
    c.max = c.min.add
      ⟨s.chunkSize_ * s.cellSize_, s.chunkSize_ * s.cellSize_, s.chunkSize_ * s.cellSize_⟩ ∧
    c.max.sub c.min =
      ⟨s.chunkSize_ * s.cellSize_, s.chunkSize_ * s.cellSize_, s.chunkSize_ * s.cellSize_⟩ ∧
    IsLowerCorner
      (rayBounds missTolerance s.maxT_ (filterRays missTolerance s.filter_ s.trace)).1
      (segmentPoints missTolerance s.maxT_ (filterRays missTolerance s.filter_ s.trace)) := by
  obtain ⟨hmin', hmax'⟩ := Sample_chunk_box _ normalize missTolerance s t h c hc
  have hne := Sample_rays_ne_nil _ normalize missTolerance s t h (List.ne_nil_of_mem hc)
  have hpts : segmentPoints missTolerance s.maxT_
      (filterRays missTolerance s.filter_ s.trace) ≠ [] := by
    cases hr : filterRays missTolerance s.filter_ s.trace with
    | nil => exact absurd hr hne
    | cons r rs => simp [segmentPoints]
  refine ⟨hmin', hmax', ?_, ?_⟩
  · rw [hmax']
    simp [Double3.sub, Double3.add]
  · rw [rayBounds_eq]
    exact lowerCorner_of_fold _ hpts hfl

/-! ### The chunk boxes in binary32 (claim C15) -/

theorem roundHalfEven_near (n : ℚ) : |(roundHalfEven n : ℚ) - n| ≤ 1 / 2 := by
  have h1 : (⌊n⌋ : ℚ) ≤ n := Int.floor_le n
  have h2 : n < (⌊n⌋ : ℚ) + 1 := Int.lt_floor_add_one n
  unfold roundHalfEven
  rw [abs_le]
  split_ifs with c1 c2 c3
  · constructor <;> linarith
  · push_cast
    constructor <;> linarith
  · constructor <;> linarith
  · push_cast
    constructor <;> linarith

/-- A finite result of rounding to binary32 is within half a unit in the last
place of the number rounded. -/
theorem round32_near (x a : ℚ) (h : round32 x = FloatX.fin a) :
    |a - x| ≤ 2 ^ (expo32 |x| - 24) := by
  have hpos : ∀ e : ℤ, (0 : ℚ) < 2 ^ e := fun e => zpow_pos (by norm_num) e
  by_cases hx0 : x = 0
  · subst hx0
    have : a = 0 := by
      simp [round32] at h
      exact h.symm
    subst this
    simp
    exact (hpos _).le
  have hkey : abs ((roundHalfEven (|x| / 2 ^ (expo32 |x| - 23)) : ℚ) * 2 ^ (expo32 |x| - 23) -
      abs x) ≤ 2 ^ (expo32 |x| - 24) := by
    have hn := roundHalfEven_near (|x| / 2 ^ (expo32 |x| - 23))
    have e1 : (roundHalfEven (|x| / 2 ^ (expo32 |x| - 23)) : ℚ) * 2 ^ (expo32 |x| - 23) - |x| =
        ((roundHalfEven (|x| / 2 ^ (expo32 |x| - 23)) : ℚ) - |x| / 2 ^ (expo32 |x| - 23)) *
          2 ^ (expo32 |x| - 23) := by
      field_simp
    have e2 : (2 : ℚ) ^ (expo32 |x| - 24) = 1 / 2 * 2 ^ (expo32 |x| - 23) := by
      have : expo32 |x| - 23 = (expo32 |x| - 24) + 1 := by ring
      rw [this, zpow_add₀ (by norm_num : (2 : ℚ) ≠ 0)]
      ring
    rw [e1, abs_mul, abs_of_pos (hpos _), e2]
    exact mul_le_mul_of_nonneg_right hn (hpos _).le
  unfold round32 at h
  simp only [hx0, if_false] at h
  split_ifs at h with hov hp hp
  · have ha := FloatX.fin.inj h
    rw [← ha]
    have : |x| = x := abs_of_pos hp
    rw [this] at hkey ⊢
    exact hkey
  · have ha := FloatX.fin.inj h
    rw [← ha]
    have hneg : x < 0 := lt_of_le_of_ne (not_lt.mp hp) hx0
    have habs : |x| = -x := abs_of_neg hneg
    have e3 : -((roundHalfEven (|x| / 2 ^ (expo32 |x| - 23)) : ℚ) * 2 ^ (expo32 |x| - 23)) - x =
        -((roundHalfEven (|x| / 2 ^ (expo32 |x| - 23)) : ℚ) * 2 ^ (expo32 |x| - 23) - |x|) := by
      rw [habs]
      ring
    rw [e3, abs_neg]
    exact hkey

theorem taskCorners32_exact (v m : ℚ) (idx : ℤ) (h1 : Exact32 idx) (h2 : Exact32 (idx * v))
    (h3 : Exact32 (idx * v + m)) (h4 : Exact32 (idx * v + m + v)) :
    taskCorners32 (FloatX.fin v) m idx = (FloatX.fin (idx * v + m), FloatX.fin (idx * v + m + v)) := by
  unfold Exact32 at h1 h2 h3 h4
  simp only [taskCorners32, h1, FloatX.mul32, h2, FloatX.add32, h3, h4]

theorem taskCorners32_edge (v m : ℚ) (idx : ℤ) :
    EdgeWithinHalfUlp v (taskCorners32 (FloatX.fin v) m idx).1
      (taskCorners32 (FloatX.fin v) m idx).2 := by
  intro a b ha hb
  simp only [taskCorners32] at ha hb
  rw [ha] at hb
  simp only [FloatX.add32] at hb
  have := round32_near (a + v) b hb
  have e : b - a - v = b - (a + v) := by ring
  rw [e]
  exact this

theorem scenarioRound_Sample :
    Sample nanBoth id (1 / 10) scenarioRound = some scenarioRound_result :=
  Sample_origin nanBoth id (1 / 10) scenarioRound scenarioRound_chunk (by decide!) (by decide!)
    (by decide!) (by decide!)

theorem scenarioNeg_fold (nanInterval : NanInterval) :
    fillLoop nanInterval 1 (-1) none (1 / 10) scenarioNeg.trace
        (makeTask 1 (-1) ⟨0, 0, 0⟩ ⟨0, 0, 0⟩ 0) =
    some ({ makeTask 1 (-1) ⟨0, 0, 0⟩ ⟨0, 0, 0⟩ 0 with rayCount := 1, rayDensity := [3] },
      [⟨3, 3, 3⟩]) := by
  rw [fillLoop_congr nanInterval nanBoth _ _ _ _ _ _ (by decide!)]
  decide!

theorem scenarioNeg_Sample (nanInterval : NanInterval) (normalize : Double3 → Float3) :
    Sample nanInterval normalize (1 / 10) scenarioNeg =
      some { scenarioNeg with
        data_ := [{ makeTask 1 (-1) ⟨0, 0, 0⟩ ⟨0, 0, 0⟩ 0 with
          rayCount := 1
          rayDensity := [3]
          directions := [normalize ⟨3, 3, 3⟩]
          maxRays := 3 }]
        maxRays_ := 3
        min_ := ⟨-1, -1, -1⟩
        max_ := ⟨0, 0, 0⟩
        dirty_ := false } := by
  have hfill : fillChunk nanInterval normalize scenarioNeg.chunkSize_ scenarioNeg.cellSize_
      scenarioNeg.maxT_ (1 / 10)
      (filterRays (1 / 10) scenarioNeg.filter_ scenarioNeg.trace)
      (makeTask scenarioNeg.chunkSize_ (scenarioNeg.chunkSize_ * scenarioNeg.cellSize_)
        (rayBounds (1 / 10) scenarioNeg.maxT_
          (filterRays (1 / 10) scenarioNeg.filter_ scenarioNeg.trace)).1 ⟨0, 0, 0⟩ 0) =
      some { makeTask 1 (-1) ⟨0, 0, 0⟩ ⟨0, 0, 0⟩ 0 with
          rayCount := 1
          rayDensity := [3]
          directions := [normalize ⟨3, 3, 3⟩]
          maxRays := 3 } := by
    have e1 : makeTask scenarioNeg.chunkSize_
        (scenarioNeg.chunkSize_ * scenarioNeg.cellSize_)
        (rayBounds (1 / 10) scenarioNeg.maxT_
          (filterRays (1 / 10) scenarioNeg.filter_ scenarioNeg.trace)).1 ⟨0, 0, 0⟩ 0 =
        makeTask 1 (-1) ⟨0, 0, 0⟩ ⟨0, 0, 0⟩ 0 := by decide!
    have e2 : filterRays (1 / 10) scenarioNeg.filter_ scenarioNeg.trace =
        scenarioNeg.trace := rfl
    have e3 : scenarioNeg.chunkSize_ = 1 := rfl
    have e4 : scenarioNeg.cellSize_ = -1 := rfl
    have e5 : scenarioNeg.maxT_ = none := rfl
    rw [e1, e2, e3, e4, e5, fillChunk_eq, scenarioNeg_fold]
    simp only [Option.map_some', List.map_cons, List.map_nil, List.foldl_cons, List.foldl_nil]
    congr 1
  rw [Sample_origin _ normalize (1 / 10) scenarioNeg _ (by decide!) (by decide!) (by decide!)
    hfill]
  have hb : (Max.max 0 3 : ℕ) = 3 ∧
      Double3.min ⟨FLT_MAX, FLT_MAX, FLT_MAX⟩
        ((makeTask 1 (-1) ⟨0, 0, 0⟩ ⟨0, 0, 0⟩ 0).min.min
          (makeTask 1 (-1) ⟨0, 0, 0⟩ ⟨0, 0, 0⟩ 0).max) = ⟨-1, -1, -1⟩ ∧
      Double3.max ⟨-FLT_MAX, -FLT_MAX, -FLT_MAX⟩
        ((makeTask 1 (-1) ⟨0, 0, 0⟩ ⟨0, 0, 0⟩ 0).min.max
          (makeTask 1 (-1) ⟨0, 0, 0⟩ ⟨0, 0, 0⟩ 0).max) = ⟨0, 0, 0⟩ := by
    decide!
  simp only [hb.1, hb.2.1, hb.2.2]

/-- Claim C16 as stated fails for a negative cell size: in `scenarioNeg`
(`cellSize = -1`) `Sample()` produces one chunk with `min = (0,0,0)` and
`max = (-1,-1,-1)`; `MinBounds()` is `(-1,-1,-1)`, not the chunk's min corner,
and `MaxBounds()` is `(0,0,0)`, not the chunk's max corner. -/
theorem bounds_with_negative_cellSize :
    (Sample nanBoth unitAxis (1 / 10) scenarioNeg).map
      (fun t => (t.min_, t.max_, t.data_.map (fun c => (c.min, c.max)))) =
      some (⟨-1, -1, -1⟩, ⟨0, 0, 0⟩, [(⟨0, 0, 0⟩, ⟨-1, -1, -1⟩)]) := by
  rw [scenarioNeg_Sample]
  decide!

theorem mem_chunkCorners_map (f : Float3 → ℚ) (data : List ChunkData) (m : ℚ) :
    m ∈ (chunkCorners data).map f ↔ ∃ c ∈ data, m = f c.min ∨ m = f c.max := by
  simp only [chunkCorners, List.mem_map, List.mem_flatMap, List.mem_cons, List.mem_singleton,
    List.not_mem_nil, or_false]
  constructor
  · rintro ⟨p, ⟨c, hc, hp⟩, rfl⟩
    rcases hp with rfl | rfl
    · exact ⟨c, hc, Or.inl rfl⟩
    · exact ⟨c, hc, Or.inr rfl⟩
  · rintro ⟨c, hc, hm | hm⟩
    · exact ⟨c.min, ⟨c, hc, Or.inl rfl⟩, hm.symm⟩
    · exact ⟨c.max, ⟨c, hc, Or.inr rfl⟩, hm.symm⟩

theorem least_of_corners (f : Float3 → ℚ) (data : List ChunkData) (m : ℚ)
    (hle : ∀ c ∈ data, f c.min ≤ f c.max)
    (h : IsLeastOf m ((chunkCorners data).map f)) :
    IsLeastOf m ((data.map ChunkData.min).map f) := by
  obtain ⟨hm, hall⟩ := h
  have hlow : ∀ c ∈ data, m ≤ f c.min := fun c hc =>
    hall _ ((mem_chunkCorners_map f data _).mpr ⟨c, hc, Or.inl rfl⟩)
  constructor
  · obtain ⟨c, hc, h1 | h1⟩ := (mem_chunkCorners_map f data m).mp hm
    · exact List.mem_map.mpr ⟨c.min, List.mem_map_of_mem _ hc, h1.symm⟩
    · have : m = f c.min := le_antisymm (hlow c hc) (by rw [h1]; exact hle c hc)
      exact List.mem_map.mpr ⟨c.min, List.mem_map_of_mem _ hc, this.symm⟩
  · intro v hv
    obtain ⟨p, hp, rfl⟩ := List.mem_map.mp hv
    obtain ⟨c, hc, rfl⟩ := List.mem_map.mp hp
    exact hlow c hc

theorem greatest_of_corners (f : Float3 → ℚ) (data : List ChunkData) (m : ℚ)
    (hle : ∀ c ∈ data, f c.min ≤ f c.max)
    (h : IsGreatestOf m ((chunkCorners data).map f)) :
    IsGreatestOf m ((data.map ChunkData.max).map f) := by
  obtain ⟨hm, hall⟩ := h
  have hup : ∀ c ∈ data, f c.max ≤ m := fun c hc =>
    hall _ ((mem_chunkCorners_map f data _).mpr ⟨c, hc, Or.inr rfl⟩)
  constructor
  · obtain ⟨c, hc, h1 | h1⟩ := (mem_chunkCorners_map f data m).mp hm
    · have : m = f c.max := le_antisymm (by rw [h1]; exact hle c hc) (hup c hc)
      exact List.mem_map.mpr ⟨c.max, List.mem_map_of_mem _ hc, this.symm⟩
    · exact List.mem_map.mpr ⟨c.max, List.mem_map_of_mem _ hc, h1.symm⟩
  · intro v hv
    obtain ⟨p, hp, rfl⟩ := List.mem_map.mp hv
    obtain ⟨c, hc, rfl⟩ := List.mem_map.mp hp
    exact hup c hc

/-- Claim C16, as amended: after a `Sample()` that produces at least one chunk
(with corners that are finite floats), `MinBounds()` is the componentwise
minimum and `MaxBounds()` the componentwise maximum over both corners of all
chunks, so the box between them contains every chunk's box and is the smallest
such box; when `chunkSize * cellSize` is not negative, `MinBounds()` is the
componentwise minimum of the chunks' min corners and `MaxBounds()` the
componentwise maximum of their max corners. -/
theorem bounds_span_chunks (nanInterval : NanInterval) (normalize : Double3 → Float3) (missTolerance : ℚ)
    (s t : VolumetricSampler) (h : Sample nanInterval normalize missTolerance s = some t)
    (hne : t.data_ ≠ []) (hfl : ∀ p ∈ chunkCorners t.data_, InFloatRange p) :
    IsLowerCorner t.min_ (chunkCorners t.data_) ∧
    IsUpperCorner t.max_ (chunkCorners t.data_) ∧
    (0 ≤ (s.chunkSize_ : ℚ) * s.cellSize_ →
      IsLowerCorner t.min_ (t.data_.map ChunkData.min) ∧
      IsUpperCorner t.max_ (t.data_.map ChunkData.max)) := by
  obtain ⟨tasks, _, _, ht⟩ := Sample_some _ normalize missTolerance s t h
  have hmin : t.min_ = (aggregate t.data_).2.1 := by conv_lhs => rw [ht]
  have hmax : t.max_ = (aggregate t.data_).2.2 := by conv_lhs => rw [ht]
  have hcne : chunkCorners t.data_ ≠ [] := by
    cases hd : t.data_ with
    | nil => exact absurd hd hne
    | cons c cs => simp [chunkCorners]
  have hlow : IsLowerCorner t.min_ (chunkCorners t.data_) := by
    rw [hmin, aggregate_snd]
    exact lowerCorner_of_fold _ hcne hfl
  have hupp : IsUpperCorner t.max_ (chunkCorners t.data_) := by
    rw [hmax, aggregate_snd]
    exact upperCorner_of_fold _ hcne hfl
  refine ⟨hlow, hupp, ?_⟩
  intro hvs
  have hbox : ∀ c ∈ t.data_, c.min.x ≤ c.max.x ∧ c.min.y ≤ c.max.y ∧ c.min.z ≤ c.max.z := by
    intro c hc
    obtain ⟨_, hm⟩ := Sample_chunk_box _ normalize missTolerance s t h c hc
    rw [hm]
    simp only [Double3.add]
    exact ⟨by linarith, by linarith, by linarith⟩
  exact ⟨⟨least_of_corners _ _ _ (fun c hc => (hbox c hc).1) hlow.1,
      least_of_corners _ _ _ (fun c hc => (hbox c hc).2.1) hlow.2.1,
      least_of_corners _ _ _ (fun c hc => (hbox c hc).2.2) hlow.2.2⟩,
    ⟨greatest_of_corners _ _ _ (fun c hc => (hbox c hc).1) hupp.1,
      greatest_of_corners _ _ _ (fun c hc => (hbox c hc).2.1) hupp.2.1,
      greatest_of_corners _ _ _ (fun c hc => (hbox c hc).2.2) hupp.2.2⟩⟩

theorem Sample_dirty (nanInterval : NanInterval) (normalize : Double3 → Float3) (missTolerance : ℚ)
    (s t : VolumetricSampler) (h : Sample nanInterval normalize missTolerance s = some t) :
    t.dirty_ = false := by
  obtain ⟨tasks, _, _, ht⟩ := Sample_some _ normalize missTolerance s t h
  rw [ht]

/-- Claim C17: the dirty flag.  A sampler from either constructor is dirty; after
each of `SetFilter`, `SetChunkSize`, `SetCellSize` and `SetMaxT`, with any
argument (also the current value), `IsDirty()` is true; after a `Sample()` that
returns, `IsDirty()` is false; and an operation that takes a dirty sampler to a
clean one is `Sample()`. -/
theorem dirty_state_machine (nanInterval : NanInterval) (normalize : Double3 → Float3) (missTolerance : ℚ)
    (s : VolumetricSampler) :
    (∀ trace chunkSize cellSize maxT mn mx,
      (VolumetricSampler.ctor trace chunkSize cellSize maxT mn mx).IsDirty = true) ∧
    (∀ trace mn mx, (VolumetricSampler.ctorDefault trace mn mx).IsDirty = true) ∧
    (∀ filter, (s.SetFilter filter).IsDirty = true) ∧
    (∀ chunkSize, (s.SetChunkSize chunkSize).IsDirty = true) ∧
    (∀ cellSize, (s.SetCellSize cellSize).IsDirty = true) ∧
    (∀ maxT, (s.SetMaxT maxT).IsDirty = true) ∧
    (s.SetFilter s.filter_).IsDirty = true ∧
    (s.SetChunkSize s.chunkSize_).IsDirty = true ∧
    (s.SetCellSize s.cellSize_).IsDirty = true ∧
    (s.SetMaxT s.maxT_).IsDirty = true ∧
    (∀ t, Sample nanInterval normalize missTolerance s = some t → t.IsDirty = false) ∧
    (∀ op t, SamplerOp.run nanInterval normalize missTolerance op s = some t →
      s.IsDirty = true → t.IsDirty = false → op = SamplerOp.Sample) := by
  refine ⟨fun _ _ _ _ _ _ => rfl, fun _ _ _ => rfl, fun _ => rfl, fun _ => rfl, fun _ => rfl,
    fun _ => rfl, rfl, rfl, rfl, rfl, fun t h => Sample_dirty _ normalize missTolerance s t h, ?_⟩
  intro op t hrun hs ht
  cases op with
  | SetFilter filter =>
    simp only [SamplerOp.run, Option.some.injEq] at hrun
    rw [← hrun] at ht
    simp [VolumetricSampler.IsDirty, VolumetricSampler.SetFilter] at ht
  | SetChunkSize chunkSize =>
    simp only [SamplerOp.run, Option.some.injEq] at hrun
    rw [← hrun] at ht
    simp [VolumetricSampler.IsDirty, VolumetricSampler.SetChunkSize] at ht
  | SetCellSize cellSize =>
    simp only [SamplerOp.run, Option.some.injEq] at hrun
    rw [← hrun] at ht
    simp [VolumetricSampler.IsDirty, VolumetricSampler.SetCellSize] at ht
  | SetMaxT maxT =>
    simp only [SamplerOp.run, Option.some.injEq] at hrun
    rw [← hrun] at ht
    simp [VolumetricSampler.IsDirty, VolumetricSampler.SetMaxT] at ht
  | Sample => rfl
  | Read =>
    simp only [SamplerOp.run, Option.some.injEq] at hrun
    rw [← hrun, hs] at ht
    exact absurd ht (by decide)

/-- The result of `Sample` is determined by `chunkSize_`, `cellSize_`, `maxT_`
and the list of filtered rays: two samplers that agree on these get the same
data, maximum and bounds. -/
theorem Sample_results_congr (nanInterval : NanInterval) (normalize : Double3 → Float3) (missTolerance : ℚ)
    (s u : VolumetricSampler) (hcs : u.chunkSize_ = s.chunkSize_)
    (hcell : u.cellSize_ = s.cellSize_) (hmaxT : u.maxT_ = s.maxT_)
    (hrays : filterRays missTolerance u.filter_ u.trace =
      filterRays missTolerance s.filter_ s.trace) :
    (Sample nanInterval normalize missTolerance u).map
        (fun t => (t.Data, t.MaxRays, t.MinBounds, t.MaxBounds)) =
      (Sample nanInterval normalize missTolerance s).map
        (fun t => (t.Data, t.MaxRays, t.MinBounds, t.MaxBounds)) := by
  have hd : discoverTasks missTolerance u = discoverTasks missTolerance s := by
    unfold discoverTasks
    rw [hcs, hcell, hmaxT, hrays]
  unfold Sample
  rw [hd, hcs, hcell, hmaxT, hrays]
  cases discoverTasks missTolerance s with
  | none => rfl
  | some tasks =>
    simp only []
    cases forEachTask (fillChunk nanInterval normalize s.chunkSize_ s.cellSize_ s.maxT_ missTolerance
        (filterRays missTolerance s.filter_ s.trace)) tasks with
    | none => rfl
    | some data => rfl

/-- The sampler after `Sample` is determined by the configuration and the trace:
the dirty flag and the previous data, maximum and bounds are not read. -/
theorem Sample_congr (nanInterval : NanInterval) (normalize : Double3 → Float3) (missTolerance : ℚ)
    (s u : VolumetricSampler) (hf : u.filter_ = s.filter_) (hcs : u.chunkSize_ = s.chunkSize_)
    (hcell : u.cellSize_ = s.cellSize_) (hmaxT : u.maxT_ = s.maxT_)
    (htrace : u.trace = s.trace) :
    Sample nanInterval normalize missTolerance u = Sample nanInterval normalize missTolerance s := by
  have hd : discoverTasks missTolerance u = discoverTasks missTolerance s := by
    unfold discoverTasks
    rw [hf, hcs, hcell, hmaxT, htrace]
  unfold Sample
  rw [hd, hf, hcs, hcell, hmaxT, htrace]

/-- Claim C18, refuted as stated: `scenarioD_result` is what `Sample()` leaves
behind in scenario D, a clean sampler with one chunk and `MaxRays() = 5`.  When
the rays of the trace are gone, `Sample()` on this clean sampler recomputes:
`Data()` becomes empty, `MaxRays()` becomes 0 and the bounds are reset. -/
theorem Sample_on_clean_recomputes :
    Sample nanBoth unitAxis (1 / 10) scenarioD = some (scenarioD_result unitAxis) ∧
    (scenarioD_result unitAxis).IsDirty = false ∧
    (scenarioD_result unitAxis).Data.length = 1 ∧
    (scenarioD_result unitAxis).MaxRays = 5 ∧
    (scenarioD_result unitAxis).MinBounds = ⟨0, 0, 0⟩ ∧
    (scenarioD_result unitAxis).MaxBounds = ⟨2, 2, 2⟩ ∧
    (Sample nanBoth unitAxis (1 / 10) { scenarioD_result unitAxis with trace := [] }).map
        (fun t => (t.Data, t.MaxRays, t.MinBounds, t.MaxBounds)) =
      some ([], 0, ⟨FLT_MAX, FLT_MAX, FLT_MAX⟩, ⟨-FLT_MAX, -FLT_MAX, -FLT_MAX⟩) := by
  refine ⟨scenarioD_Sample nanBoth unitAxis, rfl, rfl, rfl, rfl, rfl, ?_⟩
  rw [Sample_no_rays nanBoth unitAxis (1 / 10) { scenarioD_result unitAxis with trace := [] } rfl]
  rfl

/-- Claim C18, as amended: `Sample()` reads neither the dirty flag nor the
previous results.  A `Sample()` that returns leaves the sampler clean, and a
further `Sample()` with the same filter, chunk size, cell size, `maxT`, trace
and miss tolerance returns again and leaves the sampler, hence `Data()`,
`MaxRays()`, `MinBounds()` and `MaxBounds()`, exactly as the first one did;
this holds from every state with that configuration, dirty or clean. -/
theorem Sample_again_same (nanInterval : NanInterval) (normalize : Double3 → Float3) (missTolerance : ℚ)
    (s t : VolumetricSampler) (h : Sample nanInterval normalize missTolerance s = some t) :
    t.IsDirty = false ∧
    Sample nanInterval normalize missTolerance t = some t ∧
    (∀ u : VolumetricSampler, u.filter_ = s.filter_ → u.chunkSize_ = s.chunkSize_ →
      u.cellSize_ = s.cellSize_ → u.maxT_ = s.maxT_ → u.trace = s.trace →
      Sample nanInterval normalize missTolerance u = some t) := by
  have hall : ∀ u : VolumetricSampler, u.filter_ = s.filter_ → u.chunkSize_ = s.chunkSize_ →
      u.cellSize_ = s.cellSize_ → u.maxT_ = s.maxT_ → u.trace = s.trace →
      Sample nanInterval normalize missTolerance u = some t := by
    intro u hf hcs hcell hmaxT htrace
    rw [Sample_congr _ normalize missTolerance s u hf hcs hcell hmaxT htrace, h]
  obtain ⟨tasks, _, _, ht⟩ := Sample_some _ normalize missTolerance s t h
  refine ⟨Sample_dirty _ normalize missTolerance s t h, ?_, hall⟩
  apply hall
  all_goals rw [ht]

/-- Witness for `Sample_again_same`: scenario D. -/
theorem Sample_again_same_witness :
    Sample nanBoth id (1 / 10) scenarioD = some (scenarioD_result id) ∧
    (scenarioD_result id).IsDirty = false ∧
    Sample nanBoth id (1 / 10) (scenarioD_result id) = some (scenarioD_result id) :=
  ⟨scenarioD_Sample nanBoth id,
    (Sample_again_same nanBoth id (1 / 10) scenarioD (scenarioD_result id) (scenarioD_Sample nanBoth id)).1,
    (Sample_again_same nanBoth id (1 / 10) scenarioD (scenarioD_result id) (scenarioD_Sample nanBoth id)).2.1⟩

theorem IncludeRay_all (missTolerance : ℚ) (ray : Ray) :
    IncludeRay missTolerance ray RayFilter.IncludeAllRays = true := by
  unfold IncludeRay
  cases ray.HasHit missTolerance <;> decide

theorem IncludeRay_none (missTolerance : ℚ) (ray : Ray) :
    IncludeRay missTolerance ray RayFilter.None = false := by
  unfold IncludeRay
  cases ray.HasHit missTolerance <;> decide

theorem filterRays_eq_filter (missTolerance : ℚ) (filter_ : RayFilter) (rays : List Ray) :
    filterRays missTolerance filter_ rays =
      rays.filter (fun ray => IncludeRay missTolerance ray filter_) := by
  unfold filterRays
  split_ifs with hf
  · subst hf
    symm
    rw [List.filter_eq_self]
    intro ray _
    exact IncludeRay_all missTolerance ray
  · rfl

theorem filterRays_eq_nil (missTolerance : ℚ) (filter_ : RayFilter) (rays : List Ray) :
    filterRays missTolerance filter_ rays = [] ↔
      ∀ ray ∈ rays, IncludeRay missTolerance ray filter_ = false := by
  rw [filterRays_eq_filter, List.filter_eq_nil_iff]
  simp

/-- Claim C19: scenario E.  When no ray passes the filter (the trace is empty,
or the filter is `None`, or `IncludeRay` rejects every ray of the trace),
`Sample()` returns, `ChunkCount()` is 0, `Data()` is empty, `MaxRays()` is 0 and
the sampler is clean. -/
theorem Sample_without_rays (nanInterval : NanInterval) (normalize : Double3 → Float3) (missTolerance : ℚ)
    (s : VolumetricSampler)
    (h : s.trace = [] ∨ s.filter_ = RayFilter.None ∨
      ∀ ray ∈ s.trace, IncludeRay missTolerance ray s.filter_ = false) :
    ∃ t, Sample nanInterval normalize missTolerance s = some t ∧ t.ChunkCount = 0 ∧ t.Data = [] ∧
      t.MaxRays = 0 ∧ t.IsDirty = false := by
  have hnil : filterRays missTolerance s.filter_ s.trace = [] := by
    rw [filterRays_eq_nil]
    rcases h with h | h | h
    · rw [h]
      intro ray hr
      exact absurd hr (List.not_mem_nil ray)
    · rw [h]
      intro ray _
      exact IncludeRay_none missTolerance ray
    · exact h
  exact ⟨_, Sample_no_rays _ normalize missTolerance s hnil, rfl, rfl, rfl, rfl⟩

/-- Witness for `Sample_without_rays`: the three rays of scenario D under the
filter `None`. -/
theorem Sample_without_rays_witness :
    ({ scenarioD with filter_ := RayFilter.None }.trace.length = 3) ∧
    ∃ t, Sample nanBoth id (1 / 10) { scenarioD with filter_ := RayFilter.None } = some t ∧
      t.ChunkCount = 0 ∧ t.Data = [] ∧ t.MaxRays = 0 ∧ t.IsDirty = false :=
  ⟨rfl, Sample_without_rays nanBoth id (1 / 10) { scenarioD with filter_ := RayFilter.None }
    (Or.inr (Or.inl rfl))⟩

/-- Claim C21: `HitAABB((tNear, tFar), rayMaxT)` is true if and only if
`tFar >= tNear`, `tNear < rayMaxT` and `tFar >= 0`. -/
theorem HitAABB_iff (tNear tFar rayMaxT : ℚ) :
    HitAABB ⟨FloatX.fin tNear, FloatX.fin tFar⟩ rayMaxT = true ↔
      tFar ≥ tNear ∧ tNear < rayMaxT ∧ tFar ≥ 0 := by
  simp only [HitAABB, FloatX.le, FloatX.lt, ne_eq, reduceCtorEq, not_false_eq_true,
    decide_True, Bool.true_and, Bool.not_not, Bool.and_eq_true, Bool.not_eq_true',
    decide_eq_false_iff_not, decide_eq_true_eq, not_lt, ge_iff_le]
  tauto

theorem slab_axis (o d lo hi t : ℚ) (hd : d ≠ 0) (hle : lo ≤ hi) :
    (lo ≤ o + d * t ∧ o + d * t ≤ hi) ↔
      (Min.min ((lo - o) * (1 / d)) ((hi - o) * (1 / d)) ≤ t ∧
        t ≤ Max.max ((lo - o) * (1 / d)) ((hi - o) * (1 / d))) := by
  rw [mul_one_div, mul_one_div]
  rcases lt_or_gt_of_ne hd with hneg | hpos
  · have h1 : (hi - o) / d ≤ (lo - o) / d :=
      div_le_div_of_nonpos_of_le (le_of_lt hneg) (by linarith)
    rw [min_eq_right h1, max_eq_left h1, div_le_iff_of_neg hneg, le_div_iff_of_neg hneg]
    constructor
    · rintro ⟨h2, h3⟩
      constructor <;> nlinarith
    · rintro ⟨h2, h3⟩
      constructor <;> nlinarith
  · have h1 : (lo - o) / d ≤ (hi - o) / d :=
      div_le_div_of_nonneg_right (by linarith) (le_of_lt hpos)
    rw [min_eq_left h1, max_eq_right h1, div_le_iff₀ hpos, le_div_iff₀ hpos]
    constructor
    · rintro ⟨h2, h3⟩
      constructor <;> nlinarith
    · rintro ⟨h2, h3⟩
      constructor <;> nlinarith

/-- Claim C22: the slab method.  For a box with `boxMin <= boxMax` on each axis
and a direction without a zero component, `IntersectAABB` returns `(tNear, tFar)`
such that the point `origin + t * direction` lies in the closed box if and only
if `tNear <= t <= tFar`; the line misses the box exactly when `tNear > tFar`. -/
theorem IntersectAABB_slab (nanInterval : NanInterval) (rayOrigin rayDir boxMin boxMax : Float3)
    (hbox : boxMin.x ≤ boxMax.x ∧ boxMin.y ≤ boxMax.y ∧ boxMin.z ≤ boxMax.z)
    (hdir : rayDir.x ≠ 0 ∧ rayDir.y ≠ 0 ∧ rayDir.z ≠ 0) :
    ∃ tNear tFar : ℚ,
      IntersectAABB nanInterval rayOrigin rayDir boxMin boxMax =
        some ⟨FloatX.fin tNear, FloatX.fin tFar⟩ ∧
      (∀ t : ℚ, InBox (rayOrigin.add (rayDir.smul t)) boxMin boxMax ↔ tNear ≤ t ∧ t ≤ tFar) ∧
      ((∀ t : ℚ, ¬ InBox (rayOrigin.add (rayDir.smul t)) boxMin boxMax) ↔ tNear > tFar) := by
  obtain ⟨hx, hy, hz⟩ := hdir
  have hall : ∀ t : ℚ, InBox (rayOrigin.add (rayDir.smul t)) boxMin boxMax ↔
      slabNear rayOrigin rayDir boxMin boxMax ≤ t ∧
        t ≤ slabFar rayOrigin rayDir boxMin boxMax := by
    intro t
    simp only [InBox, Double3.add, Double3.smul, slabNear, slabFar]
    rw [slab_axis rayOrigin.x rayDir.x boxMin.x boxMax.x t hx hbox.1,
      slab_axis rayOrigin.y rayDir.y boxMin.y boxMax.y t hy hbox.2.1,
      slab_axis rayOrigin.z rayDir.z boxMin.z boxMax.z t hz hbox.2.2]
    simp only [max_le_iff, le_min_iff]
    tauto
  refine ⟨_, _, IntersectAABB_of_ne nanInterval rayOrigin rayDir boxMin boxMax hx hy hz, hall, ?_⟩
  constructor
  · intro hnone
    by_contra hle
    rw [gt_iff_lt, not_lt] at hle
    exact hnone _ ((hall _).mpr ⟨le_refl _, hle⟩)
  · intro hgt t hin
    have := (hall t).mp hin
    have hle := le_trans this.1 this.2
    exact absurd hgt (not_lt.mpr hle)

/-- Witness for `IntersectAABB_slab`: the diagonal through the unit cube. -/
theorem IntersectAABB_slab_witness :
    ∃ tNear tFar : ℚ,
      IntersectAABB nanBoth ⟨-1, -1, -1⟩ ⟨1, 1, 1⟩ ⟨0, 0, 0⟩ ⟨1, 1, 1⟩ =
        some ⟨FloatX.fin tNear, FloatX.fin tFar⟩ ∧
      (∀ t : ℚ, InBox ((⟨-1, -1, -1⟩ : Double3).add ((⟨1, 1, 1⟩ : Double3).smul t))
        ⟨0, 0, 0⟩ ⟨1, 1, 1⟩ ↔ tNear ≤ t ∧ t ≤ tFar) ∧
      ((∀ t : ℚ, ¬ InBox ((⟨-1, -1, -1⟩ : Double3).add ((⟨1, 1, 1⟩ : Double3).smul t))
        ⟨0, 0, 0⟩ ⟨1, 1, 1⟩) ↔ tNear > tFar) :=
  IntersectAABB_slab nanBoth ⟨-1, -1, -1⟩ ⟨1, 1, 1⟩ ⟨0, 0, 0⟩ ⟨1, 1, 1⟩
    ⟨by norm_num, by norm_num, by norm_num⟩ ⟨by norm_num, by norm_num, by norm_num⟩

/-! ### Rounding to binary32 and `Ray::HasHit` (claim C23) -/

theorem expoFrom_spec (a : ℚ) : ∀ (fuel : ℕ) (e : ℤ),
    e - fuel ≤ expoFrom fuel e a ∧ expoFrom fuel e a ≤ e ∧
    (expoFrom fuel e a = e - fuel ∨ (2 : ℚ) ^ expoFrom fuel e a ≤ a) ∧
    (expoFrom fuel e a = e ∨ a < (2 : ℚ) ^ (expoFrom fuel e a + 1)) := by
  intro fuel
  induction fuel with
  | zero =>
    intro e
    simp [expoFrom]
  | succ f ih =>
    intro e
    unfold expoFrom
    by_cases hc : (2 : ℚ) ^ e ≤ a
    · rw [if_pos hc]
      refine ⟨?_, le_refl _, Or.inr hc, Or.inl rfl⟩
      push_cast
      omega
    · rw [if_neg hc]
      obtain ⟨h1, h2, h3, h4⟩ := ih (e - 1)
      refine ⟨?_, by omega, ?_, ?_⟩
      · push_cast
        omega
      · rcases h3 with h3 | h3
        · left
          rw [h3]
          push_cast
          ring
        · exact Or.inr h3
      · rcases h4 with h4 | h4
        · right
          rw [h4, sub_add_cancel]
          exact not_le.mp hc
        · exact Or.inr h4

theorem expo32_spec (a : ℚ) :
    -126 ≤ expo32 a ∧ expo32 a ≤ 127 ∧
    (expo32 a = -126 ∨ (2 : ℚ) ^ expo32 a ≤ a) ∧
    (expo32 a = 127 ∨ a < (2 : ℚ) ^ (expo32 a + 1)) := by
  obtain ⟨h1, h2, h3, h4⟩ := expoFrom_spec a 253 127
  refine ⟨by unfold expo32; omega, h2, ?_, h4⟩
  rcases h3 with h3 | h3
  · left
    unfold expo32
    rw [h3]
    norm_num
  · exact Or.inr h3

theorem expo32_mono (a b : ℚ) (hab : a ≤ b) : expo32 a ≤ expo32 b := by
  by_contra hlt
  rw [not_le] at hlt
  obtain ⟨ha1, ha2, ha3, _⟩ := expo32_spec a
  obtain ⟨hb1, _, _, hb4⟩ := expo32_spec b
  have h1 : (2 : ℚ) ^ expo32 a ≤ a := by
    rcases ha3 with h | h
    · omega
    · exact h
  have h2 : b < (2 : ℚ) ^ (expo32 b + 1) := by
    rcases hb4 with h | h
    · omega
    · exact h
  have h3 : (2 : ℚ) ^ (expo32 b + 1) ≤ (2 : ℚ) ^ expo32 a :=
    zpow_le_zpow_right₀ (by norm_num) (by omega)
  linarith

theorem floor_le_roundHalfEven (n : ℚ) : ⌊n⌋ ≤ roundHalfEven n := by
  unfold roundHalfEven
  split_ifs <;> omega

theorem roundHalfEven_le_ceil (n : ℚ) : roundHalfEven n ≤ ⌈n⌉ := by
  have hfc : ⌊n⌋ ≤ ⌈n⌉ := Int.floor_le_ceil n
  have hstep : (0 : ℚ) < n - ⌊n⌋ → ⌊n⌋ + 1 ≤ ⌈n⌉ := by
    intro h
    have : ⌊n⌋ < ⌈n⌉ := Int.lt_ceil.mpr (by linarith)
    omega
  unfold roundHalfEven
  split_ifs with h1 h2 h3
  · exact hfc
  · exact hstep (by linarith)
  · exact hfc
  · exact hstep (by linarith)

/-- Rounding to binary32 does not carry a number above a binary32 value that it
does not exceed. -/
theorem round32_le_of_le (x y : ℚ) (hy : round32 y = FloatX.fin y) (hxy : x ≤ y) :
    (FloatX.fin y).lt (round32 x) = false := by
  have two : (2 : ℚ) ≠ 0 := by norm_num
  by_cases hx0 : x = 0
  · subst hx0
    simp [round32, FloatX.lt, hxy]
  have hposx : ∀ e : ℤ, (0 : ℚ) < 2 ^ e := fun e => zpow_pos (by norm_num) e
  have hRx : (0 : ℚ) ≤ (roundHalfEven (|x| / 2 ^ (expo32 |x| - 23)) : ℚ) *
      2 ^ (expo32 |x| - 23) := by
    apply mul_nonneg _ (hposx _).le
    have h1 : (0 : ℤ) ≤ ⌊|x| / (2 : ℚ) ^ (expo32 |x| - 23)⌋ :=
      Int.floor_nonneg.mpr (div_nonneg (abs_nonneg x) (hposx _).le)
    have h2 := floor_le_roundHalfEven (|x| / 2 ^ (expo32 |x| - 23))
    exact_mod_cast le_trans h1 h2
  rcases lt_or_gt_of_ne hx0 with hxn | hxp
  · -- x < 0
    have hnp : ¬ (0 : ℚ) < x := not_lt.mpr hxn.le
    by_cases hy0 : 0 ≤ y
    · unfold round32
      simp only [hx0, if_false, hnp]
      split_ifs
      · rfl
      · simp only [FloatX.lt, decide_eq_false_iff_not, not_lt]
        linarith
    · rw [not_le] at hy0
      have hyne : y ≠ 0 := ne_of_lt hy0
      have hynp : ¬ (0 : ℚ) < y := not_lt.mpr hy0.le
      unfold round32 at hy
      simp only [hyne, if_false, hynp] at hy
      split_ifs at hy with hov
      have hyR : -((roundHalfEven (|y| / 2 ^ (expo32 |y| - 23)) : ℚ) *
          2 ^ (expo32 |y| - 23)) = y := FloatX.fin.inj hy
      have habsx : |x| = -x := abs_of_neg hxn
      have habsy : |y| = -y := abs_of_neg hy0
      have hxy' : |y| ≤ |x| := by rw [habsx, habsy]; linarith
      have hmono := expo32_mono _ _ hxy'
      have hgoal : -y ≤ (roundHalfEven (|x| / 2 ^ (expo32 |x| - 23)) : ℚ) *
          2 ^ (expo32 |x| - 23) := by
        rcases eq_or_lt_of_le hmono with heq | hlt
        · -- same exponent
          rw [← heq]
          have hm : ((roundHalfEven (|y| / 2 ^ (expo32 |y| - 23)) : ℤ) : ℚ) ≤
              |x| / 2 ^ (expo32 |y| - 23) := by
            rw [le_div_iff₀ (hposx _)]
            linarith
          have h1 := Int.le_floor.mpr hm
          have h2 := floor_le_roundHalfEven (|x| / 2 ^ (expo32 |y| - 23))
          have h3 : ((roundHalfEven (|y| / 2 ^ (expo32 |y| - 23)) : ℤ) : ℚ) ≤
              (roundHalfEven (|x| / 2 ^ (expo32 |y| - 23)) : ℚ) := by
            exact_mod_cast le_trans h1 h2
          have := mul_le_mul_of_nonneg_right h3 (hposx (expo32 |y| - 23)).le
          linarith
        · -- larger exponent
          obtain ⟨hx1, hx2, hx3, _⟩ := expo32_spec |x|
          obtain ⟨hy1, _, _, hy4⟩ := expo32_spec |y|
          have hpx : (2 : ℚ) ^ expo32 |x| ≤ |x| := by
            rcases hx3 with h | h
            · omega
            · exact h
          have hpy : |y| < (2 : ℚ) ^ (expo32 |y| + 1) := by
            rcases hy4 with h | h
            · omega
            · exact h
          have hle : (2 : ℚ) ^ (expo32 |y| + 1) ≤ (2 : ℚ) ^ expo32 |x| :=
            zpow_le_zpow_right₀ (by norm_num) (by omega)
          have hsplit : (2 : ℚ) ^ expo32 |x| = 8388608 * 2 ^ (expo32 |x| - 23) := by
            have : expo32 |x| = 23 + (expo32 |x| - 23) := by ring
            conv_lhs => rw [this, zpow_add₀ two]
            norm_num
          have hm : ((8388608 : ℤ) : ℚ) ≤ |x| / 2 ^ (expo32 |x| - 23) := by
            rw [le_div_iff₀ (hposx _)]
            push_cast
            linarith
          have h1 := Int.le_floor.mpr hm
          have h2 := floor_le_roundHalfEven (|x| / 2 ^ (expo32 |x| - 23))
          have h3 : ((8388608 : ℤ) : ℚ) ≤
              (roundHalfEven (|x| / 2 ^ (expo32 |x| - 23)) : ℚ) := by
            exact_mod_cast le_trans h1 h2
          have := mul_le_mul_of_nonneg_right h3 (hposx (expo32 |x| - 23)).le
          push_cast at this
          linarith
      unfold round32
      simp only [hx0, if_false, hnp]
      split_ifs
      · rfl
      · simp only [FloatX.lt, decide_eq_false_iff_not, not_lt]
        linarith
  · -- 0 < x
    have hyp : (0 : ℚ) < y := lt_of_lt_of_le hxp hxy
    have hyne : y ≠ 0 := ne_of_gt hyp
    unfold round32 at hy
    simp only [hyne, if_false, hyp, if_true] at hy
    split_ifs at hy with hov
    have hyR : (roundHalfEven (|y| / 2 ^ (expo32 |y| - 23)) : ℚ) *
        2 ^ (expo32 |y| - 23) = y := FloatX.fin.inj hy
    have habsx : |x| = x := abs_of_pos hxp
    have habsy : |y| = y := abs_of_pos hyp
    have hxy' : |x| ≤ |y| := by rw [habsx, habsy]; exact hxy
    have hmono := expo32_mono _ _ hxy'
    obtain ⟨d, hd⟩ : ∃ d : ℕ, expo32 |y| - 23 = (expo32 |x| - 23) + d :=
      ⟨(expo32 |y| - expo32 |x|).toNat, by
        rw [Int.toNat_of_nonneg (by omega)]
        ring⟩
    have hpow : (2 : ℚ) ^ (expo32 |y| - 23) = 2 ^ (expo32 |x| - 23) * ((2 ^ d : ℤ) : ℚ) := by
      rw [hd, zpow_add₀ two, zpow_natCast]
      push_cast
      rfl
    obtain ⟨m, hm⟩ : ∃ m : ℤ, (m : ℚ) * 2 ^ (expo32 |y| - 23) = y := ⟨_, hyR⟩
    have hM : y = ((m * 2 ^ d : ℤ) : ℚ) * 2 ^ (expo32 |x| - 23) := by
      conv_lhs => rw [← hm, hpow]
      push_cast
      ring
    have hn : |x| / 2 ^ (expo32 |x| - 23) ≤ ((m * 2 ^ d : ℤ) : ℚ) := by
      rw [div_le_iff₀ (hposx _), ← hM, habsx]
      exact hxy
    have h1 := Int.ceil_le.mpr hn
    have h2 := roundHalfEven_le_ceil (|x| / 2 ^ (expo32 |x| - 23))
    have h3 : (roundHalfEven (|x| / 2 ^ (expo32 |x| - 23)) : ℚ) ≤ ((m * 2 ^ d : ℤ) : ℚ) := by
      exact_mod_cast le_trans h2 h1
    have hgoal : (roundHalfEven (|x| / 2 ^ (expo32 |x| - 23)) : ℚ) *
        2 ^ (expo32 |x| - 23) ≤ y := by
      have := mul_le_mul_of_nonneg_right h3 (hposx (expo32 |x| - 23)).le
      linarith
    have hnov : ¬ (2 : ℚ) ^ (128 : ℤ) ≤ (roundHalfEven (|x| / 2 ^ (expo32 |x| - 23)) : ℚ) *
        2 ^ (expo32 |x| - 23) := by
      intro h
      apply hov
      rw [hyR]
      linarith
    unfold round32
    simp only [hx0, if_false, hxp, if_true, hnov]
    simp only [FloatX.lt, decide_eq_false_iff_not, not_lt]
    exact hgoal

/-- Claim C23, as amended: `HasHit()` is true if and only if `0 <= tHit` and
`tHit` is below the float difference `tMax - missTolerance`, i.e. the exact
difference rounded to binary32; `tHitOrTMax()` returns `tHit` when `HasHit()`
is true and `tMax` otherwise; a ray with `tHit = -1` has the effective distance
`tMax`; and the effective distance does not exceed `tMax` when
`missTolerance >= 0` and `tMax` is a binary32 value. -/
theorem tHitOrTMax_spec (missTolerance : ℚ) (ray : Ray) :
    (ray.HasHit missTolerance = true ↔
      0 ≤ ray.tHit ∧
        (FloatX.fin ray.tHit).lt (round32 (ray.tMax - missTolerance)) = true) ∧
    (ray.HasHit missTolerance = true → ray.tHitOrTMax missTolerance = ray.tHit) ∧
    (ray.HasHit missTolerance = false → ray.tHitOrTMax missTolerance = ray.tMax) ∧
    (ray.tHit = -1 → ray.tHitOrTMax missTolerance = ray.tMax) ∧
    (0 ≤ missTolerance → round32 ray.tMax = FloatX.fin ray.tMax →
      ray.tHitOrTMax missTolerance ≤ ray.tMax) := by
  have hiff : ray.HasHit missTolerance = true ↔
      0 ≤ ray.tHit ∧
        (FloatX.fin ray.tHit).lt (round32 (ray.tMax - missTolerance)) = true := by
    simp [Ray.HasHit]
  refine ⟨hiff, ?_, ?_, ?_, ?_⟩
  · intro h
    simp [Ray.tHitOrTMax, h]
  · intro h
    simp [Ray.tHitOrTMax, h]
  · intro h
    have hno : ray.HasHit missTolerance = false := by
      cases hh : ray.HasHit missTolerance with
      | false => rfl
      | true =>
        have := (hiff.mp hh).1
        rw [h] at this
        norm_num at this
    simp [Ray.tHitOrTMax, hno]
  · intro hm hfl
    cases hh : ray.HasHit missTolerance with
    | false => simp [Ray.tHitOrTMax, hh]
    | true =>
      have hlt := (hiff.mp hh).2
      have hle := round32_le_of_le (ray.tMax - missTolerance) ray.tMax hfl (by linarith)
      simp only [Ray.tHitOrTMax, hh, if_true]
      cases hr : round32 (ray.tMax - missTolerance) with
      | fin d =>
        rw [hr] at hlt hle
        simp only [FloatX.lt, decide_eq_true_eq, decide_eq_false_iff_not, not_lt] at hlt hle
        linarith
      | posInf =>
        rw [hr] at hle
        simp [FloatX.lt] at hle
      | negInf =>
        rw [hr] at hlt
        simp [FloatX.lt] at hlt
      | nan =>
        rw [hr] at hlt
        simp [FloatX.lt] at hlt

/-- Witness for `tHitOrTMax_spec`: a ray with `tHit = 1/2` and `tMax = 1` under
the miss tolerance `0.1f`; `tMax = 1` is a binary32 value, the ray has a hit and
its effective distance `1/2` is below `tMax`. -/
theorem tHitOrTMax_spec_witness :
    round32 1 = FloatX.fin 1 ∧
    Ray.HasHit (13421773 / 134217728)
      { rayId := 0, origin := ⟨0, 0, 0⟩, tMin := 0, direction := ⟨1, 1, 1⟩, tMax := 1,
        tHit := 1 / 2 } = true ∧
    Ray.tHitOrTMax (13421773 / 134217728)
      { rayId := 0, origin := ⟨0, 0, 0⟩, tMin := 0, direction := ⟨1, 1, 1⟩, tMax := 1,
        tHit := 1 / 2 } ≤ 1 :=
  ⟨by decide!, by decide!,
    (tHitOrTMax_spec (13421773 / 134217728)
      { rayId := 0, origin := ⟨0, 0, 0⟩, tMin := 0, direction := ⟨1, 1, 1⟩, tMax := 1,
        tHit := 1 / 2 }).2.2.2.2 (by norm_num) (by decide!)⟩

/-- Claim C23 as stated fails where the rounding of the difference decides.
For `tHit = 0.9f = 15099494 / 2^24`, `tMax = 1` and
`missTolerance = 0.1f = 13421773 / 2^27` both `0 <= tHit` and
`tHit < tMax - missTolerance` hold, the exact difference being
`120795955 / 2^27`; the float difference is `0.9f`, so `HasHit()` is false and
`tHitOrTMax()` returns `tMax = 1`, not `tHit`. -/
theorem HasHit_rounds_difference :
    (0 : ℚ) ≤ 15099494 / 16777216 ∧
    (15099494 / 16777216 : ℚ) < 1 - 13421773 / 134217728 ∧
    round32 (1 - 13421773 / 134217728) = FloatX.fin (15099494 / 16777216) ∧
    Ray.HasHit (13421773 / 134217728)
      { rayId := 0, origin := ⟨0, 0, 0⟩, tMin := 0, direction := ⟨1, 1, 1⟩, tMax := 1,
        tHit := 15099494 / 16777216 } = false ∧
    Ray.tHitOrTMax (13421773 / 134217728)
      { rayId := 0, origin := ⟨0, 0, 0⟩, tMin := 0, direction := ⟨1, 1, 1⟩, tMax := 1,
        tHit := 15099494 / 16777216 } = 1 := by
  refine ⟨by norm_num, by norm_num, by decide!, by decide!, by decide!⟩

/-! ### Independence of the previous results (claim C24) -/

/-- Claim C24: `Sample()` discards all previous results.  Two samplers that
agree on chunk size, cell size, `maxT`, filter and ray list, under the same
miss tolerance, get identical `Data()`, `MaxRays()`, `MinBounds()` and
`MaxBounds()` from `Sample()` (and `Sample()` fails on one exactly when it fails
on the other), whatever chunk data, statistics and dirty flag they held
before. -/
theorem Sample_discards_previous (nanInterval : NanInterval) (normalize : Double3 → Float3) (missTolerance : ℚ)
    (s u : VolumetricSampler) (hcs : u.chunkSize_ = s.chunkSize_)
    (hcell : u.cellSize_ = s.cellSize_) (hmaxT : u.maxT_ = s.maxT_)
    (hfilter : u.filter_ = s.filter_) (htrace : u.trace = s.trace) :
    (Sample nanInterval normalize missTolerance u).map
        (fun t => (t.Data, t.MaxRays, t.MinBounds, t.MaxBounds)) =
      (Sample nanInterval normalize missTolerance s).map
        (fun t => (t.Data, t.MaxRays, t.MinBounds, t.MaxBounds)) := by
  apply Sample_results_congr _ normalize missTolerance s u hcs hcell hmaxT
  rw [hfilter, htrace]

/-- Witness for `Sample_discards_previous`: the fresh sampler of scenario D and
the sampler that already holds the results of a previous `Sample()`. -/
theorem Sample_discards_previous_witness :
    (scenarioD_result id).Data ≠ scenarioD.Data ∧
    (Sample nanBoth id (1 / 10) (scenarioD_result id)).map
        (fun t => (t.Data, t.MaxRays, t.MinBounds, t.MaxBounds)) =
      (Sample nanBoth id (1 / 10) scenarioD).map
        (fun t => (t.Data, t.MaxRays, t.MinBounds, t.MaxBounds)) :=
  ⟨by decide, Sample_discards_previous nanBoth id (1 / 10) scenarioD (scenarioD_result id)
    rfl rfl rfl rfl rfl⟩

/-! ### ChunkedArray3D as a map (claims C29, C30, C27) -/

theorem mapFind_nil (key : Int3) : mapFind key [] = none := rfl

theorem mapFind_cons (key : Int3) (e : Int3 × List ℕ) (rest : List (Int3 × List ℕ)) :
    mapFind key (e :: rest) = if e.1 = key then some e.2 else mapFind key rest := by
  unfold mapFind
  by_cases h : e.1 = key
  · simp [List.find?_cons, h]
  · simp [List.find?_cons, h]

theorem mapFind_mapInsert_self (key : Int3) (block : List ℕ) :
    ∀ data : List (Int3 × List ℕ), mapFind key data = none →
      mapFind key (mapInsert key block data) = some block := by
  intro data
  induction data with
  | nil => intro _; simp [mapInsert, mapFind_cons]
  | cons e rest ih =>
    intro h
    rw [mapFind_cons] at h
    by_cases he : e.1 = key
    · simp [he] at h
    · simp only [he, if_false] at h
      unfold mapInsert
      split_ifs
      · simp [mapFind_cons]
      · rw [mapFind_cons, if_neg he]
        exact ih h

theorem mapFind_mapInsert_ne (key k : Int3) (block : List ℕ) (hk : k ≠ key) :
    ∀ data : List (Int3 × List ℕ), mapFind k (mapInsert key block data) = mapFind k data := by
  intro data
  induction data with
  | nil => simp [mapInsert, mapFind_cons, mapFind_nil, Ne.symm hk]
  | cons e rest ih =>
    unfold mapInsert
    split_ifs
    · rw [mapFind_cons, if_neg (Ne.symm hk)]
    · rw [mapFind_cons, mapFind_cons, ih]

theorem mem_mapInsert (key : Int3) (block : List ℕ) (e : Int3 × List ℕ) :
    ∀ data : List (Int3 × List ℕ), e ∈ mapInsert key block data ↔ e = (key, block) ∨ e ∈ data := by
  intro data
  induction data with
  | nil => simp [mapInsert]
  | cons d rest ih =>
    unfold mapInsert
    split_ifs
    · simp
    · simp only [List.mem_cons, ih]
      tauto

theorem blockKey_ne_initial (H : ℕ) (pos : Int3) (hx : 0 ≤ pos.x) :
    blockKey H pos ≠ ⟨-1, -1, -1⟩ := by
  intro h
  have h1 := congrArg Int3.x h
  have h2 := Int.ediv_nonneg hx (Int.natCast_nonneg H)
  simp only [blockKey] at h1
  omega

theorem load_eq (c : ChunkedArray3D) (key : Int3) (i : ℕ) :
    c.load key i = ((mapFind key c.data_).getD []).getD i 0 := rfl

/-- What the mutable `At` does on an array in use: it returns the location
`(blockKey, blockIndex)` of the position, the block of the position exists
afterwards and is the cached one, and no stored value changes. -/
theorem At_spec (c : ChunkedArray3D) (hwf : c.Wf) (pos : Int3)
    (hpos : 0 ≤ pos.x ∧ 0 ≤ pos.y ∧ 0 ≤ pos.z) :
    ∃ c1 : ChunkedArray3D,
      c.At pos = some (c1, blockKey c.chunkSize pos, blockIndex c.chunkSize pos) ∧
      c1.Wf ∧ c1.chunkSize = c.chunkSize ∧ c1.lastChunkId_ = blockKey c.chunkSize pos ∧
      (mapFind (blockKey c.chunkSize pos) c1.data_).isSome = true ∧
      (∀ key i, c1.load key i = c.load key i) ∧
      (c1.data_ = c.data_ ∨
        (mapFind (blockKey c.chunkSize pos) c.data_ = none ∧
          c1.data_ = mapInsert (blockKey c.chunkSize pos)
            (List.replicate (c.chunkSize * c.chunkSize * c.chunkSize) 0) c.data_)) := by
  obtain ⟨hcs, hlen, hlast⟩ := hwf
  have hcond : 0 ≤ pos.x ∧ 0 ≤ pos.y ∧ 0 ≤ pos.z ∧ c.chunkSize ≠ 0 :=
    ⟨hpos.1, hpos.2.1, hpos.2.2, hcs⟩
  have hinit := blockKey_ne_initial c.chunkSize pos hpos.1
  by_cases hsame : blockKey c.chunkSize pos = c.lastChunkId_
  · refine ⟨c, ?_, ⟨hcs, hlen, hlast⟩, rfl, hsame.symm, ?_, fun _ _ => rfl, Or.inl rfl⟩
    · unfold ChunkedArray3D.At
      rw [if_pos hcond]
      have : ¬ ((⟨pos.x / c.chunkSize, pos.y / c.chunkSize, pos.z / c.chunkSize⟩ : Int3) ≠
          c.lastChunkId_) := fun h => h hsame
      simp only [this, if_false]
      rw [← hsame]
      rfl
    · rcases hlast with h | h
      · rw [← hsame] at h
        exact absurd h hinit
      · rw [hsame]
        exact h
  · have hne : (⟨pos.x / c.chunkSize, pos.y / c.chunkSize, pos.z / c.chunkSize⟩ : Int3) ≠
        c.lastChunkId_ := hsame
    cases hfind : mapFind (blockKey c.chunkSize pos) c.data_ with
    | none =>
      have hfind1 : (mapFind (⟨pos.x / c.chunkSize, pos.y / c.chunkSize,
          pos.z / c.chunkSize⟩ : Int3) c.data_).isNone = true := by
        show (mapFind (blockKey c.chunkSize pos) c.data_).isNone = true
        rw [hfind]
        rfl
      refine ⟨{ c with
          data_ := mapInsert (blockKey c.chunkSize pos)
            (List.replicate (c.chunkSize * c.chunkSize * c.chunkSize) 0) c.data_
          lastChunkId_ := blockKey c.chunkSize pos }, ?_, ⟨hcs, ?_, Or.inr ?_⟩, rfl, rfl, ?_, ?_,
        Or.inr ⟨rfl, rfl⟩⟩
      · unfold ChunkedArray3D.At
        rw [if_pos hcond]
        simp only [hne, if_true, hfind1, ne_eq, not_false_eq_true]
        rfl
      · intro e he
        rcases (mem_mapInsert _ _ _ _).mp he with rfl | he
        · simp
        · exact hlen e he
      · show (mapFind (blockKey c.chunkSize pos) (mapInsert _ _ c.data_)).isSome = true
        rw [mapFind_mapInsert_self _ _ _ hfind]
        rfl
      · show (mapFind (blockKey c.chunkSize pos) (mapInsert _ _ c.data_)).isSome = true
        rw [mapFind_mapInsert_self _ _ _ hfind]
        rfl
      · intro key i
        simp only [load_eq]
        by_cases hk : key = blockKey c.chunkSize pos
        · subst hk
          rw [mapFind_mapInsert_self _ _ _ hfind, hfind]
          simp [getD_replicate_zero]
        · rw [mapFind_mapInsert_ne _ _ _ hk]
    | some block =>
      have hfind1 : (mapFind (⟨pos.x / c.chunkSize, pos.y / c.chunkSize,
          pos.z / c.chunkSize⟩ : Int3) c.data_).isNone = false := by
        show (mapFind (blockKey c.chunkSize pos) c.data_).isNone = false
        rw [hfind]
        rfl
      refine ⟨{ c with lastChunkId_ := blockKey c.chunkSize pos }, ?_,
        ⟨hcs, hlen, Or.inr ?_⟩, rfl, rfl, ?_, fun _ _ => rfl, Or.inl rfl⟩
      · unfold ChunkedArray3D.At
        rw [if_pos hcond]
        simp only [hne, if_true, hfind1, ne_eq, not_false_eq_true]
        rfl
      · show (mapFind (blockKey c.chunkSize pos) c.data_).isSome = true
        rw [hfind]
        rfl
      · show (mapFind (blockKey c.chunkSize pos) c.data_).isSome = true
        rw [hfind]
        rfl

theorem mapFind_store (data : List (Int3 × List ℕ)) (key k : Int3) (i v : ℕ) :
    mapFind k (data.map (fun e => if e.1 = key then (e.1, e.2.set i v) else e)) =
      if k = key then (mapFind k data).map (fun b => b.set i v) else mapFind k data := by
  induction data with
  | nil => simp [mapFind_nil]
  | cons e rest ih =>
    rw [List.map_cons, mapFind_cons, mapFind_cons, ih]
    by_cases hek : e.1 = key
    · by_cases hk : k = key
      · subst hk
        simp [hek]
      · have hkk : ¬ key = k := fun h => hk h.symm
        simp [hek, hk, hkk]
    · by_cases hk : k = key
      · subst hk
        simp [hek]
      · simp [hek, hk]

/-- Assignment through a reference: the assigned location holds the value, every
other location keeps its value. -/
theorem load_store (c : ChunkedArray3D) (key k : Int3) (i j v : ℕ)
    (hblock : ∀ b, mapFind key c.data_ = some b → i < b.length)
    (hsome : (mapFind key c.data_).isSome = true) :
    (c.store key i v).load k j = if k = key ∧ j = i then v else c.load k j := by
  simp only [load_eq, ChunkedArray3D.store, mapFind_store]
  by_cases hk : k = key
  · subst hk
    obtain ⟨b, hb⟩ := Option.isSome_iff_exists.mp hsome
    have hi := hblock b hb
    simp only [hb, Option.map_some', Option.getD_some, true_and, if_true]
    by_cases hj : j = i
    · subst hj
      simp [List.getD_eq_getElem?_getD, hi]
    · simp only [hj, if_false]
      simp [List.getD_eq_getElem?_getD, List.getElem?_set_ne (Ne.symm hj)]
  · simp [hk]

theorem store_wf (c : ChunkedArray3D) (hwf : c.Wf) (key : Int3) (i v : ℕ) :
    (c.store key i v).Wf := by
  obtain ⟨hcs, hlen, hlast⟩ := hwf
  refine ⟨hcs, ?_, ?_⟩
  · intro e he
    simp only [ChunkedArray3D.store, List.mem_map] at he
    obtain ⟨d, hd, rfl⟩ := he
    split_ifs
    · simpa using hlen d hd
    · exact hlen d hd
  · rcases hlast with h | h
    · exact Or.inl h
    · right
      show (mapFind c.lastChunkId_ (c.data_.map _)).isSome = true
      rw [mapFind_store]
      split_ifs
      · rw [Option.isSome_map']
        exact h
      · exact h

theorem decode_nat (H a b d : ℕ) (hb : b < H) (hd : d < H) :
    (a * H * H + b * H + d) / H / H = a ∧ ((a * H * H + b * H + d) / H) % H = b ∧
      (a * H * H + b * H + d) % H = d := by
  have hH : 0 < H := by omega
  have e1 : a * H * H + b * H + d = d + (a * H + b) * H := by ring
  have e2 : a * H + b = b + a * H := by ring
  have h1 : (a * H * H + b * H + d) / H = a * H + b := by
    rw [e1, Nat.add_mul_div_right _ _ hH, Nat.div_eq_of_lt hd, Nat.zero_add]
  have h2 : (a * H + b) / H = a := by
    rw [e2, Nat.add_mul_div_right _ _ hH, Nat.div_eq_of_lt hb, Nat.zero_add]
  have h3 : (a * H + b) % H = b := by
    rw [e2, Nat.add_mul_mod_self_right, Nat.mod_eq_of_lt hb]
  have h4 : (a * H * H + b * H + d) % H = d := by
    rw [e1, Nat.add_mul_mod_self_right, Nat.mod_eq_of_lt hd]
  rw [h1, h2, h3, h4]
  exact ⟨rfl, rfl, rfl⟩

/-- The index of a position inside its block, written with natural numbers. -/
theorem blockIndex_eq (H : ℕ) (hH : H ≠ 0) (pos : Int3) :
    blockIndex H pos = (pos.x % H).toNat * H * H + (pos.y % H).toNat * H + (pos.z % H).toNat := by
  have hHz : (H : ℤ) ≠ 0 := by exact_mod_cast hH
  have hx := Int.emod_nonneg pos.x hHz
  have hy := Int.emod_nonneg pos.y hHz
  have hz := Int.emod_nonneg pos.z hHz
  unfold blockIndex
  have : pos.x % H * H * H + pos.y % H * H + pos.z % H =
      (((pos.x % H).toNat * H * H + (pos.y % H).toNat * H + (pos.z % H).toNat : ℕ) : ℤ) := by
    push_cast
    rw [Int.toNat_of_nonneg hx, Int.toNat_of_nonneg hy, Int.toNat_of_nonneg hz]
  rw [this, Int.toNat_natCast]

theorem emod_toNat_lt (H : ℕ) (hH : H ≠ 0) (a : ℤ) : (a % H).toNat < H := by
  have hHz : (H : ℤ) ≠ 0 := by exact_mod_cast hH
  have h1 := Int.emod_nonneg a hHz
  have h2 := Int.emod_lt_of_pos a (by omega : (0 : ℤ) < H)
  omega

theorem blockIndex_lt (H : ℕ) (hH : H ≠ 0) (pos : Int3) : blockIndex H pos < H * H * H := by
  rw [blockIndex_eq H hH]
  have hx := emod_toNat_lt H hH pos.x
  have hy := emod_toNat_lt H hH pos.y
  have hz := emod_toNat_lt H hH pos.z
  generalize (pos.x % H).toNat = a at *
  generalize (pos.y % H).toNat = b at *
  generalize (pos.z % H).toNat = d at *
  have h1 : a * H * H ≤ (H - 1) * H * H :=
    Nat.mul_le_mul_right _ (Nat.mul_le_mul_right _ (by omega))
  have h2 : b * H ≤ (H - 1) * H := Nat.mul_le_mul_right _ (by omega)
  have h3 : (H - 1) * H * H + (H - 1) * H + H = H * H * H := by
    obtain ⟨k, rfl⟩ : ∃ k, H = k + 1 := ⟨H - 1, by omega⟩
    simp only [Nat.add_sub_cancel]
    ring
  omega

/-- The decoding of step 2 of `Sample`, for any block size `H`: block key times
`H` plus the three digits of the index gives back the position. -/
theorem decode_location (H : ℕ) (hH : H ≠ 0) (pos : Int3) :
    (⟨(blockKey H pos).x * H + ((blockIndex H pos / H / H : ℕ) : ℤ),
      (blockKey H pos).y * H + (((blockIndex H pos / H) % H : ℕ) : ℤ),
      (blockKey H pos).z * H + ((blockIndex H pos % H : ℕ) : ℤ)⟩ : Int3) = pos := by
  have hHz : (H : ℤ) ≠ 0 := by exact_mod_cast hH
  obtain ⟨h1, h2, h3⟩ := decode_nat H (pos.x % H).toNat (pos.y % H).toNat (pos.z % H).toNat
    (emod_toNat_lt H hH pos.y) (emod_toNat_lt H hH pos.z)
  rw [blockIndex_eq H hH, h1, h2, h3]
  rw [Int.toNat_of_nonneg (Int.emod_nonneg pos.x hHz),
    Int.toNat_of_nonneg (Int.emod_nonneg pos.y hHz),
    Int.toNat_of_nonneg (Int.emod_nonneg pos.z hHz)]
  simp only [blockKey]
  rw [Int.ediv_add_emod', Int.ediv_add_emod', Int.ediv_add_emod']

/-- Two positions with the same storage location are the same position. -/
theorem location_injective (H : ℕ) (hH : H ≠ 0) (p q : Int3)
    (hk : blockKey H p = blockKey H q) (hi : blockIndex H p = blockIndex H q) : p = q := by
  rw [← decode_location H hH p, ← decode_location H hH q, hk, hi]

theorem new_wf (H : ℕ) (hH : H ≠ 0) : (ChunkedArray3D.new H).Wf :=
  ⟨hH, fun _ he => absurd he (List.not_mem_nil _), Or.inl rfl⟩

theorem new_valueAt (H : ℕ) (q : Int3) : (ChunkedArray3D.new H).valueAt q = 0 := rfl

theorem AtGet_spec (c : ChunkedArray3D) (hwf : c.Wf) (pos : Int3) (hpos : pos.NonNeg) :
    ∃ c1 : ChunkedArray3D, c.AtGet pos = some (c1, c.valueAt pos) ∧ c1.Wf ∧
      c1.chunkSize = c.chunkSize ∧ (∀ key i, c1.load key i = c.load key i) := by
  obtain ⟨c1, hat, hwf1, hcs, _, _, hload, _⟩ := At_spec c hwf pos hpos
  refine ⟨c1, ?_, hwf1, hcs, hload⟩
  unfold ChunkedArray3D.AtGet
  rw [hat]
  simp only [Option.map_some', ChunkedArray3D.valueAt, hload]

theorem AtPut_spec (c : ChunkedArray3D) (hwf : c.Wf) (pos : Int3) (hpos : pos.NonNeg) (v : ℕ) :
    ∃ c1 : ChunkedArray3D, c.AtPut pos v = some c1 ∧ c1.Wf ∧ c1.chunkSize = c.chunkSize ∧
      (∀ key j, c1.load key j =
        if key = blockKey c.chunkSize pos ∧ j = blockIndex c.chunkSize pos then v
        else c.load key j) ∧
      (c1.data_.map Prod.fst = c.data_.map Prod.fst ∨
        (mapFind (blockKey c.chunkSize pos) c.data_ = none ∧
          c1.data_.map Prod.fst = (mapInsert (blockKey c.chunkSize pos)
            (List.replicate (c.chunkSize * c.chunkSize * c.chunkSize) 0) c.data_).map
              Prod.fst)) := by
  obtain ⟨c1, hat, hwf1, hcs, _, hsome, hload, hdata⟩ := At_spec c hwf pos hpos
  have hkeys : ∀ (d : ChunkedArray3D) (key : Int3) (i w : ℕ),
      (d.store key i w).data_.map Prod.fst = d.data_.map Prod.fst := by
    intro d key i w
    simp only [ChunkedArray3D.store, List.map_map]
    apply List.map_congr_left
    intro e _
    simp only [Function.comp]
    split_ifs <;> rfl
  refine ⟨c1.store (blockKey c.chunkSize pos) (blockIndex c.chunkSize pos) v, ?_,
    store_wf c1 hwf1 _ _ _, hcs, ?_, ?_⟩
  rotate_left 2
  · rw [hkeys]
    rcases hdata with h | ⟨h1, h2⟩
    · exact Or.inl (by rw [h])
    · exact Or.inr ⟨h1, by rw [h2]⟩
  · unfold ChunkedArray3D.AtPut
    rw [hat]
    rfl
  · intro key j
    rw [load_store c1 _ _ _ _ _ _ hsome]
    · simp only [hload]
    · intro b hb
      have hmem : (blockKey c.chunkSize pos, b) ∈ c1.data_ := by
        unfold mapFind at hb
        obtain ⟨e, he, rfl⟩ := Option.map_eq_some'.mp hb
        have h1 := List.find?_some he
        have h2 := List.mem_of_find?_eq_some he
        simp only [decide_eq_true_eq] at h1
        rw [← h1]
        exact h2
      have := hwf1.2.1 _ hmem
      rw [this, hcs]
      exact blockIndex_lt c.chunkSize hwf.1 pos

theorem valueAt_eq (c : ChunkedArray3D) (q : Int3) :
    c.valueAt q = c.load (blockKey c.chunkSize q) (blockIndex c.chunkSize q) := rfl

theorem AtPut_valueAt (c : ChunkedArray3D) (hwf : c.Wf) (pos : Int3) (hpos : pos.NonNeg)
    (v : ℕ) :
    ∃ c1 : ChunkedArray3D, c.AtPut pos v = some c1 ∧ c1.Wf ∧ c1.chunkSize = c.chunkSize ∧
      ∀ q : Int3, c1.valueAt q = if q = pos then v else c.valueAt q := by
  obtain ⟨c1, hput, hwf1, hcs, hload, _⟩ := AtPut_spec c hwf pos hpos v
  refine ⟨c1, hput, hwf1, hcs, ?_⟩
  intro q
  rw [valueAt_eq, valueAt_eq, hload, hcs]
  by_cases hq : q = pos
  · subst hq
    simp
  · have : ¬ (blockKey c.chunkSize q = blockKey c.chunkSize pos ∧
        blockIndex c.chunkSize q = blockIndex c.chunkSize pos) := by
      rintro ⟨h1, h2⟩
      exact hq (location_injective c.chunkSize hwf.1 q pos h1 h2)
    simp only [this, hq, if_false]

theorem Access_run_spec (c : ChunkedArray3D) (hwf : c.Wf) (a : Access) (hpos : a.pos.NonNeg) :
    ∃ c1 : ChunkedArray3D, a.run c = some c1 ∧ c1.Wf ∧ c1.chunkSize = c.chunkSize ∧
      ∀ q : Int3, c1.valueAt q = Access.apply c.valueAt a q := by
  cases a with
  | read pos =>
    obtain ⟨c1, hget, hwf1, hcs, hload⟩ := AtGet_spec c hwf pos hpos
    refine ⟨c1, ?_, hwf1, hcs, ?_⟩
    · simp only [Access.run, hget, Option.map_some']
    · intro q
      simp only [Access.apply, valueAt_eq, hload, hcs]
  | write pos v =>
    obtain ⟨c1, hput, hwf1, hcs, hval⟩ := AtPut_valueAt c hwf pos hpos v
    exact ⟨c1, hput, hwf1, hcs, fun q => by simp only [Access.apply, hval]⟩

theorem runAccesses_spec (l : List Access) :
    ∀ (c : ChunkedArray3D) (m : Int3 → ℕ), c.Wf → (∀ a ∈ l, a.pos.NonNeg) →
      (∀ q, c.valueAt q = m q) →
      ∃ c1 : ChunkedArray3D, runAccesses c l = some c1 ∧ c1.Wf ∧
        c1.chunkSize = c.chunkSize ∧ ∀ q, c1.valueAt q = l.foldl Access.apply m q := by
  induction l with
  | nil =>
    intro c m hwf _ hm
    exact ⟨c, rfl, hwf, rfl, hm⟩
  | cons a rest ih =>
    intro c m hwf hpos hm
    obtain ⟨c1, hrun, hwf1, hcs1, hval1⟩ :=
      Access_run_spec c hwf a (hpos a (List.mem_cons_self _ _))
    have hm1 : ∀ q, c1.valueAt q = Access.apply m a q := by
      intro q
      rw [hval1]
      cases a with
      | read pos => exact hm q
      | write pos v => simp only [Access.apply, hm]
    obtain ⟨c2, hrun2, hwf2, hcs2, hval2⟩ :=
      ih c1 (Access.apply m a) hwf1 (fun b hb => hpos b (List.mem_cons_of_mem _ hb)) hm1
    refine ⟨c2, ?_, hwf2, by rw [hcs2, hcs1], hval2⟩
    unfold runAccesses at hrun2 ⊢
    rw [List.foldlM_cons, hrun]
    exact hrun2

/-- Claim C29: `ChunkedArray3D` is a total map from non-negative positions to
values with default `T() = 0`.  Every sequence of reads and writes through the
mutable `At` at non-negative positions runs through, and afterwards a read
through `At` at any non-negative position `q` returns the value of the map that
the sequence describes: the value of the last write at `q`, the default when
`q` was never written; a write at `p` changes the value read at `p` and at no
other position, whichever block was accessed last. -/
theorem ChunkedArray3D_is_map (chunkSize : ℕ) (hcs : chunkSize ≠ 0) (l : List Access)
    (hpos : ∀ a ∈ l, a.pos.NonNeg) :
    ∃ c : ChunkedArray3D, runAccesses (ChunkedArray3D.new chunkSize) l = some c ∧
      (∀ q : Int3, q.NonNeg → (c.AtGet q).map Prod.snd = some (Access.mapAfter l q)) ∧
      (∀ (p : Int3) (v : ℕ), p.NonNeg →
        ∃ c1 : ChunkedArray3D, c.AtPut p v = some c1 ∧
          (c1.AtGet p).map Prod.snd = some v ∧
          ∀ q : Int3, q.NonNeg → q ≠ p →
            (c1.AtGet q).map Prod.snd = (c.AtGet q).map Prod.snd) ∧
      (∀ q : Int3, Access.mapAfter [] q = 0) ∧
      (∀ (p q : Int3) (v : ℕ), Access.mapAfter (l ++ [Access.write p v]) q =
        if q = p then v else Access.mapAfter l q) ∧
      (∀ p q : Int3, Access.mapAfter (l ++ [Access.read p]) q = Access.mapAfter l q) := by
  obtain ⟨c, hrun, hwf, hcs1, hval⟩ :=
    runAccesses_spec l (ChunkedArray3D.new chunkSize) (fun _ => 0)
      (new_wf chunkSize hcs) hpos (fun q => new_valueAt chunkSize q)
  have hread : ∀ (d : ChunkedArray3D), d.Wf → ∀ q : Int3, q.NonNeg →
      (d.AtGet q).map Prod.snd = some (d.valueAt q) := by
    intro d hd q hq
    obtain ⟨d1, hget, _⟩ := AtGet_spec d hd q hq
    rw [hget]
    rfl
  refine ⟨c, hrun, ?_, ?_, fun _ => rfl, ?_, ?_⟩
  · intro q hq
    rw [hread c hwf q hq, hval]
    rfl
  · intro p v hp
    obtain ⟨c1, hput, hwf1, _, hval1⟩ := AtPut_valueAt c hwf p hp v
    refine ⟨c1, hput, ?_, ?_⟩
    · rw [hread c1 hwf1 p hp, hval1, if_pos rfl]
    · intro q hq hne
      rw [hread c1 hwf1 q hq, hread c hwf q hq, hval1, if_neg hne]
  · intro p q v
    simp only [Access.mapAfter, List.foldl_append, List.foldl_cons, List.foldl_nil, Access.apply]
  · intro p q
    simp only [Access.mapAfter, List.foldl_append, List.foldl_cons, List.foldl_nil, Access.apply]

/-- Witness for `ChunkedArray3D_is_map`: a block size of 2 and the accesses
write 5 at `(0,0,0)`, write 7 at `(0,3,0)`, read `(0,0,0)`, write 9 at
`(0,0,0)`, which touch the blocks `(0,0,0)`, `(0,1,0)` and `(0,0,0)` again. -/
theorem ChunkedArray3D_is_map_witness :
    ∃ c : ChunkedArray3D,
      runAccesses (ChunkedArray3D.new 2)
        [Access.write ⟨0, 0, 0⟩ 5, Access.write ⟨0, 3, 0⟩ 7, Access.read ⟨0, 0, 0⟩,
          Access.write ⟨0, 0, 0⟩ 9] = some c ∧
      (c.AtGet ⟨0, 0, 0⟩).map Prod.snd = some 9 ∧
      (c.AtGet ⟨0, 3, 0⟩).map Prod.snd = some 7 ∧
      (c.AtGet ⟨1, 1, 1⟩).map Prod.snd = some 0 := by
  obtain ⟨c, hrun, hread, _⟩ := ChunkedArray3D_is_map 2 (by decide)
    [Access.write ⟨0, 0, 0⟩ 5, Access.write ⟨0, 3, 0⟩ 7, Access.read ⟨0, 0, 0⟩,
      Access.write ⟨0, 0, 0⟩ 9]
    (by
      intro a ha
      simp only [List.mem_cons, List.mem_singleton, List.not_mem_nil, or_false] at ha
      rcases ha with rfl | rfl | rfl | rfl <;> simp [Access.pos, Int3.NonNeg])
  refine ⟨c, hrun, ?_, ?_, ?_⟩
  · rw [hread ⟨0, 0, 0⟩ (by simp [Int3.NonNeg])]
    rfl
  · rw [hread ⟨0, 3, 0⟩ (by simp [Int3.NonNeg])]
    rfl
  · rw [hread ⟨1, 1, 1⟩ (by simp [Int3.NonNeg])]
    rfl

/-- Claim C30 (the code breaks it): in an array with block size 2, after the
value 1 is written through the mutable `At` at `(0,3,0)`, a read through the
mutable `At` returns 1 but the const `At` returns 0: it reads index
`0*4 + 3*2 + 0 = 6` of the block `(0,1,0)`, the mutable overload wrote index
`0*4 + 1*2 + 0 = 2`.  After a write at `(1,3,1)` the const `At` computes the
index `1*4 + 3*2 + 1 = 11`, outside the block of 8 entries. -/
theorem AtConst_disagrees :
    ((ChunkedArray3D.new 2).AtPut ⟨0, 3, 0⟩ 1).bind
        (fun c => (c.AtGet ⟨0, 3, 0⟩).map Prod.snd) = some 1 ∧
    ((ChunkedArray3D.new 2).AtPut ⟨0, 3, 0⟩ 1).bind
        (fun c => c.AtConst ⟨0, 3, 0⟩) = some 0 ∧
    blockIndex 2 ⟨0, 3, 0⟩ = 2 ∧ constIndex 2 ⟨0, 3, 0⟩ = 6 ∧
    ((ChunkedArray3D.new 2).AtPut ⟨1, 3, 1⟩ 1).map
        (fun c => c.data_.map (fun e => (e.1, e.2.length))) = some [(⟨0, 1, 0⟩, 8)] ∧
    ((ChunkedArray3D.new 2).AtPut ⟨1, 3, 1⟩ 1).bind
        (fun c => c.AtConst ⟨1, 3, 1⟩) = none ∧
    blockIndex 2 ⟨1, 3, 1⟩ = 7 ∧ constIndex 2 ⟨1, 3, 1⟩ = 11 := by
  refine ⟨?_, ?_, ?_, ?_, ?_, ?_, ?_, ?_⟩ <;> decide

/-! ### Chunk discovery (claims C25 to C28) -/

theorem Int3_lt_iff (a b : Int3) :
    Int3.lt a b = true ↔
      a.x < b.x ∨ (a.x = b.x ∧ (a.y < b.y ∨ (a.y = b.y ∧ a.z < b.z))) := by
  simp [Int3.lt]

theorem Int3_lt_irrefl (a : Int3) : ¬ Int3.lt a a = true := by
  rw [Int3_lt_iff]
  omega

theorem Int3_lt_trans (a b c : Int3) (h1 : Int3.lt a b = true) (h2 : Int3.lt b c = true) :
    Int3.lt a c = true := by
  rw [Int3_lt_iff] at *
  omega

theorem Int3_lt_total (a b : Int3) (h1 : ¬ Int3.lt a b = true) (h2 : a ≠ b) :
    Int3.lt b a = true := by
  rw [Int3_lt_iff] at *
  have h3 : ¬ (a.x = b.x ∧ a.y = b.y ∧ a.z = b.z) := by
    rintro ⟨hx, hy, hz⟩
    apply h2
    cases a
    cases b
    simp only at hx hy hz
    subst hx hy hz
    rfl
  omega

theorem mapFind_eq_none_iff (key : Int3) (data : List (Int3 × List ℕ)) :
    mapFind key data = none ↔ key ∉ data.map Prod.fst := by
  induction data with
  | nil => simp [mapFind_nil]
  | cons e rest ih =>
    rw [mapFind_cons]
    by_cases he : e.1 = key
    · simp [he]
    · simp only [he, if_false, ih, List.map_cons, List.mem_cons, not_or]
      constructor
      · intro h
        exact ⟨fun hk => he hk.symm, h⟩
      · intro h
        exact h.2

theorem mapInsert_keys (key : Int3) (block : List ℕ) (x : Int3) :
    ∀ data : List (Int3 × List ℕ),
      x ∈ (mapInsert key block data).map Prod.fst ↔ x = key ∨ x ∈ data.map Prod.fst := by
  intro data
  simp only [List.mem_map, mem_mapInsert]
  constructor
  · rintro ⟨e, he | he, rfl⟩
    · left
      rw [he]
    · right
      exact ⟨e, he, rfl⟩
  · rintro (h | ⟨e, he, rfl⟩)
    · exact ⟨(key, block), Or.inl rfl, h.symm⟩
    · exact ⟨e, Or.inr he, rfl⟩

theorem mapInsert_sorted (key : Int3) (block : List ℕ) :
    ∀ data : List (Int3 × List ℕ),
      (data.map Prod.fst).Pairwise (fun a b => Int3.lt a b = true) →
      key ∉ data.map Prod.fst →
      ((mapInsert key block data).map Prod.fst).Pairwise (fun a b => Int3.lt a b = true) := by
  intro data
  induction data with
  | nil => intro _ _; simp [mapInsert]
  | cons e rest ih =>
    intro hs hk
    simp only [List.map_cons, List.pairwise_cons, List.mem_cons, not_or] at hs hk
    unfold mapInsert
    split_ifs with hlt
    · simp only [List.map_cons, List.pairwise_cons, List.mem_cons]
      refine ⟨?_, hs.1, hs.2⟩
      rintro x (rfl | hx)
      · exact hlt
      · exact Int3_lt_trans _ _ _ hlt (hs.1 x hx)
    · simp only [List.map_cons, List.pairwise_cons]
      refine ⟨?_, ih hs.2 hk.2⟩
      intro x hx
      rcases (mapInsert_keys key block x rest).mp hx with rfl | hx
      · exact Int3_lt_total _ _ hlt hk.1
      · exact hs.1 x hx

theorem blockKey_nonneg (H : ℕ) (pos : Int3) (hpos : pos.NonNeg) : (blockKey H pos).NonNeg :=
  ⟨Int.ediv_nonneg hpos.1 (Int.natCast_nonneg H), Int.ediv_nonneg hpos.2.1 (Int.natCast_nonneg H),
    Int.ediv_nonneg hpos.2.2 (Int.natCast_nonneg H)⟩

/-- The discovery callback on an array in use: it succeeds exactly for a voxel
without a negative coordinate, sets the value of that voxel to 1 and leaves
every other value, the block size and the order of the keys as they are. -/
theorem flagVoxel_spec (c c1 : ChunkedArray3D) (hwf : c.Wf) (hks : c.KeysSorted) (v : Int3)
    (h : flagVoxel c v = some c1) :
    v.NonNeg ∧ c1.Wf ∧ c1.KeysSorted ∧ c1.chunkSize = c.chunkSize ∧
      ∀ q : Int3, c1.valueAt q = if q = v then 1 else c.valueAt q := by
  unfold flagVoxel at h
  by_cases hv : 0 ≤ v.x ∧ 0 ≤ v.y ∧ 0 ≤ v.z
  · rw [if_pos hv] at h
    obtain ⟨c2, hput, hwf2, hcs2, hload, hkeys⟩ := AtPut_spec c hwf v hv 1
    obtain ⟨c3, hput3, _, _, hval⟩ := AtPut_valueAt c hwf v hv 1
    rw [hput] at hput3
    rw [hput] at h
    have e1 : c2 = c1 := Option.some.inj h
    have e3 : c2 = c3 := Option.some.inj hput3
    subst e1
    subst e3
    refine ⟨hv, hwf2, ⟨?_, ?_⟩, hcs2, hval⟩
    · rcases hkeys with hk | ⟨hnone, hk⟩
      · rw [hk]
        exact hks.1
      · rw [hk]
        exact mapInsert_sorted _ _ _ hks.1 ((mapFind_eq_none_iff _ _).mp hnone)
    · intro e he
      have hmem : e.1 ∈ c2.data_.map Prod.fst := List.mem_map_of_mem _ he
      rcases hkeys with hk | ⟨_, hk⟩
      · rw [hk] at hmem
        obtain ⟨d, hd, hde⟩ := List.mem_map.mp hmem
        rw [← hde]
        exact hks.2 d hd
      · rw [hk] at hmem
        rcases (mapInsert_keys _ _ _ _).mp hmem with hx | hx
        · rw [hx]
          exact blockKey_nonneg _ _ hv
        · obtain ⟨d, hd, hde⟩ := List.mem_map.mp hx
          rw [← hde]
          exact hks.2 d hd
  · rw [if_neg hv] at h
    exact absurd h (by simp)

theorem flag_fold_spec (cells : List Int3) :
    ∀ (c c1 : ChunkedArray3D), c.Wf → c.KeysSorted → cells.foldlM flagVoxel c = some c1 →
      (∀ v ∈ cells, v.NonNeg) ∧ c1.Wf ∧ c1.KeysSorted ∧ c1.chunkSize = c.chunkSize ∧
        ∀ q : Int3, c1.valueAt q = if q ∈ cells then 1 else c.valueAt q := by
  induction cells with
  | nil =>
    intro c c1 hwf hks h
    simp only [List.foldlM_nil] at h
    have e : c = c1 := Option.some.inj h
    subst e
    exact ⟨fun _ hv => absurd hv (List.not_mem_nil _), hwf, hks, rfl, fun q => by simp⟩
  | cons v rest ih =>
    intro c c1 hwf hks h
    rw [List.foldlM_cons] at h
    cases hf : flagVoxel c v with
    | none =>
      rw [hf] at h
      exact absurd h (by simp)
    | some c2 =>
      rw [hf] at h
      obtain ⟨hv, hwf2, hks2, hcs2, hval2⟩ := flagVoxel_spec c c2 hwf hks v hf
      obtain ⟨hrest, hwf1, hks1, hcs1, hval1⟩ := ih c2 c1 hwf2 hks2 h
      refine ⟨?_, hwf1, hks1, by rw [hcs1, hcs2], ?_⟩
      · intro w hw
        rcases List.mem_cons.mp hw with rfl | hw
        · exact hv
        · exact hrest w hw
      · intro q
        rw [hval1, hval2]
        by_cases h1 : q ∈ rest
        · simp [h1]
        · by_cases h2 : q = v
          · simp [h2]
          · simp [h1, h2]

/-- Step 1 of `Sample` when it runs through: every voxel handed to the callback
has non-negative coordinates, the flag array has block size 128 and keys in
order, and the value of a position is 1 when the voxel was visited, 0 when it
was not. -/
theorem findChunks_spec (missTolerance : ℚ) (maxT_ : Option ℚ) (voxelSize : ℚ) (min : Float3)
    (rays : List Ray) (chunks : ChunkedArray3D)
    (h : findChunks missTolerance maxT_ voxelSize min rays = some chunks) :
    (∀ v ∈ discoveryCells missTolerance maxT_ voxelSize min rays, v.NonNeg) ∧
    chunks.Wf ∧ chunks.KeysSorted ∧ chunks.chunkSize = 128 ∧
    ∀ q : Int3, chunks.valueAt q =
      if q ∈ discoveryCells missTolerance maxT_ voxelSize min rays then 1 else 0 := by
  have key : ∀ (rs : List Ray) (c c1 : ChunkedArray3D), c.Wf → c.KeysSorted →
      rs.foldlM
        (fun chunks ray =>
          (VoxelTraceCells (chunkSegment missTolerance maxT_ voxelSize min ray).1
            (chunkSegment missTolerance maxT_ voxelSize min ray).2).foldlM flagVoxel chunks)
        c = some c1 →
      (∀ v ∈ discoveryCells missTolerance maxT_ voxelSize min rs, v.NonNeg) ∧ c1.Wf ∧
        c1.KeysSorted ∧ c1.chunkSize = c.chunkSize ∧
        ∀ q : Int3, c1.valueAt q =
          if q ∈ discoveryCells missTolerance maxT_ voxelSize min rs then 1 else c.valueAt q := by
    intro rs
    induction rs with
    | nil =>
      intro c c1 hwf hks h
      simp only [List.foldlM_nil] at h
      have e : c = c1 := Option.some.inj h
      subst e
      exact ⟨fun _ hv => absurd hv (List.not_mem_nil _), hwf, hks, rfl,
        fun q => by simp [discoveryCells]⟩
    | cons ray rest ih =>
      intro c c1 hwf hks h
      rw [List.foldlM_cons] at h
      cases hf : (VoxelTraceCells (chunkSegment missTolerance maxT_ voxelSize min ray).1
          (chunkSegment missTolerance maxT_ voxelSize min ray).2).foldlM flagVoxel c with
      | none =>
        rw [hf] at h
        exact absurd h (by simp)
      | some c2 =>
        rw [hf] at h
        obtain ⟨hv, hwf2, hks2, hcs2, hval2⟩ := flag_fold_spec _ c c2 hwf hks hf
        obtain ⟨hrest, hwf1, hks1, hcs1, hval1⟩ := ih c2 c1 hwf2 hks2 h
        have hmem : ∀ q : Int3,
            q ∈ discoveryCells missTolerance maxT_ voxelSize min (ray :: rest) ↔
              q ∈ VoxelTraceCells (chunkSegment missTolerance maxT_ voxelSize min ray).1
                (chunkSegment missTolerance maxT_ voxelSize min ray).2 ∨
              q ∈ discoveryCells missTolerance maxT_ voxelSize min rest := by
          intro q
          simp only [discoveryCells, List.flatMap_cons, List.mem_append]
        refine ⟨?_, hwf1, hks1, by rw [hcs1, hcs2], ?_⟩
        · intro w hw
          rcases (hmem w).mp hw with hw | hw
          · exact hv w hw
          · exact hrest w hw
        · intro q
          rw [hval1, hval2]
          by_cases h1 : q ∈ discoveryCells missTolerance maxT_ voxelSize min rest
          · simp [h1, hmem]
          · by_cases h2 : q ∈ VoxelTraceCells
                (chunkSegment missTolerance maxT_ voxelSize min ray).1
                (chunkSegment missTolerance maxT_ voxelSize min ray).2
            · simp [h2, hmem]
            · simp [h1, h2, hmem]
  have hks0 : (ChunkedArray3D.new 128).KeysSorted :=
    ⟨List.Pairwise.nil, fun _ he => absurd he (List.not_mem_nil _)⟩
  unfold findChunks at h
  by_cases hvs : voxelSize = 0
  · cases rays with
    | nil =>
      simp only [List.foldlM_nil] at h
      have e : ChunkedArray3D.new 128 = chunks := Option.some.inj h
      subst e
      exact ⟨fun _ hv => absurd hv (List.not_mem_nil _), new_wf 128 (by decide), hks0, rfl,
        fun q => by simp [discoveryCells, new_valueAt]⟩
    | cons ray rest =>
      rw [List.foldlM_cons] at h
      simp [hvs] at h
  · have hfun : (fun (chunks : ChunkedArray3D) (ray : Ray) =>
          if voxelSize = 0 then none
          else
            let seg := chunkSegment missTolerance maxT_ voxelSize min ray
            (VoxelTraceCells seg.1 seg.2).foldlM flagVoxel chunks) =
        (fun chunks ray =>
          (VoxelTraceCells (chunkSegment missTolerance maxT_ voxelSize min ray).1
            (chunkSegment missTolerance maxT_ voxelSize min ray).2).foldlM flagVoxel chunks) := by
      funext chunks ray
      simp only [hvs, if_false]
    rw [hfun] at h
    obtain ⟨h1, h2, h3, h4, h5⟩ := key rays (ChunkedArray3D.new 128) chunks
      (new_wf 128 (by decide)) hks0 h
    exact ⟨h1, h2, h3, h4, fun q => by rw [h5, new_valueAt]⟩

theorem flaggedLocs_cons (e : Int3 × List ℕ) (rest : List (Int3 × List ℕ)) :
    flaggedLocs (e :: rest) =
      (flaggedFrom 0 e.2).map (fun i => (e.1, i)) ++ flaggedLocs rest := by
  simp [flaggedLocs, List.flatMap_cons]

theorem blockLoop_eq (mk : Int3 → ℕ → ChunkData) (blocks : List (Int3 × List ℕ)) :
    ∀ data : List ChunkData, data.length < 512 →
      blockLoop mk blocks data =
        data ++ ((flaggedLocs blocks).take (512 - data.length)).map (fun l => mk l.1 l.2) := by
  induction blocks with
  | nil => intro data _; simp [blockLoop, flaggedLocs]
  | cons e rest ih =>
    intro data hd
    have hA : ((flaggedFrom 0 e.2).take (512 - data.length)).length =
        min (512 - data.length) (flaggedFrom 0 e.2).length := List.length_take _ _
    simp only [blockLoop]
    rw [taskLoop_eq (mk e.1) e.2 0 data hd, flaggedLocs_cons, List.take_append_eq_append_take,
      List.map_append, List.length_map]
    split_ifs with hfull
    · simp only [List.length_append, List.length_map, hA] at hfull
      have hle : 512 - data.length ≤ (flaggedFrom 0 e.2).length := by omega
      have h0 : 512 - data.length - (flaggedFrom 0 e.2).length = 0 := by omega
      rw [h0, List.take_zero, List.map_nil, List.append_nil, ← List.map_take, List.map_map]
      rfl
    · simp only [List.length_append, List.length_map, hA] at hfull
      have hlt : (flaggedFrom 0 e.2).length < 512 - data.length := by omega
      rw [ih _ (by simp only [List.length_append, List.length_map, hA]; omega)]
      have h1 : (flaggedFrom 0 e.2).take (512 - data.length) = flaggedFrom 0 e.2 :=
        List.take_of_length_le (le_of_lt hlt)
      have h1b : (List.map (fun i => (e.1, i)) (flaggedFrom 0 e.2)).take (512 - data.length) =
          List.map (fun i => (e.1, i)) (flaggedFrom 0 e.2) :=
        List.take_of_length_le (by rw [List.length_map]; exact le_of_lt hlt)
      rw [h1, h1b]
      simp only [List.length_append, List.length_map, List.map_map, List.append_assoc]
      have h2 : 512 - (data.length + (flaggedFrom 0 e.2).length) =
          512 - data.length - (flaggedFrom 0 e.2).length := by omega
      rw [h2]
      rfl

theorem createChunkTasks_eq (chunkSize_ : ℕ) (voxelSize : ℚ) (min : Float3)
    (chunks : ChunkedArray3D) :
    createChunkTasks chunkSize_ voxelSize min chunks =
      ((flaggedLocs chunks.data_).take 512).map
        (fun l => makeTask chunkSize_ voxelSize min l.1 l.2) := by
  unfold createChunkTasks
  rw [blockLoop_eq _ _ [] (by simp)]
  simp

theorem mem_flaggedLocs (data : List (Int3 × List ℕ)) (key : Int3) (i : ℕ) :
    (key, i) ∈ flaggedLocs data ↔
      ∃ B : List ℕ, (key, B) ∈ data ∧ i < B.length ∧ 0 < B.getD i 0 := by
  simp only [flaggedLocs, List.mem_flatMap, List.mem_map, Prod.mk.injEq]
  constructor
  · rintro ⟨e, he, j, hj, hk, rfl⟩
    have := (mem_flaggedFrom e.2 0 j).mp hj
    simp only [Nat.zero_add, Nat.sub_zero] at this
    exact ⟨e.2, by rw [← hk]; exact he, this.2.1, this.2.2⟩
  · rintro ⟨B, hB, hi, hpos⟩
    refine ⟨(key, B), hB, i, ?_, rfl, rfl⟩
    apply (mem_flaggedFrom B 0 i).mpr
    simp only [Nat.zero_add, Nat.sub_zero]
    exact ⟨Nat.zero_le _, hi, hpos⟩

theorem flaggedLocs_sorted (data : List (Int3 × List ℕ))
    (hs : (data.map Prod.fst).Pairwise (fun a b => Int3.lt a b = true)) :
    (flaggedLocs data).Pairwise locLt := by
  induction data with
  | nil => simp [flaggedLocs]
  | cons e rest ih =>
    simp only [List.map_cons, List.pairwise_cons] at hs
    rw [flaggedLocs_cons, List.pairwise_append]
    refine ⟨?_, ih hs.2, ?_⟩
    · rw [List.pairwise_map]
      exact (sorted_flaggedFrom e.2 0).imp (fun h => Or.inr ⟨rfl, h⟩)
    · intro a ha b hb
      obtain ⟨i, _, rfl⟩ := List.mem_map.mp ha
      obtain ⟨k, j⟩ := b
      obtain ⟨B, hB, _, _⟩ := (mem_flaggedLocs rest k j).mp hb
      exact Or.inl (hs.1 k (List.mem_map.mpr ⟨(k, B), hB, rfl⟩))

theorem stepTwoIndex_location (p : Int3) :
    stepTwoIndex (blockKey 128 p) (blockIndex 128 p) = p := by
  have := decode_location 128 (by decide) p
  simpa [stepTwoIndex] using this

theorem location_stepTwoIndex (key : Int3) (i : ℕ) (hi : i < 128 * 128 * 128) :
    blockKey 128 (stepTwoIndex key i) = key ∧ blockIndex 128 (stepTwoIndex key i) = i := by
  have h3 : i / 128 / 128 < 128 := by omega
  have h4 : (i / 128) % 128 < 128 := by omega
  have h5 : i % 128 < 128 := by omega
  constructor
  · simp only [blockKey, stepTwoIndex]
    have e : ∀ (k : ℤ) (a : ℕ), a < 128 → (k * 128 + (a : ℤ)) / ((128 : ℕ) : ℤ) = k := by
      intro k a ha
      push_cast
      omega
    rw [e _ _ h3, e _ _ h4, e _ _ h5]
  · rw [blockIndex_eq 128 (by decide)]
    simp only [stepTwoIndex]
    have e : ∀ (k : ℤ) (a : ℕ), a < 128 → ((k * 128 + (a : ℤ)) % ((128 : ℕ) : ℤ)).toNat = a := by
      intro k a ha
      push_cast
      omega
    rw [e _ _ h3, e _ _ h4, e _ _ h5]
    omega

theorem stepTwoIndex_nonneg (key : Int3) (i : ℕ) (hk : key.NonNeg) :
    (stepTwoIndex key i).NonNeg := by
  obtain ⟨h1, h2, h3⟩ := hk
  refine ⟨?_, ?_, ?_⟩ <;> simp only [stepTwoIndex] <;> omega

theorem mapFind_of_mem (data : List (Int3 × List ℕ))
    (hs : (data.map Prod.fst).Pairwise (fun a b => Int3.lt a b = true))
    (key : Int3) (B : List ℕ) (h : (key, B) ∈ data) : mapFind key data = some B := by
  induction data with
  | nil => exact absurd h (List.not_mem_nil _)
  | cons e rest ih =>
    simp only [List.map_cons, List.pairwise_cons] at hs
    rw [mapFind_cons]
    rcases List.mem_cons.mp h with he | hr
    · rw [← he]
      simp
    · have hne : e.1 ≠ key := by
        intro hek
        have := hs.1 key (List.mem_map.mpr ⟨(key, B), hr, rfl⟩)
        rw [hek] at this
        exact Int3_lt_irrefl key this
      rw [if_neg hne]
      exact ih hs.2 hr

theorem mem_of_mapFind (data : List (Int3 × List ℕ)) (key : Int3) (B : List ℕ)
    (h : mapFind key data = some B) : (key, B) ∈ data := by
  unfold mapFind at h
  obtain ⟨e, he, rfl⟩ := Option.map_eq_some'.mp h
  have h1 := List.find?_some he
  have h2 := List.mem_of_find?_eq_some he
  simp only [decide_eq_true_eq] at h1
  rw [← h1]
  exact h2

/-- A flag of the array after step 1 is set exactly when the chunk index that
step 2 decodes from its location was visited in step 1. -/
theorem flag_iff_visited (missTolerance : ℚ) (maxT_ : Option ℚ) (voxelSize : ℚ) (min : Float3)
    (rays : List Ray) (chunks : ChunkedArray3D)
    (h : findChunks missTolerance maxT_ voxelSize min rays = some chunks)
    (key : Int3) (B : List ℕ) (hB : (key, B) ∈ chunks.data_) (i : ℕ) (hi : i < B.length) :
    0 < B.getD i 0 ↔
      stepTwoIndex key i ∈ discoveryCells missTolerance maxT_ voxelSize min rays := by
  obtain ⟨_, hwf, hks, hcs, hval⟩ := findChunks_spec _ _ _ _ _ _ h
  have hlen : B.length = 128 * 128 * 128 := by
    have := hwf.2.1 _ hB
    rw [hcs] at this
    exact this
  obtain ⟨hk, hidx⟩ := location_stepTwoIndex key i (by rw [← hlen]; exact hi)
  have hv := hval (stepTwoIndex key i)
  rw [valueAt_eq, hcs, hk, hidx, load_eq, mapFind_of_mem _ hks.1 key B hB] at hv
  simp only [Option.getD_some] at hv
  rw [hv]
  split_ifs with hmem
  · simp [hmem]
  · simp [hmem]

theorem forEachTask_map {β : Type} (g : ChunkData → β) (f : ChunkData → Option ChunkData) :
    ∀ (l r : List ChunkData), forEachTask f l = some r →
      (∀ t ∈ l, ∀ d, f t = some d → g d = g t) → r.map g = l.map g := by
  intro l
  induction l with
  | nil =>
    intro r h _
    simp only [forEachTask, Option.some.injEq] at h
    rw [← h]
  | cons t ts ih =>
    intro r h hg
    simp only [forEachTask] at h
    cases hf : f t with
    | none => simp [hf] at h
    | some d =>
      simp only [hf] at h
      obtain ⟨ds, hds, rfl⟩ := Option.map_eq_some'.mp h
      rw [List.map_cons, List.map_cons, hg t (List.mem_cons_self _ _) d hf,
        ih ds hds (fun u hu => hg u (List.mem_cons_of_mem _ hu))]

/-- The chunk indices of `Data()` after `Sample()`: the decoded locations of
the first 512 set flags of the array that step 1 leaves behind. -/
theorem Sample_chunkIdx (nanInterval : NanInterval) (normalize : Double3 → Float3) (missTolerance : ℚ)
    (s t : VolumetricSampler) (h : Sample nanInterval normalize missTolerance s = some t) :
    ∃ chunks : ChunkedArray3D,
      findChunks missTolerance s.maxT_ (s.chunkSize_ * s.cellSize_)
        (rayBounds missTolerance s.maxT_ (filterRays missTolerance s.filter_ s.trace)).1
        (filterRays missTolerance s.filter_ s.trace) = some chunks ∧
      t.data_.map ChunkData.chunkIdx =
        ((flaggedLocs chunks.data_).take 512).map (fun l => stepTwoIndex l.1 l.2) := by
  obtain ⟨tasks, hd, hf, _⟩ := Sample_some _ normalize missTolerance s t h
  unfold discoverTasks at hd
  obtain ⟨chunks, hfc, hct⟩ := Option.map_eq_some'.mp hd
  refine ⟨chunks, hfc, ?_⟩
  have hmap := forEachTask_map ChunkData.chunkIdx _ tasks t.data_ hf (by
    intro task htask d hfill
    rw [← hct] at htask
    obtain ⟨key, i, rfl⟩ := mem_createChunkTasks _ _ _ _ _ htask
    obtain ⟨_, _, _, _, hidx, _⟩ :=
      fillChunk_spec _ normalize _ _ _ _ _ _ d (makeTask_fresh _ _ _ _ _).1
        (makeTask_fresh _ _ _ _ _).2 hfill
    exact hidx)
  rw [hmap, ← hct, createChunkTasks_eq, List.map_map]
  rfl

theorem locLt_irrefl (a : Int3 × ℕ) : ¬ locLt a a := by
  rintro (h | ⟨_, h⟩)
  · exact Int3_lt_irrefl _ h
  · exact lt_irrefl _ h

theorem flaggedFrom_length (flags : List ℕ) : ∀ i : ℕ,
    (flaggedFrom i flags).length = flags.countP (fun flag => decide (0 < flag)) := by
  induction flags with
  | nil => intro i; rfl
  | cons f fs ih =>
    intro i
    by_cases hf : 0 < f
    · simp [flaggedFrom, List.countP_cons, hf, ih]
    · simp [flaggedFrom, List.countP_cons, hf, ih]

theorem flaggedLocs_length (data : List (Int3 × List ℕ)) :
    (flaggedLocs data).length = flaggedCount data := by
  induction data with
  | nil => rfl
  | cons e rest ih =>
    rw [flaggedLocs_cons, List.length_append, List.length_map, flaggedFrom_length, ih]
    simp [flaggedCount]

theorem At_location (c : ChunkedArray3D) (hcs : c.chunkSize ≠ 0) (pos : Int3)
    (hpos : pos.NonNeg) :
    ∃ c1 : ChunkedArray3D,
      c.At pos = some (c1, blockKey c.chunkSize pos, blockIndex c.chunkSize pos) := by
  have hcond : 0 ≤ pos.x ∧ 0 ≤ pos.y ∧ 0 ≤ pos.z ∧ c.chunkSize ≠ 0 :=
    ⟨hpos.1, hpos.2.1, hpos.2.2, hcs⟩
  unfold ChunkedArray3D.At
  rw [if_pos hcond]
  by_cases hsame : (⟨pos.x / c.chunkSize, pos.y / c.chunkSize, pos.z / c.chunkSize⟩ : Int3) =
      c.lastChunkId_
  · refine ⟨c, ?_⟩
    have : ¬ ((⟨pos.x / c.chunkSize, pos.y / c.chunkSize, pos.z / c.chunkSize⟩ : Int3) ≠
        c.lastChunkId_) := fun h => h hsame
    simp only [this, if_false]
    rw [← hsame]
    rfl
  · exact ⟨_, by simp only [ne_eq, hsame, not_false_eq_true, if_true]; rfl⟩

theorem flaggedLocs_index_lt (chunks : ChunkedArray3D) (hwf : chunks.Wf)
    (hcs : chunks.chunkSize = 128) (a : Int3 × ℕ) (ha : a ∈ flaggedLocs chunks.data_) :
    a.2 < 128 * 128 * 128 := by
  obtain ⟨key, i⟩ := a
  obtain ⟨B, hB, hi, _⟩ := (mem_flaggedLocs _ key i).mp ha
  have := hwf.2.1 _ hB
  rw [hcs] at this
  simp only at this
  rw [← this]
  exact hi

theorem stepTwoIndex_injective (a b : Int3 × ℕ) (ha : a.2 < 128 * 128 * 128)
    (hb : b.2 < 128 * 128 * 128) (h : stepTwoIndex a.1 a.2 = stepTwoIndex b.1 b.2) : a = b := by
  obtain ⟨h1, h2⟩ := location_stepTwoIndex a.1 a.2 ha
  obtain ⟨h3, h4⟩ := location_stepTwoIndex b.1 b.2 hb
  rw [h] at h1 h2
  rw [h3] at h1
  rw [h4] at h2
  exact Prod.ext h1.symm h2.symm

theorem flaggedLocs_decode_nodup (chunks : ChunkedArray3D) (hwf : chunks.Wf)
    (hks : chunks.KeysSorted) (hcs : chunks.chunkSize = 128) :
    ((flaggedLocs chunks.data_).map (fun l => stepTwoIndex l.1 l.2)).Nodup := by
  unfold List.Nodup
  rw [List.pairwise_map]
  apply (flaggedLocs_sorted _ hks.1).imp_of_mem
  intro a b ha hb hlt heq
  have := stepTwoIndex_injective a b (flaggedLocs_index_lt chunks hwf hcs a ha)
    (flaggedLocs_index_lt chunks hwf hcs b hb) heq
  rw [this] at hlt
  exact locLt_irrefl b hlt

/-- The decoded locations of the set flags are exactly the voxels visited in
step 1. -/
theorem mem_decode_iff (missTolerance : ℚ) (maxT_ : Option ℚ) (voxelSize : ℚ) (min : Float3)
    (rays : List Ray) (chunks : ChunkedArray3D)
    (h : findChunks missTolerance maxT_ voxelSize min rays = some chunks) (p : Int3) :
    p ∈ (flaggedLocs chunks.data_).map (fun l => stepTwoIndex l.1 l.2) ↔
      p ∈ discoveryCells missTolerance maxT_ voxelSize min rays := by
  obtain ⟨hnn, hwf, hks, hcs, hval⟩ := findChunks_spec _ _ _ _ _ _ h
  constructor
  · intro hp
    obtain ⟨⟨key, i⟩, hl, rfl⟩ := List.mem_map.mp hp
    obtain ⟨B, hB, hi, hpos⟩ := (mem_flaggedLocs _ key i).mp hl
    exact (flag_iff_visited _ _ _ _ _ _ h key B hB i hi).mp hpos
  · intro hp
    have hv := hval p
    rw [if_pos hp, valueAt_eq, load_eq, hcs] at hv
    cases hfind : mapFind (blockKey 128 p) chunks.data_ with
    | none =>
      rw [hfind] at hv
      simp at hv
    | some B =>
      rw [hfind] at hv
      simp only [Option.getD_some] at hv
      have hB := mem_of_mapFind _ _ _ hfind
      have hi : blockIndex 128 p < B.length := by
        by_contra hge
        rw [List.getD_eq_getElem?_getD, List.getElem?_eq_none (not_lt.mp hge)] at hv
        simp at hv
      refine List.mem_map.mpr ⟨(blockKey 128 p, blockIndex 128 p), ?_, stepTwoIndex_location p⟩
      exact (mem_flaggedLocs _ _ _).mpr ⟨B, hB, hi, by rw [hv]; exact Nat.one_pos⟩

theorem flaggedLocs_length_le (missTolerance : ℚ) (maxT_ : Option ℚ) (voxelSize : ℚ)
    (min : Float3) (rays : List Ray) (chunks : ChunkedArray3D)
    (h : findChunks missTolerance maxT_ voxelSize min rays = some chunks) :
    (flaggedLocs chunks.data_).length =
      (discoveryCells missTolerance maxT_ voxelSize min rays).dedup.length := by
  obtain ⟨_, hwf, hks, hcs, _⟩ := findChunks_spec _ _ _ _ _ _ h
  have hnd := flaggedLocs_decode_nodup chunks hwf hks hcs
  have hperm : ((flaggedLocs chunks.data_).map (fun l => stepTwoIndex l.1 l.2)).Perm
      (discoveryCells missTolerance maxT_ voxelSize min rays).dedup := by
    rw [List.perm_ext_iff_of_nodup hnd (List.nodup_dedup _)]
    intro p
    rw [mem_decode_iff _ _ _ _ _ _ h p, List.mem_dedup]
  rw [← hperm.length_eq, List.length_map]

/-- Claim C26: the order of `Data()`.  The blocks of the flag array are in
strictly increasing key order, the set flags listed block after block and by
increasing linear index inside a block are strictly increasing in the pair
(block key, linear index), and the chunk indices of `Data()` are the decoded
locations of the first 512 set flags in this order, so that no two chunks
have the same `chunkIdx`. -/
theorem chunks_in_location_order (nanInterval : NanInterval) (normalize : Double3 → Float3) (missTolerance : ℚ)
    (s t : VolumetricSampler) (h : Sample nanInterval normalize missTolerance s = some t) :
    ∃ chunks : ChunkedArray3D,
      findChunks missTolerance s.maxT_ (s.chunkSize_ * s.cellSize_)
        (rayBounds missTolerance s.maxT_ (filterRays missTolerance s.filter_ s.trace)).1
        (filterRays missTolerance s.filter_ s.trace) = some chunks ∧
      (chunks.data_.map Prod.fst).Pairwise (fun a b => Int3.lt a b = true) ∧
      (∀ (key : Int3) (i : ℕ), (key, i) ∈ flaggedLocs chunks.data_ ↔
        ∃ B : List ℕ, (key, B) ∈ chunks.data_ ∧ i < B.length ∧ 0 < B.getD i 0) ∧
      (flaggedLocs chunks.data_).Pairwise locLt ∧
      t.data_.map ChunkData.chunkIdx =
        ((flaggedLocs chunks.data_).take 512).map (fun l => stepTwoIndex l.1 l.2) ∧
      (t.data_.map ChunkData.chunkIdx).Nodup := by
  obtain ⟨chunks, hfc, hidx⟩ := Sample_chunkIdx _ normalize missTolerance s t h
  obtain ⟨_, hwf, hks, hcs, _⟩ := findChunks_spec _ _ _ _ _ _ hfc
  refine ⟨chunks, hfc, hks.1, fun key i => mem_flaggedLocs _ key i,
    flaggedLocs_sorted _ hks.1, hidx, ?_⟩
  rw [hidx]
  exact (flaggedLocs_decode_nodup chunks hwf hks hcs).sublist
    ((List.take_sublist _ _).map _)

/-- Claim C27: the index round trip.  For a voxel `p` with non-negative
coordinates the mutable `At(p)` of an array with block size 128 uses the
location (block key `p / 128`, linear index of `p % 128`), the index is inside
the block, and the formula of step 2 decodes this location to `p` again; and
after a `Sample()` whose discovery visited at most 512 different voxels, the
`chunkIdx` values in `Data()` are exactly the voxels visited during
discovery. -/
theorem index_round_trip (nanInterval : NanInterval) (normalize : Double3 → Float3) (missTolerance : ℚ)
    (s t : VolumetricSampler) (h : Sample nanInterval normalize missTolerance s = some t)
    (hcap : (discoveryCells missTolerance s.maxT_ (s.chunkSize_ * s.cellSize_)
      (rayBounds missTolerance s.maxT_ (filterRays missTolerance s.filter_ s.trace)).1
      (filterRays missTolerance s.filter_ s.trace)).dedup.length ≤ 512) :
    (∀ (c : ChunkedArray3D) (p : Int3), c.chunkSize = 128 → p.NonNeg →
      ∃ (c1 : ChunkedArray3D) (key : Int3) (i : ℕ), c.At p = some (c1, key, i) ∧
        key = ⟨p.x / 128, p.y / 128, p.z / 128⟩ ∧
        (i : ℤ) = p.x % 128 * 128 * 128 + p.y % 128 * 128 + p.z % 128 ∧
        i < 128 * 128 * 128 ∧
        ∀ (chunkSize_ : ℕ) (voxelSize : ℚ) (min : Float3),
          (makeTask chunkSize_ voxelSize min key i).chunkIdx = p) ∧
    (∀ p : Int3, p ∈ t.data_.map ChunkData.chunkIdx ↔
      p ∈ discoveryCells missTolerance s.maxT_ (s.chunkSize_ * s.cellSize_)
        (rayBounds missTolerance s.maxT_ (filterRays missTolerance s.filter_ s.trace)).1
        (filterRays missTolerance s.filter_ s.trace)) := by
  constructor
  · intro c p hcs hp
    obtain ⟨c1, hat⟩ := At_location c (by rw [hcs]; decide) p hp
    rw [hcs] at hat
    refine ⟨c1, _, _, hat, ?_, ?_, blockIndex_lt 128 (by decide) p, ?_⟩
    · simp [blockKey]
    · unfold blockIndex
      rw [Int.toNat_of_nonneg]
      · push_cast
        rfl
      · have h1 := Int.emod_nonneg p.x (by decide : ((128 : ℕ) : ℤ) ≠ 0)
        have h2 := Int.emod_nonneg p.y (by decide : ((128 : ℕ) : ℤ) ≠ 0)
        have h3 := Int.emod_nonneg p.z (by decide : ((128 : ℕ) : ℤ) ≠ 0)
        positivity
    · intro chunkSize_ voxelSize min
      exact stepTwoIndex_location p
  · intro p
    obtain ⟨chunks, hfc, hidx⟩ := Sample_chunkIdx _ normalize missTolerance s t h
    have hlen := flaggedLocs_length_le _ _ _ _ _ _ hfc
    rw [hidx, List.take_of_length_le (by rw [hlen]; exact hcap)]
    exact mem_decode_iff _ _ _ _ _ _ hfc p

/-- Step 1 fails, and `Sample` with it, when a traversal hands a voxel with a
negative coordinate to the discovery callback. -/
theorem Sample_none_of_negative (nanInterval : NanInterval) (normalize : Double3 → Float3) (missTolerance : ℚ)
    (s : VolumetricSampler) (v : Int3)
    (hv : v ∈ discoveryCells missTolerance s.maxT_ (s.chunkSize_ * s.cellSize_)
      (rayBounds missTolerance s.maxT_ (filterRays missTolerance s.filter_ s.trace)).1
      (filterRays missTolerance s.filter_ s.trace))
    (hneg : ¬ v.NonNeg) :
    discoverTasks missTolerance s = none ∧ Sample nanInterval normalize missTolerance s = none := by
  have hnone : findChunks missTolerance s.maxT_ (s.chunkSize_ * s.cellSize_)
      (rayBounds missTolerance s.maxT_ (filterRays missTolerance s.filter_ s.trace)).1
      (filterRays missTolerance s.filter_ s.trace) = none := by
    cases hf : findChunks missTolerance s.maxT_ (s.chunkSize_ * s.cellSize_)
        (rayBounds missTolerance s.maxT_ (filterRays missTolerance s.filter_ s.trace)).1
        (filterRays missTolerance s.filter_ s.trace) with
    | none => rfl
    | some chunks => exact absurd ((findChunks_spec _ _ _ _ _ _ hf).1 v hv) hneg
  have hd : discoverTasks missTolerance s = none := by
    unfold discoverTasks
    simp only [hnone, Option.map_none']
  refine ⟨hd, ?_⟩
  unfold Sample
  rw [hd]

/-- Claim C28 (the code breaks it): in `scenarioBack` the bounds have the lower
corner `(0,0,0)`, `chunkSize * cellSize` is 2 and the one ray is traversed from
`(1,1,1)` to `(0,0,0)` in chunk units, both without a negative coordinate.
VoxelTrace hands the voxels `(0,0,-1)` and `(0,-1,-1)` to the discovery
callback, whose assertion `0 <= voxel.z` fails: steps 0 to 2 and `Sample()` do
not run through. -/
theorem discovery_visits_negative_voxel (nanInterval : NanInterval) :
    filterRays (1 / 10) scenarioBack.filter_ scenarioBack.trace ≠ [] ∧
    (0 : ℚ) < scenarioBack.chunkSize_ * scenarioBack.cellSize_ ∧
    (filterRays (1 / 10) scenarioBack.filter_ scenarioBack.trace).map
      (chunkSegment (1 / 10) scenarioBack.maxT_
        (scenarioBack.chunkSize_ * scenarioBack.cellSize_)
        (rayBounds (1 / 10) scenarioBack.maxT_
          (filterRays (1 / 10) scenarioBack.filter_ scenarioBack.trace)).1) =
      [(⟨1, 1, 1⟩, ⟨0, 0, 0⟩)] ∧
    discoveryCells (1 / 10) scenarioBack.maxT_ (scenarioBack.chunkSize_ * scenarioBack.cellSize_)
      (rayBounds (1 / 10) scenarioBack.maxT_
        (filterRays (1 / 10) scenarioBack.filter_ scenarioBack.trace)).1
      (filterRays (1 / 10) scenarioBack.filter_ scenarioBack.trace) =
      [⟨1, 1, 1⟩, ⟨1, 1, 0⟩, ⟨1, 0, 0⟩, ⟨0, 0, 0⟩, ⟨0, 0, -1⟩, ⟨0, -1, -1⟩] ∧
    flagVoxel (ChunkedArray3D.new 128) ⟨0, 0, -1⟩ = none ∧
    discoverTasks (1 / 10) scenarioBack = none ∧
    Sample nanInterval unitAxis (1 / 10) scenarioBack = none := by
  have hcells : discoveryCells (1 / 10) scenarioBack.maxT_
      (scenarioBack.chunkSize_ * scenarioBack.cellSize_)
      (rayBounds (1 / 10) scenarioBack.maxT_
        (filterRays (1 / 10) scenarioBack.filter_ scenarioBack.trace)).1
      (filterRays (1 / 10) scenarioBack.filter_ scenarioBack.trace) =
      [⟨1, 1, 1⟩, ⟨1, 1, 0⟩, ⟨1, 0, 0⟩, ⟨0, 0, 0⟩, ⟨0, 0, -1⟩, ⟨0, -1, -1⟩] := by
    decide!
  have hboth := Sample_none_of_negative nanInterval unitAxis (1 / 10) scenarioBack ⟨0, 0, -1⟩
    (by rw [hcells]; decide) (by simp [Int3.NonNeg])
  exact ⟨by decide, by decide!, by decide!, hcells, by decide, hboth.1, hboth.2⟩

/-! ### A chunk that no ray touches (claim C25) -/

theorem scenarioSpur_findChunks :
    findChunks (1 / 10) scenarioSpur.maxT_ (scenarioSpur.chunkSize_ * scenarioSpur.cellSize_)
      (rayBounds (1 / 10) scenarioSpur.maxT_
        (filterRays (1 / 10) scenarioSpur.filter_ scenarioSpur.trace)).1
      (filterRays (1 / 10) scenarioSpur.filter_ scenarioSpur.trace) =
    some { chunkSize := 128
           data_ := [(⟨0, 0, 0⟩,
             (((List.replicate (128 * 128 * 128) 0).set 0 1).set 16384 1).set 0 1)]
           lastChunkId_ := ⟨0, 0, 0⟩ } := by
  have hf : filterRays (1 / 10) scenarioSpur.filter_ scenarioSpur.trace = scenarioSpur_rays :=
    rfl
  have hv : ((scenarioSpur.chunkSize_ : ℚ) * scenarioSpur.cellSize_ = 0) = False := by
    simp [scenarioSpur]
  have h0 : VoxelTraceCells
      (chunkSegment (1 / 10) scenarioSpur.maxT_ (scenarioSpur.chunkSize_ * scenarioSpur.cellSize_)
        (rayBounds (1 / 10) scenarioSpur.maxT_ scenarioSpur_rays).1
        { rayId := 0, origin := ⟨-(1 / 16777216), 1 / 4, 1 / 4⟩, tMin := 0,
          direction := ⟨1 / 33554432, 1, 1 / 4⟩, tMax := 1, tHit := -1 }).1
      (chunkSegment (1 / 10) scenarioSpur.maxT_ (scenarioSpur.chunkSize_ * scenarioSpur.cellSize_)
        (rayBounds (1 / 10) scenarioSpur.maxT_ scenarioSpur_rays).1
        { rayId := 0, origin := ⟨-(1 / 16777216), 1 / 4, 1 / 4⟩, tMin := 0,
          direction := ⟨1 / 33554432, 1, 1 / 4⟩, tMax := 1, tHit := -1 }).2 =
      [⟨0, 0, 0⟩, ⟨1, 0, 0⟩] := by
    decide!
  have h1 : VoxelTraceCells
      (chunkSegment (1 / 10) scenarioSpur.maxT_ (scenarioSpur.chunkSize_ * scenarioSpur.cellSize_)
        (rayBounds (1 / 10) scenarioSpur.maxT_ scenarioSpur_rays).1
        { rayId := 1, origin := ⟨-1, 0, 0⟩, tMin := 0, direction := ⟨1, 1, 1⟩, tMax := 1 / 4,
          tHit := -1 }).1
      (chunkSegment (1 / 10) scenarioSpur.maxT_ (scenarioSpur.chunkSize_ * scenarioSpur.cellSize_)
        (rayBounds (1 / 10) scenarioSpur.maxT_ scenarioSpur_rays).1
        { rayId := 1, origin := ⟨-1, 0, 0⟩, tMin := 0, direction := ⟨1, 1, 1⟩, tMax := 1 / 4,
          tHit := -1 }).2 =
      [⟨0, 0, 0⟩] := by
    decide!
  rw [hf]
  unfold findChunks
  simp only [scenarioSpur_rays] at h0 h1 ⊢
  simp only [List.foldlM_cons, hv, if_false, h0, h1, List.foldlM_nil]
  rw [flagVoxel_new 128 (by decide) ⟨0, 0, 0⟩ ⟨0, 0, 0⟩ 0
    (by decide) (by decide) (by decide) (by decide) (by decide)]
  simp only [bind, Option.bind, pure]
  rw [flagVoxel_same_block 128 (by decide) ⟨1, 0, 0⟩ ⟨0, 0, 0⟩ 16384 _
    (by decide) (by decide) (by decide) (by decide) (by decide)]
  simp only [bind, Option.bind, pure]
  rw [flagVoxel_same_block 128 (by decide) ⟨0, 0, 0⟩ ⟨0, 0, 0⟩ 0 _
    (by decide) (by decide) (by decide) (by decide) (by decide)]

theorem scenarioSpur_flags :
    flaggedFrom 0 ((((List.replicate (128 * 128 * 128) 0).set 0 1).set 16384 1).set 0 1) =
      [0, 16384] := by
  apply flaggedFrom_eq
  · decide
  · intro j
    simp only [List.length_set, List.length_replicate, getD_set_eq, getD_replicate_zero,
      List.mem_cons, List.mem_singleton, List.not_mem_nil, or_false]
    constructor
    · rintro (h | h) <;> subst h <;> decide
    · rintro ⟨h1, h2⟩
      split_ifs at h2 <;> omega

theorem scenarioSpur_tasks :
    discoverTasks (1 / 10) scenarioSpur =
      some [makeTask 1 1 ⟨-1, 0, 0⟩ ⟨0, 0, 0⟩ 0, makeTask 1 1 ⟨-1, 0, 0⟩ ⟨0, 0, 0⟩ 16384] := by
  unfold discoverTasks
  simp only [scenarioSpur_findChunks, Option.map_some', createChunkTasks_single,
    scenarioSpur_flags]
  decide!

theorem scenarioSpur_fold_first (nanInterval : NanInterval) :
    fillLoop nanInterval 1 1 none (1 / 10) scenarioSpur_rays
        (makeTask 1 1 ⟨-1, 0, 0⟩ ⟨0, 0, 0⟩ 0) =
    some ({ makeTask 1 1 ⟨-1, 0, 0⟩ ⟨0, 0, 0⟩ 0 with rayCount := 2, rayDensity := [2] },
      [⟨1 + 1 / 33554432, 2, 5 / 4⟩]) := by
  rw [fillLoop_congr nanInterval nanBoth _ _ _ _ _ _ (by decide!)]
  decide!

theorem scenarioSpur_fold_second (nanInterval : NanInterval) :
    fillLoop nanInterval 1 1 none (1 / 10) scenarioSpur_rays
        (makeTask 1 1 ⟨-1, 0, 0⟩ ⟨0, 0, 0⟩ 16384) =
    some ({ makeTask 1 1 ⟨-1, 0, 0⟩ ⟨0, 0, 0⟩ 16384 with rayCount := 2, missedRays := 2 },
      [⟨0, 0, 0⟩]) := by
  rw [fillLoop_congr nanInterval nanBoth _ _ _ _ _ _ (by decide!)]
  decide!

theorem forEachTask_pair (f : ChunkData → Option ChunkData) (t1 t2 d1 d2 : ChunkData)
    (h1 : f t1 = some d1) (h2 : f t2 = some d2) : forEachTask f [t1, t2] = some [d1, d2] := by
  simp [forEachTask, h1, h2]

theorem scenarioSpur_Sample_eq (nanInterval : NanInterval) (normalize : Double3 → Float3) :
    Sample nanInterval normalize (1 / 10) scenarioSpur =
      some (scenarioSpur_result normalize) := by
  have hfill1 : fillChunk nanInterval normalize scenarioSpur.chunkSize_ scenarioSpur.cellSize_
      scenarioSpur.maxT_ (1 / 10) (filterRays (1 / 10) scenarioSpur.filter_ scenarioSpur.trace)
      (makeTask 1 1 ⟨-1, 0, 0⟩ ⟨0, 0, 0⟩ 0) =
      some { makeTask 1 1 ⟨-1, 0, 0⟩ ⟨0, 0, 0⟩ 0 with
              rayCount := 2
              rayDensity := [2]
              directions := [normalize ⟨1 + 1 / 33554432, 2, 5 / 4⟩]
              maxRays := 2 } := by
    rw [fillChunk_eq]
    show (fillLoop nanInterval 1 1 none (1 / 10) scenarioSpur_rays _).map _ = _
    rw [scenarioSpur_fold_first]
    rfl
  have hfill2 : fillChunk nanInterval normalize scenarioSpur.chunkSize_ scenarioSpur.cellSize_
      scenarioSpur.maxT_ (1 / 10) (filterRays (1 / 10) scenarioSpur.filter_ scenarioSpur.trace)
      (makeTask 1 1 ⟨-1, 0, 0⟩ ⟨0, 0, 0⟩ 16384) =
      some { makeTask 1 1 ⟨-1, 0, 0⟩ ⟨0, 0, 0⟩ 16384 with
              rayCount := 2
              missedRays := 2
              directions := [normalize ⟨0, 0, 0⟩]
              maxRays := 0 } := by
    rw [fillChunk_eq]
    show (fillLoop nanInterval 1 1 none (1 / 10) scenarioSpur_rays _).map _ = _
    rw [scenarioSpur_fold_second]
    rfl
  rw [Sample_eq_of _ normalize (1 / 10) scenarioSpur _ _ scenarioSpur_tasks
    (forEachTask_pair _ _ _ _ _ hfill1 hfill2)]
  have hb : (Max.max (Max.max 0 2) 0 : ℕ) = 2 ∧
      Double3.min (Double3.min ⟨FLT_MAX, FLT_MAX, FLT_MAX⟩
          ((makeTask 1 1 ⟨-1, 0, 0⟩ ⟨0, 0, 0⟩ 0).min.min
            (makeTask 1 1 ⟨-1, 0, 0⟩ ⟨0, 0, 0⟩ 0).max))
        ((makeTask 1 1 ⟨-1, 0, 0⟩ ⟨0, 0, 0⟩ 16384).min.min
          (makeTask 1 1 ⟨-1, 0, 0⟩ ⟨0, 0, 0⟩ 16384).max) = ⟨-1, 0, 0⟩ ∧
      Double3.max (Double3.max ⟨-FLT_MAX, -FLT_MAX, -FLT_MAX⟩
          ((makeTask 1 1 ⟨-1, 0, 0⟩ ⟨0, 0, 0⟩ 0).min.max
            (makeTask 1 1 ⟨-1, 0, 0⟩ ⟨0, 0, 0⟩ 0).max))
        ((makeTask 1 1 ⟨-1, 0, 0⟩ ⟨0, 0, 0⟩ 16384).min.max
          (makeTask 1 1 ⟨-1, 0, 0⟩ ⟨0, 0, 0⟩ 16384).max) = ⟨1, 1, 1⟩ := by
    decide!
  simp only [aggregate, List.foldl_cons, List.foldl_nil, hb.1, hb.2.1, hb.2.2]
  rfl

theorem scenarioSpur_Sample (nanInterval : NanInterval) (normalize : Double3 → Float3) :
    (Sample nanInterval normalize (1 / 10) scenarioSpur).map VolumetricSampler.Data =
      some [{ makeTask 1 1 ⟨-1, 0, 0⟩ ⟨0, 0, 0⟩ 0 with
              rayCount := 2
              rayDensity := [2]
              directions := [normalize ⟨1 + 1 / 33554432, 2, 5 / 4⟩]
              maxRays := 2 },
            { makeTask 1 1 ⟨-1, 0, 0⟩ ⟨0, 0, 0⟩ 16384 with
              rayCount := 2
              missedRays := 2
              directions := [normalize ⟨0, 0, 0⟩]
              maxRays := 0 }] := by
  rw [scenarioSpur_Sample_eq]
  rfl

/-- Claim C25 (the code breaks it): in `scenarioSpur` `Sample()` returns two
chunks.  The second has the index `(1,0,0)` and the box from `(0,0,0)` to
`(1,1,1)`; it counts both rays as missed and no cell of it was visited.  No
point of the clipped segment of either ray lies in that closed box: the first
ray stays at `x <= -2^-25`, the second at `x <= -3/4`.  In step 1 the first ray
runs from `x = 1 - 2^-24` to `x = 1 - 2^-25` in chunk units, `tDeltaX` is cut to
`10^7` and `tMaxX = 10^7 * 2^-24 < 1` makes VoxelTrace step to the chunk
`(1,0,0)`. -/
theorem spurious_chunk (nanInterval : NanInterval) :
    (Sample nanInterval unitAxis (1 / 10) scenarioSpur).map
      (fun t => t.Data.map
        (fun c => (c.chunkIdx, c.min, c.max, c.rayCount, c.missedRays, c.rayDensity))) =
      some [(⟨0, 0, 0⟩, ⟨-1, 0, 0⟩, ⟨0, 1, 1⟩, 2, 0, [2]),
            (⟨1, 0, 0⟩, ⟨0, 0, 0⟩, ⟨1, 1, 1⟩, 2, 2, [0])] ∧
    (filterRays (1 / 10) scenarioSpur.filter_ scenarioSpur.trace).map
      (fun ray => (ray.origin, ray.direction, ray.tMin, clippedT (1 / 10) scenarioSpur.maxT_ ray)) =
      [(⟨-(1 / 16777216), 1 / 4, 1 / 4⟩, ⟨1 / 33554432, 1, 1 / 4⟩, 0, 1),
       (⟨-1, 0, 0⟩, ⟨1, 1, 1⟩, 0, 1 / 4)] ∧
    (∀ τ : ℚ, ¬ (0 ≤ τ ∧ τ ≤ 1 ∧
      InBox ((⟨-(1 / 16777216), 1 / 4, 1 / 4⟩ : Double3).add
        ((⟨1 / 33554432, 1, 1 / 4⟩ : Double3).smul τ)) ⟨0, 0, 0⟩ ⟨1, 1, 1⟩)) ∧
    (∀ τ : ℚ, ¬ (0 ≤ τ ∧ τ ≤ 1 / 4 ∧
      InBox ((⟨-1, 0, 0⟩ : Double3).add ((⟨1, 1, 1⟩ : Double3).smul τ))
        ⟨0, 0, 0⟩ ⟨1, 1, 1⟩)) ∧
    (filterRays (1 / 10) scenarioSpur.filter_ scenarioSpur.trace).map
      (chunkSegment (1 / 10) scenarioSpur.maxT_
        (scenarioSpur.chunkSize_ * scenarioSpur.cellSize_)
        (rayBounds (1 / 10) scenarioSpur.maxT_
          (filterRays (1 / 10) scenarioSpur.filter_ scenarioSpur.trace)).1) =
      [(⟨1 - 1 / 16777216, 1 / 4, 1 / 4⟩, ⟨1 - 1 / 33554432, 5 / 4, 1 / 2⟩),
       (⟨0, 0, 0⟩, ⟨1 / 4, 1 / 4, 1 / 4⟩)] ∧
    tDeltaInit (1 - 1 / 16777216) (1 - 1 / 33554432) = 10000000 ∧
    tMaxInit (1 - 1 / 16777216) (1 - 1 / 33554432) = 10000000 / 16777216 ∧
    VoxelTraceCells ⟨1 - 1 / 16777216, 1 / 4, 1 / 4⟩ ⟨1 - 1 / 33554432, 5 / 4, 1 / 2⟩ =
      [⟨0, 0, 0⟩, ⟨1, 0, 0⟩] := by
  refine ⟨?_, by decide!, ?_, ?_, by decide!, by decide!, by decide!, by decide!⟩
  · have h := scenarioSpur_Sample nanInterval unitAxis
    have hmap : (Sample nanInterval unitAxis (1 / 10) scenarioSpur).map
        (fun t => t.Data.map
          (fun c => (c.chunkIdx, c.min, c.max, c.rayCount, c.missedRays, c.rayDensity))) =
        ((Sample nanInterval unitAxis (1 / 10) scenarioSpur).map VolumetricSampler.Data).map
          (fun d => d.map
            (fun c => (c.chunkIdx, c.min, c.max, c.rayCount, c.missedRays, c.rayDensity))) := by
      rw [Option.map_map]
      rfl
    rw [hmap, h]
    simp only [Option.map_some', List.map_cons, List.map_nil, Option.some.injEq,
      List.cons.injEq, Prod.mk.injEq, and_true]
    repeat' apply And.intro
    all_goals decide!
  · rintro τ ⟨h0, h1, hbox⟩
    simp only [InBox, Double3.add, Double3.smul] at hbox
    linarith [hbox.1.1]
  · rintro τ ⟨h0, h1, hbox⟩
    simp only [InBox, Double3.add, Double3.smul] at hbox
    linarith [hbox.1.1]

/-! ### Witnesses on a sampler with two chunks (claims C16, C26, C27) -/

/-- Witness for `bounds_span_chunks`: `scenarioSpur`, whose two chunks have the
boxes from `(-1,0,0)` to `(0,1,1)` and from `(0,0,0)` to `(1,1,1)`; the bounds
are `(-1,0,0)` and `(1,1,1)`. -/
theorem bounds_span_chunks_witness :
    Sample nanBoth id (1 / 10) scenarioSpur = some (scenarioSpur_result id) ∧
    (scenarioSpur_result id).data_.map (fun c => (c.min, c.max)) =
      [(⟨-1, 0, 0⟩, ⟨0, 1, 1⟩), (⟨0, 0, 0⟩, ⟨1, 1, 1⟩)] ∧
    (scenarioSpur_result id).min_ = ⟨-1, 0, 0⟩ ∧
    (scenarioSpur_result id).max_ = ⟨1, 1, 1⟩ ∧
    IsLowerCorner (scenarioSpur_result id).min_ (chunkCorners (scenarioSpur_result id).data_) ∧
    IsUpperCorner (scenarioSpur_result id).max_ (chunkCorners (scenarioSpur_result id).data_) ∧
    (0 ≤ (scenarioSpur.chunkSize_ : ℚ) * scenarioSpur.cellSize_ →
      IsLowerCorner (scenarioSpur_result id).min_
        ((scenarioSpur_result id).data_.map ChunkData.min) ∧
      IsUpperCorner (scenarioSpur_result id).max_
        ((scenarioSpur_result id).data_.map ChunkData.max)) :=
  ⟨scenarioSpur_Sample_eq nanBoth id, by decide!, rfl, rfl,
    bounds_span_chunks nanBoth id (1 / 10) scenarioSpur (scenarioSpur_result id)
      (scenarioSpur_Sample_eq nanBoth id) (List.cons_ne_nil _ _)
      (by unfold InFloatRange; decide!)⟩


/-- Witness for `index_round_trip`: `scenarioSpur`, whose discovery hands the
voxels `(0,0,0)`, `(1,0,0)` and again `(0,0,0)` to the callback; `Data()` holds
the chunks `(0,0,0)` and `(1,0,0)`. -/
theorem index_round_trip_witness :
    Sample nanBoth id (1 / 10) scenarioSpur = some (scenarioSpur_result id) ∧
    discoveryCells (1 / 10) scenarioSpur.maxT_ (scenarioSpur.chunkSize_ * scenarioSpur.cellSize_)
      (rayBounds (1 / 10) scenarioSpur.maxT_
        (filterRays (1 / 10) scenarioSpur.filter_ scenarioSpur.trace)).1
      (filterRays (1 / 10) scenarioSpur.filter_ scenarioSpur.trace) =
      [⟨0, 0, 0⟩, ⟨1, 0, 0⟩, ⟨0, 0, 0⟩] ∧
    (scenarioSpur_result id).data_.map ChunkData.chunkIdx = [⟨0, 0, 0⟩, ⟨1, 0, 0⟩] ∧
    (∀ p : Int3, p ∈ (scenarioSpur_result id).data_.map ChunkData.chunkIdx ↔
      p ∈ discoveryCells (1 / 10) scenarioSpur.maxT_
        (scenarioSpur.chunkSize_ * scenarioSpur.cellSize_)
        (rayBounds (1 / 10) scenarioSpur.maxT_
          (filterRays (1 / 10) scenarioSpur.filter_ scenarioSpur.trace)).1
        (filterRays (1 / 10) scenarioSpur.filter_ scenarioSpur.trace)) :=
  ⟨scenarioSpur_Sample_eq nanBoth id, by decide!, by decide!,
    (index_round_trip nanBoth id (1 / 10) scenarioSpur (scenarioSpur_result id)
      (scenarioSpur_Sample_eq nanBoth id) (by decide!)).2⟩

/-! ### A sampler with more than 512 flagged chunks (claim C4) -/

theorem flag_fold_some (cells : List Int3) :
    ∀ c : ChunkedArray3D, c.Wf → (∀ v ∈ cells, v.NonNeg) →
      ∃ c1, cells.foldlM flagVoxel c = some c1 ∧ c1.Wf := by
  induction cells with
  | nil =>
    intro c hwf _
    exact ⟨c, rfl, hwf⟩
  | cons v rest ih =>
    intro c hwf hv
    have hn := hv v (List.mem_cons_self _ _)
    obtain ⟨c1, h1, hwf1, _⟩ := AtPut_spec c hwf v hn 1
    obtain ⟨c2, h2, hwf2⟩ := ih c1 hwf1 (fun w hw => hv w (List.mem_cons_of_mem _ hw))
    refine ⟨c2, ?_, hwf2⟩
    have hflag : flagVoxel c v = some c1 := by
      unfold flagVoxel
      rw [if_pos (show 0 ≤ v.x ∧ 0 ≤ v.y ∧ 0 ≤ v.z from hn)]
      exact h1
    rw [List.foldlM_cons, hflag]
    exact h2

/-- Step 1 runs through when the chunk extent is not zero and no traversal hands
a voxel with a negative coordinate to the callback. -/
theorem findChunks_some (missTolerance : ℚ) (maxT_ : Option ℚ) (voxelSize : ℚ) (min : Float3)
    (rays : List Ray) (hvs : voxelSize ≠ 0)
    (h : ∀ v ∈ discoveryCells missTolerance maxT_ voxelSize min rays, v.NonNeg) :
    ∃ chunks, findChunks missTolerance maxT_ voxelSize min rays = some chunks := by
  have key : ∀ (rs : List Ray) (c : ChunkedArray3D), c.Wf →
      (∀ v ∈ discoveryCells missTolerance maxT_ voxelSize min rs, v.NonNeg) →
      ∃ c1, rs.foldlM
        (fun chunks ray =>
          (VoxelTraceCells (chunkSegment missTolerance maxT_ voxelSize min ray).1
            (chunkSegment missTolerance maxT_ voxelSize min ray).2).foldlM flagVoxel chunks)
        c = some c1 ∧ c1.Wf := by
    intro rs
    induction rs with
    | nil =>
      intro c hwf _
      exact ⟨c, rfl, hwf⟩
    | cons ray rest ih =>
      intro c hwf hv
      have hmem : ∀ q : Int3,
          q ∈ discoveryCells missTolerance maxT_ voxelSize min (ray :: rest) ↔
            q ∈ VoxelTraceCells (chunkSegment missTolerance maxT_ voxelSize min ray).1
              (chunkSegment missTolerance maxT_ voxelSize min ray).2 ∨
            q ∈ discoveryCells missTolerance maxT_ voxelSize min rest := by
        intro q
        simp only [discoveryCells, List.flatMap_cons, List.mem_append]
      obtain ⟨c1, h1, hwf1⟩ := flag_fold_some _ c hwf
        (fun w hw => hv w ((hmem w).mpr (Or.inl hw)))
      obtain ⟨c2, h2, hwf2⟩ := ih c1 hwf1 (fun w hw => hv w ((hmem w).mpr (Or.inr hw)))
      refine ⟨c2, ?_, hwf2⟩
      rw [List.foldlM_cons, h1]
      exact h2
  have hfun : (fun (chunks : ChunkedArray3D) (ray : Ray) =>
        if voxelSize = 0 then none
        else
          let seg := chunkSegment missTolerance maxT_ voxelSize min ray
          (VoxelTraceCells seg.1 seg.2).foldlM flagVoxel chunks) =
      (fun chunks ray =>
        (VoxelTraceCells (chunkSegment missTolerance maxT_ voxelSize min ray).1
          (chunkSegment missTolerance maxT_ voxelSize min ray).2).foldlM flagVoxel chunks) := by
    funext chunks ray
    simp only [hvs, if_false]
  obtain ⟨c1, h1, _⟩ := key rays (ChunkedArray3D.new 128) (new_wf 128 (by decide)) h
  refine ⟨c1, ?_⟩
  unfold findChunks
  rw [hfun]
  exact h1

theorem forEachTask_some (f : ChunkData → Option ChunkData) (l : List ChunkData)
    (h : ∀ t ∈ l, ∃ d, f t = some d) : ∃ r, forEachTask f l = some r := by
  induction l with
  | nil => exact ⟨[], rfl⟩
  | cons t ts ih =>
    obtain ⟨d, hd⟩ := h t (List.mem_cons_self _ _)
    obtain ⟨r, hr⟩ := ih (fun u hu => h u (List.mem_cons_of_mem _ hu))
    exact ⟨d :: r, by simp [forEachTask, hd, hr]⟩

theorem makeTask_eq_at (chunkSize_ : ℕ) (voxelSize : ℚ) (min : Float3) (key : Int3) (i : ℕ) :
    makeTask chunkSize_ voxelSize min key i =
      makeTaskAt chunkSize_ voxelSize min (stepTwoIndex key i) := rfl

/-- `Sample()` returns when the chunk extent is not zero, step 1 meets no voxel
with a negative coordinate, and the chunk task runs through on the chunk of
every voxel that step 1 meets. -/
theorem Sample_returns (nanInterval : NanInterval) (normalize : Double3 → Float3)
    (missTolerance : ℚ) (s : VolumetricSampler)
    (hvs : (s.chunkSize_ : ℚ) * s.cellSize_ ≠ 0)
    (h : ∀ v ∈ discoveryCells missTolerance s.maxT_ (s.chunkSize_ * s.cellSize_)
        (rayBounds missTolerance s.maxT_ (filterRays missTolerance s.filter_ s.trace)).1
        (filterRays missTolerance s.filter_ s.trace),
      (0 ≤ v.x ∧ 0 ≤ v.y ∧ 0 ≤ v.z) ∧
      (fillChunk nanInterval normalize s.chunkSize_ s.cellSize_ s.maxT_ missTolerance
        (filterRays missTolerance s.filter_ s.trace)
        (makeTaskAt s.chunkSize_ (s.chunkSize_ * s.cellSize_)
          (rayBounds missTolerance s.maxT_ (filterRays missTolerance s.filter_ s.trace)).1
          v)).isSome = true) :
    ∃ t, Sample nanInterval normalize missTolerance s = some t := by
  obtain ⟨chunks, hc⟩ := findChunks_some missTolerance s.maxT_ (s.chunkSize_ * s.cellSize_)
    (rayBounds missTolerance s.maxT_ (filterRays missTolerance s.filter_ s.trace)).1
    (filterRays missTolerance s.filter_ s.trace) hvs (fun v hv => (h v hv).1)
  have hd : discoverTasks missTolerance s = some (createChunkTasks s.chunkSize_
      (s.chunkSize_ * s.cellSize_)
      (rayBounds missTolerance s.maxT_ (filterRays missTolerance s.filter_ s.trace)).1
      chunks) := by
    unfold discoverTasks
    simp only [hc, Option.map_some']
  obtain ⟨data, hdata⟩ := forEachTask_some
    (fillChunk nanInterval normalize s.chunkSize_ s.cellSize_ s.maxT_ missTolerance
      (filterRays missTolerance s.filter_ s.trace))
    (createChunkTasks s.chunkSize_ (s.chunkSize_ * s.cellSize_)
      (rayBounds missTolerance s.maxT_ (filterRays missTolerance s.filter_ s.trace)).1
      chunks) (by
    intro task htask
    have htask1 := htask
    rw [createChunkTasks_eq] at htask1
    obtain ⟨l, hl, rfl⟩ := List.mem_map.mp htask1
    have hmem : stepTwoIndex l.1 l.2 ∈ discoveryCells missTolerance s.maxT_
        (s.chunkSize_ * s.cellSize_)
        (rayBounds missTolerance s.maxT_ (filterRays missTolerance s.filter_ s.trace)).1
        (filterRays missTolerance s.filter_ s.trace) :=
      (mem_decode_iff _ _ _ _ _ _ hc _).mp
        (List.mem_map.mpr ⟨l, List.mem_of_mem_take hl, rfl⟩)
    rw [makeTask_eq_at]
    exact Option.isSome_iff_exists.mp (h _ hmem).2)
  exact ⟨_, Sample_eq_of _ normalize missTolerance s _ _ hd hdata⟩

/-- When the three initial `tMax` values exceed 1, VoxelTrace hands only the
voxel of the start point to the callback. -/
theorem VoxelTraceCells_single (start end_ : Double3)
    (hx : 1 < tMaxInit start.x end_.x) (hy : 1 < tMaxInit start.y end_.y)
    (hz : 1 < tMaxInit start.z end_.z) :
    VoxelTraceCells start end_ = [⟨castInt start.x, castInt start.y, castInt start.z⟩] := by
  have hdx := tDeltaInit_pos start.x end_.x
  have hdy := tDeltaInit_pos start.y end_.y
  have hdz := tDeltaInit_pos start.z end_.z
  have hdone : traceDone (traceStep (traceInit start end_)) = true := by
    unfold traceStep traceDone
    simp only [traceInit]
    split_ifs <;> simp <;> refine ⟨⟨?_, ?_⟩, ?_⟩ <;> linarith
  unfold VoxelTraceCells VoxelTrace traceFuel
  rw [traceLoop, if_pos hdone]
  rfl


theorem capRay_trace (k : ℕ) (hk : k < 1024) :
    VoxelTraceCells ⟨0, k / 4096, k / 4096⟩ ⟨999 / 1000, (k + 1) / 4096, (k + 1) / 4096⟩ =
      [⟨0, 0, 0⟩] := by
  have hk0 : (0 : ℚ) ≤ k := Nat.cast_nonneg k
  have hk1 : (k : ℚ) < 1024 := by exact_mod_cast hk
  have hfl : ⌊(k : ℚ) / 4096⌋ = 0 := by
    rw [Int.floor_eq_zero_iff]
    constructor
    · positivity
    · rw [div_lt_one (by norm_num)]
      linarith
  have hyz : 1 < tMaxInit ((k : ℚ) / 4096) (((k : ℚ) + 1) / 4096) := by
    have hd : ((k : ℚ) + 1) / 4096 - (k : ℚ) / 4096 = 1 / 4096 := by ring
    have hs : SIGN (((k : ℚ) + 1) / 4096 - (k : ℚ) / 4096) = 1 := by
      rw [hd]
      decide!
    unfold tMaxInit tDeltaInit FRAC1
    rw [hs, hd, hfl]
    norm_num
    linarith
  have hx : 1 < tMaxInit (0 : ℚ) (999 / 1000) := by decide!
  rw [VoxelTraceCells_single ⟨0, k / 4096, k / 4096⟩
    ⟨999 / 1000, (k + 1) / 4096, (k + 1) / 4096⟩ hx hyz hyz]
  have h0 : castInt ((k : ℚ) / 4096) = 0 := by
    rw [castInt_of_nonneg _ (by positivity)
      (by linarith [div_le_self hk0 (by norm_num : (1 : ℚ) ≤ 4096)]), hfl]
  simp only [h0]
  have h1 : castInt 0 = 0 := by decide!
  rw [h1]

theorem capRay_cells (k : ℕ) (hk : k < 1024) :
    rayCells nanBoth 1 1 none (1 / 10) ⟨k, 0, 0⟩ ⟨k + 1, 1, 1⟩ capRay =
      some (some [⟨0, 0, 0⟩]) := by
  have hk0 : (0 : ℚ) ≤ k := Nat.cast_nonneg k
  have hk1 : (k : ℚ) < 1024 := by exact_mod_cast hk
  have hk2 : (k : ℚ) + 1 ≤ 1024 := by exact_mod_cast Nat.succ_le_of_lt hk
  have hn : slabNear capRay.origin capRay.direction ⟨k, 0, 0⟩ ⟨k + 1, 1, 1⟩ = k / 1024 := by
    simp only [slabNear, capRay]
    norm_num
    ring
  have hf : slabFar capRay.origin capRay.direction ⟨k, 0, 0⟩ ⟨k + 1, 1, 1⟩ = (k + 1) / 1024 := by
    simp only [slabFar, capRay]
    norm_num
    rw [min_eq_left (by linarith)]
    ring
  have hc : clippedT (1 / 10) none capRay = 1 := by decide!
  have hH : HitAABB ⟨FloatX.fin (k / 1024), FloatX.fin ((k + 1) / 1024)⟩ 1 = true := by
    simp only [HitAABB, FloatX.le, FloatX.lt, ne_eq, reduceCtorEq, not_false_eq_true,
      decide_True, Bool.true_and, Bool.not_not, Bool.and_eq_true, Bool.not_eq_true',
      decide_eq_false_iff_not, decide_eq_true_eq, not_lt]
    refine ⟨⟨?_, ?_⟩, ?_⟩
    · apply div_le_div_of_nonneg_right <;> linarith
    · rw [div_lt_one (by norm_num)]
      exact hk1
    · positivity
  have hts : (stdMax (FloatX.fin ((k : ℚ) / 1024)) (FloatX.fin capRay.tMin)).toRat =
      some ((k : ℚ) / 1024) := by
    rw [stdMax_fin]
    show some (Max.max ((k : ℚ) / 1024) 0) = _
    rw [max_eq_left (by positivity)]
  have hte : (stdMin (FloatX.fin (((k : ℚ) + 1) / 1024)) (FloatX.fin 1)).toRat =
      some (((k : ℚ) + 1) / 1024) := by
    rw [stdMin_fin]
    show some (Min.min (((k : ℚ) + 1) / 1024) 1) = _
    rw [min_eq_left (by rw [div_le_one (by norm_num)]; linarith)]
  have hstart : ((capRay.origin.add (capRay.direction.smul ((k : ℚ) / 1024))).sub
      ⟨k, 0, 0⟩).sdiv 1 = ⟨0, k / 4096, k / 4096⟩ := by
    simp only [capRay, Double3.add, Double3.smul, Double3.sub, Double3.sdiv, Double3.mk.injEq]
    refine ⟨by ring, by ring, by ring⟩
  have hend : ((capRay.origin.add (capRay.direction.smul (((k : ℚ) + 1) / 1024))).sub
      ⟨k, 0, 0⟩).sdiv 1 = ⟨1, (k + 1) / 4096, (k + 1) / 4096⟩ := by
    simp only [capRay, Double3.add, Double3.smul, Double3.sub, Double3.sdiv, Double3.mk.injEq]
    refine ⟨by ring, by ring, by ring⟩
  have hcl1 : (⟨0, k / 4096, k / 4096⟩ : Double3).clamp 0 (((1 : ℕ) : ℚ) - 1 / 1000) =
      ⟨0, k / 4096, k / 4096⟩ := by
    have h1 : (0 : ℚ) ≤ (k : ℚ) / 4096 := by positivity
    have h2 : (k : ℚ) / 4096 ≤ 999 / 1000 := by
      rw [div_le_iff₀ (by norm_num)]
      linarith
    simp only [Double3.clamp, Double3.mk.injEq]
    norm_num
    rw [max_eq_left h1, min_eq_left h2]
  have hcl2 : (⟨1, (k + 1) / 4096, (k + 1) / 4096⟩ : Double3).clamp 0
      (((1 : ℕ) : ℚ) - 1 / 1000) = ⟨999 / 1000, (k + 1) / 4096, (k + 1) / 4096⟩ := by
    have h1 : (0 : ℚ) ≤ ((k : ℚ) + 1) / 4096 := by positivity
    have h2 : ((k : ℚ) + 1) / 4096 ≤ 999 / 1000 := by
      rw [div_le_iff₀ (by norm_num)]
      linarith
    simp only [Double3.clamp, Double3.mk.injEq]
    norm_num
    rw [max_eq_left h1, min_eq_left h2]
  unfold rayCells
  rw [IntersectAABB_of_ne _ _ _ _ _ (by decide!) (by decide!) (by decide!), hn, hf]
  simp only [hc, hH, Bool.not_true, Bool.false_eq_true, if_false, hts, hte, hstart, hend, hcl1,
    hcl2, capRay_trace k hk]
  have h1 : (0 : ℚ) ≤ (k : ℚ) / 4096 := by positivity
  have h2 : (k : ℚ) / 4096 < 1 := by
    rw [div_lt_one (by norm_num)]
    linarith
  have h3 : (0 : ℚ) ≤ ((k : ℚ) + 1) / 4096 := by positivity
  have h4 : ((k : ℚ) + 1) / 4096 < 1 := by
    rw [div_lt_one (by norm_num)]
    linarith
  rw [if_neg (by norm_num), if_pos]
  refine ⟨⟨by norm_num, by norm_num⟩, ⟨by linarith, ?_⟩, ⟨by linarith, ?_⟩,
    ⟨by norm_num, by norm_num⟩, ⟨by linarith, ?_⟩, by linarith, ?_⟩ <;>
  · push_cast
    linarith

theorem capRay_fill (normalize : Double3 → Float3) (k : ℕ) (hk : k < 1024) :
    (fillChunk nanBoth normalize 1 1 none (1 / 10) [capRay]
      (makeTaskAt 1 1 ⟨0, 0, 0⟩ ⟨k, 0, 0⟩)).isSome = true := by
  have hmin : (makeTaskAt 1 1 ⟨0, 0, 0⟩ ⟨(k : ℤ), 0, 0⟩).min = ⟨k, 0, 0⟩ := by
    simp [makeTaskAt, Double3.smul, Double3.add]
  have hmax : (makeTaskAt 1 1 ⟨0, 0, 0⟩ ⟨(k : ℤ), 0, 0⟩).max = ⟨k + 1, 1, 1⟩ := by
    simp [makeTaskAt, Double3.smul, Double3.add]
  unfold fillChunk
  simp only [List.foldlM_cons, List.foldlM_nil, fillRay_eq_rayCells, hmin, hmax,
    capRay_cells k hk]
  simp [visitCells, visitCell, makeTaskAt]

theorem scenarioCap_cells :
    discoveryCells (1 / 10) scenarioCap.maxT_ (scenarioCap.chunkSize_ * scenarioCap.cellSize_)
      (rayBounds (1 / 10) scenarioCap.maxT_
        (filterRays (1 / 10) scenarioCap.filter_ scenarioCap.trace)).1
      (filterRays (1 / 10) scenarioCap.filter_ scenarioCap.trace) =
    (List.range 1024).map (fun k : ℕ => (⟨(k : ℤ), 0, 0⟩ : Int3)) := by
  decide!

theorem scenarioCap_Sample (normalize : Double3 → Float3) :
    ∃ t, Sample nanBoth normalize (1 / 10) scenarioCap = some t := by
  apply Sample_returns nanBoth normalize (1 / 10) scenarioCap (by decide!)
  rw [scenarioCap_cells]
  intro v hv
  obtain ⟨k, hk, rfl⟩ := List.mem_map.mp hv
  have hk1 : k < 1024 := List.mem_range.mp hk
  have e1 : filterRays (1 / 10) scenarioCap.filter_ scenarioCap.trace = [capRay] := rfl
  have e2 : (rayBounds (1 / 10) scenarioCap.maxT_ [capRay]).1 = ⟨0, 0, 0⟩ := by decide!
  have e3 : ((scenarioCap.chunkSize_ : ℚ) * scenarioCap.cellSize_) = 1 := by decide!
  have e4 : scenarioCap.chunkSize_ = 1 := rfl
  have e5 : scenarioCap.cellSize_ = 1 := rfl
  have e6 : scenarioCap.maxT_ = none := rfl
  refine ⟨⟨Int.natCast_nonneg k, le_refl _, le_refl _⟩, ?_⟩
  rw [e1, e2, e3, e4, e5, e6]
  exact capRay_fill normalize k hk1

/-! ### A trace with an axis-parallel ray -/

/-- For the axis-parallel ray `axisRay` and the box from `(0,0,0)` to `(1,1,1)`
`IntersectAABB` returns the interval `(-1/2, 1/2)`: on the two axes with a zero
direction component the slab ends are `-inf` and `+inf`, no product is NaN, and
the ray hits the box. -/
theorem IntersectAABB_axis_parallel (nanInterval : NanInterval) :
    IntersectAABB nanInterval axisRay.origin axisRay.direction ⟨0, 0, 0⟩ ⟨1, 1, 1⟩ =
      some ⟨FloatX.fin (-1 / 2), FloatX.fin (1 / 2)⟩ ∧
    HitAABB ⟨FloatX.fin (-1 / 2), FloatX.fin (1 / 2)⟩ (1 / 4) = true := by
  refine ⟨?_, by decide!⟩
  unfold IntersectAABB
  rw [if_neg (by decide!)]
  simp only []
  rw [if_neg (by decide!)]
  decide!

/-- The chunk task of `scenarioAxis` runs through: both rays are counted, none
misses, and the one cell has density 2. -/
theorem scenarioAxis_fill :
    (fillChunk nanBoth id 1 1 none (1 / 10) [satRay, axisRay]
      (makeTaskAt 1 1 ⟨0, 0, 0⟩ ⟨0, 0, 0⟩)).map
        (fun c => (c.rayCount, c.missedRays, c.rayDensity)) = some (2, 0, [2]) := by
  decide!

/-- `Sample()` returns on `scenarioAxis`, a trace with an axis-parallel ray. -/
theorem scenarioAxis_Sample : ∃ t, Sample nanBoth id (1 / 10) scenarioAxis = some t := by
  apply Sample_returns nanBoth id (1 / 10) scenarioAxis (by decide!)
  have hcells : discoveryCells (1 / 10) scenarioAxis.maxT_
      (scenarioAxis.chunkSize_ * scenarioAxis.cellSize_)
      (rayBounds (1 / 10) scenarioAxis.maxT_
        (filterRays (1 / 10) scenarioAxis.filter_ scenarioAxis.trace)).1
      (filterRays (1 / 10) scenarioAxis.filter_ scenarioAxis.trace) =
      [⟨0, 0, 0⟩, ⟨0, 0, 0⟩] := by decide!
  rw [hcells]
  intro v hv
  have hv0 : v = ⟨0, 0, 0⟩ := by
    simp only [List.mem_cons, List.mem_singleton, or_self, List.not_mem_nil, or_false] at hv
    exact hv
  subst hv0
  exact ⟨by decide!, by decide!⟩

/-- Witness for `dirty_state_machine`: `Sample()` on the dirty sampler
`scenarioD` returns a clean sampler, and it is the operation `Sample` that
clears the flag; `Sample()` also returns, with the flag cleared, on
`scenarioAxis`, whose trace has an axis-parallel ray. -/
theorem dirty_state_machine_witness :
    Sample nanBoth id (1 / 10) scenarioD = some (scenarioD_result id) ∧
    scenarioD.IsDirty = true ∧
    (scenarioD_result id).IsDirty = false ∧
    SamplerOp.run nanBoth id (1 / 10) SamplerOp.Sample scenarioD = some (scenarioD_result id) ∧
    scenarioAxis.IsDirty = true ∧
    (∃ t, Sample nanBoth id (1 / 10) scenarioAxis = some t ∧ t.IsDirty = false) :=
  ⟨scenarioD_Sample nanBoth id, rfl,
    (dirty_state_machine nanBoth id (1 / 10) scenarioD).2.2.2.2.2.2.2.2.2.2.1
      (scenarioD_result id) (scenarioD_Sample nanBoth id),
    scenarioD_Sample nanBoth id, rfl,
    scenarioAxis_Sample.elim (fun t ht => ⟨t, ht,
      (dirty_state_machine nanBoth id (1 / 10) scenarioAxis).2.2.2.2.2.2.2.2.2.2.1 t ht⟩)⟩

/-- Witness for `Sample_chunk_cap`: `scenarioCap`, in which the one ray crosses
the chunks `(0,0,0)` to `(1023,0,0)`.  `Sample()` returns, step 1 has flagged
1024 chunk coordinates, and the chunk list has 512 entries. -/
theorem Sample_chunk_cap_witness :
    ∃ (t : VolumetricSampler) (chunks : ChunkedArray3D),
      Sample nanBoth id (1 / 10) scenarioCap = some t ∧
      findChunks (1 / 10) scenarioCap.maxT_ (scenarioCap.chunkSize_ * scenarioCap.cellSize_)
        (rayBounds (1 / 10) scenarioCap.maxT_
          (filterRays (1 / 10) scenarioCap.filter_ scenarioCap.trace)).1
        (filterRays (1 / 10) scenarioCap.filter_ scenarioCap.trace) = some chunks ∧
      flaggedCount chunks.data_ = 1024 ∧
      t.data_.length = 512 := by
  obtain ⟨t, ht⟩ := scenarioCap_Sample id
  obtain ⟨_, _, chunks, hc, _, hcap⟩ := Sample_chunk_cap nanBoth id (1 / 10) scenarioCap t ht
  have hcount : flaggedCount chunks.data_ = 1024 := by
    rw [← flaggedLocs_length, flaggedLocs_length_le _ _ _ _ _ _ hc, scenarioCap_cells,
      List.Nodup.dedup, List.length_map, List.length_range]
    refine List.Nodup.map ?_ (List.nodup_range 1024)
    intro a b hab
    simp only [Int3.mk.injEq, Nat.cast_inj, and_true] at hab
    exact hab
  exact ⟨t, chunks, ht, hc, hcount, hcap (by rw [hcount]; decide)⟩

/-- Witness for `chunks_in_location_order`: `scenarioSpur`, whose two chunks
`(0,0,0)` and `(1,0,0)` come from the flags at the linear indices 0 and 16384 of
the block with key `(0,0,0)` and are listed in this order; and `scenarioCap`,
where 1024 flags are set and `Data()` holds the chunks of the first 512 of
them. -/
theorem chunks_in_location_order_witness :
    Sample nanBoth id (1 / 10) scenarioSpur = some (scenarioSpur_result id) ∧
    (scenarioSpur_result id).data_.map ChunkData.chunkIdx = [⟨0, 0, 0⟩, ⟨1, 0, 0⟩] ∧
    (∃ chunks : ChunkedArray3D,
      findChunks (1 / 10) scenarioSpur.maxT_ (scenarioSpur.chunkSize_ * scenarioSpur.cellSize_)
        (rayBounds (1 / 10) scenarioSpur.maxT_
          (filterRays (1 / 10) scenarioSpur.filter_ scenarioSpur.trace)).1
        (filterRays (1 / 10) scenarioSpur.filter_ scenarioSpur.trace) = some chunks ∧
      (chunks.data_.map Prod.fst).Pairwise (fun a b => Int3.lt a b = true) ∧
      (∀ (key : Int3) (i : ℕ), (key, i) ∈ flaggedLocs chunks.data_ ↔
        ∃ B : List ℕ, (key, B) ∈ chunks.data_ ∧ i < B.length ∧ 0 < B.getD i 0) ∧
      (flaggedLocs chunks.data_).Pairwise locLt ∧
      (scenarioSpur_result id).data_.map ChunkData.chunkIdx =
        ((flaggedLocs chunks.data_).take 512).map (fun l => stepTwoIndex l.1 l.2) ∧
      ((scenarioSpur_result id).data_.map ChunkData.chunkIdx).Nodup) ∧
    (∃ (t : VolumetricSampler) (chunks : ChunkedArray3D),
      Sample nanBoth id (1 / 10) scenarioCap = some t ∧
      findChunks (1 / 10) scenarioCap.maxT_ (scenarioCap.chunkSize_ * scenarioCap.cellSize_)
        (rayBounds (1 / 10) scenarioCap.maxT_
          (filterRays (1 / 10) scenarioCap.filter_ scenarioCap.trace)).1
        (filterRays (1 / 10) scenarioCap.filter_ scenarioCap.trace) = some chunks ∧
      (flaggedLocs chunks.data_).length = 1024 ∧
      (flaggedLocs chunks.data_).Pairwise locLt ∧
      t.data_.map ChunkData.chunkIdx =
        ((flaggedLocs chunks.data_).take 512).map (fun l => stepTwoIndex l.1 l.2) ∧
      (t.data_.map ChunkData.chunkIdx).length = 512 ∧
      (t.data_.map ChunkData.chunkIdx).Nodup) := by
  refine ⟨scenarioSpur_Sample_eq nanBoth id, by decide!,
    chunks_in_location_order nanBoth id (1 / 10) scenarioSpur (scenarioSpur_result id)
      (scenarioSpur_Sample_eq nanBoth id), ?_⟩
  obtain ⟨t, ht⟩ := scenarioCap_Sample id
  obtain ⟨chunks, hc, _, _, hsorted, hidx, hnd⟩ :=
    chunks_in_location_order nanBoth id (1 / 10) scenarioCap t ht
  have hlen : (flaggedLocs chunks.data_).length = 1024 := by
    rw [flaggedLocs_length_le _ _ _ _ _ _ hc, scenarioCap_cells, List.Nodup.dedup,
      List.length_map, List.length_range]
    refine List.Nodup.map ?_ (List.nodup_range 1024)
    intro a b hab
    simp only [Int3.mk.injEq, Nat.cast_inj, and_true] at hab
    exact hab
  refine ⟨t, chunks, ht, hc, hlen, hsorted, hidx, ?_, hnd⟩
  rw [hidx, List.length_map, List.length_take, hlen]
  rfl

end RayVis
